import Mathlib

/-!
# A verification development for the Assign3 record store

Shallow embedding of `storage_mgr.c`, `buffer_mgr.c` and `record_mgr.c`.

Conventions of the embedding.

* A page buffer is a function from byte offsets to byte values (`Page`).  The file
  system maps a file name to the list of its pages.
* C `int` fields of the in-memory structs (`fixCount`, `lastUsed`, the I/O
  counters, `accessCounter`) are mathematical integers: signed overflow is
  undefined in C, so the development speaks about runs in which no such counter
  passes `INT_MAX`.  Integers stored inside page buffers are encoded in four
  little-endian bytes, reduced modulo `2 ^ 32`.
* A frame buffer obtained from `malloc` is not initialised by the code.  Its
  initial bytes are the parameter `heap` of `initBufferPool`.
* `bm->numPages` is the length of the frame array; loops `for (i = 0; i < numPages; i++)`
  over the frames are recursions over the frame list.
* A frame index result `-1` of the C helpers is `none`.
* The function-local `static int accessCounter` of `pinPage` is the field
  `accessCounter` of `World`.
* The headers are not part of the sources.  `sizeof(int)` and `sizeof(float)` are 4
  and `sizeof(bool)` is 1, as the spec has them; the struct `Value` has the members
  that `getAttr` and `setAttr` use; a `float` is the four bytes of its object.
* The expression language is not part of the sources either: the type of the
  expressions and the evaluator `evalExpr` are parameters of the scan functions.
-/

namespace Assign3

/-! ## Constants and types declared in headers -/

/-- Modelled from the spec: `PAGE_SIZE` is declared in `dberror.h`, which is not
part of the sources; the design assumes 4096. -/
def PAGE_SIZE : Nat := 4096

/-- Modelled from the spec: `NO_PAGE` is declared in `buffer_mgr.h`, which is not
part of the sources; it is the negative sentinel for "no page bound". -/
def NO_PAGE : Int := -1

/-- The constant `INT_MAX` of `limits.h` for a 32-bit `int`. -/
def INT_MAX : Int := 2147483647

/-- Modelled from the spec: the return codes used by the three source files
(declared in `dberror.h`, which is not part of the sources). -/
inductive RC where
  | RC_OK
  | RC_FILE_NOT_FOUND
  | RC_FILE_HANDLE_NOT_INIT
  | RC_WRITE_FAILED
  | RC_READ_NON_EXISTING_PAGE
  | RC_RM_COMPARE_VALUE_OF_DIFFERENT_DATATYPE
  | RC_RM_NO_MORE_TUPLES
  deriving DecidableEq, Repr

/-- Modelled from the spec: the replacement strategies of `buffer_mgr.h`. -/
inductive ReplacementStrategy where
  | RS_FIFO
  | RS_LRU
  | RS_CLOCK
  | RS_LFU
  | RS_LRU_K
  deriving DecidableEq, Repr

/-- A page buffer: the byte stored at each offset. -/
abbrev Page := Nat → Nat

/-- The buffer produced by `memset(page, 0, PAGE_SIZE)`. -/
def zeroPage : Page := fun _ => 0

/-- The files of the working directory: a file name is mapped to its pages. -/
abbrev FileSys := String → Option (List Page)

/-- Replace the content of one file. -/
def FileSys.put (fs : FileSys) (name : String) (pages : List Page) : FileSys :=
  fun n => if n = name then some pages else fs n

/-- The state outside the handles: the files and the static tick counter of `pinPage`. -/
structure World where
  fs : FileSys
  accessCounter : Int

/-! ## storage_mgr.c -/

/-- The struct `SM_FileHandle`; `mgmtInfo` records whether the `FILE *` is set. -/
structure SM_FileHandle where
  fileName : String
  totalNumPages : Int
  curPagePos : Int
  mgmtInfo : Bool

/-- Effect of `fseek` to page `k` followed by `fwrite` of one page: the page is
replaced, or the file is extended (with a zero-filled gap) when `k` is past its end. -/
def writeAt (pages : List Page) (k : Nat) (pg : Page) : List Page :=
  if k < pages.length then pages.set k pg
  else pages ++ List.replicate (k - pages.length) zeroPage ++ [pg]

/-- The function `createPageFile`: the file becomes one zero-filled page. -/
def createPageFile (fs : FileSys) (fileName : String) : RC × FileSys :=
  (RC.RC_OK, fs.put fileName [zeroPage])

/-- The function `openPageFile`; `totalNumPages` is the file size divided by `PAGE_SIZE`. -/
def openPageFile (fs : FileSys) (fileName : String) (fHandle : SM_FileHandle) :
    RC × SM_FileHandle :=
  match fs fileName with
  | none => (RC.RC_FILE_NOT_FOUND, fHandle)
  | some pages =>
    (RC.RC_OK,
      { fileName := fileName, totalNumPages := (pages.length : Int), curPagePos := 0,
        mgmtInfo := true })

/-- The function `closePageFile`. -/
def closePageFile (fHandle : SM_FileHandle) : RC × SM_FileHandle :=
  if !fHandle.mgmtInfo then (RC.RC_FILE_HANDLE_NOT_INIT, fHandle)
  else (RC.RC_OK, { fileName := "", totalNumPages := 0, curPagePos := 0, mgmtInfo := false })

/-- The function `readBlock`: the buffer `memPage` is returned unchanged on failure. -/
def readBlock (fs : FileSys) (pageNum : Int) (fHandle : SM_FileHandle) (memPage : Page) :
    RC × SM_FileHandle × Page :=
  if !fHandle.mgmtInfo then (RC.RC_FILE_HANDLE_NOT_INIT, fHandle, memPage)
  else if pageNum < 0 ∨ pageNum ≥ fHandle.totalNumPages then
    (RC.RC_READ_NON_EXISTING_PAGE, fHandle, memPage)
  else
    match (fs fHandle.fileName).bind (fun pages => pages.get? pageNum.toNat) with
    | none => (RC.RC_READ_NON_EXISTING_PAGE, fHandle, memPage)
    | some pg => (RC.RC_OK, { fHandle with curPagePos := pageNum }, pg)

/-- The function `writeBlock`: the file is unchanged on failure. -/
def writeBlock (fs : FileSys) (pageNum : Int) (fHandle : SM_FileHandle) (memPage : Page) :
    RC × SM_FileHandle × FileSys :=
  if !fHandle.mgmtInfo then (RC.RC_FILE_HANDLE_NOT_INIT, fHandle, fs)
  else if pageNum < 0 ∨ pageNum ≥ fHandle.totalNumPages then
    (RC.RC_WRITE_FAILED, fHandle, fs)
  else
    match fs fHandle.fileName with
    | none => (RC.RC_WRITE_FAILED, fHandle, fs)
    | some pages =>
      (RC.RC_OK, { fHandle with curPagePos := pageNum },
        fs.put fHandle.fileName (writeAt pages pageNum.toNat memPage))

/-- The function `appendEmptyBlock`: a zero page is written at offset
`totalNumPages * PAGE_SIZE` of the file. -/
def appendEmptyBlock (fs : FileSys) (fHandle : SM_FileHandle) :
    RC × SM_FileHandle × FileSys :=
  if !fHandle.mgmtInfo then (RC.RC_FILE_HANDLE_NOT_INIT, fHandle, fs)
  else
    match fs fHandle.fileName with
    | none => (RC.RC_WRITE_FAILED, fHandle, fs)
    | some pages =>
      (RC.RC_OK,
        { fHandle with totalNumPages := fHandle.totalNumPages + 1,
                       curPagePos := fHandle.totalNumPages },
        fs.put fHandle.fileName (writeAt pages fHandle.totalNumPages.toNat zeroPage))

/-! ## buffer_mgr.c -/

/-- The struct `BM_PageFrame`. -/
structure BM_PageFrame where
  pageNum : Int
  data : Page
  dirty : Bool
  fixCount : Int
  lastUsed : Int
  accessCount : Int
  refBit : Bool

instance : Inhabited BM_PageFrame := ⟨⟨NO_PAGE, zeroPage, false, 0, 0, 0, false⟩⟩

/-- The struct `BM_MgmtData`; `fifoQueue` is `none` for the `NULL` pointer. -/
structure BM_MgmtData where
  frames : List BM_PageFrame
  fileHandle : SM_FileHandle
  numReadIO : Int
  numWriteIO : Int
  fifoQueue : Option (List Nat)
  fifoFront : Nat
  fifoRear : Nat
  clockHand : Nat

/-- The struct `BM_BufferPool`; `mgmtData` is `none` for the `NULL` pointer. -/
structure BM_BufferPool where
  pageFile : String
  numPages : Nat
  strategy : ReplacementStrategy
  mgmtData : Option BM_MgmtData

/-- The struct `BM_PageHandle`; the pointer `data` is the index of the frame whose
buffer it points to. -/
structure BM_PageHandle where
  pageNum : Int
  data : Nat
  deriving DecidableEq

/-- Result of a pool operation: return code, world and pool afterwards. -/
structure BMResult where
  rc : RC
  w : World
  bm : BM_BufferPool

/-- Result of `pinPage`: as `BMResult`, with the page handle afterwards. -/
structure PinResult where
  rc : RC
  w : World
  bm : BM_BufferPool
  page : BM_PageHandle

/-- The frame `frames[i]`. -/
def frameAt (frames : List BM_PageFrame) (i : Nat) : BM_PageFrame := frames.getD i default

/-- The loop of `findFrame`, started at index `i`. -/
def findFrameFrom (pageNum : Int) : List BM_PageFrame → Nat → Option Nat
  | [], _ => none
  | f :: rest, i => if f.pageNum = pageNum then some i else findFrameFrom pageNum rest (i + 1)

/-- The function `findFrame`. -/
def findFrame (m : BM_MgmtData) (pageNum : Int) : Option Nat :=
  findFrameFrom pageNum m.frames 0

/-- The function `findFreeFrame`. -/
def findFreeFrame (m : BM_MgmtData) : Option Nat :=
  findFrameFrom NO_PAGE m.frames 0

/-- The statements `writeBlock(frame.pageNum, fileHandle, frame.data); numWriteIO++;`
shared by the eviction functions; the return code of `writeBlock` is not inspected. -/
def writeBack (w : World) (m : BM_MgmtData) (f : BM_PageFrame) : World × BM_MgmtData :=
  let r := writeBlock w.fs f.pageNum m.fileHandle f.data
  ({ w with fs := r.2.2 }, { m with fileHandle := r.2.1, numWriteIO := m.numWriteIO + 1 })

/-- The loop of `evictFIFO` with `attempts` iterations left. -/
def evictFIFOLoop (numPages : Nat) : Nat → World → BM_MgmtData → Option Nat × World × BM_MgmtData
  | 0, w, m => (none, w, m)
  | attempts + 1, w, m =>
    let frameIndex := (m.fifoQueue.getD []).getD m.fifoFront 0
    let m1 := { m with fifoFront := (m.fifoFront + 1) % numPages }
    if (frameAt m1.frames frameIndex).fixCount = 0 then
      if (frameAt m1.frames frameIndex).dirty then
        let r := writeBack w m1 (frameAt m1.frames frameIndex)
        (some frameIndex, r.1, r.2)
      else (some frameIndex, w, m1)
    else evictFIFOLoop numPages attempts w m1

/-- The function `evictFIFO`. -/
def evictFIFO (w : World) (bm : BM_BufferPool) (m : BM_MgmtData) :
    Option Nat × World × BM_MgmtData :=
  evictFIFOLoop bm.numPages bm.numPages w m

/-- The loop of `evictLRU` from index `i`, carrying `oldestFrame` and `oldestTime`. -/
def evictLRUScan : List BM_PageFrame → Nat → Option Nat → Int → Option Nat × Int
  | [], _, oldestFrame, oldestTime => (oldestFrame, oldestTime)
  | f :: rest, i, oldestFrame, oldestTime =>
    if f.fixCount = 0 ∧ f.pageNum ≠ NO_PAGE then
      if f.lastUsed < oldestTime then evictLRUScan rest (i + 1) (some i) f.lastUsed
      else evictLRUScan rest (i + 1) oldestFrame oldestTime
    else evictLRUScan rest (i + 1) oldestFrame oldestTime

/-- The function `evictLRU`. -/
def evictLRU (w : World) (m : BM_MgmtData) : Option Nat × World × BM_MgmtData :=
  match (evictLRUScan m.frames 0 none INT_MAX).1 with
  | none => (none, w, m)
  | some oldestFrame =>
    if (frameAt m.frames oldestFrame).dirty then
      let r := writeBack w m (frameAt m.frames oldestFrame)
      (some oldestFrame, r.1, r.2)
    else (some oldestFrame, w, m)

/-- The loop of `evictCLOCK` with `attempts` iterations left. -/
def evictCLOCKLoop (numPages : Nat) : Nat → World → BM_MgmtData → Option Nat × World × BM_MgmtData
  | 0, w, m => (none, w, m)
  | attempts + 1, w, m =>
    let frameIndex := m.clockHand
    if (frameAt m.frames frameIndex).fixCount = 0 then
      if ¬ (frameAt m.frames frameIndex).refBit then
        if (frameAt m.frames frameIndex).dirty then
          let r := writeBack w m (frameAt m.frames frameIndex)
          (some frameIndex, r.1, { r.2 with clockHand := (r.2.clockHand + 1) % numPages })
        else (some frameIndex, w, { m with clockHand := (m.clockHand + 1) % numPages })
      else
        evictCLOCKLoop numPages attempts w
          { m with
            frames := m.frames.set frameIndex ({ frameAt m.frames frameIndex with refBit := false }),
            clockHand := (m.clockHand + 1) % numPages }
    else evictCLOCKLoop numPages attempts w { m with clockHand := (m.clockHand + 1) % numPages }

/-- The function `evictCLOCK`. -/
def evictCLOCK (w : World) (bm : BM_BufferPool) (m : BM_MgmtData) :
    Option Nat × World × BM_MgmtData :=
  evictCLOCKLoop bm.numPages (2 * bm.numPages) w m

/-- The function `initBufferPool`; `heap i` is the content of the buffer that
`malloc(PAGE_SIZE)` returns for frame `i`. -/
def initBufferPool (w : World) (bm : BM_BufferPool) (pageFileName : String) (numPages : Int)
    (strategy : ReplacementStrategy) (heap : Nat → Page) : BMResult :=
  if numPages ≤ 0 then ⟨RC.RC_FILE_HANDLE_NOT_INIT, w, bm⟩
  else
    let r := openPageFile w.fs pageFileName ⟨"", 0, 0, false⟩
    if r.1 ≠ RC.RC_OK then ⟨r.1, w, bm⟩
    else
      ⟨RC.RC_OK, w,
        { pageFile := pageFileName,
          numPages := numPages.toNat,
          strategy := strategy,
          mgmtData := some
            { frames := (List.range numPages.toNat).map
                (fun i => ⟨NO_PAGE, heap i, false, 0, 0, 0, false⟩),
              fileHandle := r.2,
              numReadIO := 0,
              numWriteIO := 0,
              fifoQueue :=
                if strategy = ReplacementStrategy.RS_FIFO then some (List.range numPages.toNat)
                else none,
              fifoFront := 0,
              fifoRear := 0,
              clockHand := 0 } }⟩

/-- The loop of `forceFlushPool` over the frames. -/
def forceFlushLoop : List BM_PageFrame → World → SM_FileHandle → Int →
    List BM_PageFrame × World × SM_FileHandle × Int
  | [], w, fh, nw => ([], w, fh, nw)
  | f :: rest, w, fh, nw =>
    if f.dirty = true ∧ f.pageNum ≠ NO_PAGE then
      let r := writeBlock w.fs f.pageNum fh f.data
      let t := forceFlushLoop rest { w with fs := r.2.2 } r.2.1 (nw + 1)
      ({ f with dirty := false } :: t.1, t.2)
    else
      let t := forceFlushLoop rest w fh nw
      (f :: t.1, t.2)

/-- The function `forceFlushPool`. -/
def forceFlushPool (w : World) (bm : BM_BufferPool) : BMResult :=
  match bm.mgmtData with
  | none => ⟨RC.RC_FILE_HANDLE_NOT_INIT, w, bm⟩
  | some m =>
    let t := forceFlushLoop m.frames w m.fileHandle m.numWriteIO
    ⟨RC.RC_OK, t.2.1,
      { bm with mgmtData := some { m with frames := t.1, fileHandle := t.2.2.1,
                                          numWriteIO := t.2.2.2 } }⟩

/-- The function `shutdownBufferPool`. -/
def shutdownBufferPool (w : World) (bm : BM_BufferPool) : BMResult :=
  match bm.mgmtData with
  | none => ⟨RC.RC_FILE_HANDLE_NOT_INIT, w, bm⟩
  | some _ =>
    let r := forceFlushPool w bm
    ⟨RC.RC_OK, r.w, { r.bm with mgmtData := none, pageFile := "" }⟩

/-- Lines 269-284 of `pinPage`: the page is read into frame `frameIndex` (the
return code of `readBlock` is not inspected) and the frame is bound to it. -/
def pinPageLoad (w : World) (bm : BM_BufferPool) (m : BM_MgmtData) (frameIndex : Nat)
    (pageNum : Int) : PinResult :=
  let r := readBlock w.fs pageNum m.fileHandle (frameAt m.frames frameIndex).data
  let tick := w.accessCounter + 1
  let f : BM_PageFrame :=
    { pageNum := pageNum, data := r.2.2, dirty := false, fixCount := 1, lastUsed := tick,
      accessCount := 1, refBit := true }
  let m1 : BM_MgmtData :=
    { m with fileHandle := r.2.1, numReadIO := m.numReadIO + 1,
             frames := m.frames.set frameIndex f }
  let m2 : BM_MgmtData :=
    match bm.strategy, m1.fifoQueue with
    | ReplacementStrategy.RS_FIFO, some q =>
      { m1 with fifoQueue := some (q.set m1.fifoRear frameIndex),
                fifoRear := (m1.fifoRear + 1) % bm.numPages }
    | _, _ => m1
  ⟨RC.RC_OK, { w with accessCounter := tick }, { bm with mgmtData := some m2 },
    ⟨pageNum, frameIndex⟩⟩

/-- The `switch (bm->strategy)` of `pinPage`. -/
def evict (w : World) (bm : BM_BufferPool) (m : BM_MgmtData) :
    Option Nat × World × BM_MgmtData :=
  match bm.strategy with
  | ReplacementStrategy.RS_FIFO => evictFIFO w bm m
  | ReplacementStrategy.RS_LRU => evictLRU w m
  | ReplacementStrategy.RS_CLOCK => evictCLOCK w bm m
  | ReplacementStrategy.RS_LFU => evictLRU w m
  | ReplacementStrategy.RS_LRU_K => evictLRU w m

/-- The function `pinPage`. -/
def pinPage (w : World) (bm : BM_BufferPool) (page : BM_PageHandle) (pageNum : Int) :
    PinResult :=
  match bm.mgmtData with
  | none => ⟨RC.RC_FILE_HANDLE_NOT_INIT, w, bm, page⟩
  | some m =>
    match findFrame m pageNum with
    | some frameIndex =>
      let f := frameAt m.frames frameIndex
      let tick := w.accessCounter + 1
      let f1 : BM_PageFrame :=
        { f with fixCount := f.fixCount + 1, lastUsed := tick,
                 accessCount := f.accessCount + 1, refBit := true }
      ⟨RC.RC_OK, { w with accessCounter := tick },
        { bm with mgmtData := some { m with frames := m.frames.set frameIndex f1 } },
        ⟨pageNum, frameIndex⟩⟩
    | none =>
      match findFreeFrame m with
      | some frameIndex => pinPageLoad w bm m frameIndex pageNum
      | none =>
        match evict w bm m with
        | (none, w1, m1) => ⟨RC.RC_WRITE_FAILED, w1, { bm with mgmtData := some m1 }, page⟩
        | (some frameIndex, w1, m1) => pinPageLoad w1 bm m1 frameIndex pageNum

/-- The function `unpinPage`. -/
def unpinPage (w : World) (bm : BM_BufferPool) (page : BM_PageHandle) : BMResult :=
  match bm.mgmtData with
  | none => ⟨RC.RC_FILE_HANDLE_NOT_INIT, w, bm⟩
  | some m =>
    match findFrame m page.pageNum with
    | none => ⟨RC.RC_FILE_HANDLE_NOT_INIT, w, bm⟩
    | some frameIndex =>
      if (frameAt m.frames frameIndex).fixCount ≤ 0 then ⟨RC.RC_FILE_HANDLE_NOT_INIT, w, bm⟩
      else
        let f := frameAt m.frames frameIndex
        let f1 : BM_PageFrame := { f with fixCount := f.fixCount - 1 }
        ⟨RC.RC_OK, w, { bm with mgmtData := some { m with frames := m.frames.set frameIndex f1 } }⟩

/-- The function `markDirty`. -/
def markDirty (w : World) (bm : BM_BufferPool) (page : BM_PageHandle) : BMResult :=
  match bm.mgmtData with
  | none => ⟨RC.RC_FILE_HANDLE_NOT_INIT, w, bm⟩
  | some m =>
    match findFrame m page.pageNum with
    | none => ⟨RC.RC_FILE_HANDLE_NOT_INIT, w, bm⟩
    | some frameIndex =>
      let f := frameAt m.frames frameIndex
      let f1 : BM_PageFrame := { f with dirty := true }
      ⟨RC.RC_OK, w, { bm with mgmtData := some { m with frames := m.frames.set frameIndex f1 } }⟩

/-- The function `forcePage`; the return code of `writeBlock` is not inspected. -/
def forcePage (w : World) (bm : BM_BufferPool) (page : BM_PageHandle) : BMResult :=
  match bm.mgmtData with
  | none => ⟨RC.RC_FILE_HANDLE_NOT_INIT, w, bm⟩
  | some m =>
    match findFrame m page.pageNum with
    | none => ⟨RC.RC_FILE_HANDLE_NOT_INIT, w, bm⟩
    | some frameIndex =>
      let f := frameAt m.frames frameIndex
      let r := writeBlock w.fs page.pageNum m.fileHandle f.data
      let f1 : BM_PageFrame := { f with dirty := false }
      let m1 : BM_MgmtData :=
        { m with fileHandle := r.2.1, frames := m.frames.set frameIndex f1,
                 numWriteIO := m.numWriteIO + 1 }
      ⟨RC.RC_OK, { w with fs := r.2.2 }, { bm with mgmtData := some m1 }⟩

/-- The function `getFrameContents`; `none` is the `NULL` result. -/
def getFrameContents (bm : BM_BufferPool) : Option (List Int) :=
  bm.mgmtData.map (fun m => m.frames.map (fun f => f.pageNum))

/-- The function `getDirtyFlags`; `none` is the `NULL` result. -/
def getDirtyFlags (bm : BM_BufferPool) : Option (List Bool) :=
  bm.mgmtData.map (fun m => m.frames.map (fun f => f.dirty))

/-- The function `getFixCounts`; `none` is the `NULL` result. -/
def getFixCounts (bm : BM_BufferPool) : Option (List Int) :=
  bm.mgmtData.map (fun m => m.frames.map (fun f => f.fixCount))

/-- The function `getNumReadIO` of the pool interface. -/
def getNumReadIO (bm : BM_BufferPool) : Int :=
  match bm.mgmtData with
  | none => -1
  | some m => m.numReadIO

/-- The function `getNumWriteIO` of the pool interface. -/
def getNumWriteIO (bm : BM_BufferPool) : Int :=
  match bm.mgmtData with
  | none => -1
  | some m => m.numWriteIO

/-! ## Runs of the buffer pool interface -/

/-- A call of the buffer pool interface; `pin` carries the requested page number,
the other calls carry the page handle they are given. -/
inductive Op where
  | pin (pageNum : Int)
  | unpin (page : BM_PageHandle)
  | markDirty (page : BM_PageHandle)
  | forcePage (page : BM_PageHandle)
  | forceFlush

/-- The world together with one buffer pool. -/
structure PoolState where
  w : World
  bm : BM_BufferPool

/-- One call: its return code and the state afterwards. -/
def step (s : PoolState) : Op → RC × PoolState
  | Op.pin pageNum =>
    let r := pinPage s.w s.bm ⟨0, 0⟩ pageNum
    (r.rc, ⟨r.w, r.bm⟩)
  | Op.unpin page =>
    let r := unpinPage s.w s.bm page
    (r.rc, ⟨r.w, r.bm⟩)
  | Op.markDirty page =>
    let r := markDirty s.w s.bm page
    (r.rc, ⟨r.w, r.bm⟩)
  | Op.forcePage page =>
    let r := forcePage s.w s.bm page
    (r.rc, ⟨r.w, r.bm⟩)
  | Op.forceFlush =>
    let r := forceFlushPool s.w s.bm
    (r.rc, ⟨r.w, r.bm⟩)

/-- The state after a sequence of calls. -/
def exec (s : PoolState) : List Op → PoolState
  | [] => s
  | op :: rest => exec (step s op).2 rest

/-- The state right after a successful `initBufferPool`. -/
def initState (w : World) (bm : BM_BufferPool) (pageFileName : String) (numPages : Int)
    (strategy : ReplacementStrategy) (heap : Nat → Page) : PoolState :=
  let r := initBufferPool w bm pageFileName numPages strategy heap
  ⟨r.w, r.bm⟩

/-- The frames of a pool (empty when the pool is not initialised). -/
def framesOf (bm : BM_BufferPool) : List BM_PageFrame :=
  match bm.mgmtData with
  | none => []
  | some m => m.frames

/-- A world whose only file is "f", six zero-filled pages long; the tick counter is 0. -/
def demoWorld : World :=
  ⟨FileSys.put (fun _ => none) "f" (List.replicate 6 zeroPage), 0⟩

/-- A pool struct before `initBufferPool`. -/
def blankPool : BM_BufferPool := ⟨"", 0, ReplacementStrategy.RS_FIFO, none⟩

/-- The pool of `numPages` frames on file "f" of `demoWorld`, every frame buffer
initially zero, after the given calls. -/
def demoRun (numPages : Int) (strategy : ReplacementStrategy) (ops : List Op) : PoolState :=
  exec (initState demoWorld blankPool "f" numPages strategy (fun _ => zeroPage)) ops

/-- No page number other than `NO_PAGE` occurs at two positions of `l`. -/
def UniquePages (l : List Int) : Prop :=
  ∀ (i j : Nat) (p : Int), l[i]? = some p → l[j]? = some p → p ≠ NO_PAGE → i = j

/-- Well-formedness of the management data of a pool of `n` frames: the frame array
has `n` > 0 entries, the FIFO queue holds frame indices and the clock hand is a
frame index. -/
structure DataWF (n : Nat) (m : BM_MgmtData) : Prop where
  len : m.frames.length = n
  pos : 0 < n
  queue : ∀ q, m.fifoQueue = some q → ∀ x ∈ q, x < n
  hand : m.clockHand < n

/-- Well-formedness of an initialised pool with management data `m`. -/
structure PoolWF (bm : BM_BufferPool) (m : BM_MgmtData) : Prop where
  data : bm.mgmtData = some m
  wf : DataWF bm.numPages m

/-- Sum of the fix counts of all frames of a pool. -/
def sumFixCounts (bm : BM_BufferPool) : Int :=
  ((framesOf bm).map (fun f => f.fixCount)).sum

/-- Whether a call is a `pinPage` call. -/
def Op.isPin : Op → Bool
  | Op.pin _ => true
  | _ => false

/-- Whether a call is an `unpinPage` call. -/
def Op.isUnpin : Op → Bool
  | Op.unpin _ => true
  | _ => false

/-- Number of the calls of `ops`, run from state `s`, that are selected by `sel`
and return `RC_OK`. -/
def countOK (sel : Op → Bool) : PoolState → List Op → Int
  | _, [] => 0
  | s, op :: rest =>
    (if sel op = true ∧ (step s op).1 = RC.RC_OK then 1 else 0) +
      countOK sel (step s op).2 rest

/-- Every frame that holds no page has fix count 0. -/
def FreeUnpinned (frames : List BM_PageFrame) : Prop :=
  ∀ i, (frameAt frames i).pageNum = NO_PAGE → (frameAt frames i).fixCount = 0

/-- Whether some frame of the pool holds page number `p` (a `pinPage` of `p` is a hit). -/
def isCached (s : PoolState) (p : Int) : Bool :=
  match s.bm.mgmtData with
  | none => false
  | some m => (findFrame m p).isSome

/-- 1 when the call is a pin-miss that bound a frame to the page (it returned
`RC_OK` for a page that was not cached), else 0. -/
def pinMissLoads (s : PoolState) : Op → Int
  | Op.pin p => if isCached s p = false ∧ (step s (Op.pin p)).1 = RC.RC_OK then 1 else 0
  | _ => 0

/-- 1 when the call is a pin-miss on a full pool that evicted a dirty victim: the
page was not cached, no frame was free, the call returned `RC_OK` and the frame it
handed out was dirty before the call; else 0. -/
def dirtyEvictions (s : PoolState) : Op → Int
  | Op.pin p =>
    match s.bm.mgmtData with
    | none => 0
    | some m =>
      if findFrame m p = none ∧ findFreeFrame m = none ∧
          (pinPage s.w s.bm ⟨0, 0⟩ p).rc = RC.RC_OK ∧
          (frameAt m.frames (pinPage s.w s.bm ⟨0, 0⟩ p).page.data).dirty = true then 1
      else 0
  | _ => 0

/-- 1 when the call is a `forcePage` that found its page, else 0. -/
def forcePageFound (s : PoolState) : Op → Int
  | Op.forcePage page => if isCached s page.pageNum = true then 1 else 0
  | _ => 0

/-- The number of frames that are dirty and hold a page. -/
def dirtyBound : List BM_PageFrame → Int
  | [] => 0
  | f :: rest => (if f.dirty = true ∧ f.pageNum ≠ NO_PAGE then 1 else 0) + dirtyBound rest

/-- For a `forceFlushPool` call, the number of dirty frames it writes, else 0. -/
def flushedDirty (s : PoolState) : Op → Int
  | Op.forceFlush => dirtyBound (framesOf s.bm)
  | _ => 0

/-- Sum of `cost s op` over the calls of a run started in `s`, each call being
charged in the state in which it is made. -/
def sumOver (cost : PoolState → Op → Int) : PoolState → List Op → Int
  | _, [] => 0
  | s, op :: rest => cost s op + sumOver cost (step s op).2 rest

/-- The calls of scenario S4 before the last pin: pin 1, unpin, pin 2, unpin, pin 3,
unpin, pin 1, unpin. -/
def scenarioS4 : List Op :=
  [Op.pin 1, Op.unpin ⟨1, 0⟩, Op.pin 2, Op.unpin ⟨2, 1⟩, Op.pin 3, Op.unpin ⟨3, 2⟩,
    Op.pin 1, Op.unpin ⟨1, 0⟩]

/-- The reference bits of the frames of a pool. -/
def refBits (bm : BM_BufferPool) : List Bool := (framesOf bm).map (fun f => f.refBit)

/-- The clock hand of a pool (0 when the pool is not initialised). -/
def clockHandOf (bm : BM_BufferPool) : Nat :=
  match bm.mgmtData with
  | none => 0
  | some m => m.clockHand

/-- A world whose only file is "g", one zero-filled page long. -/
def onePageWorld : World := ⟨FileSys.put (fun _ => none) "g" [zeroPage], 0⟩

/-- A pool of one frame opened on the one-page file "g" (its frame buffer initially
holds the byte 7 everywhere), after which a second file handle is opened on "g" and
used for `appendEmptyBlock` and closed again, as `findFreeSlot` does: the file now
has two pages, the handle of the pool still has `totalNumPages = 1`. -/
def staleHandleState : PoolState :=
  let s := initState onePageWorld blankPool "g" 1 ReplacementStrategy.RS_FIFO (fun _ _ => 7)
  let fh := openPageFile s.w.fs "g" ⟨"", 0, 0, false⟩
  let r := appendEmptyBlock s.w.fs fh.2
  ⟨{ s.w with fs := r.2.2 }, s.bm⟩

/-- Byte 0 of every page of file `name`. -/
def firstBytes (w : World) (name : String) : Option (List Nat) :=
  (w.fs name).map (fun pages => pages.map (fun pg => pg 0))

/-- The management data of a pool (blank data when the pool is not initialised). -/
def dataOf (bm : BM_BufferPool) : BM_MgmtData :=
  bm.mgmtData.getD ⟨[], ⟨"", 0, 0, false⟩, 0, 0, none, 0, 0, 0⟩

/-- The calls "pin p, unpin p" for each page of a request sequence: every pin is
unpinned before the next pin. -/
def pinUnpin : List Int → List Op
  | [] => []
  | p :: rest => Op.pin p :: Op.unpin ⟨p, 0⟩ :: pinUnpin rest

/-- The frame list `b` arises from `a` by clearing reference bits of frames whose
fix count is 0 (what the clock hand does while it sweeps). -/
def RefCleared (a b : List BM_PageFrame) : Prop :=
  List.Forall₂ (fun x y => y = x ∨ (x.fixCount = 0 ∧ y = { x with refBit := false })) a b

/-- Outcome of an eviction that returned frame `j`: the frames differ at most in
cleared reference bits, frame `j` was unpinned, and the victim was written back
(and counted) exactly when it was dirty. -/
structure EvictOK (w : World) (m : BM_MgmtData) (j : Nat) (w1 : World) (m1 : BM_MgmtData) :
    Prop where
  ref : RefCleared m.frames m1.frames
  fix : (frameAt m.frames j).fixCount = 0
  acc : w1.accessCounter = w.accessCounter
  reads : m1.numReadIO = m.numReadIO
  queue : m1.fifoQueue = m.fifoQueue
  rear : m1.fifoRear = m.fifoRear
  dirtyCase : (frameAt m.frames j).dirty = true →
    w1.fs = (writeBlock w.fs (frameAt m.frames j).pageNum m.fileHandle
      (frameAt m.frames j).data).2.2 ∧
    m1.fileHandle = (writeBlock w.fs (frameAt m.frames j).pageNum m.fileHandle
      (frameAt m.frames j).data).2.1 ∧
    m1.numWriteIO = m.numWriteIO + 1
  cleanCase : (frameAt m.frames j).dirty = false →
    w1.fs = w.fs ∧ m1.fileHandle = m.fileHandle ∧ m1.numWriteIO = m.numWriteIO

/-- Outcome of an eviction that found no victim: nothing is written or counted. -/
structure EvictFail (w : World) (m : BM_MgmtData) (w1 : World) (m1 : BM_MgmtData) : Prop where
  ref : RefCleared m.frames m1.frames
  world : w1 = w
  reads : m1.numReadIO = m.numReadIO
  writes : m1.numWriteIO = m.numWriteIO
  handle : m1.fileHandle = m.fileHandle
  queue : m1.fifoQueue = m.fifoQueue
  rear : m1.fifoRear = m.fifoRear

/-! ## record_mgr.c -/

/-- The macro `PAGE_HEADER_SIZE`, `sizeof(int) * 3`. -/
def PAGE_HEADER_SIZE : Nat := 12

/-- The macro `SCHEMA_PAGE`. -/
def SCHEMA_PAGE : Int := 0

/-- The macro `FIRST_DATA_PAGE`. -/
def FIRST_DATA_PAGE : Int := 1

/-- Byte `k` (0 the lowest) of the four-byte two's complement encoding of an `int`. -/
def encodeByte (v : Int) (k : Nat) : Nat := ((v % 4294967296).toNat / 256 ^ k) % 256

/-- Store of an `int` at byte offset `off` of a buffer (`memcpy` of four bytes, or an
assignment through an `int *`). -/
def writeInt (pg : Page) (off : Nat) (v : Int) : Page :=
  fun i =>
    if i = off then encodeByte v 0
    else if i = off + 1 then encodeByte v 1
    else if i = off + 2 then encodeByte v 2
    else if i = off + 3 then encodeByte v 3
    else pg i

/-- Load of an `int` from byte offset `off` of a buffer. -/
def readInt (pg : Page) (off : Nat) : Int :=
  let u : Nat := pg off % 256 + 256 * (pg (off + 1) % 256) + 65536 * (pg (off + 2) % 256)
    + 16777216 * (pg (off + 3) % 256)
  if u < 2147483648 then (u : Int) else (u : Int) - 4294967296

/-- The call `memcpy(pg + off, src, n)`. -/
def writeBytes (pg : Page) (off : Nat) (src : List Nat) (n : Nat) : Page :=
  fun i => if off ≤ i ∧ i < off + n then src.getD (i - off) 0 else pg i

/-- The `n` bytes of a buffer from offset `off` on. -/
def readBytes (pg : Page) (off : Nat) (n : Nat) : List Nat :=
  (List.range n).map (fun k => pg (off + k))

/-- Modelled from the spec: the type `DataType` of `tables.h` (not part of the
sources), an `enum` with the values INT, STRING, FLOAT and BOOL; a value read back
from a page can be any `int`. -/
abbrev DataType := Int

/-- The enumerator `DT_INT`. -/
def DT_INT : DataType := 0

/-- The enumerator `DT_STRING`. -/
def DT_STRING : DataType := 1

/-- The enumerator `DT_FLOAT`. -/
def DT_FLOAT : DataType := 2

/-- The enumerator `DT_BOOL`. -/
def DT_BOOL : DataType := 3

/-- Modelled from the spec: the struct `Schema` of `tables.h`; an attribute name is
the list of its bytes (without the terminating zero). -/
structure Schema where
  numAttr : Int
  attrNames : List (List Nat)
  dataTypes : List DataType
  typeLength : List Int
  keyAttrs : List Int
  keySize : Int

/-- Modelled from the spec: the struct `RID` of `tables.h`. -/
structure RID where
  page : Int
  slot : Int
  deriving DecidableEq

/-- Modelled from the spec: the struct `Record` of `tables.h`; `data` is `none` for a
`NULL` pointer, else the bytes of the payload. -/
structure Record where
  id : RID
  data : Option (List Nat)
  deriving DecidableEq

/-- The struct `TableManager`. -/
structure TableManager where
  bm : BM_BufferPool
  numTuples : Int
  firstFreePage : Int
  schema : Schema
  recordSize : Int

/-- Modelled from the spec: the struct `RM_TableData` of `tables.h`; `mgmtData` is
`none` for the `NULL` pointer. -/
structure RM_TableData where
  name : String
  schema : Schema
  mgmtData : Option TableManager

/-- The buffer of frame `frameIndex`, the target of a page handle's `data` pointer. -/
def bufferOf (bm : BM_BufferPool) (frameIndex : Nat) : Page :=
  (frameAt (framesOf bm) frameIndex).data

/-- A store through a page handle's `data` pointer: the buffer of frame `frameIndex`
is replaced by `g` of it. -/
def pokeBuffer (bm : BM_BufferPool) (frameIndex : Nat) (g : Page → Page) : BM_BufferPool :=
  match bm.mgmtData with
  | none => bm
  | some m =>
    let f := frameAt m.frames frameIndex
    { bm with mgmtData := some { m with frames := m.frames.set frameIndex ({ f with data := g f.data }) } }

/-- The width of an attribute in a record: the `switch` of `getRecordSizeHelper`, with
`sizeof(int)` = `sizeof(float)` = 4 and, as the spec has it, `sizeof(bool)` = 1 (the
header that declares `bool` is not part of the sources). -/
def attrWidth (dt : DataType) (len : Int) : Int :=
  if dt = DT_INT then 4
  else if dt = DT_FLOAT then 4
  else if dt = DT_BOOL then 1
  else if dt = DT_STRING then len
  else 0

/-- The function `getRecordSizeHelper`. -/
def getRecordSizeHelper (schema : Schema) : Int :=
  (List.range schema.numAttr.toNat).foldl
    (fun size i => size + attrWidth (schema.dataTypes.getD i 0) (schema.typeLength.getD i 0)) 0

/-- The function `getRecordSize`. -/
def getRecordSize (schema : Schema) : Int := getRecordSizeHelper schema

/-- The function `calculateSlotsPerPage`; `usableSpace` is `PAGE_SIZE - PAGE_HEADER_SIZE`
and `/` is the truncating division of C. -/
def calculateSlotsPerPage (recordSize : Int) : Int :=
  Int.tdiv ((PAGE_SIZE : Int) - (PAGE_HEADER_SIZE : Int)) (recordSize + 1)

/-- The byte offset of the tombstone of slot `slot`:
`PAGE_HEADER_SIZE + slot * (recordSize + 1)`. -/
def tombstoneOffset (slot : Int) (recordSize : Int) : Nat :=
  ((PAGE_HEADER_SIZE : Int) + slot * (recordSize + 1)).toNat

/-- The function `isSlotUsed`. -/
def isSlotUsed (page : Page) (slot : Int) (recordSize : Int) : Bool :=
  page (tombstoneOffset slot recordSize) % 256 = 1

/-- The function `getRecordDataPointer`, as a byte offset into the page. -/
def getRecordDataPointer (slot : Int) (recordSize : Int) : Nat :=
  ((PAGE_HEADER_SIZE : Int) + slot * (recordSize + 1) + 1).toNat

/-- The function `getNextFreePage`. -/
def getNextFreePage (page : Page) : Int := readInt page 8

/-- The function `setNextFreePage`. -/
def setNextFreePage (page : Page) (nextPage : Int) : Page := writeInt page 8 nextPage

/-- The attribute loop of `writeSchemaToPage` from attribute `i` on, with `left`
iterations to go: the buffer and offset afterwards, with `false` when the
"Schema too large for page" check fired. -/
def writeSchemaAttrs (schema : Schema) : Nat → Nat → Page → Int → Bool × Page × Int
  | 0, _, data, offset => (true, data, offset)
  | left + 1, i, data, offset =>
    let data1 := writeInt data offset.toNat (schema.dataTypes.getD i 0)
    let data2 := writeInt data1 (offset + 4).toNat (schema.typeLength.getD i 0)
    let nameLen : Int := ((schema.attrNames.getD i []).length : Int)
    if offset + 8 + 4 + nameLen > (PAGE_SIZE : Int) then (false, data2, offset + 8)
    else
      let data3 := writeInt data2 (offset + 8).toNat nameLen
      let data4 := writeBytes data3 (offset + 12).toNat (schema.attrNames.getD i []) nameLen.toNat
      writeSchemaAttrs schema left (i + 1) data4 (offset + 12 + nameLen)

/-- The key loop of `writeSchemaToPage` from key `i` on. -/
def writeSchemaKeys (schema : Schema) : Nat → Nat → Page → Int → Bool × Page × Int
  | 0, _, data, offset => (true, data, offset)
  | left + 1, i, data, offset =>
    if offset + 4 > (PAGE_SIZE : Int) then (false, data, offset)
    else writeSchemaKeys schema left (i + 1) (writeInt data offset.toNat (schema.keyAttrs.getD i 0))
      (offset + 4)

/-- The function `writeSchemaToPage`. -/
def writeSchemaToPage (w : World) (bm : BM_BufferPool) (schema : Schema) : BMResult :=
  let r := pinPage w bm ⟨0, 0⟩ SCHEMA_PAGE
  if r.rc ≠ RC.RC_OK then ⟨r.rc, r.w, r.bm⟩
  else
    let data0 := writeInt (writeInt (bufferOf r.bm r.page.data) 0 schema.numAttr) 4 schema.keySize
    let a := writeSchemaAttrs schema schema.numAttr.toNat 0 data0 8
    if a.1 = false then
      let u := unpinPage r.w (pokeBuffer r.bm r.page.data (fun _ => a.2.1)) r.page
      ⟨RC.RC_WRITE_FAILED, u.w, u.bm⟩
    else
      let k := writeSchemaKeys schema schema.keySize.toNat 0 a.2.1 a.2.2
      if k.1 = false then
        let u := unpinPage r.w (pokeBuffer r.bm r.page.data (fun _ => k.2.1)) r.page
        ⟨RC.RC_WRITE_FAILED, u.w, u.bm⟩
      else
        let d := markDirty r.w (pokeBuffer r.bm r.page.data (fun _ => k.2.1)) r.page
        let u := unpinPage d.w d.bm r.page
        ⟨RC.RC_OK, u.w, u.bm⟩

/-- The attribute loop of `readSchemaFromPage` from offset `offset` on: the
data types, type lengths and names read, and the offset afterwards. -/
def readSchemaAttrs (data : Page) : Nat → Int →
    List DataType × List Int × List (List Nat) × Int
  | 0, offset => ([], [], [], offset)
  | left + 1, offset =>
    let dt := readInt data offset.toNat
    let len := readInt data (offset + 4).toNat
    let nameLen := readInt data (offset + 8).toNat
    let name := readBytes data (offset + 12).toNat nameLen.toNat
    let t := readSchemaAttrs data left (offset + 12 + nameLen)
    (dt :: t.1, len :: t.2.1, name :: t.2.2.1, t.2.2.2)

/-- The function `readSchemaFromPage` (every `malloc` succeeds). -/
def readSchemaFromPage (w : World) (bm : BM_BufferPool) : RC × World × BM_BufferPool × Schema :=
  let r := pinPage w bm ⟨0, 0⟩ SCHEMA_PAGE
  if r.rc ≠ RC.RC_OK then (r.rc, r.w, r.bm, ⟨0, [], [], [], [], 0⟩)
  else
    let data := bufferOf r.bm r.page.data
    let numAttr := readInt data 0
    let keySize := readInt data 4
    let a := readSchemaAttrs data numAttr.toNat 8
    let keys := (List.range keySize.toNat).map (fun i => readInt data (a.2.2.2 + 4 * (i : Int)).toNat)
    let u := unpinPage r.w r.bm r.page
    (RC.RC_OK, u.w, u.bm, ⟨numAttr, a.2.2.1, a.1, a.2.1, keys, keySize⟩)

/-- The file name `<name>.table` built by `sprintf`. -/
def tableFileName (name : String) : String := name ++ ".table"

/-- The function `createTable`; `heap` gives the initial content of the frame buffers
of the temporary pool. -/
def createTable (w : World) (heap : Nat → Page) (name : String) (schema : Schema) : RC × World :=
  let fileName := tableFileName name
  let c := createPageFile w.fs fileName
  if c.1 ≠ RC.RC_OK then (c.1, w)
  else
    let w1 : World := { w with fs := c.2 }
    let i := initBufferPool w1 blankPool fileName 3 ReplacementStrategy.RS_FIFO heap
    if i.rc ≠ RC.RC_OK then (i.rc, i.w)
    else
      let s := writeSchemaToPage i.w i.bm schema
      if s.rc ≠ RC.RC_OK then
        let d := shutdownBufferPool s.w s.bm
        (s.rc, d.w)
      else
        let p1 := pinPage s.w s.bm ⟨0, 0⟩ FIRST_DATA_PAGE
        let p :=
          if p1.rc ≠ RC.RC_OK then
            let fh := openPageFile p1.w.fs fileName ⟨"", 0, 0, false⟩
            let ap := appendEmptyBlock p1.w.fs fh.2
            pinPage { p1.w with fs := ap.2.2 } p1.bm p1.page FIRST_DATA_PAGE
          else p1
        if p.rc ≠ RC.RC_OK then
          let d := shutdownBufferPool p.w p.bm
          (p.rc, d.w)
        else
          let slots := calculateSlotsPerPage (getRecordSizeHelper schema)
          let bm1 := pokeBuffer p.bm p.page.data
            (fun pg => writeInt (writeInt (writeInt pg 0 slots) 4 slots) 8 (-1))
          let d := markDirty p.w bm1 p.page
          let u := unpinPage d.w d.bm p.page
          let sd := shutdownBufferPool u.w u.bm
          (RC.RC_OK, sd.w)

/-- The loop of `openTable` over the page chain, with `fuel` iterations allowed:
`none` when the loop has not ended within them, else the world, pool and tuple
count at its end. -/
def openTableWalk : Nat → World → BM_BufferPool → Int → Int → Option (World × BM_BufferPool × Int)
  | 0, _, _, _, _ => none
  | fuel + 1, w, bm, page, numTuples =>
    if page < 0 then some (w, bm, numTuples)
    else
      let r := pinPage w bm ⟨0, 0⟩ page
      if r.rc ≠ RC.RC_OK then some (r.w, r.bm, numTuples)
      else
        let data := bufferOf r.bm r.page.data
        let u := unpinPage r.w r.bm r.page
        openTableWalk fuel u.w u.bm (readInt data 8) (numTuples + (readInt data 0 - readInt data 4))

/-- The function `openTable`; `none` when the loop over the page chain does not end
within `fuel` iterations. -/
def openTable (fuel : Nat) (w : World) (heap : Nat → Page) (rel : RM_TableData) (name : String) :
    Option (RC × World × RM_TableData) :=
  let fileName := tableFileName name
  let i := initBufferPool w blankPool fileName 3 ReplacementStrategy.RS_FIFO heap
  if i.rc ≠ RC.RC_OK then some (i.rc, i.w, rel)
  else
    let s := readSchemaFromPage i.w i.bm
    if s.1 ≠ RC.RC_OK then
      let d := shutdownBufferPool s.2.1 s.2.2.1
      some (s.1, d.w, rel)
    else
      match openTableWalk fuel s.2.1 s.2.2.1 FIRST_DATA_PAGE 0 with
      | none => none
      | some (w1, bm1, numTuples) =>
        some (RC.RC_OK, w1,
          { name := name, schema := s.2.2.2,
            mgmtData := some
              { bm := bm1, numTuples := numTuples, firstFreePage := FIRST_DATA_PAGE,
                schema := s.2.2.2, recordSize := getRecordSizeHelper s.2.2.2 } })

/-- The function `closeTable`. -/
def closeTable (w : World) (rel : RM_TableData) : RC × World × RM_TableData :=
  match rel.mgmtData with
  | none => (RC.RC_FILE_HANDLE_NOT_INIT, w, rel)
  | some tm =>
    let f := forceFlushPool w tm.bm
    let d := shutdownBufferPool f.w f.bm
    (RC.RC_OK, d.w, { rel with name := "", mgmtData := none })

/-- The function `getNumTuples`. -/
def getNumTuples (rel : RM_TableData) : Int :=
  match rel.mgmtData with
  | none => 0
  | some tm => tm.numTuples

/-- The slot loop of `findFreeSlot` on one page, from slot `slot` on, with `left`
iterations to go. -/
def firstUnusedSlot (page : Page) (recordSize : Int) (numSlots : Int) : Nat → Int → Option Int
  | 0, _ => none
  | left + 1, slot =>
    if slot < numSlots then
      if isSlotUsed page slot recordSize then firstUnusedSlot page recordSize numSlots left (slot + 1)
      else some slot
    else none

/-- The function `markSlotAsUsed`. -/
def markSlotAsUsed (w : World) (bm : BM_BufferPool) (rid : RID) (recordSize : Int) : BMResult :=
  let r := pinPage w bm ⟨0, 0⟩ rid.page
  if r.rc ≠ RC.RC_OK then ⟨r.rc, r.w, r.bm⟩
  else
    let bm1 := pokeBuffer r.bm r.page.data (fun pg =>
      let pg1 : Page := fun i => if i = tombstoneOffset rid.slot recordSize then 1 else pg i
      writeInt pg1 4 (readInt pg1 4 - 1))
    let d := markDirty r.w bm1 r.page
    let u := unpinPage d.w d.bm r.page
    ⟨RC.RC_OK, u.w, u.bm⟩

/-- Result of `findFreeSlot`: return code, world, table manager and RID afterwards. -/
structure SlotResult where
  rc : RC
  w : World
  tm : TableManager
  rid : RID

/-- The part of `findFreeSlot` after its search loop: a page is appended to the file
through a file handle of its own and set up as a data page. -/
def findFreeSlotAppend (w : World) (tm : TableManager) (rid : RID) : SlotResult :=
  let fh := openPageFile w.fs tm.bm.pageFile ⟨"", 0, 0, false⟩
  if fh.1 ≠ RC.RC_OK then ⟨fh.1, w, tm, rid⟩
  else
    let newPage := fh.2.totalNumPages
    let ap := appendEmptyBlock w.fs fh.2
    let r := pinPage { w with fs := ap.2.2 } tm.bm ⟨0, 0⟩ newPage
    if r.rc ≠ RC.RC_OK then ⟨r.rc, r.w, { tm with bm := r.bm }, rid⟩
    else
      let slots := calculateSlotsPerPage tm.recordSize
      let bm1 := pokeBuffer r.bm r.page.data
        (fun pg => writeInt (writeInt (writeInt pg 0 slots) 4 slots) 8 (-1))
      let t : World × BM_BufferPool :=
        if tm.firstFreePage = FIRST_DATA_PAGE then
          let f := pinPage r.w bm1 ⟨0, 0⟩ FIRST_DATA_PAGE
          if f.rc = RC.RC_OK then
            let bm2 := pokeBuffer f.bm r.page.data
              (fun pg => writeInt pg 8 (readInt (bufferOf f.bm f.page.data) 8))
            let bm3 := pokeBuffer bm2 f.page.data (fun pg => writeInt pg 8 newPage)
            let d := markDirty f.w bm3 f.page
            let u := unpinPage d.w d.bm f.page
            (u.w, u.bm)
          else (f.w, f.bm)
        else (r.w, bm1)
      let d := markDirty t.1 t.2 r.page
      let u := unpinPage d.w d.bm r.page
      ⟨RC.RC_OK, u.w, { tm with bm := u.bm, firstFreePage := newPage }, ⟨newPage, 0⟩⟩

/-- The search loop of `findFreeSlot` from page `page` on, with `fuel` iterations
allowed (`none` when it has not ended within them), followed by the append. -/
def findFreeSlotLoop : Nat → World → TableManager → RID → Int → Option SlotResult
  | 0, _, _, _, _ => none
  | fuel + 1, w, tm, rid, page =>
    if page < 0 then some (findFreeSlotAppend w tm rid)
    else
      let r := pinPage w tm.bm ⟨0, 0⟩ page
      if r.rc ≠ RC.RC_OK then some (findFreeSlotAppend r.w { tm with bm := r.bm } rid)
      else
        let data := bufferOf r.bm r.page.data
        let found :=
          if readInt data 4 > 0 then
            firstUnusedSlot data tm.recordSize (readInt data 0) (readInt data 0).toNat 0
          else none
        match found with
        | some slot =>
          let u := unpinPage r.w r.bm r.page
          some ⟨RC.RC_OK, u.w, { tm with bm := u.bm }, ⟨page, slot⟩⟩
        | none =>
          let u := unpinPage r.w r.bm r.page
          findFreeSlotLoop fuel u.w { tm with bm := u.bm } rid (readInt data 8)

/-- The function `findFreeSlot`. -/
def findFreeSlot (fuel : Nat) (w : World) (tm : TableManager) (rid : RID) : Option SlotResult :=
  findFreeSlotLoop fuel w tm rid tm.firstFreePage

/-- The function `insertRecord`; `none` when the search loop of `findFreeSlot` does
not end within `fuel` iterations, or when the table is not open. -/
def insertRecord (fuel : Nat) (w : World) (rel : RM_TableData) (record : Record) :
    Option (RC × World × RM_TableData × Record) :=
  match rel.mgmtData with
  | none => none
  | some tm =>
    match findFreeSlot fuel w tm ⟨0, 0⟩ with
    | none => none
    | some s =>
      if s.rc ≠ RC.RC_OK then some (s.rc, s.w, { rel with mgmtData := some s.tm }, record)
      else
        let r := pinPage s.w s.tm.bm ⟨0, 0⟩ s.rid.page
        if r.rc ≠ RC.RC_OK then
          some (r.rc, r.w, { rel with mgmtData := some { s.tm with bm := r.bm } }, record)
        else
          let bm1 := pokeBuffer r.bm r.page.data (fun pg =>
            writeBytes pg (getRecordDataPointer s.rid.slot s.tm.recordSize)
              (record.data.getD []) s.tm.recordSize.toNat)
          let ms := markSlotAsUsed r.w bm1 s.rid s.tm.recordSize
          let d := markDirty ms.w ms.bm r.page
          let u := unpinPage d.w d.bm r.page
          some (RC.RC_OK, u.w,
            { rel with mgmtData := some { s.tm with bm := u.bm, numTuples := s.tm.numTuples + 1 } },
            { record with id := s.rid })

/-- The function `getRecord`; `none` when the table is not open. -/
def getRecord (w : World) (rel : RM_TableData) (id : RID) (record : Record) :
    Option (RC × World × RM_TableData × Record) :=
  match rel.mgmtData with
  | none => none
  | some tm =>
    let r := pinPage w tm.bm ⟨0, 0⟩ id.page
    if r.rc ≠ RC.RC_OK then
      some (r.rc, r.w, { rel with mgmtData := some { tm with bm := r.bm } }, record)
    else if ¬ isSlotUsed (bufferOf r.bm r.page.data) id.slot tm.recordSize = true then
      let u := unpinPage r.w r.bm r.page
      some (RC.RC_FILE_NOT_FOUND, u.w, { rel with mgmtData := some { tm with bm := u.bm } }, record)
    else
      let payload := readBytes (bufferOf r.bm r.page.data)
        (getRecordDataPointer id.slot tm.recordSize) tm.recordSize.toNat
      let u := unpinPage r.w r.bm r.page
      some (RC.RC_OK, u.w, { rel with mgmtData := some { tm with bm := u.bm } },
        { id := id, data := some payload })


/-- A world without files; the tick counter is 0. -/
def emptyWorld : World := ⟨fun _ => none, 0⟩

/-- A table handle before `openTable`. -/
def blankTable : RM_TableData := ⟨"", ⟨0, [], [], [], [], 0⟩, none⟩

/-- The schema (id:int, name:string[4], salary:float) with key attribute id; the
names are given by their bytes. -/
def witnessSchema : Schema :=
  { numAttr := 3,
    attrNames := [[105, 100], [110, 97, 109, 101], [115, 97, 108, 97, 114, 121]],
    dataTypes := [DT_INT, DT_STRING, DT_FLOAT],
    typeLength := [0, 4, 0],
    keyAttrs := [0],
    keySize := 1 }

/-- The record (1, "AAAA", 100.0) of `witnessSchema`, not yet placed: the bytes of
the int 1, of "AAAA" and of the float 100.0 (0x42C80000). -/
def recordA : Record := ⟨⟨-1, -1⟩, some [1, 0, 0, 0, 65, 65, 65, 65, 0, 0, 200, 66]⟩

/-- The record (2, "BBBB", 200.0) of `witnessSchema`, not yet placed (200.0 is
0x43480000). -/
def recordB : Record := ⟨⟨-1, -1⟩, some [2, 0, 0, 0, 66, 66, 66, 66, 0, 0, 72, 67]⟩

/-- The image of an empty data page of a table with 12-byte records: header
[314, 314, -1], all other bytes zero. -/
def emptyDataPage : Page := writeInt (writeInt (writeInt zeroPage 0 314) 4 314) 8 (-1)

/-- The first three `int`s of every page of the file of table `name`. -/
def fileHeaders (w : World) (name : String) : Option (List (List Int)) :=
  (w.fs (tableFileName name)).map
    (fun pages => pages.map (fun pg => [readInt pg 0, readInt pg 4, readInt pg 8]))

/-- What the persistence scenario shows. -/
structure PersistenceRun where
  insertedRIDs : List RID
  tuplesBeforeClose : Int
  readBackBeforeClose : List (RC × Option (List Nat))
  headersAfterClose : Option (List (List Int))
  tuplesAfterReopen : Int
  readBackAfterReopen : List (RC × Option (List Nat))
  deriving DecidableEq

/-- The persistence scenario on table "t" of `witnessSchema`: createTable (frame
buffers initially `heap0`), openTable, insertRecord of `recordA` and `recordB`, getRecord
of both RIDs, closeTable, openTable, getRecord of both RIDs.  The frame buffers of the
two pools of `openTable` initially hold `heap1` and `heap2`; every loop gets `fuel`
iterations.  The result is `none` when a loop does not end or a call before the
second `openTable` fails. -/
def persistenceRun (fuel : Nat) (heap0 heap1 heap2 : Nat → Page) : Option PersistenceRun :=
  let c := createTable emptyWorld heap0 "t" witnessSchema
  if c.1 ≠ RC.RC_OK then none
  else
    match openTable fuel c.2 heap1 blankTable "t" with
    | none => none
    | some o1 =>
      if o1.1 ≠ RC.RC_OK then none
      else
        match insertRecord fuel o1.2.1 o1.2.2 recordA with
        | none => none
        | some i1 =>
          match insertRecord fuel i1.2.1 i1.2.2.1 recordB with
          | none => none
          | some i2 =>
            match getRecord i2.2.1 i2.2.2.1 i1.2.2.2.id ⟨⟨-1, -1⟩, none⟩ with
            | none => none
            | some g1 =>
              match getRecord g1.2.1 g1.2.2.1 i2.2.2.2.id ⟨⟨-1, -1⟩, none⟩ with
              | none => none
              | some g2 =>
                let cl := closeTable g2.2.1 g2.2.2.1
                match openTable fuel cl.2.1 heap2 blankTable "t" with
                | none => none
                | some o2 =>
                  if o2.1 ≠ RC.RC_OK then none
                  else
                    match getRecord o2.2.1 o2.2.2 i1.2.2.2.id ⟨⟨-1, -1⟩, none⟩ with
                    | none => none
                    | some g3 =>
                      match getRecord g3.2.1 g3.2.2.1 i2.2.2.2.id ⟨⟨-1, -1⟩, none⟩ with
                      | none => none
                      | some g4 =>
                        some
                          { insertedRIDs := [i1.2.2.2.id, i2.2.2.2.id],
                            tuplesBeforeClose := getNumTuples g2.2.2.1,
                            readBackBeforeClose :=
                              [(g1.1, g1.2.2.2.data), (g2.1, g2.2.2.2.data)],
                            headersAfterClose := fileHeaders cl.2.1 "t",
                            tuplesAfterReopen := getNumTuples o2.2.2,
                            readBackAfterReopen :=
                              [(g3.1, g3.2.2.2.data), (g4.1, g4.2.2.2.data)] }


/-- What the persistence scenario gives on the sources when the frame buffers of the
pools of `openTable` initially hold the image of an empty data page. -/
def persistenceObserved : PersistenceRun :=
  { insertedRIDs := [⟨1, 0⟩, ⟨1, 1⟩]
    tuplesBeforeClose := 2
    readBackBeforeClose :=
      [(RC.RC_OK, some [1, 0, 0, 0, 65, 65, 65, 65, 0, 0, 200, 66]),
        (RC.RC_OK, some [2, 0, 0, 0, 66, 66, 66, 66, 0, 0, 72, 67])]
    headersAfterClose := some [[3, 1, 0]]
    tuplesAfterReopen := 0
    readBackAfterReopen := [(RC.RC_FILE_NOT_FOUND, none), (RC.RC_FILE_NOT_FOUND, none)] }

/-- The world right after `createTable` of table "t" with `witnessSchema`, in an empty
working directory, every frame buffer of the temporary pool initially zero. -/
def createdWorld : World :=
  (createTable emptyWorld (fun _ => zeroPage) "t" witnessSchema).2

/-- The state in which `openTable` of table "t" starts its walk over the page chain
in `createdWorld`, every frame buffer of the pool initially zero: the pool is
initialised and the schema has been read. -/
def walkStart : RC × World × BM_BufferPool × Schema :=
  readSchemaFromPage
    (initBufferPool createdWorld blankPool (tableFileName "t") 3 ReplacementStrategy.RS_FIFO
      (fun _ => zeroPage)).w
    (initBufferPool createdWorld blankPool (tableFileName "t") 3 ReplacementStrategy.RS_FIFO
      (fun _ => zeroPage)).bm

/-! ## Further definitions: runs, attributes, schema serialisation, deletion -/

/-- The pool state reached from `initBufferPool` by a sequence of calls. -/
def poolRun (w : World) (bm : BM_BufferPool) (pageFileName : String) (numPages : Int)
    (strategy : ReplacementStrategy) (heap : Nat → Page) (ops : List Op) : PoolState :=
  exec (initState w bm pageFileName numPages strategy heap) ops

/-- A frame that has the page number of an earlier frame has fix count 0: the frame
that `findFrame` returns for a page number is the only one of that number that can
be pinned. -/
def LaterUnpinned (frames : List BM_PageFrame) : Prop :=
  ∀ (i j : Nat) (f g : BM_PageFrame), i < j → frames[i]? = some f → frames[j]? = some g →
    f.pageNum = g.pageNum → g.fixCount = 0

/-- Modelled from the spec: the struct `Value` of the expression header (not part of
the sources): the tag `dt` and the union `v` with the members `intV`, `stringV`,
`floatV` and `boolV` that `getAttr` and `setAttr` use.  The members are separate
fields here and only the one selected by `dt` is meaningful.  `stringV` is the bytes
of the buffer that the `char *` points to, `floatV` the four bytes of the `float`
object, lowest address first. -/
structure Value where
  dt : DataType
  intV : Int
  stringV : List Nat
  floatV : List Nat
  boolV : Bool

/-- The buffer `record->data` as a function of the byte offset (0 past its end and
for a `NULL` pointer). -/
def recordBytes (record : Record) : Page := fun k => (record.data.getD []).getD k 0

/-- The offset loop of `getAttr` and `setAttr`: the sum of the widths of the
attributes before `attrNum`. -/
def attrOffset (schema : Schema) (attrNum : Int) : Int :=
  (List.range attrNum.toNat).foldl
    (fun offset i => offset + attrWidth (schema.dataTypes.getD i 0) (schema.typeLength.getD i 0)) 0

/-- The function `getAttr`.  `value` is what `*value` holds before the call (it is
left alone on failure) and `fresh` the content of the `Value` object that `malloc`
returns.  A `bool` object is one byte and is true when that byte is not 0. -/
def getAttr (record : Record) (schema : Schema) (attrNum : Int) (value : Option Value)
    (fresh : Value) : RC × Option Value :=
  if attrNum < 0 ∨ attrNum ≥ schema.numAttr then (RC.RC_FILE_HANDLE_NOT_INIT, value)
  else
    let offset := (attrOffset schema attrNum).toNat
    let dt := schema.dataTypes.getD attrNum.toNat 0
    let len := schema.typeLength.getD attrNum.toNat 0
    let val : Value := { fresh with dt := dt }
    let attrData := recordBytes record
    if dt = DT_INT then (RC.RC_OK, some { val with intV := readInt attrData offset })
    else if dt = DT_FLOAT then (RC.RC_OK, some { val with floatV := readBytes attrData offset 4 })
    else if dt = DT_BOOL then
      (RC.RC_OK, some { val with boolV := decide (attrData offset % 256 ≠ 0) })
    else if dt = DT_STRING then
      (RC.RC_OK, some { val with stringV := readBytes attrData offset len.toNat ++ [0] })
    else (RC.RC_OK, some val)

/-- The function `setAttr`; a store past the end of `record->data` is dropped. -/
def setAttr (record : Record) (schema : Schema) (attrNum : Int) (value : Value) : RC × Record :=
  if attrNum < 0 ∨ attrNum ≥ schema.numAttr then (RC.RC_FILE_HANDLE_NOT_INIT, record)
  else if value.dt ≠ schema.dataTypes.getD attrNum.toNat 0 then
    (RC.RC_RM_COMPARE_VALUE_OF_DIFFERENT_DATATYPE, record)
  else
    let offset := (attrOffset schema attrNum).toNat
    let dt := schema.dataTypes.getD attrNum.toNat 0
    let len := schema.typeLength.getD attrNum.toNat 0
    let attrData := recordBytes record
    let stored : Page :=
      if dt = DT_INT then writeInt attrData offset value.intV
      else if dt = DT_FLOAT then writeBytes attrData offset value.floatV 4
      else if dt = DT_BOOL then writeBytes attrData offset [if value.boolV then 1 else 0] 1
      else if dt = DT_STRING then writeBytes attrData offset value.stringV len.toNat
      else attrData
    (RC.RC_OK, { record with data := record.data.map (fun d => readBytes stored 0 d.length) })

/-- The attributes of a schema are described by arrays of `numAttr` entries, and the
length of a STRING attribute is not negative. -/
structure SchemaWF (schema : Schema) : Prop where
  numAttr : 0 ≤ schema.numAttr
  names : (schema.attrNames.length : Int) = schema.numAttr
  types : (schema.dataTypes.length : Int) = schema.numAttr
  lengths : (schema.typeLength.length : Int) = schema.numAttr
  keySize : (schema.keyAttrs.length : Int) = schema.keySize
  strings : ∀ i : Nat, schema.dataTypes.getD i 0 = DT_STRING → 0 ≤ schema.typeLength.getD i 0

/-- A value as `setAttr` can receive it: an `int` is a 32-bit integer, a `float`
object has four bytes, and a string buffer holds at least `len` bytes. -/
def Value.fits (value : Value) (len : Int) : Prop :=
  (value.dt = DT_INT → -2147483648 ≤ value.intV ∧ value.intV < 2147483648) ∧
  (value.dt = DT_FLOAT → value.floatV.length = 4) ∧
  (value.dt = DT_STRING → len ≤ (value.stringV.length : Int))

/-- The value that `getAttr` hands out agrees with `value`: same type, and the
member of that type is equal (for a string: the first `len` bytes, followed by a
terminating zero). -/
def Value.agrees (got value : Value) (len : Int) : Prop :=
  got.dt = value.dt ∧
  (value.dt = DT_INT → got.intV = value.intV) ∧
  (value.dt = DT_FLOAT → got.floatV = value.floatV) ∧
  (value.dt = DT_BOOL → got.boolV = value.boolV) ∧
  (value.dt = DT_STRING → got.stringV = value.stringV.take len.toNat ++ [0])

/-- The four bytes of an `int`, lowest address first. -/
def le32 (v : Int) : List Nat := [encodeByte v 0, encodeByte v 1, encodeByte v 2, encodeByte v 3]

/-- The serialised attributes in the words of the spec: for each attribute
`dataType:int, typeLength:int, nameLen:int, name:bytes[nameLen]`. -/
def attrsBytes : List DataType → List Int → List (List Nat) → List Nat
  | dt :: dts, len :: lens, name :: names =>
    le32 dt ++ le32 len ++ le32 (name.length : Int) ++ name ++ attrsBytes dts lens names
  | _, _, _ => []

/-- The serialised key indices: each as `int`. -/
def keysBytes : List Int → List Nat
  | [] => []
  | k :: ks => le32 k ++ keysBytes ks

/-- The serialised form of a schema in the words of the spec: `numAttr:int,
keySize:int`, then the attributes, then the `keySize` key indices. -/
def schemaBytes (schema : Schema) : List Nat :=
  le32 schema.numAttr ++ le32 schema.keySize ++
    attrsBytes schema.dataTypes schema.typeLength schema.attrNames ++ keysBytes schema.keyAttrs

/-- The size of the serialised attributes: 12 bytes and the name, for each. -/
def attrsSize (names : List (List Nat)) : Int :=
  (names.map (fun name => 12 + (name.length : Int))).sum

/-- The size of the serialised form of a schema in the words of the spec:
8 + sum over the attributes of (12 + nameLen) + 4 * keySize bytes. -/
def serialisedSize (schema : Schema) : Int :=
  8 + attrsSize schema.attrNames + 4 * schema.keySize

/-- A value of a C `int`. -/
def isInt32 (v : Int) : Prop := -2147483648 ≤ v ∧ v < 2147483648

/-- The data types, type lengths and key indices of a schema are values of C `int`s. -/
structure SchemaInts (schema : Schema) : Prop where
  types : ∀ x ∈ schema.dataTypes, isInt32 x
  lengths : ∀ x ∈ schema.typeLength, isInt32 x
  keys : ∀ x ∈ schema.keyAttrs, isInt32 x

/-- The buffer `pg` holds the bytes `bytes` from offset `off` on. -/
def HasBytes (pg : Page) (off : Nat) (bytes : List Nat) : Prop :=
  ∀ k : Nat, k < bytes.length → pg (off + k) = bytes.getD k 0

/-- The function `markSlotAsFree`. -/
def markSlotAsFree (w : World) (bm : BM_BufferPool) (rid : RID) (recordSize : Int) : BMResult :=
  let r := pinPage w bm ⟨0, 0⟩ rid.page
  if r.rc ≠ RC.RC_OK then ⟨r.rc, r.w, r.bm⟩
  else
    let bm1 := pokeBuffer r.bm r.page.data (fun pg =>
      let pg1 : Page := fun i => if i = tombstoneOffset rid.slot recordSize then 0 else pg i
      writeInt pg1 4 (readInt pg1 4 + 1))
    let d := markDirty r.w bm1 r.page
    let u := unpinPage d.w d.bm r.page
    ⟨RC.RC_OK, u.w, u.bm⟩

/-- The function `deleteRecord`; `none` when the table is not open. -/
def deleteRecord (w : World) (rel : RM_TableData) (id : RID) :
    Option (RC × World × RM_TableData) :=
  match rel.mgmtData with
  | none => none
  | some tm =>
    let r := pinPage w tm.bm ⟨0, 0⟩ id.page
    if r.rc ≠ RC.RC_OK then some (r.rc, r.w, { rel with mgmtData := some { tm with bm := r.bm } })
    else if ¬ isSlotUsed (bufferOf r.bm r.page.data) id.slot tm.recordSize = true then
      let u := unpinPage r.w r.bm r.page
      some (RC.RC_FILE_NOT_FOUND, u.w, { rel with mgmtData := some { tm with bm := u.bm } })
    else
      let ms := markSlotAsFree r.w r.bm id tm.recordSize
      let t : World × BM_BufferPool × Int :=
        if getNextFreePage (bufferOf ms.bm r.page.data) = -1 then
          let i := pinPage ms.w ms.bm ⟨0, 0⟩ SCHEMA_PAGE
          if i.rc = RC.RC_OK then
            let bm1 := pokeBuffer i.bm r.page.data (fun pg => setNextFreePage pg tm.firstFreePage)
            let d := markDirty i.w bm1 i.page
            let u := unpinPage d.w d.bm i.page
            (u.w, u.bm, id.page)
          else (i.w, i.bm, tm.firstFreePage)
        else (ms.w, ms.bm, tm.firstFreePage)
      let d := markDirty t.1 t.2.1 r.page
      let u := unpinPage d.w d.bm r.page
      let tm1 : TableManager :=
        { tm with bm := u.bm, firstFreePage := t.2.2, numTuples := tm.numTuples - 1 }
      some (RC.RC_OK, u.w, { rel with mgmtData := some tm1 })

/-- The schema (id:int, tag:string[6]) with key attribute id: records of 10 bytes,
371 slots in a page. -/
def tagSchema : Schema :=
  { numAttr := 2,
    attrNames := [[105, 100], [116, 97, 103]],
    dataTypes := [DT_INT, DT_STRING],
    typeLength := [0, 6],
    keyAttrs := [0],
    keySize := 1 }

/-- The schema (blob:string[2041]) without key: records of 2041 bytes, two slots in
a page. -/
def blobSchema : Schema :=
  { numAttr := 1,
    attrNames := [[98, 108, 111, 98]],
    dataTypes := [DT_STRING],
    typeLength := [2041],
    keyAttrs := [],
    keySize := 0 }

/-- The image of an empty data page with `slots` slots: header `[slots, slots, -1]`,
all other bytes zero. -/
def emptyPageOf (slots : Int) : Page :=
  writeInt (writeInt (writeInt zeroPage 0 slots) 4 slots) 8 (-1)

/-- The table file "t.table" of `tagSchema` as `createTable` is specified to leave
it: the schema page that `createTable` writes, followed by the first data page with
header [371, 371, -1]. -/
def tagWorld : World :=
  let w := (createTable emptyWorld (fun _ => zeroPage) "t" tagSchema).2
  ⟨w.fs.put (tableFileName "t") (((w.fs (tableFileName "t")).getD []).take 1 ++ [emptyPageOf 371]),
    w.accessCounter⟩

/-- The header `[slotsPerPage, freeSlots, nextFreePage]` of a page buffer. -/
def headerOf (pg : Page) : List Int := [readInt pg 0, readInt pg 4, readInt pg 8]

/-- The tombstone bytes of the slots `0 .. slotsPerPage - 1` of a page buffer,
`slotsPerPage` being the first header field. -/
def tombstonesOf (pg : Page) (recordSize : Int) : List Nat :=
  (List.range (readInt pg 0).toNat).map (fun s => pg (tombstoneOffset (s : Int) recordSize))

/-- What the free-slot invariant speaks about: the header of a page buffer, the
number of its slots (among `0 .. slotsPerPage - 1`) whose tombstone is 0, and
whether all these tombstones are 0 or 1. -/
structure PageSummary where
  header : List Int
  zeroTombstones : Nat
  tombstonesValid : Bool
  deriving DecidableEq

/-- The summary of a page buffer of a table with records of `recordSize` bytes. -/
def summaryOf (recordSize : Int) (pg : Page) : PageSummary :=
  { header := headerOf pg,
    zeroTombstones := ((tombstonesOf pg recordSize).filter (fun b => b = 0)).length,
    tombstonesValid := (tombstonesOf pg recordSize).all (fun b => b = 0 ∨ b = 1) }

/-- The buffer in which the pool of an open table caches page `page` (`none` when
the table is not open or the page is not cached). -/
def cachedPage (rel : RM_TableData) (page : Int) : Option Page :=
  match rel.mgmtData with
  | none => none
  | some tm =>
    match tm.bm.mgmtData with
    | none => none
    | some m => (findFrame m page).map (fun k => (frameAt m.frames k).data)

/-- What is seen of one data page around a call: the return code of the call, the
RID it was given (or reports, for an insert), and the summary of the cached page
before and after. -/
structure PageRun where
  rc : RC
  rid : RID
  before : Option PageSummary
  after : Option PageSummary
  deriving DecidableEq

/-- The delete scenario: `openTable` of table "t" in `tagWorld` (every frame buffer
initially zero), then `deleteRecord` of the RID (1, -1); the page watched is page 1. -/
def deleteRun (fuel : Nat) : Option PageRun :=
  match openTable fuel tagWorld (fun _ => zeroPage) blankTable "t" with
  | none => none
  | some o =>
    match deleteRecord o.2.1 o.2.2 ⟨1, -1⟩ with
    | none => none
    | some d =>
      some
        { rc := d.1, rid := ⟨1, -1⟩,
          before := (cachedPage o.2.2 1).map (summaryOf 10),
          after := (cachedPage d.2.2 1).map (summaryOf 10) }

/-- A record of `blobSchema` whose payload bytes all are `b`, not yet placed. -/
def blobRecord (b : Nat) : Record := ⟨⟨-1, -1⟩, some (List.replicate 2041 b)⟩

/-- The insert scenario: `createTable` of table "t" with `blobSchema` in an empty
directory, `openTable` (the frame buffers of its pool initially hold the image of an
empty data page of two slots), two calls of `insertRecord`, and a third one, around
which page 1 is watched. -/
def insertRun (fuel : Nat) : Option PageRun :=
  let c := createTable emptyWorld (fun _ => zeroPage) "t" blobSchema
  match openTable fuel c.2 (fun _ => emptyPageOf 2) blankTable "t" with
  | none => none
  | some o =>
    match insertRecord fuel o.2.1 o.2.2 (blobRecord 65) with
    | none => none
    | some i1 =>
      match insertRecord fuel i1.2.1 i1.2.2.1 (blobRecord 66) with
      | none => none
      | some i2 =>
        match insertRecord fuel i2.2.1 i2.2.2.1 (blobRecord 67) with
        | none => none
        | some i3 =>
          some
            { rc := i3.1, rid := i3.2.2.2.id,
              before := (cachedPage i2.2.2.1 1).map (summaryOf 2041),
              after := (cachedPage i3.2.2.1 1).map (summaryOf 2041) }

/-- A `Value` object with every member zero. -/
def blankValue : Value := ⟨DT_INT, 0, [], [], false⟩

/-- The string value "ZYXW" (with its terminating zero). -/
def nameValue : Value := ⟨DT_STRING, 0, [90, 89, 88, 87, 0], [], false⟩

/-- A schema of one INT attribute whose name has 5000 bytes. -/
def longNameSchema : Schema :=
  { numAttr := 1,
    attrNames := [List.replicate 5000 97],
    dataTypes := [DT_INT],
    typeLength := [0],
    keyAttrs := [],
    keySize := 0 }

/-! ## Further definitions: updates, scans, page chains -/

/-- The function `updateRecord`; `none` when the table is not open. -/
def updateRecord (w : World) (rel : RM_TableData) (record : Record) :
    Option (RC × World × RM_TableData) :=
  match rel.mgmtData with
  | none => none
  | some tm =>
    let r := pinPage w tm.bm ⟨0, 0⟩ record.id.page
    if r.rc ≠ RC.RC_OK then some (r.rc, r.w, { rel with mgmtData := some { tm with bm := r.bm } })
    else if ¬ isSlotUsed (bufferOf r.bm r.page.data) record.id.slot tm.recordSize = true then
      let u := unpinPage r.w r.bm r.page
      some (RC.RC_FILE_NOT_FOUND, u.w, { rel with mgmtData := some { tm with bm := u.bm } })
    else
      let bm1 := pokeBuffer r.bm r.page.data (fun pg =>
        writeBytes pg (getRecordDataPointer record.id.slot tm.recordSize)
          (record.data.getD []) tm.recordSize.toNat)
      let d := markDirty r.w bm1 r.page
      let u := unpinPage d.w d.bm r.page
      some (RC.RC_OK, u.w, { rel with mgmtData := some { tm with bm := u.bm } })

/-- Modelled from the spec: the expression evaluator `evalExpr` belongs to the
expression language, which is not part of the sources; the scan takes it as a
parameter.  A call `evalExpr(record, schema, cond, &result)` gives the return code
and what `result` points to afterwards (`none` for a `NULL` pointer). -/
abbrev Evaluator (Expr : Type) := Record → Schema → Expr → RC × Option Value

/-- The struct `ScanManager`; `condition` is `none` for a `NULL` pointer. -/
structure ScanManager (Expr : Type) where
  currentPage : Int
  currentSlot : Int
  condition : Option Expr
  totalScanned : Int

/-- Modelled from the spec: the struct `RM_ScanHandle` of the record manager
interface (not part of the sources).  `rel` is the table that the handle points to,
in the state that the calls on the handle have left it in; `mgmtData` is `none` for
the `NULL` pointer. -/
structure RM_ScanHandle (Expr : Type) where
  rel : RM_TableData
  mgmtData : Option (ScanManager Expr)

/-- The function `startScan`. -/
def startScan {Expr : Type} (rel : RM_TableData) (cond : Option Expr) : RC × RM_ScanHandle Expr :=
  (RC.RC_OK, ⟨rel, some ⟨FIRST_DATA_PAGE, 0, cond, 0⟩⟩)

/-- The value of the variable `matches` of `next` after a call of the evaluator that
has returned `RC_OK` and left `result`: it starts as `true` and is replaced by
`result->v.boolV` when `result` is not `NULL` and its type is `DT_BOOL`. -/
def resultMatches (result : Option Value) : Bool :=
  match result with
  | some r => if r.dt = DT_BOOL then r.boolV else true
  | none => true

/-- How the slot loop of `next` leaves one page: `rc` is the return code when
`next` returns from inside the loop and `none` when the loop has run to its end;
`slot` is `sm->currentSlot` and `record` the content of `*record` at that point. -/
structure SlotScan where
  rc : Option RC
  slot : Int
  record : Record

/-- The slot loop `while (sm->currentSlot < numSlots)` of `next` on the buffer `data`
of page `page`, with `left` iterations to go.  The buffer of `record` has
`recordSize` bytes. -/
def nextSlots {Expr : Type} (evalExpr : Evaluator Expr) (schema : Schema) (cond : Option Expr)
    (data : Page) (page : Int) (recordSize : Int) (numSlots : Int) : Nat → Int → Record → SlotScan
  | 0, slot, record => ⟨none, slot, record⟩
  | left + 1, slot, record =>
    if slot < numSlots then
      if isSlotUsed data slot recordSize then
        let record1 : Record :=
          { id := ⟨page, slot⟩,
            data := some (readBytes data (getRecordDataPointer slot recordSize) recordSize.toNat) }
        match cond with
        | none => ⟨some RC.RC_OK, slot + 1, record1⟩
        | some c =>
          let e := evalExpr record1 schema c
          if e.1 ≠ RC.RC_OK then ⟨some e.1, slot, record1⟩
          else
            if resultMatches e.2 then ⟨some RC.RC_OK, slot + 1, record1⟩
            else nextSlots evalExpr schema cond data page recordSize numSlots left (slot + 1) record1
      else nextSlots evalExpr schema cond data page recordSize numSlots left (slot + 1) record
    else ⟨none, slot, record⟩

/-- The page loop `while (sm->currentPage >= 0)` of `next`, with `fuel` iterations
allowed (`none` when it has not ended within them). -/
def nextLoop {Expr : Type} (evalExpr : Evaluator Expr) (schema : Schema) (recordSize : Int) :
    Nat → World → BM_BufferPool → ScanManager Expr → Record →
      Option (RC × World × BM_BufferPool × ScanManager Expr × Record)
  | 0, _, _, _, _ => none
  | fuel + 1, w, bm, sm, record =>
    if sm.currentPage < 0 then some (RC.RC_RM_NO_MORE_TUPLES, w, bm, sm, record)
    else
      let r := pinPage w bm ⟨0, 0⟩ sm.currentPage
      if r.rc ≠ RC.RC_OK then some (RC.RC_RM_NO_MORE_TUPLES, r.w, r.bm, sm, record)
      else
        let data := bufferOf r.bm r.page.data
        let numSlots := readInt data 0
        let s := nextSlots evalExpr schema sm.condition data sm.currentPage recordSize numSlots
          (numSlots - sm.currentSlot).toNat sm.currentSlot record
        let u := unpinPage r.w r.bm r.page
        match s.rc with
        | some rc => some (rc, u.w, u.bm, { sm with currentSlot := s.slot }, s.record)
        | none =>
          nextLoop evalExpr schema recordSize fuel u.w u.bm
            { sm with currentPage := readInt data 8, currentSlot := 0 } s.record

/-- The function `next`; `none` when its page loop does not end within `fuel`
iterations, or when the scan or the table is not open. -/
def next {Expr : Type} (evalExpr : Evaluator Expr) (fuel : Nat) (w : World)
    (scan : RM_ScanHandle Expr) (record : Record) :
    Option (RC × World × RM_ScanHandle Expr × Record) :=
  match scan.mgmtData, scan.rel.mgmtData with
  | some sm, some tm =>
    match nextLoop evalExpr scan.rel.schema tm.recordSize fuel w tm.bm sm record with
    | none => none
    | some (rc, w1, bm1, sm1, record1) =>
      some (rc, w1,
        { rel := { scan.rel with mgmtData := some { tm with bm := bm1 } }, mgmtData := some sm1 },
        record1)
  | _, _ => none

/-- The function `closeScan`. -/
def closeScan {Expr : Type} (scan : RM_ScanHandle Expr) : RC × RM_ScanHandle Expr :=
  match scan.mgmtData with
  | none => (RC.RC_FILE_HANDLE_NOT_INIT, scan)
  | some _ => (RC.RC_OK, { scan with mgmtData := none })

/-- The table file "t.table" of a schema as `createTable` is specified to leave it:
the schema page that `createTable` writes, followed by the first data page with
header `[slotsPerPage, slotsPerPage, -1]` and no used slot. -/
def tableWorld (schema : Schema) : World :=
  let w := (createTable emptyWorld (fun _ => zeroPage) "t" schema).2
  ⟨w.fs.put (tableFileName "t") (((w.fs (tableFileName "t")).getD []).take 1 ++
      [emptyPageOf (calculateSlotsPerPage (getRecordSizeHelper schema))]),
    w.accessCounter⟩

/-- The number of slots (among `0 .. slotsPerPage - 1`) of a page buffer whose
tombstone is 1. -/
def usedSlots (recordSize : Int) (pg : Page) : Nat :=
  ((tombstonesOf pg recordSize).filter (fun b => b = 1)).length

/-- The pages reached from page `page` by following `nextFreePage` through the
buffers of the pool of an open table, at most `fuel` of them; the walk ends at a
negative link and at a page that is not cached. -/
def chainFrom (rel : RM_TableData) : Nat → Int → List Int
  | 0, _ => []
  | fuel + 1, page =>
    if page < 0 then []
    else
      match cachedPage rel page with
      | none => [page]
      | some pg => page :: chainFrom rel fuel (readInt pg 8)

/-- The number of slots with tombstone 1, summed over the pages of a list. -/
def usedOn (rel : RM_TableData) (recordSize : Int) (pages : List Int) : Nat :=
  (pages.map (fun p => ((cachedPage rel p).map (usedSlots recordSize)).getD 0)).sum

/-- The calls of `insertRecord` for the records of a list, one after the other: the
return codes and RIDs reported, with the world and table afterwards (`none` when a
loop does not end within `fuel` iterations or the table is not open). -/
def insertAll (fuel : Nat) : World → RM_TableData → List Record →
    Option (List (RC × RID) × World × RM_TableData)
  | w, rel, [] => some ([], w, rel)
  | w, rel, record :: rest =>
    match insertRecord fuel w rel record with
    | none => none
    | some i =>
      match insertAll fuel i.2.1 i.2.2.1 rest with
      | none => none
      | some t => some ((i.1, i.2.2.2.id) :: t.1, t.2)

/-- The table after the append scenario: `openTable` of table "t" in
`tableWorld blobSchema` (two slots in a page, every frame buffer initially zero),
then five calls of `insertRecord`; with the results of the calls. -/
def appendTable (fuel : Nat) : Option (List (RC × RID) × World × RM_TableData) :=
  match openTable fuel (tableWorld blobSchema) (fun _ => zeroPage) blankTable "t" with
  | none => none
  | some o =>
    insertAll fuel o.2.1 o.2.2
      [blobRecord 65, blobRecord 66, blobRecord 67, blobRecord 68, blobRecord 69]

/-- What is seen of the page chain of a table after a run: the results of the calls,
the head of the free list, the headers of pages 1, 2 and 3, and the pages reached
from page 1. -/
structure ChainRun where
  results : List (RC × RID)
  firstFreePage : Int
  headers : List (Option (List Int))
  chain : List Int
  deriving DecidableEq

/-- The append scenario, observed. -/
def appendRun (fuel : Nat) : Option ChainRun :=
  (appendTable fuel).map (fun i =>
    { results := i.1,
      firstFreePage := (i.2.2.mgmtData.map (fun tm => tm.firstFreePage)).getD 0,
      headers := [1, 2, 3].map (fun p => (cachedPage i.2.2 p).map headerOf),
      chain := chainFrom i.2.2 fuel 1 })

/-- What the tuple-count invariant speaks about: the result of `getNumTuples`, the
pages reached from page 1, the number of slots with tombstone 1 on each of them, and
the sum of these numbers. -/
structure CountRun where
  numTuples : Int
  chain : List Int
  usedPerPage : List Nat
  usedOnChain : Nat
  deriving DecidableEq

/-- The tuple count after the append scenario. -/
def countRun (fuel : Nat) : Option CountRun :=
  (appendTable fuel).map (fun i =>
    { numTuples := getNumTuples i.2.2,
      chain := chainFrom i.2.2 fuel 1,
      usedPerPage := (chainFrom i.2.2 fuel 1).map (fun p => usedOn i.2.2 2041 [p]),
      usedOnChain := usedOn i.2.2 2041 (chainFrom i.2.2 fuel 1) })

/-- A record of `tagSchema`: id 7, tag "abcdef", not yet placed. -/
def tagRecord : Record := ⟨⟨-1, -1⟩, some [7, 0, 0, 0, 97, 98, 99, 100, 101, 102]⟩

/-- The self-link scenario: `openTable` of table "t" in `tagWorld` (every frame
buffer initially zero), `insertRecord` of `tagRecord` and `deleteRecord` of the RID
that the insert reported. -/
def selfLinkTable (fuel : Nat) : Option (RC × RID × RC × World × RM_TableData) :=
  match openTable fuel tagWorld (fun _ => zeroPage) blankTable "t" with
  | none => none
  | some o =>
    match insertRecord fuel o.2.1 o.2.2 tagRecord with
    | none => none
    | some i =>
      match deleteRecord i.2.1 i.2.2.1 i.2.2.2.id with
      | none => none
      | some d => some (i.1, i.2.2.2.id, d.1, d.2.1, d.2.2)

/-- What the self-link scenario shows: the return codes and the RID, the tuple count,
the header of page 1, the pages reached from page 1 within ten steps, and whether a
scan without condition started afterwards returns from its first `next` within
`fuel` iterations of the page loop. -/
structure SelfLinkRun where
  insertRC : RC
  rid : RID
  deleteRC : RC
  numTuples : Int
  header : Option (List Int)
  chain : List Int
  nextReturns : Bool
  deriving DecidableEq

/-- The self-link scenario, observed. -/
def selfLinkRun (fuel : Nat) : Option SelfLinkRun :=
  (selfLinkTable fuel).map (fun t =>
    { insertRC := t.1, rid := t.2.1, deleteRC := t.2.2.1,
      numTuples := getNumTuples t.2.2.2.2,
      header := (cachedPage t.2.2.2.2 1).map headerOf,
      chain := chainFrom t.2.2.2.2 10 1,
      nextReturns :=
        (next (fun (_ : Record) (_ : Schema) (_ : Unit) => (RC.RC_OK, none)) fuel t.2.2.2.1
          (startScan t.2.2.2.2 none).2 ⟨⟨-1, -1⟩, none⟩).isSome })

/-- What the out-of-range scenario shows: the return codes of `getRecord`,
`updateRecord` and `deleteRecord` for the RID (1, -1), the bytes that `getRecord`
hands out, and the header of page 1 before the calls, after `updateRecord` and
after `deleteRecord`, with the tuple count at the end. -/
structure RangeRun where
  getRC : RC
  got : Option (List Nat)
  updateRC : RC
  deleteRC : RC
  headerBefore : Option (List Int)
  headerAfterUpdate : Option (List Int)
  headerAfterDelete : Option (List Int)
  numTuples : Int
  deriving DecidableEq

/-- The out-of-range scenario: `openTable` of table "t" in `tagWorld` (every frame
buffer initially zero), then `getRecord`, `updateRecord` (with the payload of
`tagRecord`) and `deleteRecord`, each for the RID (1, -1). -/
def rangeRun (fuel : Nat) : Option RangeRun :=
  match openTable fuel tagWorld (fun _ => zeroPage) blankTable "t" with
  | none => none
  | some o =>
    match getRecord o.2.1 o.2.2 ⟨1, -1⟩ ⟨⟨-1, -1⟩, none⟩ with
    | none => none
    | some g =>
      match updateRecord g.2.1 g.2.2.1 { tagRecord with id := ⟨1, -1⟩ } with
      | none => none
      | some u =>
        match deleteRecord u.2.1 u.2.2 ⟨1, -1⟩ with
        | none => none
        | some d =>
          some
            { getRC := g.1, got := g.2.2.2.data, updateRC := u.1, deleteRC := d.1,
              headerBefore := (cachedPage g.2.2.1 1).map headerOf,
              headerAfterUpdate := (cachedPage u.2.2 1).map headerOf,
              headerAfterDelete := (cachedPage d.2.2 1).map headerOf,
              numTuples := getNumTuples d.2.2 }

/-- An evaluator for the conditions `id > c` on records whose attribute 0 is the INT
attribute id; the condition is given by the constant `c`. -/
def idGreater : Evaluator Int := fun record schema c =>
  match getAttr record schema 0 none blankValue with
  | (RC.RC_OK, some v) => (RC.RC_OK, some ⟨DT_BOOL, 0, [], [], decide (v.intV > c)⟩)
  | (rc, _) => (rc, none)

/-- An evaluator for the expressions `id + c`: its result is an INT value. -/
def idPlus : Evaluator Int := fun record schema c =>
  match getAttr record schema 0 none blankValue with
  | (RC.RC_OK, some v) => (RC.RC_OK, some ⟨DT_INT, v.intV + c, [], [], false⟩)
  | (rc, _) => (rc, none)

/-- The record (id, "AAAA", 100.0) of `witnessSchema`, not yet placed; `id` is
between 0 and 255. -/
def idRecord (id : Nat) : Record := ⟨⟨-1, -1⟩, some [id, 0, 0, 0, 65, 65, 65, 65, 0, 0, 200, 66]⟩

/-- The results of `calls` calls of `next`, one after the other: the return code of
each with the RID and bytes of the record it leaves in `*record` (`none` when a
page loop does not end within `fuel` iterations or the scan is not open). -/
def scanCalls {Expr : Type} (evalExpr : Evaluator Expr) (fuel : Nat) :
    Nat → World → RM_ScanHandle Expr → Record → Option (List (RC × Record))
  | 0, _, _, _ => some []
  | calls + 1, w, scan, record =>
    match next evalExpr fuel w scan record with
    | none => none
    | some n =>
      match scanCalls evalExpr fuel calls n.2.1 n.2.2.1 n.2.2.2 with
      | none => none
      | some t => some ((n.1, n.2.2.2) :: t)

/-- The scan scenario: `openTable` of table "t" in `tableWorld witnessSchema` (every
frame buffer initially zero), `insertRecord` of the records with ids 1 to 5,
`startScan` with condition `cond` and `calls` calls of `next`. -/
def scanRun (evalExpr : Evaluator Int) (cond : Option Int) (fuel calls : Nat) :
    Option (List (RC × Record)) :=
  match openTable fuel (tableWorld witnessSchema) (fun _ => zeroPage) blankTable "t" with
  | none => none
  | some o =>
    match insertAll fuel o.2.1 o.2.2 [idRecord 1, idRecord 2, idRecord 3, idRecord 4, idRecord 5] with
    | none => none
    | some i => scanCalls evalExpr fuel calls i.2.1 (startScan i.2.2 cond).2 ⟨⟨-1, -1⟩, none⟩

/-- Every frame of the list whose dirty flag is set holds a page. -/
def DirtyHoldsPage (frames : List BM_PageFrame) : Prop :=
  ∀ f ∈ frames, f.dirty = true → f.pageNum ≠ NO_PAGE

/-- A run with every kind of call: pin 1, markDirty, unpin, pin 2, forcePage,
forceFlushPool, markDirty of page 2. -/
def everyKindOps : List Op :=
  [Op.pin 1, Op.markDirty ⟨1, 0⟩, Op.unpin ⟨1, 0⟩, Op.pin 2, Op.forcePage ⟨2, 1⟩,
    Op.forceFlush, Op.markDirty ⟨2, 1⟩]

/-- The frame indices that the loop of `evictFIFO` takes from the queue `q` in
`attempts` iterations, starting at queue position `front`. -/
def fifoCandidates (numPages : Nat) (q : List Nat) : Nat → Nat → List Nat
  | 0, _ => []
  | attempts + 1, front => q.getD front 0 :: fifoCandidates numPages q attempts ((front + 1) % numPages)

/-- The calls after which a FIFO pool of two frames has lost frame 0 from its queue:
pin 1, pin 2, unpin 2, pin 3, unpin 1. -/
def staleQueueOps : List Op :=
  [Op.pin 1, Op.pin 2, Op.unpin ⟨2, 1⟩, Op.pin 3, Op.unpin ⟨1, 0⟩]

/-- Page `page` is cached in frame `k` of the pool with buffer `pg` and fix count
`c`, and `k` is the frame that `findFrame` returns for `page`. -/
def CachedAt (bm : BM_BufferPool) (page : Int) (k : Nat) (pg : Page) (c : Int) : Prop :=
  ∃ m, bm.mgmtData = some m ∧ findFrame m page = some k ∧ (frameAt m.frames k).data = pg ∧
    (frameAt m.frames k).fixCount = c

/-- The buffer of a page after the stores of `markSlotAsFree` for slot `slot`: the
tombstone is 0 and `freeSlots` is one higher. -/
def freedPage (pg : Page) (slot recordSize : Int) : Page :=
  writeInt (fun i => if i = tombstoneOffset slot recordSize then 0 else pg i) 4
    (readInt (fun i => if i = tombstoneOffset slot recordSize then 0 else pg i) 4 + 1)

/-- The buffer of a page after the stores of `markSlotAsUsed` for slot `slot`: the
tombstone is 1 and `freeSlots` is one lower. -/
def usedPage (pg : Page) (slot recordSize : Int) : Page :=
  writeInt (fun i => if i = tombstoneOffset slot recordSize then 1 else pg i) 4
    (readInt (fun i => if i = tombstoneOffset slot recordSize then 1 else pg i) 4 - 1)

/-- Whether `next` yields a used slot whose record is `record`: there is no
condition, or the evaluator (which has returned `RC_OK`) gives no value, a value
that is not a BOOL, or the BOOL true. -/
def passes {Expr : Type} (evalExpr : Evaluator Expr) (schema : Schema) (cond : Option Expr)
    (record : Record) : Bool :=
  match cond with
  | none => true
  | some c => resultMatches (evalExpr record schema c).2

/-- The record in slot `slot` of page `page` as `getRecord` and `next` hand it out,
the payloads of the slots `0, 1, ...` of the page being `datas`. -/
def placedRecord (page : Int) (datas : List (List Nat)) (slot : Nat) : Record :=
  ⟨⟨page, (slot : Int)⟩, some (datas.getD slot [])⟩

/-- The records of the slots `slot, slot + 1, ...` of a page that a scan yields, in
slot order. -/
def yieldedFrom {Expr : Type} (evalExpr : Evaluator Expr) (schema : Schema) (cond : Option Expr)
    (page : Int) (datas : List (List Nat)) (slot : Nat) : List Record :=
  ((List.range' slot (datas.length - slot)).map (placedRecord page datas)).filter
    (passes evalExpr schema cond)

/-- A data page buffer of a table with records of `recordSize` bytes and `slots`
slots in a page, whose slots `0 .. datas.length - 1` are in use and hold the
payloads `datas`, whose other slots have tombstone 0, whose header counts the free
slots, and whose `nextFreePage` field is `link`. -/
structure PageHolds (pg : Page) (recordSize : Int) (slots : Nat) (datas : List (List Nat))
    (link : Int) : Prop where
  size : 0 ≤ recordSize
  count : datas.length ≤ slots
  slotsField : readInt pg 0 = (slots : Int)
  freeField : readInt pg 4 = (slots : Int) - (datas.length : Int)
  linkField : readInt pg 8 = link
  used : ∀ i : Nat, i < datas.length →
    pg (tombstoneOffset (i : Int) recordSize) = 1 ∧
    readBytes pg (getRecordDataPointer (i : Int) recordSize) recordSize.toNat = datas.getD i []
  unused : ∀ i : Nat, datas.length ≤ i → i < slots → pg (tombstoneOffset (i : Int) recordSize) = 0

/-- An open table whose free-list head is page 1, with page 1 cached in frame `k`
with buffer `pg` and fix count `c`. -/
structure OnFirstPage (rel : RM_TableData) (tm : TableManager) (k : Nat) (pg : Page) (c : Int) :
    Prop where
  isOpen : rel.mgmtData = some tm
  head : tm.firstFreePage = FIRST_DATA_PAGE
  cached : CachedAt tm.bm FIRST_DATA_PAGE k pg c
  fix : 0 ≤ c

/-- The table handle after `openTable` of table "t" in `tableWorld schema`, every
frame buffer initially zero (a blank handle should `openTable` not return). -/
def openedTable (schema : Schema) : RM_TableData :=
  match openTable 5 (tableWorld schema) (fun _ => zeroPage) blankTable "t" with
  | some o => o.2.2
  | none => blankTable

/-- The world after `openTable` of table "t" in `tableWorld schema`. -/
def openedWorld (schema : Schema) : World :=
  match openTable 5 (tableWorld schema) (fun _ => zeroPage) blankTable "t" with
  | some o => o.2.1
  | none => tableWorld schema

/-- The table manager of a table handle (a blank one when the table is not open). -/
def managerOf (rel : RM_TableData) : TableManager :=
  rel.mgmtData.getD ⟨blankPool, 0, 0, ⟨0, [], [], [], [], 0⟩, 0⟩

/-- The buffer of frame 1 of the pool of a table. -/
def frameOne (rel : RM_TableData) : Page := (frameAt (dataOf (managerOf rel).bm).frames 1).data

/-- The buffer that a `pinPage` of page `page` on the pool of a table delivers. -/
def pinnedBuffer (w : World) (rel : RM_TableData) (page : Int) : Page :=
  bufferOf (pinPage w (managerOf rel).bm ⟨0, 0⟩ page).bm
    (pinPage w (managerOf rel).bm ⟨0, 0⟩ page).page.data

/-- The records of `witnessSchema` with the ids 1 to 5, not yet placed. -/
def idRecords : List Record := [idRecord 1, idRecord 2, idRecord 3, idRecord 4, idRecord 5]

/-- The table of `tagSchema` after `openTable`, `insertRecord` of a record and
`deleteRecord` of that record, as in `selfLinkTable`. -/
def selfLinkedTable : RM_TableData :=
  match selfLinkTable 5 with
  | some t => t.2.2.2.2
  | none => blankTable

/-- The world after the calls of `selfLinkTable`. -/
def selfLinkedWorld : World :=
  match selfLinkTable 5 with
  | some t => t.2.2.2.1
  | none => tagWorld

/-- The table of `tagSchema` after `openTable` and `insertRecord` of `tagRecord`. -/
def tagTable : RM_TableData :=
  match insertRecord 5 (openedWorld tagSchema) (openedTable tagSchema) tagRecord with
  | some i => i.2.2.1
  | none => blankTable

/-- The world after `openTable` and `insertRecord` of `tagRecord`. -/
def tagTableWorld : World :=
  match insertRecord 5 (openedWorld tagSchema) (openedTable tagSchema) tagRecord with
  | some i => i.2.1
  | none => tagWorld

/-- The table of `witnessSchema` after `openTable` and `insertRecord` of the records
with the ids 1 to 5. -/
def idTable : RM_TableData :=
  match insertAll 5 (openedWorld witnessSchema) (openedTable witnessSchema) idRecords with
  | some i => i.2.2
  | none => blankTable

/-- The world after `openTable` and `insertRecord` of the records with the ids 1 to 5. -/
def idTableWorld : World :=
  match insertAll 5 (openedWorld witnessSchema) (openedTable witnessSchema) idRecords with
  | some i => i.2.1
  | none => tableWorld witnessSchema

/-! ## Lemmas on frames and eviction -/

theorem frameAt_eq_of_getElem? {l : List BM_PageFrame} {i : Nat} {f : BM_PageFrame}
    (h : l[i]? = some f) : frameAt l i = f := by
  simp [frameAt, List.getD_eq_getElem?_getD, h]

theorem frameAt_set_self {l : List BM_PageFrame} {i : Nat} (x : BM_PageFrame)
    (h : i < l.length) : frameAt (l.set i x) i = x := by
  simp [frameAt, List.getD_eq_getElem?_getD, List.getElem?_set, h]

theorem frameAt_set_ne {l : List BM_PageFrame} {i j : Nat} (x : BM_PageFrame)
    (h : i ≠ j) : frameAt (l.set i x) j = frameAt l j := by
  simp [frameAt, List.getD_eq_getElem?_getD, List.getElem?_set, h]

theorem findFrameFrom_some {p : Int} :
    ∀ (l : List BM_PageFrame) (k i : Nat), findFrameFrom p l k = some i →
      k ≤ i ∧ ∃ f, l[i - k]? = some f ∧ f.pageNum = p
  | [], k, i, h => by simp [findFrameFrom] at h
  | f :: rest, k, i, h => by
    unfold findFrameFrom at h
    split at h
    · rename_i hp
      simp at h
      subst h
      exact ⟨le_refl _, f, by simp, hp⟩
    · obtain ⟨hk, g, hg, hgp⟩ := findFrameFrom_some rest (k + 1) i h
      refine ⟨by omega, g, ?_, hgp⟩
      have : i - k = (i - (k + 1)) + 1 := by omega
      rw [this]
      simpa using hg

theorem findFrameFrom_none {p : Int} :
    ∀ (l : List BM_PageFrame) (k : Nat), findFrameFrom p l k = none →
      ∀ f ∈ l, f.pageNum ≠ p
  | [], _, _ => by simp
  | f :: rest, k, h => by
    unfold findFrameFrom at h
    split at h
    · simp at h
    · rename_i hp
      intro g hg
      rcases List.mem_cons.1 hg with rfl | hg
      · exact hp
      · exact findFrameFrom_none rest (k + 1) h g hg

theorem findFrame_some {m : BM_MgmtData} {p : Int} {i : Nat} (h : findFrame m p = some i) :
    ∃ f, m.frames[i]? = some f ∧ f.pageNum = p := by
  obtain ⟨_, f, hf, hp⟩ := findFrameFrom_some m.frames 0 i h
  exact ⟨f, by simpa using hf, hp⟩

theorem findFrame_none {m : BM_MgmtData} {p : Int} (h : findFrame m p = none) :
    ∀ f ∈ m.frames, f.pageNum ≠ p :=
  findFrameFrom_none m.frames 0 h

theorem RefCleared.refl (a : List BM_PageFrame) : RefCleared a a := by
  unfold RefCleared
  induction a with
  | nil => exact List.Forall₂.nil
  | cons x rest ih => exact List.Forall₂.cons (Or.inl rfl) ih

theorem RefCleared.length_eq {a b : List BM_PageFrame} (h : RefCleared a b) :
    a.length = b.length := List.Forall₂.length_eq h

theorem RefCleared.trans {a b c : List BM_PageFrame} (h1 : RefCleared a b)
    (h2 : RefCleared b c) : RefCleared a c := by
  unfold RefCleared at *
  induction h1 generalizing c with
  | nil => cases h2; exact List.Forall₂.nil
  | cons hxy _ ih =>
    cases h2 with
    | cons hyz hrest =>
      refine List.Forall₂.cons ?_ (ih hrest)
      rcases hxy with rfl | ⟨hx, rfl⟩
      · exact hyz
      · rcases hyz with rfl | ⟨_, rfl⟩
        · exact Or.inr ⟨hx, rfl⟩
        · exact Or.inr ⟨hx, rfl⟩

theorem RefCleared.getElem? {a b : List BM_PageFrame} (h : RefCleared a b) :
    ∀ (i : Nat) (f : BM_PageFrame), a[i]? = some f →
      ∃ g, b[i]? = some g ∧ (g = f ∨ (f.fixCount = 0 ∧ g = { f with refBit := false })) := by
  unfold RefCleared at h
  induction h with
  | nil => intro i f hf; simp at hf
  | cons hxy _ ih =>
    intro i f hf
    cases i with
    | zero =>
      simp at hf
      subst hf
      exact ⟨_, by simp, hxy⟩
    | succ i =>
      simp at hf
      obtain ⟨g, hg, hgf⟩ := ih i f hf
      exact ⟨g, by simpa using hg, hgf⟩

theorem RefCleared.cases_at {a b : List BM_PageFrame} (h : RefCleared a b) (i : Nat) :
    frameAt b i = frameAt a i ∨
      ((frameAt a i).fixCount = 0 ∧ frameAt b i = { frameAt a i with refBit := false }) := by
  by_cases hi : i < a.length
  · obtain ⟨g, hg, hgf⟩ := h.getElem? i a[i] (List.getElem?_eq_getElem hi)
    rw [frameAt_eq_of_getElem? hg, frameAt_eq_of_getElem? (List.getElem?_eq_getElem hi)]
    exact hgf
  · left
    have hb : b.length ≤ i := by rw [← h.length_eq]; omega
    simp [frameAt, List.getD_eq_getElem?_getD, List.getElem?_eq_none hb,
      List.getElem?_eq_none (Nat.le_of_not_lt hi)]

theorem RefCleared.pinned {a b : List BM_PageFrame} (h : RefCleared a b) {i : Nat}
    {f : BM_PageFrame} (hf : a[i]? = some f) (hfix : f.fixCount ≠ 0) : b[i]? = some f := by
  obtain ⟨g, hg, hgf⟩ := h.getElem? i f hf
  rcases hgf with rfl | ⟨h0, _⟩
  · exact hg
  · exact absurd h0 hfix

theorem RefCleared.clear {a b : List BM_PageFrame} (h : RefCleared a b) (k : Nat)
    (hk : (frameAt b k).fixCount = 0) :
    RefCleared a (b.set k { frameAt b k with refBit := false }) := by
  unfold RefCleared at *
  induction h generalizing k with
  | nil => simp
  | @cons x y l1 l2 hxy hrest ih =>
    cases k with
    | zero =>
      simp only [List.set_cons_zero]
      refine List.Forall₂.cons ?_ hrest
      have hy : frameAt (y :: l2) 0 = y := by simp [frameAt]
      rw [hy] at hk ⊢
      rcases hxy with rfl | ⟨hx, rfl⟩
      · exact Or.inr ⟨hk, rfl⟩
      · exact Or.inr ⟨hx, rfl⟩
    | succ k =>
      simp only [List.set_cons_succ]
      have hy : frameAt (y :: l2) (k + 1) = frameAt l2 k := by
        simp [frameAt]
      rw [hy] at hk ⊢
      exact List.Forall₂.cons hxy (ih k hk)

/-- Reference-bit clearing keeps page number, buffer, dirty flag and fix count of every frame. -/
theorem RefCleared.fields {a b : List BM_PageFrame} (h : RefCleared a b) (i : Nat) :
    (frameAt b i).pageNum = (frameAt a i).pageNum ∧ (frameAt b i).data = (frameAt a i).data ∧
    (frameAt b i).dirty = (frameAt a i).dirty ∧ (frameAt b i).fixCount = (frameAt a i).fixCount ∧
    (frameAt b i).lastUsed = (frameAt a i).lastUsed := by
  rcases h.cases_at i with h1 | ⟨_, h1⟩ <;> simp [h1]


theorem EvictOK.transfer_ok {w : World} {m m' : BM_MgmtData} {j : Nat} {w1 : World}
    {m1 : BM_MgmtData} (h : EvictOK w m' j w1 m1) (hr : RefCleared m.frames m'.frames)
    (hfh : m'.fileHandle = m.fileHandle) (hnr : m'.numReadIO = m.numReadIO)
    (hnw : m'.numWriteIO = m.numWriteIO) (hq : m'.fifoQueue = m.fifoQueue)
    (hrear : m'.fifoRear = m.fifoRear) : EvictOK w m j w1 m1 := by
  obtain ⟨hp, hd, hdirty, hfix, _⟩ := hr.fields j
  refine ⟨hr.trans h.ref, ?_, h.acc, ?_, ?_, ?_, ?_, ?_⟩
  · rw [← hfix]; exact h.fix
  · rw [h.reads, hnr]
  · rw [h.queue, hq]
  · rw [h.rear, hrear]
  · intro hdj
    have := h.dirtyCase (by rw [hdirty]; exact hdj)
    rw [hp, hd, hfh, hnw] at this
    exact this
  · intro hdj
    have := h.cleanCase (by rw [hdirty]; exact hdj)
    rw [hfh, hnw] at this
    exact this

theorem EvictFail.transfer_fail {w : World} {m m' : BM_MgmtData} {w1 : World}
    {m1 : BM_MgmtData} (h : EvictFail w m' w1 m1) (hr : RefCleared m.frames m'.frames)
    (hfh : m'.fileHandle = m.fileHandle) (hnr : m'.numReadIO = m.numReadIO)
    (hnw : m'.numWriteIO = m.numWriteIO) (hq : m'.fifoQueue = m.fifoQueue)
    (hrear : m'.fifoRear = m.fifoRear) : EvictFail w m w1 m1 :=
  ⟨hr.trans h.ref, h.world, by rw [h.reads, hnr], by rw [h.writes, hnw],
    by rw [h.handle, hfh], by rw [h.queue, hq], by rw [h.rear, hrear]⟩

/-- An eviction step that picks frame `j` of `m` directly. -/
theorem EvictOK.pick_dirty (w : World) (m m' : BM_MgmtData) (j : Nat)
    (hframes : m'.frames = m.frames) (hfh : m'.fileHandle = m.fileHandle)
    (hnr : m'.numReadIO = m.numReadIO) (hnw : m'.numWriteIO = m.numWriteIO)
    (hq : m'.fifoQueue = m.fifoQueue) (hrear : m'.fifoRear = m.fifoRear)
    (hfix : (frameAt m.frames j).fixCount = 0) (hd : (frameAt m.frames j).dirty = true) :
    EvictOK w m j (writeBack w m' (frameAt m'.frames j)).1
      (writeBack w m' (frameAt m'.frames j)).2 := by
  refine ⟨?_, hfix, rfl, ?_, ?_, ?_, ?_, ?_⟩
  · simp only [writeBack, hframes]; exact RefCleared.refl _
  · simp [writeBack, hnr]
  · simp [writeBack, hq]
  · simp [writeBack, hrear]
  · intro _
    simp [writeBack, hframes, hfh, hnw]
  · intro h; rw [hd] at h; cases h

theorem EvictOK.pick_clean (w : World) (m m' : BM_MgmtData) (j : Nat)
    (hframes : m'.frames = m.frames) (hfh : m'.fileHandle = m.fileHandle)
    (hnr : m'.numReadIO = m.numReadIO) (hnw : m'.numWriteIO = m.numWriteIO)
    (hq : m'.fifoQueue = m.fifoQueue) (hrear : m'.fifoRear = m.fifoRear)
    (hfix : (frameAt m.frames j).fixCount = 0) (hd : ¬ (frameAt m.frames j).dirty = true) :
    EvictOK w m j w m' := by
  refine ⟨?_, hfix, rfl, hnr, hq, hrear, ?_, ?_⟩
  · rw [hframes]; exact RefCleared.refl _
  · intro h; exact absurd h hd
  · intro _; exact ⟨rfl, hfh, hnw⟩

theorem evictFIFOLoop_some (n : Nat) :
    ∀ (k : Nat) (w : World) (m : BM_MgmtData) (j : Nat) (w1 : World) (m1 : BM_MgmtData),
      evictFIFOLoop n k w m = (some j, w1, m1) → EvictOK w m j w1 m1
  | 0, w, m, j, w1, m1, h => by simp [evictFIFOLoop] at h
  | k + 1, w, m, j, w1, m1, h => by
    simp only [evictFIFOLoop] at h
    split at h
    · rename_i hfix
      split at h
      · rename_i hd
        simp only [Prod.mk.injEq, Option.some.injEq] at h
        obtain ⟨rfl, rfl, rfl⟩ := h
        exact EvictOK.pick_dirty w m _ _ rfl rfl rfl rfl rfl rfl hfix hd
      · rename_i hd
        simp only [Prod.mk.injEq, Option.some.injEq] at h
        obtain ⟨rfl, rfl, rfl⟩ := h
        exact EvictOK.pick_clean w m _ _ rfl rfl rfl rfl rfl rfl hfix hd
    · have h1 := evictFIFOLoop_some n k w _ j w1 m1 h
      exact EvictOK.transfer_ok h1 (RefCleared.refl _) rfl rfl rfl rfl rfl

theorem evictFIFOLoop_none (n : Nat) :
    ∀ (k : Nat) (w : World) (m : BM_MgmtData) (w1 : World) (m1 : BM_MgmtData),
      evictFIFOLoop n k w m = (none, w1, m1) → EvictFail w m w1 m1
  | 0, w, m, w1, m1, h => by
    simp only [evictFIFOLoop, Prod.mk.injEq, true_and] at h
    obtain ⟨rfl, rfl⟩ := h
    exact ⟨RefCleared.refl _, rfl, rfl, rfl, rfl, rfl, rfl⟩
  | k + 1, w, m, w1, m1, h => by
    simp only [evictFIFOLoop] at h
    split at h
    · split at h <;> simp at h
    · have h1 := evictFIFOLoop_none n k w _ w1 m1 h
      exact EvictFail.transfer_fail h1 (RefCleared.refl _) rfl rfl rfl rfl rfl


theorem evictCLOCKLoop_some (n : Nat) :
    ∀ (k : Nat) (w : World) (m : BM_MgmtData) (j : Nat) (w1 : World) (m1 : BM_MgmtData),
      evictCLOCKLoop n k w m = (some j, w1, m1) → EvictOK w m j w1 m1
  | 0, w, m, j, w1, m1, h => by simp [evictCLOCKLoop] at h
  | k + 1, w, m, j, w1, m1, h => by
    simp only [evictCLOCKLoop] at h
    split at h
    · rename_i hfix
      split at h
      · rename_i href
        split at h
        · rename_i hd
          simp only [Prod.mk.injEq, Option.some.injEq] at h
          obtain ⟨rfl, rfl, rfl⟩ := h
          have h1 := EvictOK.pick_dirty w m m m.clockHand rfl rfl rfl rfl rfl rfl hfix hd
          exact ⟨h1.ref, h1.fix, h1.acc, h1.reads, h1.queue, h1.rear, h1.dirtyCase, h1.cleanCase⟩
        · rename_i hd
          simp only [Prod.mk.injEq, Option.some.injEq] at h
          obtain ⟨rfl, rfl, rfl⟩ := h
          exact EvictOK.pick_clean w m _ _ rfl rfl rfl rfl rfl rfl hfix hd
      · have h1 := evictCLOCKLoop_some n k w _ j w1 m1 h
        exact EvictOK.transfer_ok h1 ((RefCleared.refl _).clear _ hfix) rfl rfl rfl rfl rfl
    · have h1 := evictCLOCKLoop_some n k w _ j w1 m1 h
      exact EvictOK.transfer_ok h1 (RefCleared.refl _) rfl rfl rfl rfl rfl

theorem evictCLOCKLoop_none (n : Nat) :
    ∀ (k : Nat) (w : World) (m : BM_MgmtData) (w1 : World) (m1 : BM_MgmtData),
      evictCLOCKLoop n k w m = (none, w1, m1) → EvictFail w m w1 m1
  | 0, w, m, w1, m1, h => by
    simp only [evictCLOCKLoop, Prod.mk.injEq, true_and] at h
    obtain ⟨rfl, rfl⟩ := h
    exact ⟨RefCleared.refl _, rfl, rfl, rfl, rfl, rfl, rfl⟩
  | k + 1, w, m, w1, m1, h => by
    simp only [evictCLOCKLoop] at h
    split at h
    · rename_i hfix
      split at h
      · split at h <;> simp at h
      · have h1 := evictCLOCKLoop_none n k w _ w1 m1 h
        exact EvictFail.transfer_fail h1 ((RefCleared.refl _).clear _ hfix) rfl rfl rfl rfl rfl
    · have h1 := evictCLOCKLoop_none n k w _ w1 m1 h
      exact EvictFail.transfer_fail h1 (RefCleared.refl _) rfl rfl rfl rfl rfl

/-- The scan of `evictLRU` returns the carried index or an index of an unpinned,
bound frame of the scanned list. -/
theorem evictLRUScan_some :
    ∀ (l : List BM_PageFrame) (i : Nat) (o : Option Nat) (t : Int) (j : Nat),
      (evictLRUScan l i o t).1 = some j →
        o = some j ∨ (i ≤ j ∧ ∃ f, l[j - i]? = some f ∧ f.fixCount = 0 ∧ f.pageNum ≠ NO_PAGE)
  | [], i, o, t, j, h => by simp [evictLRUScan] at h; exact Or.inl h
  | f :: rest, i, o, t, j, h => by
    have shift : ∀ (g : BM_PageFrame → Prop),
        (i + 1 ≤ j ∧ ∃ f', rest[j - (i + 1)]? = some f' ∧ g f') →
        (i ≤ j ∧ ∃ f', (f :: rest)[j - i]? = some f' ∧ g f') := by
      rintro g ⟨hij, f', hf', hg⟩
      refine ⟨by omega, f', ?_, hg⟩
      have : j - i = (j - (i + 1)) + 1 := by omega
      rw [this]; simpa using hf'
    simp only [evictLRUScan] at h
    split at h
    · rename_i hc
      split at h
      · rcases evictLRUScan_some rest (i + 1) (some i) f.lastUsed j h with h1 | h1
        · simp at h1
          subst h1
          exact Or.inr ⟨le_refl _, f, by simp, hc.1, hc.2⟩
        · exact Or.inr (shift (fun f' => f'.fixCount = 0 ∧ f'.pageNum ≠ NO_PAGE) h1)
      · rcases evictLRUScan_some rest (i + 1) o t j h with h1 | h1
        · exact Or.inl h1
        · exact Or.inr (shift (fun f' => f'.fixCount = 0 ∧ f'.pageNum ≠ NO_PAGE) h1)
    · rcases evictLRUScan_some rest (i + 1) o t j h with h1 | h1
      · exact Or.inl h1
      · exact Or.inr (shift (fun f' => f'.fixCount = 0 ∧ f'.pageNum ≠ NO_PAGE) h1)

theorem evictLRU_some {w : World} {m : BM_MgmtData} {j : Nat} {w1 : World} {m1 : BM_MgmtData}
    (h : evictLRU w m = (some j, w1, m1)) : EvictOK w m j w1 m1 ∧ j < m.frames.length := by
  unfold evictLRU at h
  split at h
  · simp at h
  · rename_i k hk
    have hscan := evictLRUScan_some m.frames 0 none INT_MAX k hk
    rcases hscan with h0 | ⟨_, f, hf, hfix, _⟩
    · cases h0
    rw [Nat.sub_zero] at hf
    have hlt : k < m.frames.length := by
      by_contra hc
      rw [List.getElem?_eq_none (Nat.le_of_not_lt hc)] at hf
      cases hf
    have hfa : (frameAt m.frames k).fixCount = 0 := by
      rw [frameAt_eq_of_getElem? hf]; exact hfix
    split at h
    · rename_i hd
      simp only [Prod.mk.injEq, Option.some.injEq] at h
      obtain ⟨rfl, rfl, rfl⟩ := h
      exact ⟨EvictOK.pick_dirty w m m k rfl rfl rfl rfl rfl rfl hfa hd, hlt⟩
    · rename_i hd
      simp only [Prod.mk.injEq, Option.some.injEq] at h
      obtain ⟨rfl, rfl, rfl⟩ := h
      exact ⟨EvictOK.pick_clean w m m k rfl rfl rfl rfl rfl rfl hfa hd, hlt⟩

theorem evictLRU_none {w : World} {m : BM_MgmtData} {w1 : World} {m1 : BM_MgmtData}
    (h : evictLRU w m = (none, w1, m1)) : EvictFail w m w1 m1 := by
  unfold evictLRU at h
  split at h
  · simp only [Prod.mk.injEq, true_and] at h
    obtain ⟨rfl, rfl⟩ := h
    exact ⟨RefCleared.refl _, rfl, rfl, rfl, rfl, rfl, rfl⟩
  · split at h <;> simp at h

theorem evict_some {w : World} {bm : BM_BufferPool} {m : BM_MgmtData} {j : Nat} {w1 : World}
    {m1 : BM_MgmtData} (h : evict w bm m = (some j, w1, m1)) : EvictOK w m j w1 m1 := by
  unfold evict at h
  split at h
  · exact evictFIFOLoop_some _ _ _ _ _ _ _ h
  · exact (evictLRU_some h).1
  · exact evictCLOCKLoop_some _ _ _ _ _ _ _ h
  · exact (evictLRU_some h).1
  · exact (evictLRU_some h).1

theorem evict_none {w : World} {bm : BM_BufferPool} {m : BM_MgmtData} {w1 : World}
    {m1 : BM_MgmtData} (h : evict w bm m = (none, w1, m1)) : EvictFail w m w1 m1 := by
  unfold evict at h
  split at h
  · exact evictFIFOLoop_none _ _ _ _ _ _ h
  · exact evictLRU_none h
  · exact evictCLOCKLoop_none _ _ _ _ _ _ h
  · exact evictLRU_none h
  · exact evictLRU_none h


theorem pinPageLoad_frames (w : World) (bm : BM_BufferPool) (m : BM_MgmtData) (j : Nat)
    (p : Int) :
    framesOf (pinPageLoad w bm m j p).bm =
      m.frames.set j
        { pageNum := p,
          data := (readBlock w.fs p m.fileHandle (frameAt m.frames j).data).2.2,
          dirty := false, fixCount := 1, lastUsed := w.accessCounter + 1, accessCount := 1,
          refBit := true } := by
  unfold pinPageLoad framesOf
  cases bm.strategy <;> cases m.fifoQueue <;> rfl

theorem pinPageLoad_rc (w : World) (bm : BM_BufferPool) (m : BM_MgmtData) (j : Nat) (p : Int) :
    (pinPageLoad w bm m j p).rc = RC.RC_OK := rfl

theorem pinPageLoad_page (w : World) (bm : BM_BufferPool) (m : BM_MgmtData) (j : Nat)
    (p : Int) : (pinPageLoad w bm m j p).page = ⟨p, j⟩ := rfl

/-- The four outcomes of `pinPage` on an initialised pool. -/
theorem pinPage_cases (w : World) (bm : BM_BufferPool) (m : BM_MgmtData) (page : BM_PageHandle)
    (p : Int) (hm : bm.mgmtData = some m) :
    (∃ i, findFrame m p = some i ∧
      pinPage w bm page p =
        ⟨RC.RC_OK, { w with accessCounter := w.accessCounter + 1 },
          { bm with mgmtData := some { m with frames := m.frames.set i (
              { frameAt m.frames i with
                fixCount := (frameAt m.frames i).fixCount + 1,
                lastUsed := w.accessCounter + 1,
                accessCount := (frameAt m.frames i).accessCount + 1,
                refBit := true }) } },
          ⟨p, i⟩⟩) ∨
    (findFrame m p = none ∧ ∃ i, findFreeFrame m = some i ∧
      pinPage w bm page p = pinPageLoad w bm m i p) ∨
    (findFrame m p = none ∧ findFreeFrame m = none ∧ ∃ j w1 m1,
      evict w bm m = (some j, w1, m1) ∧ pinPage w bm page p = pinPageLoad w1 bm m1 j p) ∨
    (findFrame m p = none ∧ findFreeFrame m = none ∧ ∃ w1 m1,
      evict w bm m = (none, w1, m1) ∧
      pinPage w bm page p = ⟨RC.RC_WRITE_FAILED, w1, { bm with mgmtData := some m1 }, page⟩) := by
  cases hff : findFrame m p with
  | some i => exact Or.inl ⟨i, rfl, by simp [pinPage, hm, hff]⟩
  | none =>
    right
    cases hfree : findFreeFrame m with
    | some i => exact Or.inl ⟨rfl, i, rfl, by simp [pinPage, hm, hff, hfree]⟩
    | none =>
      right
      rcases hev : evict w bm m with ⟨o, w1, m1⟩
      cases o with
      | some j => exact Or.inl ⟨rfl, rfl, j, w1, m1, rfl, by simp [pinPage, hm, hff, hfree, hev]⟩
      | none => exact Or.inr ⟨rfl, rfl, w1, m1, rfl, by simp [pinPage, hm, hff, hfree, hev]⟩


/-- C10: under every strategy, a frame that holds a page other than NO_PAGE with
fix count > 0 is left as it is by a `pinPage` call for another page: afterwards
the same frame holds the same page with the same buffer, dirty flag and fix count. -/
theorem pinPage_keeps_pinned_frame (w : World) (bm : BM_BufferPool) (page : BM_PageHandle)
    (q : Int) (i : Nat) (f : BM_PageFrame) (hf : (framesOf bm)[i]? = some f)
    (hbound : f.pageNum ≠ NO_PAGE) (hpin : 0 < f.fixCount) (hq : q ≠ f.pageNum) :
    ∃ f', (framesOf (pinPage w bm page q).bm)[i]? = some f' ∧ f'.pageNum = f.pageNum ∧
      f'.data = f.data ∧ f'.dirty = f.dirty ∧ f'.fixCount = f.fixCount := by
  refine ⟨f, ?_, rfl, rfl, rfl, rfl⟩
  cases hm : bm.mgmtData with
  | none => simp [framesOf, hm] at hf
  | some m =>
    have hfm : m.frames[i]? = some f := by simpa [framesOf, hm] using hf
    have hne : ∀ k g, m.frames[k]? = some g → (g.pageNum = q ∨ g.pageNum = NO_PAGE) → k ≠ i := by
      intro k g hg hgp hki
      subst hki
      rw [hfm] at hg
      cases hg
      rcases hgp with h | h
      · exact hq h.symm
      · exact hbound h
    rcases pinPage_cases w bm m page q hm with ⟨k, hk, he⟩ | ⟨_, k, hk, he⟩ |
        ⟨_, _, j, w1, m1, hev, he⟩ | ⟨_, _, w1, m1, hev, he⟩
    · obtain ⟨g, hg, hgp⟩ := findFrame_some hk
      rw [he]
      simp only [framesOf]
      rw [List.getElem?_set_ne (hne k g hg (Or.inl hgp))]
      exact hfm
    · obtain ⟨g, hg, hgp⟩ := findFrame_some hk
      rw [he, pinPageLoad_frames]
      rw [List.getElem?_set_ne (hne k g hg (Or.inr hgp))]
      exact hfm
    · have hok := evict_some hev
      rw [he, pinPageLoad_frames]
      have hji : j ≠ i := by
        intro hji
        subst hji
        have := hok.fix
        rw [frameAt_eq_of_getElem? hfm] at this
        omega
      rw [List.getElem?_set_ne hji]
      exact hok.ref.pinned hfm (by omega)
    · rw [he]
      simp only [framesOf]
      exact (evict_none hev).ref.pinned hfm (by omega)

/-- C10 at a CLOCK pool of two frames: page 1 stays pinned in frame 0 while a pin of page 3
evicts page 2. -/
theorem pinPage_keeps_pinned_frame_witness :
    ∃ f', (framesOf (pinPage
        (demoRun 2 ReplacementStrategy.RS_CLOCK
          [Op.pin 1, Op.pin 2, Op.unpin ⟨2, 1⟩]).w
        (demoRun 2 ReplacementStrategy.RS_CLOCK
          [Op.pin 1, Op.pin 2, Op.unpin ⟨2, 1⟩]).bm ⟨0, 0⟩ 3).bm)[0]? = some f' ∧
      f'.pageNum = 1 ∧ f'.data = zeroPage ∧ f'.dirty = false ∧ f'.fixCount = 1 :=
  pinPage_keeps_pinned_frame _ _ ⟨0, 0⟩ 3 0 ⟨1, zeroPage, false, 1, 1, 1, true⟩ rfl
    (by decide) (by decide) (by decide)


theorem map_set_frameAt {α : Type} (g : BM_PageFrame → α) :
    ∀ (l : List BM_PageFrame) (k : Nat) (x : BM_PageFrame), g x = g (frameAt l k) →
      (l.set k x).map g = l.map g
  | [], _, _, _ => by simp
  | y :: rest, 0, x, h => by
    have : frameAt (y :: rest) 0 = y := by simp [frameAt]
    rw [this] at h
    simp [h]
  | y :: rest, k + 1, x, h => by
    have : frameAt (y :: rest) (k + 1) = frameAt rest k := by simp [frameAt]
    rw [this] at h
    simp [map_set_frameAt g rest k x h]

theorem RefCleared.map_eq {α : Type} (g : BM_PageFrame → α)
    (hg : ∀ x : BM_PageFrame, g { x with refBit := false } = g x) {a b : List BM_PageFrame}
    (h : RefCleared a b) : b.map g = a.map g := by
  unfold RefCleared at h
  induction h with
  | nil => rfl
  | cons hxy _ ih =>
    rcases hxy with rfl | ⟨_, rfl⟩
    · simp [ih]
    · simp [ih, hg]

theorem forceFlushLoop_map {α : Type} (g : BM_PageFrame → α)
    (hg : ∀ x : BM_PageFrame, g { x with dirty := false } = g x) :
    ∀ (l : List BM_PageFrame) (w : World) (fh : SM_FileHandle) (nw : Int),
      (forceFlushLoop l w fh nw).1.map g = l.map g
  | [], _, _, _ => rfl
  | f :: rest, w, fh, nw => by
    simp only [forceFlushLoop]
    split
    · simp [hg, forceFlushLoop_map g hg rest]
    · simp [forceFlushLoop_map g hg rest]

/-- The page numbers of the frames after one call: either they are unchanged, or one
frame was bound to a page that no frame held. -/
theorem step_map_pageNum (s : PoolState) (op : Op) :
    (framesOf (step s op).2.bm).map (fun f => f.pageNum) =
        (framesOf s.bm).map (fun f => f.pageNum) ∨
    ∃ (k : Nat) (p : Int), (∀ f ∈ framesOf s.bm, f.pageNum ≠ p) ∧
      (framesOf (step s op).2.bm).map (fun f => f.pageNum) =
        ((framesOf s.bm).map (fun f => f.pageNum)).set k p := by
  cases hm : s.bm.mgmtData with
  | none =>
    left
    cases op <;>
      simp [step, pinPage, unpinPage, markDirty, forcePage, forceFlushPool, hm, framesOf]
  | some m =>
    have hfr : framesOf s.bm = m.frames := by simp [framesOf, hm]
    cases op with
    | pin q =>
      simp only [step]
      rcases pinPage_cases s.w s.bm m ⟨0, 0⟩ q hm with ⟨k, hk, he⟩ | ⟨hnf, k, hk, he⟩ |
        ⟨hnf, _, j, w1, m1, hev, he⟩ | ⟨_, _, w1, m1, hev, he⟩
      · left
        rw [he, hfr]
        simp only [framesOf]
        exact map_set_frameAt _ _ _ _ rfl
      · right
        refine ⟨k, q, ?_, ?_⟩
        · rw [hfr]; exact findFrame_none hnf
        · rw [he, pinPageLoad_frames, hfr, List.map_set]
      · right
        refine ⟨j, q, ?_, ?_⟩
        · rw [hfr]; exact findFrame_none hnf
        · rw [he, pinPageLoad_frames, hfr, List.map_set,
            (evict_some hev).ref.map_eq (fun f => f.pageNum) (fun _ => rfl)]
      · left
        rw [he, hfr]
        simp only [framesOf]
        exact (evict_none hev).ref.map_eq (fun f => f.pageNum) (fun _ => rfl)
    | unpin page =>
      left
      simp only [step, unpinPage, hm]
      split
      · rfl
      · split
        · rfl
        · rw [hfr]; simp only [framesOf]; exact map_set_frameAt _ _ _ _ rfl
    | markDirty page =>
      left
      simp only [step, markDirty, hm]
      split
      · rfl
      · rw [hfr]; simp only [framesOf]; exact map_set_frameAt _ _ _ _ rfl
    | forcePage page =>
      left
      simp only [step, forcePage, hm]
      split
      · rfl
      · rw [hfr]; simp only [framesOf]; exact map_set_frameAt _ _ _ _ rfl
    | forceFlush =>
      left
      simp only [step, forceFlushPool, hm]
      rw [hfr]; simp only [framesOf]
      exact forceFlushLoop_map (fun f => f.pageNum) (fun _ => rfl) _ _ _ _


theorem UniquePages.set {l : List Int} (h : UniquePages l) (k : Nat) (p : Int)
    (hp : p ∉ l) : UniquePages (l.set k p) := by
  intro i j q hi hj hq
  rw [List.getElem?_set] at hi hj
  have hmem : ∀ n, l[n]? = some p → False := fun n hn => hp (List.getElem?_mem hn)
  by_cases hki : k = i
  · by_cases hkj : k = j
    · omega
    · rw [if_pos hki] at hi
      rw [if_neg hkj] at hj
      split at hi
      · cases hi
        exact (hmem j hj).elim
      · cases hi
  · rw [if_neg hki] at hi
    by_cases hkj : k = j
    · rw [if_pos hkj] at hj
      split at hj
      · cases hj
        exact (hmem i hi).elim
      · cases hj
    · rw [if_neg hkj] at hj
      exact h i j q hi hj hq

theorem step_unique (s : PoolState) (op : Op)
    (h : UniquePages ((framesOf s.bm).map (fun f => f.pageNum))) :
    UniquePages ((framesOf (step s op).2.bm).map (fun f => f.pageNum)) := by
  rcases step_map_pageNum s op with he | ⟨k, p, hp, he⟩
  · rw [he]; exact h
  · rw [he]
    refine h.set k p ?_
    intro hmem
    obtain ⟨f, hf, hfp⟩ := List.mem_map.1 hmem
    exact hp f hf hfp

theorem exec_unique : ∀ (ops : List Op) (s : PoolState),
    UniquePages ((framesOf s.bm).map (fun f => f.pageNum)) →
      UniquePages ((framesOf (exec s ops).bm).map (fun f => f.pageNum))
  | [], _, h => h
  | op :: rest, s, h => exec_unique rest (step s op).2 (step_unique s op h)

theorem initBufferPool_frames {w : World} {bm : BM_BufferPool} {name : String} {n : Int}
    {strategy : ReplacementStrategy} {heap : Nat → Page}
    (h : (initBufferPool w bm name n strategy heap).rc = RC.RC_OK) :
    framesOf (initBufferPool w bm name n strategy heap).bm =
      (List.range n.toNat).map (fun i => ⟨NO_PAGE, heap i, false, 0, 0, 0, false⟩) := by
  simp only [initBufferPool] at h ⊢
  by_cases h1 : n ≤ 0
  · rw [if_pos h1] at h; cases h
  · rw [if_neg h1] at h ⊢
    by_cases h2 : (openPageFile w.fs name ⟨"", 0, 0, false⟩).1 = RC.RC_OK
    · simp [h2, framesOf]
    · simp [h2] at h

/-- C8: in every pool state reached from a successful `initBufferPool` by calls of
`pinPage`, `unpinPage`, `markDirty`, `forcePage` and `forceFlushPool` (with any
arguments), no two distinct frames hold the same page number other than NO_PAGE:
the list returned by `getFrameContents` has no page number other than NO_PAGE at
two positions. -/
theorem cached_pages_unique (w : World) (bm : BM_BufferPool) (name : String) (n : Int)
    (strategy : ReplacementStrategy) (heap : Nat → Page) (ops : List Op) (contents : List Int)
    (hinit : (initBufferPool w bm name n strategy heap).rc = RC.RC_OK)
    (hc : getFrameContents (exec (initState w bm name n strategy heap) ops).bm = some contents) :
    UniquePages contents := by
  have h0 : UniquePages
      ((framesOf (initState w bm name n strategy heap).bm).map (fun f => f.pageNum)) := by
    intro i j p hi _ hp
    simp only [initState, initBufferPool_frames hinit, List.map_map, List.getElem?_map] at hi
    cases hr : (List.range n.toNat)[i]? with
    | none => simp [hr] at hi
    | some v =>
      simp [hr] at hi
      exact absurd hi.symm hp
  have h1 := exec_unique ops _ h0
  cases hm : (exec (initState w bm name n strategy heap) ops).bm.mgmtData with
  | none => simp [getFrameContents, hm] at hc
  | some m =>
    simp only [getFrameContents, hm, Option.map_some', Option.some.injEq] at hc
    simp only [framesOf, hm] at h1
    rw [hc] at h1
    exact h1

/-- C8 at a FIFO pool of three frames after a run with every kind of call. -/
theorem cached_pages_unique_witness : UniquePages [4, 2, 3] :=
  cached_pages_unique demoWorld blankPool "f" 3 ReplacementStrategy.RS_FIFO (fun _ => zeroPage)
    [Op.pin 1, Op.unpin ⟨1, 0⟩, Op.pin 2, Op.markDirty ⟨2, 1⟩, Op.forcePage ⟨2, 1⟩,
      Op.unpin ⟨2, 1⟩, Op.pin 3, Op.unpin ⟨3, 2⟩, Op.forceFlush, Op.pin 4]
    [4, 2, 3] (by decide) (by decide)


theorem getD_lt_of_all_lt {n : Nat} (hn : 0 < n) :
    ∀ (l : List Nat) (i : Nat), (∀ x ∈ l, x < n) → l.getD i 0 < n
  | [], _, _ => by simpa using hn
  | y :: rest, 0, h => by simpa using h y (List.mem_cons_self _ _)
  | y :: rest, i + 1, h => by
    simpa using getD_lt_of_all_lt hn rest i (fun x hx => h x (List.mem_cons_of_mem _ hx))

theorem evictFIFOLoop_valid (n : Nat) (hn : 0 < n) :
    ∀ (k : Nat) (w : World) (m : BM_MgmtData) (j : Nat) (w1 : World) (m1 : BM_MgmtData),
      evictFIFOLoop n k w m = (some j, w1, m1) →
      (∀ q, m.fifoQueue = some q → ∀ x ∈ q, x < n) → j < n
  | 0, w, m, j, w1, m1, h, _ => by simp [evictFIFOLoop] at h
  | k + 1, w, m, j, w1, m1, h, hq => by
    have hidx : (m.fifoQueue.getD []).getD m.fifoFront 0 < n := by
      apply getD_lt_of_all_lt hn
      intro x hx
      cases hfq : m.fifoQueue with
      | none => simp [hfq] at hx
      | some q =>
        simp [hfq] at hx
        exact hq q hfq x hx
    simp only [evictFIFOLoop] at h
    split at h
    · split at h
      · simp only [Prod.mk.injEq, Option.some.injEq] at h
        rw [← h.1]; exact hidx
      · simp only [Prod.mk.injEq, Option.some.injEq] at h
        rw [← h.1]; exact hidx
    · exact evictFIFOLoop_valid n hn k w _ j w1 m1 h hq

theorem evictCLOCKLoop_valid (n : Nat) (hn : 0 < n) :
    ∀ (k : Nat) (w : World) (m : BM_MgmtData) (o : Option Nat) (w1 : World) (m1 : BM_MgmtData),
      m.clockHand < n → evictCLOCKLoop n k w m = (o, w1, m1) →
        m1.clockHand < n ∧ ∀ j, o = some j → j < n
  | 0, w, m, o, w1, m1, hh, h => by
    simp only [evictCLOCKLoop, Prod.mk.injEq] at h
    obtain ⟨rfl, _, rfl⟩ := h
    exact ⟨hh, by simp⟩
  | k + 1, w, m, o, w1, m1, hh, h => by
    have hmod : (m.clockHand + 1) % n < n := Nat.mod_lt _ hn
    simp only [evictCLOCKLoop] at h
    split at h
    · split at h
      · split at h
        · simp only [Prod.mk.injEq] at h
          obtain ⟨rfl, _, rfl⟩ := h
          exact ⟨by simpa [writeBack] using hmod, by simpa using hh⟩
        · simp only [Prod.mk.injEq] at h
          obtain ⟨rfl, _, rfl⟩ := h
          exact ⟨hmod, by simpa using hh⟩
      · exact evictCLOCKLoop_valid n hn k w _ o w1 m1 hmod h
    · exact evictCLOCKLoop_valid n hn k w _ o w1 m1 hmod h

theorem evictFIFOLoop_hand (n : Nat) :
    ∀ (k : Nat) (w : World) (m : BM_MgmtData) (o : Option Nat) (w1 : World) (m1 : BM_MgmtData),
      evictFIFOLoop n k w m = (o, w1, m1) → m1.clockHand = m.clockHand
  | 0, w, m, o, w1, m1, h => by
    simp only [evictFIFOLoop, Prod.mk.injEq] at h
    obtain ⟨_, _, rfl⟩ := h
    rfl
  | k + 1, w, m, o, w1, m1, h => by
    simp only [evictFIFOLoop] at h
    split at h
    · split at h
      · simp only [Prod.mk.injEq] at h
        obtain ⟨_, _, rfl⟩ := h
        rfl
      · simp only [Prod.mk.injEq] at h
        obtain ⟨_, _, rfl⟩ := h
        rfl
    · have h1 := evictFIFOLoop_hand n k w _ o w1 m1 h
      exact h1

theorem evictLRU_hand {w : World} {m : BM_MgmtData} {o : Option Nat} {w1 : World}
    {m1 : BM_MgmtData} (h : evictLRU w m = (o, w1, m1)) : m1.clockHand = m.clockHand := by
  unfold evictLRU at h
  split at h
  · simp only [Prod.mk.injEq] at h
    obtain ⟨_, _, rfl⟩ := h
    rfl
  · split at h
    · simp only [Prod.mk.injEq] at h
      obtain ⟨_, _, rfl⟩ := h
      rfl
    · simp only [Prod.mk.injEq] at h
      obtain ⟨_, _, rfl⟩ := h
      rfl

/-- On well-formed data every eviction returns an index of the frame array and
leaves the data well-formed. -/
theorem evict_valid {w : World} {bm : BM_BufferPool} {m : BM_MgmtData}
    (hwf : DataWF bm.numPages m) {o : Option Nat} {w1 : World} {m1 : BM_MgmtData}
    (h : evict w bm m = (o, w1, m1)) :
    DataWF bm.numPages m1 ∧ ∀ j, o = some j → j < bm.numPages := by
  have hcore : RefCleared m.frames m1.frames ∧ m1.fifoQueue = m.fifoQueue := by
    cases o with
    | none => exact ⟨(evict_none h).ref, (evict_none h).queue⟩
    | some j => exact ⟨(evict_some h).ref, (evict_some h).queue⟩
  have hix : m1.clockHand < bm.numPages ∧ ∀ j, o = some j → j < bm.numPages := by
    unfold evict at h
    split at h
    · refine ⟨?_, ?_⟩
      · rw [evictFIFOLoop_hand _ _ _ _ _ _ _ h]; exact hwf.hand
      · rintro j rfl
        exact evictFIFOLoop_valid _ hwf.pos _ _ _ _ _ _ h hwf.queue
    · refine ⟨by rw [evictLRU_hand h]; exact hwf.hand, ?_⟩
      rintro j rfl
      rw [← hwf.len]; exact (evictLRU_some h).2
    · exact evictCLOCKLoop_valid _ hwf.pos _ _ _ _ _ _ hwf.hand h
    · refine ⟨by rw [evictLRU_hand h]; exact hwf.hand, ?_⟩
      rintro j rfl
      rw [← hwf.len]; exact (evictLRU_some h).2
    · refine ⟨by rw [evictLRU_hand h]; exact hwf.hand, ?_⟩
      rintro j rfl
      rw [← hwf.len]; exact (evictLRU_some h).2
  refine ⟨⟨?_, hwf.pos, ?_, hix.1⟩, hix.2⟩
  · rw [← hcore.1.length_eq]; exact hwf.len
  · rw [hcore.2]; exact hwf.queue

theorem findFrame_lt {m : BM_MgmtData} {p : Int} {i : Nat} (h : findFrame m p = some i) :
    i < m.frames.length := by
  obtain ⟨f, hf, _⟩ := findFrame_some h
  by_contra hc
  rw [List.getElem?_eq_none (Nat.le_of_not_lt hc)] at hf
  cases hf

/-- Binding frame `j` keeps the pool well-formed. -/
theorem pinPageLoad_wf (w : World) (bm : BM_BufferPool) (m : BM_MgmtData) (j : Nat) (p : Int)
    (hwf : DataWF bm.numPages m) (hj : j < bm.numPages) :
    ∃ m', PoolWF (pinPageLoad w bm m j p).bm m' ∧
      m'.frames = framesOf (pinPageLoad w bm m j p).bm := by
  have hset : ∀ q : List Nat, (∀ x ∈ q, x < bm.numPages) →
      ∀ x ∈ q.set m.fifoRear j, x < bm.numPages := by
    intro q hq x hx
    rcases List.mem_or_eq_of_mem_set hx with h | h
    · exact hq x h
    · rw [h]; exact hj
  unfold pinPageLoad
  cases hs : bm.strategy <;> cases hq : m.fifoQueue <;>
    refine ⟨_, ⟨rfl, ⟨?_, hwf.pos, ?_, hwf.hand⟩⟩, rfl⟩ <;>
    simp only [List.length_set, hwf.len, hq] <;>
    first
      | (intro q hq' x hx
         simp only [Option.some.injEq] at hq'
         subst hq'
         first
           | exact hset _ (hwf.queue _ hq) x hx
           | exact hwf.queue _ hq x hx)
      | (intro q hq'; cases hq')


theorem initBufferPool_wf {w : World} {bm : BM_BufferPool} {name : String} {n : Int}
    {strategy : ReplacementStrategy} {heap : Nat → Page}
    (h : (initBufferPool w bm name n strategy heap).rc = RC.RC_OK) :
    ∃ m, PoolWF (initBufferPool w bm name n strategy heap).bm m ∧
      (initBufferPool w bm name n strategy heap).bm.numPages = n.toNat ∧
      (initBufferPool w bm name n strategy heap).bm.strategy = strategy ∧
      (initBufferPool w bm name n strategy heap).w = w ∧
      m.frames = (List.range n.toNat).map (fun i => ⟨NO_PAGE, heap i, false, 0, 0, 0, false⟩) ∧
      m.numReadIO = 0 ∧ m.numWriteIO = 0 ∧ m.fifoFront = 0 ∧ m.fifoRear = 0 ∧
      m.clockHand = 0 ∧
      m.fifoQueue = (if strategy = ReplacementStrategy.RS_FIFO then some (List.range n.toNat)
        else none) := by
  simp only [initBufferPool] at h ⊢
  by_cases h1 : n ≤ 0
  · rw [if_pos h1] at h; cases h
  · rw [if_neg h1] at h ⊢
    by_cases h2 : (openPageFile w.fs name ⟨"", 0, 0, false⟩).1 = RC.RC_OK
    · have hpos : 0 < n.toNat := by omega
      have h2' : ¬ (openPageFile w.fs name ⟨"", 0, 0, false⟩).1 ≠ RC.RC_OK := not_not.2 h2
      rw [if_neg h2']
      refine ⟨_, ⟨rfl, ⟨by simp, hpos, ?_, hpos⟩⟩, rfl, rfl, rfl, rfl, rfl, rfl, rfl, rfl, rfl, rfl⟩
      intro q hq x hx
      by_cases hs : strategy = ReplacementStrategy.RS_FIFO
      · simp only [hs, if_true, Option.some.injEq] at hq
        subst hq
        exact List.mem_range.1 hx
      · simp [hs] at hq
    · simp [h2] at h

theorem forceFlushLoop_length (l : List BM_PageFrame) (w : World) (fh : SM_FileHandle)
    (nw : Int) : (forceFlushLoop l w fh nw).1.length = l.length := by
  have := congrArg List.length (forceFlushLoop_map (fun _ => ()) (fun _ => rfl) l w fh nw)
  simpa using this

/-- Every call keeps an initialised pool well-formed, with the same number of
frames and the same strategy. -/
theorem step_wf (s : PoolState) (op : Op) (m : BM_MgmtData) (h : PoolWF s.bm m) :
    ∃ m', PoolWF (step s op).2.bm m' ∧ (step s op).2.bm.numPages = s.bm.numPages ∧
      (step s op).2.bm.strategy = s.bm.strategy := by
  have hm := h.data
  have hwf := h.wf
  cases op with
  | pin q =>
    simp only [step]
    rcases pinPage_cases s.w s.bm m ⟨0, 0⟩ q hm with ⟨k, hk, he⟩ | ⟨hnf, k, hk, he⟩ |
      ⟨hnf, _, j, w1, m1, hev, he⟩ | ⟨_, _, w1, m1, hev, he⟩
    · rw [he]
      exact ⟨_, ⟨rfl, ⟨by simp [hwf.len], hwf.pos, hwf.queue, hwf.hand⟩⟩, rfl, rfl⟩
    · rw [he]
      obtain ⟨m', hm', _⟩ := pinPageLoad_wf s.w s.bm m k q hwf (by
        rw [← hwf.len]; exact findFrame_lt hk)
      exact ⟨m', hm', rfl, rfl⟩
    · rw [he]
      obtain ⟨hwf1, hj⟩ := evict_valid hwf hev
      obtain ⟨m', hm', _⟩ := pinPageLoad_wf w1 s.bm m1 j q hwf1 (hj j rfl)
      exact ⟨m', hm', rfl, rfl⟩
    · rw [he]
      exact ⟨m1, ⟨rfl, (evict_valid hwf hev).1⟩, rfl, rfl⟩
  | unpin page =>
    simp only [step, unpinPage, hm]
    split
    · exact ⟨m, h, rfl, rfl⟩
    · split
      · exact ⟨m, h, rfl, rfl⟩
      · exact ⟨_, ⟨rfl, ⟨by simp [hwf.len], hwf.pos, hwf.queue, hwf.hand⟩⟩, rfl, rfl⟩
  | markDirty page =>
    simp only [step, markDirty, hm]
    split
    · exact ⟨m, h, rfl, rfl⟩
    · exact ⟨_, ⟨rfl, ⟨by simp [hwf.len], hwf.pos, hwf.queue, hwf.hand⟩⟩, rfl, rfl⟩
  | forcePage page =>
    simp only [step, forcePage, hm]
    split
    · exact ⟨m, h, rfl, rfl⟩
    · exact ⟨_, ⟨rfl, ⟨by simp [hwf.len], hwf.pos, hwf.queue, hwf.hand⟩⟩, rfl, rfl⟩
  | forceFlush =>
    simp only [step, forceFlushPool, hm]
    exact ⟨_, ⟨rfl, ⟨by simp [forceFlushLoop_length, hwf.len], hwf.pos, hwf.queue,
      hwf.hand⟩⟩, by trivial, by trivial⟩


theorem sum_fix_set : ∀ (l : List BM_PageFrame) (i : Nat) (x : BM_PageFrame), i < l.length →
    ((l.set i x).map (fun f => f.fixCount)).sum =
      (l.map (fun f => f.fixCount)).sum - (frameAt l i).fixCount + x.fixCount
  | [], _, _, h => by simp at h
  | y :: rest, 0, x, _ => by
    simp [frameAt]
    omega
  | y :: rest, i + 1, x, h => by
    have hi : i < rest.length := by simpa using h
    have := sum_fix_set rest i x hi
    simp only [frameAt, List.set_cons_succ, List.map_cons, List.sum_cons, List.getD_cons_succ]
      at this ⊢
    omega

theorem frameAt_set_ge {l : List BM_PageFrame} {k : Nat} (x : BM_PageFrame) (i : Nat)
    (h : l.length ≤ k) : frameAt (l.set k x) i = frameAt l i := by
  rw [List.set_eq_of_length_le h]

theorem FreeUnpinned.set_frame {l : List BM_PageFrame} (h : FreeUnpinned l) (k : Nat)
    (x : BM_PageFrame) (hx : x.pageNum = NO_PAGE → x.fixCount = 0) :
    FreeUnpinned (l.set k x) := by
  intro i
  by_cases hk : k < l.length
  · by_cases hki : k = i
    · subst hki
      rw [frameAt_set_self x hk]
      exact hx
    · rw [frameAt_set_ne x hki]
      exact h i
  · rw [frameAt_set_ge x i (Nat.le_of_not_lt hk)]
    exact h i

theorem FreeUnpinned.of_refCleared {a b : List BM_PageFrame} (h : FreeUnpinned a)
    (hr : RefCleared a b) : FreeUnpinned b := by
  intro i
  obtain ⟨hp, _, _, hf, _⟩ := hr.fields i
  rw [hp, hf]
  exact h i

/-- Effect of one `pinPage` (of a page other than NO_PAGE) or `unpinPage` call on
the sum of the fix counts. -/
theorem step_fix (s : PoolState) (op : Op) (m : BM_MgmtData) (h : PoolWF s.bm m)
    (hfree : FreeUnpinned (framesOf s.bm))
    (hop : (∃ p, op = Op.pin p ∧ p ≠ NO_PAGE) ∨ ∃ page, op = Op.unpin page) :
    FreeUnpinned (framesOf (step s op).2.bm) ∧
    sumFixCounts (step s op).2.bm =
      sumFixCounts s.bm + (if op.isPin = true ∧ (step s op).1 = RC.RC_OK then 1 else 0)
        - (if op.isUnpin = true ∧ (step s op).1 = RC.RC_OK then 1 else 0) := by
  have hm := h.data
  have hwf := h.wf
  have hfr : framesOf s.bm = m.frames := by simp [framesOf, hm]
  rw [hfr] at hfree
  rcases hop with ⟨q, rfl, hq⟩ | ⟨page, rfl⟩
  · simp only [step, Op.isPin, Op.isUnpin, sumFixCounts, hfr]
    rcases pinPage_cases s.w s.bm m ⟨0, 0⟩ q hm with ⟨k, hk, he⟩ | ⟨hnf, k, hk, he⟩ |
      ⟨hnf, _, j, w1, m1, hev, he⟩ | ⟨_, _, w1, m1, hev, he⟩
    · obtain ⟨g, hg, hgp⟩ := findFrame_some hk
      have hfa := frameAt_eq_of_getElem? hg
      simp only [he, framesOf]
      refine ⟨hfree.set_frame k _ ?_, ?_⟩
      · intro hc
        simp only [hfa, hgp] at hc
        exact absurd hc hq
      · rw [sum_fix_set _ _ _ (findFrame_lt hk)]
        simp only [and_self, if_true, Bool.false_eq_true, false_and, if_false]
        omega
    · obtain ⟨g, hg, hgp⟩ := findFrame_some hk
      have hfa := frameAt_eq_of_getElem? hg
      have h0 : (frameAt m.frames k).fixCount = 0 := hfree k (by rw [hfa]; exact hgp)
      simp only [he, pinPageLoad_frames, pinPageLoad_rc]
      refine ⟨hfree.set_frame k _ (fun hc => absurd hc hq), ?_⟩
      rw [sum_fix_set _ _ _ (findFrame_lt hk), h0]
      simp
    · have hok := evict_some hev
      obtain ⟨hwf1, hj⟩ := evict_valid hwf hev
      have hsum := hok.ref.map_eq (fun f => f.fixCount) (fun _ => rfl)
      have h0 : (frameAt m1.frames j).fixCount = 0 := by
        rw [(hok.ref.fields j).2.2.2.1]; exact hok.fix
      simp only [he, pinPageLoad_frames, pinPageLoad_rc]
      refine ⟨(hfree.of_refCleared hok.ref).set_frame j _ (fun hc => absurd hc hq), ?_⟩
      rw [sum_fix_set _ _ _ (by rw [hwf1.len]; exact hj j rfl), h0, hsum]
      simp
    · have hfail := evict_none hev
      simp only [he, framesOf]
      refine ⟨hfree.of_refCleared hfail.ref, ?_⟩
      rw [hfail.ref.map_eq (fun f => f.fixCount) (fun _ => rfl)]
      simp
  · simp only [step, Op.isPin, Op.isUnpin, sumFixCounts, hfr, unpinPage, hm]
    split
    · simp [framesOf, hm]; exact hfree
    · rename_i k hk
      split
      · simp [framesOf, hm]; exact hfree
      · rename_i hpos
        simp only [framesOf]
        refine ⟨hfree.set_frame k _ ?_, ?_⟩
        · intro hc
          have := hfree k hc
          omega
        · rw [sum_fix_set _ _ _ (findFrame_lt hk)]
          simp

theorem exec_fix : ∀ (ops : List Op) (s : PoolState) (m : BM_MgmtData), PoolWF s.bm m →
    FreeUnpinned (framesOf s.bm) →
    (∀ op ∈ ops, (∃ p, op = Op.pin p ∧ p ≠ NO_PAGE) ∨ ∃ page, op = Op.unpin page) →
    sumFixCounts (exec s ops).bm =
      sumFixCounts s.bm + countOK Op.isPin s ops - countOK Op.isUnpin s ops
  | [], s, m, _, _, _ => by simp [exec, countOK]
  | op :: rest, s, m, h, hfree, hops => by
    obtain ⟨m', hm', _, _⟩ := step_wf s op m h
    obtain ⟨hfree', hsum⟩ := step_fix s op m h hfree (hops op (List.mem_cons_self _ _))
    have ih := exec_fix rest (step s op).2 m' hm' hfree'
      (fun o ho => hops o (List.mem_cons_of_mem _ ho))
    simp only [exec, countOK]
    rw [ih, hsum]
    omega

/-- C7 as claimed fails: on a fresh FIFO pool of one frame, `pinPage` of the sentinel
NO_PAGE returns `RC_OK` (`findFrame` matches the empty frame, whose fix count becomes
1), and `pinPage` of page 5 returns `RC_OK` too (`findFreeFrame` still takes that
frame for free and the load sets its fix count to 1 again): two successful pins, no
unpin, and the sum of the fix counts is 1. -/
theorem pin_of_no_page_breaks_fix_count_sum :
    (step (initState demoWorld blankPool "f" 1 ReplacementStrategy.RS_FIFO (fun _ => zeroPage))
      (Op.pin NO_PAGE)).1 = RC.RC_OK ∧
    getFixCounts (exec
        (initState demoWorld blankPool "f" 1 ReplacementStrategy.RS_FIFO (fun _ => zeroPage))
        [Op.pin NO_PAGE]).bm = some [1] ∧
    (step (exec
        (initState demoWorld blankPool "f" 1 ReplacementStrategy.RS_FIFO (fun _ => zeroPage))
        [Op.pin NO_PAGE]) (Op.pin 5)).1 = RC.RC_OK ∧
    getFixCounts (exec
        (initState demoWorld blankPool "f" 1 ReplacementStrategy.RS_FIFO (fun _ => zeroPage))
        [Op.pin NO_PAGE, Op.pin 5]).bm = some [1] ∧
    sumFixCounts (exec
        (initState demoWorld blankPool "f" 1 ReplacementStrategy.RS_FIFO (fun _ => zeroPage))
        [Op.pin NO_PAGE, Op.pin 5]).bm = 1 ∧
    countOK Op.isPin
        (initState demoWorld blankPool "f" 1 ReplacementStrategy.RS_FIFO (fun _ => zeroPage))
        [Op.pin NO_PAGE, Op.pin 5] = 2 ∧
    countOK Op.isUnpin
        (initState demoWorld blankPool "f" 1 ReplacementStrategy.RS_FIFO (fun _ => zeroPage))
        [Op.pin NO_PAGE, Op.pin 5] = 0 := by
  decide

/-- C7, amended: after any sequence of `pinPage` calls for page numbers other than the
sentinel NO_PAGE and `unpinPage` calls (with any handle) on an initialised pool, the
sum of the fix counts over all frames equals the number of successful pins minus
the number of successful unpins. -/
theorem fix_count_sum_eq_outstanding_pins (w : World) (bm : BM_BufferPool) (name : String)
    (n : Int) (strategy : ReplacementStrategy) (heap : Nat → Page) (ops : List Op)
    (hinit : (initBufferPool w bm name n strategy heap).rc = RC.RC_OK)
    (hops : ∀ op ∈ ops, (∃ p, op = Op.pin p ∧ p ≠ NO_PAGE) ∨ ∃ page, op = Op.unpin page) :
    sumFixCounts (exec (initState w bm name n strategy heap) ops).bm =
      countOK Op.isPin (initState w bm name n strategy heap) ops
        - countOK Op.isUnpin (initState w bm name n strategy heap) ops := by
  obtain ⟨m, hwf, _, _, _, hframes, _⟩ := initBufferPool_wf hinit
  have hfr : framesOf (initState w bm name n strategy heap).bm = m.frames := by
    simp [initState, framesOf, hwf.data]
  have hfree : FreeUnpinned (framesOf (initState w bm name n strategy heap).bm) := by
    rw [hfr, hframes]
    intro i _
    simp only [frameAt, List.getD_eq_getElem?_getD, List.getElem?_map]
    cases (List.range n.toNat)[i]? <;> rfl
  have h0 : sumFixCounts (initState w bm name n strategy heap).bm = 0 := by
    simp only [sumFixCounts, hfr, hframes, List.map_map]
    induction (List.range n.toNat) with
    | nil => rfl
    | cons _ _ ih => simpa using ih
  have := exec_fix ops (initState w bm name n strategy heap) m hwf hfree hops
  rw [this, h0]
  omega

/-- C7, amended, at a run with hits, misses, an eviction, a failed pin and a failed unpin. -/
theorem fix_count_sum_eq_outstanding_pins_witness :
    sumFixCounts (exec
        (initState demoWorld blankPool "f" 2 ReplacementStrategy.RS_LRU (fun _ => zeroPage))
        [Op.pin 1, Op.pin 1, Op.unpin ⟨1, 0⟩, Op.pin 2, Op.pin 3, Op.unpin ⟨7, 0⟩,
          Op.unpin ⟨2, 1⟩, Op.pin 3]).bm =
      countOK Op.isPin
          (initState demoWorld blankPool "f" 2 ReplacementStrategy.RS_LRU (fun _ => zeroPage))
          [Op.pin 1, Op.pin 1, Op.unpin ⟨1, 0⟩, Op.pin 2, Op.pin 3, Op.unpin ⟨7, 0⟩,
            Op.unpin ⟨2, 1⟩, Op.pin 3]
        - countOK Op.isUnpin
          (initState demoWorld blankPool "f" 2 ReplacementStrategy.RS_LRU (fun _ => zeroPage))
          [Op.pin 1, Op.pin 1, Op.unpin ⟨1, 0⟩, Op.pin 2, Op.pin 3, Op.unpin ⟨7, 0⟩,
            Op.unpin ⟨2, 1⟩, Op.pin 3] :=
  fix_count_sum_eq_outstanding_pins demoWorld blankPool "f" 2 ReplacementStrategy.RS_LRU
    (fun _ => zeroPage) _ (by decide) (by
      intro op hop
      simp only [List.mem_cons, List.mem_singleton, List.not_mem_nil, or_false] at hop
      rcases hop with rfl | rfl | rfl | rfl | rfl | rfl | rfl | rfl
      · exact Or.inl ⟨1, rfl, by decide⟩
      · exact Or.inl ⟨1, rfl, by decide⟩
      · exact Or.inr ⟨_, rfl⟩
      · exact Or.inl ⟨2, rfl, by decide⟩
      · exact Or.inl ⟨3, rfl, by decide⟩
      · exact Or.inr ⟨_, rfl⟩
      · exact Or.inr ⟨_, rfl⟩
      · exact Or.inl ⟨3, rfl, by decide⟩)


theorem forceFlushLoop_count :
    ∀ (l : List BM_PageFrame) (w : World) (fh : SM_FileHandle) (nw : Int),
      (forceFlushLoop l w fh nw).2.2.2 = nw + dirtyBound l
  | [], _, _, _ => by simp [forceFlushLoop, dirtyBound]
  | f :: rest, w, fh, nw => by
    simp only [forceFlushLoop, dirtyBound]
    split
    · rw [forceFlushLoop_count rest]; omega
    · rw [forceFlushLoop_count rest]; omega

theorem pinPageLoad_counters (w : World) (bm : BM_BufferPool) (m : BM_MgmtData) (j : Nat)
    (p : Int) :
    getNumReadIO (pinPageLoad w bm m j p).bm = m.numReadIO + 1 ∧
      getNumWriteIO (pinPageLoad w bm m j p).bm = m.numWriteIO := by
  unfold pinPageLoad getNumReadIO getNumWriteIO
  cases bm.strategy <;> cases m.fifoQueue <;> exact ⟨rfl, rfl⟩

/-- Effect of one call on the two I/O counters. -/
theorem step_counters (s : PoolState) (op : Op) (m : BM_MgmtData) (hm : s.bm.mgmtData = some m) :
    getNumReadIO (step s op).2.bm = getNumReadIO s.bm + pinMissLoads s op ∧
    getNumWriteIO (step s op).2.bm =
      getNumWriteIO s.bm + (dirtyEvictions s op + forcePageFound s op + flushedDirty s op) := by
  have hr : getNumReadIO s.bm = m.numReadIO := by simp [ getNumReadIO, hm]
  have hw : getNumWriteIO s.bm = m.numWriteIO := by simp [ getNumWriteIO, hm]
  cases op with
  | pin q =>
    simp only [pinMissLoads, dirtyEvictions, forcePageFound, flushedDirty, step, isCached, hm,
      hr, hw]
    rcases pinPage_cases s.w s.bm m ⟨0, 0⟩ q hm with ⟨k, hk, he⟩ | ⟨hnf, k, hk, he⟩ |
      ⟨hnf, hnfree, j, w1, m1, hev, he⟩ | ⟨hnf, hnfree, w1, m1, hev, he⟩
    · simp [he, hk, getNumReadIO, getNumWriteIO]
    · simp [he, hnf, hk, pinPageLoad_counters, pinPageLoad_rc]
    · have hok := evict_some hev
      simp only [he, hnf, hnfree, pinPageLoad_counters, pinPageLoad_rc, pinPageLoad_page,
        hok.reads]
      by_cases hd : (frameAt m.frames j).dirty = true
      · simp [hd, (hok.dirtyCase hd).2.2]
      · simp [hd, (hok.cleanCase (by simpa using hd)).2.2]
    · have hfail := evict_none hev
      simp [he, hnf, hnfree, getNumReadIO, getNumWriteIO, hfail.reads, hfail.writes]
  | unpin page =>
    simp only [pinMissLoads, dirtyEvictions, forcePageFound, flushedDirty, step, unpinPage, hm]
    split
    · simp
    · split <;> simp [ getNumReadIO, getNumWriteIO, hm]
  | markDirty page =>
    simp only [pinMissLoads, dirtyEvictions, forcePageFound, flushedDirty, step, markDirty, hm]
    split <;> simp [ getNumReadIO, getNumWriteIO, hm]
  | forcePage page =>
    simp only [pinMissLoads, dirtyEvictions, forcePageFound, flushedDirty, step, forcePage, hm,
      isCached]
    split
    · rename_i hnf
      simp [ getNumReadIO, getNumWriteIO, hm, hnf]
    · rename_i k hk
      simp [ getNumReadIO, getNumWriteIO, hm, hk]
  | forceFlush =>
    simp only [pinMissLoads, dirtyEvictions, forcePageFound, flushedDirty, step, forceFlushPool,
      hm, framesOf]
    simp [ getNumReadIO, getNumWriteIO, hm, forceFlushLoop_count]

theorem exec_counters : ∀ (ops : List Op) (s : PoolState) (m : BM_MgmtData), PoolWF s.bm m →
    getNumReadIO (exec s ops).bm = getNumReadIO s.bm + sumOver pinMissLoads s ops ∧
    getNumWriteIO (exec s ops).bm =
      getNumWriteIO s.bm + (sumOver dirtyEvictions s ops + sumOver forcePageFound s ops
        + sumOver flushedDirty s ops)
  | [], s, m, _ => by simp [exec, sumOver]
  | op :: rest, s, m, h => by
    obtain ⟨m', hm', _, _⟩ := step_wf s op m h
    obtain ⟨hr, hw⟩ := step_counters s op m h.data
    obtain ⟨ihr, ihw⟩ := exec_counters rest (step s op).2 m' hm'
    simp only [exec, sumOver]
    rw [ihr, ihw, hr, hw]
    constructor <;> omega

/-- C9: in every pool state reached from a successful `initBufferPool`,
` getNumReadIO` is the number of pin-misses that bound a frame to their page, and
` getNumWriteIO` is the number of dirty-victim evictions plus the number of `forcePage`
calls that found their page plus the number of dirty frames written by the
`forceFlushPool` calls; a pin-hit changes neither counter. -/
theorem io_counters_account (w : World) (bm : BM_BufferPool) (name : String) (n : Int)
    (strategy : ReplacementStrategy) (heap : Nat → Page) (ops : List Op)
    (hinit : (initBufferPool w bm name n strategy heap).rc = RC.RC_OK) :
    getNumReadIO (exec (initState w bm name n strategy heap) ops).bm =
      sumOver pinMissLoads (initState w bm name n strategy heap) ops ∧
    getNumWriteIO (exec (initState w bm name n strategy heap) ops).bm =
      sumOver dirtyEvictions (initState w bm name n strategy heap) ops
        + sumOver forcePageFound (initState w bm name n strategy heap) ops
        + sumOver flushedDirty (initState w bm name n strategy heap) ops ∧
    ∀ p : Int, isCached (exec (initState w bm name n strategy heap) ops) p = true →
      getNumReadIO (step (exec (initState w bm name n strategy heap) ops) (Op.pin p)).2.bm =
        getNumReadIO (exec (initState w bm name n strategy heap) ops).bm ∧
      getNumWriteIO (step (exec (initState w bm name n strategy heap) ops) (Op.pin p)).2.bm =
        getNumWriteIO (exec (initState w bm name n strategy heap) ops).bm := by
  obtain ⟨m, hwf, _, _, _, _, hr0, hw0, _⟩ := initBufferPool_wf hinit
  have hwf' : PoolWF (initState w bm name n strategy heap).bm m := hwf
  obtain ⟨hr, hw⟩ := exec_counters ops _ m hwf'
  have hr1 : getNumReadIO (initState w bm name n strategy heap).bm = 0 := by
    simp [ getNumReadIO, hwf'.data, hr0]
  have hw1 : getNumWriteIO (initState w bm name n strategy heap).bm = 0 := by
    simp [ getNumWriteIO, hwf'.data, hw0]
  refine ⟨by rw [hr, hr1]; omega, by rw [hw, hw1]; omega, ?_⟩
  intro p hp
  cases hm : (exec (initState w bm name n strategy heap) ops).bm.mgmtData with
  | none => simp [isCached, hm] at hp
  | some m2 =>
    obtain ⟨h1, h2⟩ := step_counters _ (Op.pin p) m2 hm
    rw [h1, h2]
    have hf : findFrame m2 p ≠ none := by
      intro hc
      simp [isCached, hm, hc] at hp
    simp [pinMissLoads, dirtyEvictions, forcePageFound, flushedDirty, hp, hm, hf]

/-- C9 at a run with two misses, a hit, a dirty eviction, a forced page and a flush. -/
theorem io_counters_account_witness :
    getNumReadIO (demoRun 1 ReplacementStrategy.RS_FIFO
        [Op.pin 1, Op.markDirty ⟨1, 0⟩, Op.unpin ⟨1, 0⟩, Op.pin 2, Op.pin 2,
          Op.forcePage ⟨2, 0⟩, Op.markDirty ⟨2, 0⟩, Op.forceFlush]).bm =
      sumOver pinMissLoads
        (initState demoWorld blankPool "f" 1 ReplacementStrategy.RS_FIFO (fun _ => zeroPage))
        [Op.pin 1, Op.markDirty ⟨1, 0⟩, Op.unpin ⟨1, 0⟩, Op.pin 2, Op.pin 2,
          Op.forcePage ⟨2, 0⟩, Op.markDirty ⟨2, 0⟩, Op.forceFlush] ∧
    getNumReadIO (demoRun 1 ReplacementStrategy.RS_FIFO
        [Op.pin 1, Op.markDirty ⟨1, 0⟩, Op.unpin ⟨1, 0⟩, Op.pin 2, Op.pin 2,
          Op.forcePage ⟨2, 0⟩, Op.markDirty ⟨2, 0⟩, Op.forceFlush]).bm = 2 ∧
    getNumWriteIO (demoRun 1 ReplacementStrategy.RS_FIFO
        [Op.pin 1, Op.markDirty ⟨1, 0⟩, Op.unpin ⟨1, 0⟩, Op.pin 2, Op.pin 2,
          Op.forcePage ⟨2, 0⟩, Op.markDirty ⟨2, 0⟩, Op.forceFlush]).bm = 3 :=
  ⟨(io_counters_account demoWorld blankPool "f" 1 ReplacementStrategy.RS_FIFO
      (fun _ => zeroPage) _ (by decide)).1, by decide, by decide⟩


/-- C5 as stated fails: after scenario S4 the frame contents are not [1, 4, 3]. -/
theorem clock_scenario_not_as_claimed :
    getFrameContents (demoRun 3 ReplacementStrategy.RS_CLOCK (scenarioS4 ++ [Op.pin 4])).bm
      ≠ some [1, 4, 3] := by decide

/-- C5 (amended): with N = 3 and strategy CLOCK, after pin 1, unpin, pin 2, unpin,
pin 3, unpin, pin 1, unpin every frame has its reference bit set (a load sets it
too) and the hand is at frame 0; pin 4 then clears the reference bits of frames 0, 1
and 2, comes back to frame 0 (page 1) and evicts it: the page is handed out in
frame 0, the frame contents are [4, 2, 3], the reference bits are [1, 0, 0] and the
hand ends at frame 1. -/
theorem clock_scenario :
    getFrameContents (demoRun 3 ReplacementStrategy.RS_CLOCK scenarioS4).bm = some [1, 2, 3] ∧
    refBits (demoRun 3 ReplacementStrategy.RS_CLOCK scenarioS4).bm = [true, true, true] ∧
    clockHandOf (demoRun 3 ReplacementStrategy.RS_CLOCK scenarioS4).bm = 0 ∧
    (pinPage (demoRun 3 ReplacementStrategy.RS_CLOCK scenarioS4).w
      (demoRun 3 ReplacementStrategy.RS_CLOCK scenarioS4).bm ⟨0, 0⟩ 4).rc = RC.RC_OK ∧
    (pinPage (demoRun 3 ReplacementStrategy.RS_CLOCK scenarioS4).w
      (demoRun 3 ReplacementStrategy.RS_CLOCK scenarioS4).bm ⟨0, 0⟩ 4).page.data = 0 ∧
    getFrameContents (demoRun 3 ReplacementStrategy.RS_CLOCK (scenarioS4 ++ [Op.pin 4])).bm
      = some [4, 2, 3] ∧
    refBits (demoRun 3 ReplacementStrategy.RS_CLOCK (scenarioS4 ++ [Op.pin 4])).bm
      = [true, false, false] ∧
    clockHandOf (demoRun 3 ReplacementStrategy.RS_CLOCK (scenarioS4 ++ [Op.pin 4])).bm = 1 := by
  decide

/-- C6 at its failing input: the file "g" has two pages, the second appended through
a file handle of its own after the pool of one frame was opened.  A dirty victim
that holds page 1 (its buffer holds the byte 7) is evicted by `pinPage(2)`, which
returns `RC_OK`; the write counter goes from 0 to 1 and the frame is reused clean,
but page 1 of the file is still zero-filled: `writeBlock` rejects page 1 because the
handle of the pool still has `totalNumPages = 1`, and its return code is not
inspected.  The content of the victim is lost. -/
theorem dirty_victim_not_written :
    firstBytes staleHandleState.w "g" = some [0, 0] ∧
    (framesOf (exec staleHandleState
        [Op.pin 1, Op.markDirty ⟨1, 0⟩, Op.unpin ⟨1, 0⟩]).bm).map
      (fun f => (f.pageNum, f.dirty, f.fixCount, f.data 0)) = [(1, true, 0, 7)] ∧
    getNumWriteIO (exec staleHandleState
        [Op.pin 1, Op.markDirty ⟨1, 0⟩, Op.unpin ⟨1, 0⟩]).bm = 0 ∧
    (step (exec staleHandleState [Op.pin 1, Op.markDirty ⟨1, 0⟩, Op.unpin ⟨1, 0⟩])
      (Op.pin 2)).1 = RC.RC_OK ∧
    firstBytes (exec staleHandleState
        [Op.pin 1, Op.markDirty ⟨1, 0⟩, Op.unpin ⟨1, 0⟩, Op.pin 2]).w "g" = some [0, 0] ∧
    getNumWriteIO (exec staleHandleState
        [Op.pin 1, Op.markDirty ⟨1, 0⟩, Op.unpin ⟨1, 0⟩, Op.pin 2]).bm = 1 ∧
    getNumReadIO (exec staleHandleState
        [Op.pin 1, Op.markDirty ⟨1, 0⟩, Op.unpin ⟨1, 0⟩, Op.pin 2]).bm = 2 ∧
    getDirtyFlags (exec staleHandleState
        [Op.pin 1, Op.markDirty ⟨1, 0⟩, Op.unpin ⟨1, 0⟩, Op.pin 2]).bm = some [false] := by
  decide




theorem writeBlock_in_range (fs : FileSys) (v : Int) (fh : SM_FileHandle) (pg : Page)
    (pages : List Page) (hopen : fh.mgmtInfo = true) (hfile : fs fh.fileName = some pages)
    (hv0 : 0 ≤ v) (hv1 : v < fh.totalNumPages) :
    writeBlock fs v fh pg =
      (RC.RC_OK, { fh with curPagePos := v }, fs.put fh.fileName (writeAt pages v.toNat pg)) := by
  unfold writeBlock
  have h1 : ¬ (v < 0 ∨ v ≥ fh.totalNumPages) := by omega
  simp [hopen, h1, hfile]

/-- The write-back where it works: under every strategy, when a pin-miss on a
well-formed full pool evicts a dirty victim (frame `j`) that holds a page `v` with
`0 ≤ v < totalNumPages` of the pool's open file handle, the victim's buffer is
written to page `v` of the file, the new content of the frame is what `readBlock`
delivers from the file as it is after that write, the write-I/O counter grows by
exactly one and the reused frame is clean and bound to the requested page; in
particular with N = 1, pin 1, markDirty, unpin, pin 2 gives read-I/O = 2,
write-I/O = 1 and dirty flags [false]. -/
theorem dirty_victim_written_back :
    (∀ (w : World) (bm : BM_BufferPool) (m : BM_MgmtData) (page : BM_PageHandle) (p : Int)
      (j : Nat) (pages : List Page),
      PoolWF bm m → findFrame m p = none → findFreeFrame m = none →
      (pinPage w bm page p).rc = RC.RC_OK → (pinPage w bm page p).page.data = j →
      (frameAt m.frames j).dirty = true →
      m.fileHandle.mgmtInfo = true → w.fs m.fileHandle.fileName = some pages →
      0 ≤ (frameAt m.frames j).pageNum →
      (frameAt m.frames j).pageNum < m.fileHandle.totalNumPages →
      (pinPage w bm page p).w.fs m.fileHandle.fileName =
        some (writeAt pages (frameAt m.frames j).pageNum.toNat (frameAt m.frames j).data) ∧
      (frameAt (framesOf (pinPage w bm page p).bm) j).data =
        (readBlock (pinPage w bm page p).w.fs p
          { m.fileHandle with curPagePos := (frameAt m.frames j).pageNum }
          (frameAt m.frames j).data).2.2 ∧
      getNumWriteIO (pinPage w bm page p).bm = getNumWriteIO bm + 1 ∧
      (frameAt (framesOf (pinPage w bm page p).bm) j).dirty = false ∧
      (frameAt (framesOf (pinPage w bm page p).bm) j).pageNum = p) ∧
    ( getNumReadIO (demoRun 1 ReplacementStrategy.RS_FIFO
        [Op.pin 1, Op.markDirty ⟨1, 0⟩, Op.unpin ⟨1, 0⟩, Op.pin 2]).bm = 2 ∧
      getNumWriteIO (demoRun 1 ReplacementStrategy.RS_FIFO
        [Op.pin 1, Op.markDirty ⟨1, 0⟩, Op.unpin ⟨1, 0⟩, Op.pin 2]).bm = 1 ∧
      getDirtyFlags (demoRun 1 ReplacementStrategy.RS_FIFO
        [Op.pin 1, Op.markDirty ⟨1, 0⟩, Op.unpin ⟨1, 0⟩, Op.pin 2]).bm = some [false]) := by
  refine ⟨?_, by decide⟩
  intro w bm m page p j pages hwf hmiss hfull hrc hj hdirty hopen hfile hv0 hv1
  have hm := hwf.data
  rcases pinPage_cases w bm m page p hm with ⟨k, hk, _⟩ | ⟨_, k, hk, _⟩ |
    ⟨_, _, j', w1, m1, hev, he⟩ | ⟨_, _, w1, m1, _, he⟩
  · rw [hmiss] at hk; cases hk
  · rw [hfull] at hk; cases hk
  · rw [he, pinPageLoad_page] at hj
    simp only at hj
    subst hj
    have hok := evict_some hev
    obtain ⟨hwf1, hjv⟩ := evict_valid hwf.wf hev
    have hjlt : j' < m1.frames.length := by rw [hwf1.len]; exact hjv j' rfl
    obtain ⟨hfs, hfh, hnw⟩ := hok.dirtyCase hdirty
    rw [writeBlock_in_range w.fs _ m.fileHandle _ pages hopen hfile hv0 hv1] at hfs hfh
    simp only at hfs hfh
    have hdata : (frameAt m1.frames j').data = (frameAt m.frames j').data :=
      (hok.ref.fields j').2.1
    have hwfs : (pinPageLoad w1 bm m1 j' p).w.fs = w1.fs := rfl
    rw [he, pinPageLoad_frames, frameAt_set_self _ hjlt, (pinPageLoad_counters _ _ _ _ _).2,
      hwfs, hfs, hnw, hfh, hdata]
    refine ⟨by simp [FileSys.put], rfl, by simp [ getNumWriteIO, hm], rfl, rfl⟩
  · rw [he] at hrc
    cases hrc

/-- The write-back at a CLOCK pool of one frame whose dirty page 1 is evicted by a pin of page 2. -/
theorem dirty_victim_written_back_witness :
    getNumWriteIO (pinPage
        (demoRun 1 ReplacementStrategy.RS_CLOCK
          [Op.pin 1, Op.markDirty ⟨1, 0⟩, Op.unpin ⟨1, 0⟩]).w
        (demoRun 1 ReplacementStrategy.RS_CLOCK
          [Op.pin 1, Op.markDirty ⟨1, 0⟩, Op.unpin ⟨1, 0⟩]).bm ⟨0, 0⟩ 2).bm =
      getNumWriteIO (demoRun 1 ReplacementStrategy.RS_CLOCK
          [Op.pin 1, Op.markDirty ⟨1, 0⟩, Op.unpin ⟨1, 0⟩]).bm + 1 :=
  (dirty_victim_written_back.1
    (demoRun 1 ReplacementStrategy.RS_CLOCK [Op.pin 1, Op.markDirty ⟨1, 0⟩, Op.unpin ⟨1, 0⟩]).w
    (demoRun 1 ReplacementStrategy.RS_CLOCK [Op.pin 1, Op.markDirty ⟨1, 0⟩, Op.unpin ⟨1, 0⟩]).bm
    (dataOf (demoRun 1 ReplacementStrategy.RS_CLOCK
      [Op.pin 1, Op.markDirty ⟨1, 0⟩, Op.unpin ⟨1, 0⟩]).bm)
    ⟨0, 0⟩ 2 0 (List.replicate 6 zeroPage)
    ⟨rfl, ⟨by decide, by decide, (by intro q hq; cases hq), by decide⟩⟩
    (by decide) (by decide) (by decide) (by decide) (by decide) (by decide) rfl
    (by decide) (by decide)).2.2.1



theorem findFrameFrom_first {p : Int} :
    ∀ (l : List BM_PageFrame) (i k : Nat) (f : BM_PageFrame), l[k]? = some f → f.pageNum = p →
      (∀ j g, j < k → l[j]? = some g → g.pageNum ≠ p) → findFrameFrom p l i = some (i + k)
  | [], _, _, _, hf, _, _ => by simp at hf
  | g :: rest, i, 0, f, hf, hp, _ => by
    simp only [List.getElem?_cons_zero, Option.some.injEq] at hf
    subst hf
    simp [findFrameFrom, hp]
  | g :: rest, i, k + 1, f, hf, hp, hfirst => by
    have hg : g.pageNum ≠ p := hfirst 0 g (by omega) (by simp)
    simp only [findFrameFrom, hg, if_false]
    have := findFrameFrom_first rest (i + 1) k f (by simpa using hf) hp
      (fun j g' hj hg' => hfirst (j + 1) g' (by omega) (by simpa using hg'))
    rw [this]
    congr 1
    omega

theorem findFrameFrom_congr {p : Int} :
    ∀ (l l' : List BM_PageFrame) (i : Nat),
      l.map (fun f => f.pageNum) = l'.map (fun f => f.pageNum) →
      findFrameFrom p l i = findFrameFrom p l' i
  | [], [], _, _ => rfl
  | [], _ :: _, _, h => by simp at h
  | _ :: _, [], _, h => by simp at h
  | g :: rest, g' :: rest', i, h => by
    simp only [List.map_cons, List.cons.injEq] at h
    simp only [findFrameFrom, h.1, findFrameFrom_congr rest rest' (i + 1) h.2]

theorem not_mem_pageNums_of_findFrame {m : BM_MgmtData} {p : Int}
    (h : findFrame m p = none) : p ∉ m.frames.map (fun f => f.pageNum) := by
  intro hmem
  obtain ⟨f, hf, hp⟩ := List.mem_map.1 hmem
  exact findFrame_none h f hf hp

/-- After frame `k` was bound to a page `p` that no frame held, `findFrame` finds `p`
in frame `k`. -/
theorem findFrame_set_new (m : BM_MgmtData) (p : Int) (k : Nat) (x : BM_PageFrame)
    (hmiss : findFrame m p = none) (hk : k < m.frames.length) (hx : x.pageNum = p) :
    findFrameFrom p (m.frames.set k x) 0 = some k := by
  have := findFrameFrom_first (m.frames.set k x) 0 k x
    (by rw [List.getElem?_set]; simp [hk]) hx (by
      intro j g hj hg
      rw [List.getElem?_set_ne (by omega)] at hg
      exact findFrame_none hmiss g (List.getElem?_mem hg))
  simpa using this

theorem findFrame_set_same (m : BM_MgmtData) (p : Int) (k : Nat) (x : BM_PageFrame)
    (hx : x.pageNum = (frameAt m.frames k).pageNum) :
    findFrame { m with frames := m.frames.set k x } p = findFrame m p :=
  findFrameFrom_congr _ m.frames 0 (map_set_frameAt (fun f => f.pageNum) m.frames k x hx)

/-- A pin-hit keeps the page where it is and does not touch its buffer. -/
theorem pinPage_hit_buffer (w : World) (bm : BM_BufferPool) (m : BM_MgmtData)
    (pg : BM_PageHandle) (page : Int) (k : Nat) (hm : bm.mgmtData = some m)
    (hk : findFrame m page = some k) :
    (pinPage w bm pg page).rc = RC.RC_OK ∧ (pinPage w bm pg page).page = ⟨page, k⟩ ∧
    ∃ m1, (pinPage w bm pg page).bm.mgmtData = some m1 ∧ findFrame m1 page = some k ∧
      (frameAt m1.frames k).data = (frameAt m.frames k).data := by
  have hklt := findFrame_lt hk
  rcases pinPage_cases w bm m pg page hm with ⟨k', hk', he⟩ | ⟨hnf, _⟩ | ⟨hnf, _⟩ | ⟨hnf, _⟩
  · rw [hk] at hk'
    cases hk'
    rw [he]
    refine ⟨rfl, rfl, _, rfl, ?_, ?_⟩
    · have hcg := fun x hx => (findFrame_set_same m _ k x hx).trans hk
      exact hcg _ rfl
    · simp only [frameAt_set_self _ hklt]
  · rw [hk] at hnf; cases hnf
  · rw [hk] at hnf; cases hnf
  · rw [hk] at hnf; cases hnf

/-- An `unpinPage` keeps the page where it is and does not touch its buffer. -/
theorem unpinPage_buffer (w : World) (bm : BM_BufferPool) (m : BM_MgmtData)
    (pg : BM_PageHandle) (k : Nat) (hm : bm.mgmtData = some m)
    (hk : findFrame m pg.pageNum = some k) :
    ∃ m1, (unpinPage w bm pg).bm.mgmtData = some m1 ∧ findFrame m1 pg.pageNum = some k ∧
      (frameAt m1.frames k).data = (frameAt m.frames k).data := by
  have hklt := findFrame_lt hk
  simp only [unpinPage, hm, hk]
  split
  · exact ⟨m, hm, hk, rfl⟩
  · refine ⟨_, rfl, ?_, ?_⟩
    · have hcg := fun x hx => (findFrame_set_same m _ k x hx).trans hk
      exact hcg _ rfl
    · simp only [frameAt_set_self _ hklt]

/-- The walk of `openTable` over the page chain never ends once it stands on a cached
page whose `nextFreePage` field is the number of that page. -/
theorem openTableWalk_self_loop (page : Int) (hpage : ¬ page < 0) :
    ∀ (fuel : Nat) (w : World) (bm : BM_BufferPool) (m : BM_MgmtData) (k : Nat) (n : Int),
      bm.mgmtData = some m → findFrame m page = some k →
      readInt (frameAt m.frames k).data 8 = page →
      openTableWalk fuel w bm page n = none
  | 0, _, _, _, _, _, _, _, _ => rfl
  | fuel + 1, w, bm, m, k, n, hm, hk, hdata => by
    obtain ⟨hrc, hpg, m1, hm1, hk1, hd1⟩ := pinPage_hit_buffer w bm m ⟨0, 0⟩ page k hm hk
    have hk1' : findFrame m1 (pinPage w bm ⟨0, 0⟩ page).page.pageNum = some k := by
      rw [hpg]; exact hk1
    obtain ⟨m2, hm2, hk2, hd2⟩ := unpinPage_buffer (pinPage w bm ⟨0, 0⟩ page).w
      (pinPage w bm ⟨0, 0⟩ page).bm m1 (pinPage w bm ⟨0, 0⟩ page).page k hm1 hk1'
    rw [hpg] at hk2
    have hbuf : readInt (bufferOf (pinPage w bm ⟨0, 0⟩ page).bm
        (pinPage w bm ⟨0, 0⟩ page).page.data) 8 = page := by
      rw [hpg]
      simp only [bufferOf, framesOf, hm1, hd1, hdata]
    simp only [openTableWalk, hpage, if_false, hrc, ne_eq, not_true_eq_false, hbuf]
    exact openTableWalk_self_loop page hpage fuel _ _ m2 k _ hm2 hk2 (by rw [hd2, hd1]; exact hdata)


theorem mgmtData_eq_dataOf (bm : BM_BufferPool) (h : bm.mgmtData.isSome = true) :
    bm.mgmtData = some (dataOf bm) := by
  unfold dataOf
  cases hm : bm.mgmtData with
  | none => rw [hm] at h; cases h
  | some m => rfl

/-- With zero-filled frame buffers, `openTable` of the table that `createTable` has
just created does not return: page 1 is not in the file, so its frame keeps the
zero bytes, whose `nextFreePage` field 0 leads to the schema page, and the third
`int` of the schema page (the data type of the first attribute, `DT_INT` = 0) leads
to the schema page again. -/
theorem openTable_after_createTable_diverges (fuel : Nat) :
    openTable fuel createdWorld (fun _ => zeroPage) blankTable "t" = none := by
  have hi : ¬ (initBufferPool createdWorld blankPool (tableFileName "t") 3
      ReplacementStrategy.RS_FIFO (fun _ => zeroPage)).rc ≠ RC.RC_OK := by decide
  have hs : ¬ walkStart.1 ≠ RC.RC_OK := by decide
  have hwalk : openTableWalk fuel walkStart.2.1 walkStart.2.2.1 FIRST_DATA_PAGE 0 = none := by
    cases fuel with
    | zero => rfl
    | succ fuel =>
      have h1 : ¬ FIRST_DATA_PAGE < 0 := by decide
      have hrc : ¬ (pinPage walkStart.2.1 walkStart.2.2.1 ⟨0, 0⟩ FIRST_DATA_PAGE).rc
          ≠ RC.RC_OK := by decide
      have h8 : readInt (bufferOf
          (pinPage walkStart.2.1 walkStart.2.2.1 ⟨0, 0⟩ FIRST_DATA_PAGE).bm
          (pinPage walkStart.2.1 walkStart.2.2.1 ⟨0, 0⟩ FIRST_DATA_PAGE).page.data) 8 = 0 := by
        decide
      simp only [openTableWalk, h1, if_false, hrc, h8]
      exact openTableWalk_self_loop 0 (by decide) fuel _ _ _ 0 _
        (mgmtData_eq_dataOf _ (by decide)) (by decide) (by decide)
  simp only [openTable, hi, if_false]
  show (if walkStart.1 ≠ RC.RC_OK then _ else _) = none
  rw [if_neg hs]
  show (match openTableWalk fuel walkStart.2.1 walkStart.2.2.1 FIRST_DATA_PAGE 0 with
    | none => none
    | some (w1, bm1, numTuples) => _) = none
  rw [hwalk]


set_option maxHeartbeats 4000000 in
/-- C2 at its failing input: for table "t" with the schema (id:int, name:string[4],
salary:float), whatever the frame buffers of the temporary pool hold initially,
`createTable` returns `RC_OK` and leaves a file of exactly one page: `pinPage` of
page 1 returns `RC_OK` although `readBlock` failed, so the fallback that appends
page 1 is skipped, and the later `writeBlock` of page 1 fails unnoticed. -/
theorem createTable_leaves_one_page (heap : Nat → Page) :
    (createTable emptyWorld heap "t" witnessSchema).1 = RC.RC_OK ∧
    ((createTable emptyWorld heap "t" witnessSchema).2.fs (tableFileName "t")).map List.length
      = some 1 := by
  constructor
  · rfl
  · rfl

/-- C1 at its failing input: table "t" with the schema (id:int, name:string[4],
salary:float) and the records (1, "AAAA", 100.0) and (2, "BBBB", 200.0).  When the
frame buffers of the pools of `openTable` initially hold the image of an empty data
page, both inserts succeed and the records can be read back before `closeTable`, but
after `closeTable` the file still is the single schema page, and after the second
`openTable` the table has 0 tuples and `getRecord` fails for both RIDs.  When the
frame buffers are zero-filled, the first `openTable` does not return at all. -/
theorem persistence_round_trip_fails :
    persistenceRun 10 (fun _ => zeroPage) (fun _ => emptyDataPage) (fun _ => emptyDataPage)
      = some persistenceObserved ∧
    ∀ fuel : Nat, openTable fuel createdWorld (fun _ => zeroPage) blankTable "t" = none :=
  ⟨by decide, openTable_after_createTable_diverges⟩

/-! ## Capacity error, shutdown, read errors and the unpin contract -/

theorem frameAt_mem {l : List BM_PageFrame} {i : Nat} (h : i < l.length) : frameAt l i ∈ l := by
  have : l[i]? = some l[i] := List.getElem?_eq_getElem h
  rw [frameAt_eq_of_getElem? this]
  exact List.getElem_mem h

/-- C13 at its failing input: a FIFO pool of three frames on the one-page file "g".
Page 1 and page -2 are not in the file and not cached; `pinPage` returns `RC_OK` for
both and binds a frame to each, although `readBlock` through the handle of the pool
returns `RC_READ_NON_EXISTING_PAGE` for page 1.  In no state does `pinPage` return
that error. -/
theorem pinPage_out_of_range_succeeds :
    (step (initState onePageWorld blankPool "g" 3 ReplacementStrategy.RS_FIFO
      (fun _ => zeroPage)) (Op.pin 1)).1 = RC.RC_OK ∧
    getFrameContents (exec (initState onePageWorld blankPool "g" 3 ReplacementStrategy.RS_FIFO
      (fun _ => zeroPage)) [Op.pin 1]).bm = some [1, -1, -1] ∧
    (step (exec (initState onePageWorld blankPool "g" 3 ReplacementStrategy.RS_FIFO
      (fun _ => zeroPage)) [Op.pin 1]) (Op.pin (-2))).1 = RC.RC_OK ∧
    getFrameContents (exec (initState onePageWorld blankPool "g" 3 ReplacementStrategy.RS_FIFO
      (fun _ => zeroPage)) [Op.pin 1, Op.pin (-2)]).bm = some [1, -2, -1] ∧
    (readBlock onePageWorld.fs 1
      (dataOf (initState onePageWorld blankPool "g" 3 ReplacementStrategy.RS_FIFO
        (fun _ => zeroPage)).bm).fileHandle zeroPage).1 = RC.RC_READ_NON_EXISTING_PAGE ∧
    ∀ (w : World) (bm : BM_BufferPool) (page : BM_PageHandle) (p : Int),
      (pinPage w bm page p).rc ≠ RC.RC_READ_NON_EXISTING_PAGE := by
  refine ⟨by decide, by decide, by decide, by decide, by decide, ?_⟩
  intro w bm page p
  cases hm : bm.mgmtData with
  | none => simp [pinPage, hm]
  | some m =>
    rcases pinPage_cases w bm m page p hm with ⟨k, _, he⟩ | ⟨_, k, _, he⟩ |
      ⟨_, _, j, w1, m1, _, he⟩ | ⟨_, _, w1, m1, _, he⟩
    · rw [he]; simp
    · rw [he, pinPageLoad_rc]; simp
    · rw [he, pinPageLoad_rc]; simp
    · rw [he]; simp

theorem findFrameFrom_least {p : Int} :
    ∀ (l : List BM_PageFrame) (i k : Nat), findFrameFrom p l i = some k →
      ∀ (j : Nat) (g : BM_PageFrame), l[j]? = some g → i + j < k → g.pageNum ≠ p
  | [], _, _, h, _, _, _, _ => by simp [findFrameFrom] at h
  | f :: rest, i, k, h, j, g, hg, hlt => by
    unfold findFrameFrom at h
    split at h
    · simp only [Option.some.injEq] at h
      omega
    · rename_i hp
      cases j with
      | zero =>
        simp only [List.getElem?_cons_zero, Option.some.injEq] at hg
        subst hg
        exact hp
      | succ j =>
        exact findFrameFrom_least rest (i + 1) k h j g (by simpa using hg) (by omega)

theorem LaterUnpinned.of_map {l l' : List BM_PageFrame} (h : LaterUnpinned l)
    (hmap : l'.map (fun f => (f.pageNum, f.fixCount)) = l.map (fun f => (f.pageNum, f.fixCount))) :
    LaterUnpinned l' := by
  intro i j f g hij hf hg hp
  have key : ∀ (k : Nat) (x : BM_PageFrame), l'[k]? = some x →
      ∃ y, l[k]? = some y ∧ y.pageNum = x.pageNum ∧ y.fixCount = x.fixCount := by
    intro k x hx
    have h1 := congrArg (fun t => t[k]?) hmap
    simp only [List.getElem?_map, hx, Option.map_some'] at h1
    cases hy : l[k]? with
    | none => simp [hy] at h1
    | some y =>
      simp only [hy, Option.map_some', Option.some.injEq, Prod.mk.injEq] at h1
      exact ⟨y, rfl, h1.1.symm, h1.2.symm⟩
  obtain ⟨f', hf', hfp, _⟩ := key i f hf
  obtain ⟨g', hg', hgp, hgf⟩ := key j g hg
  rw [← hgf]
  exact h i j f' g' hij hf' hg' (by rw [hfp, hgp, hp])

/-- Replacing the first frame of a page number by a frame of the same number. -/
theorem LaterUnpinned.set_first {l : List BM_PageFrame} (h : LaterUnpinned l) (k : Nat)
    (x : BM_PageFrame) (hk : ∃ g, l[k]? = some g ∧ g.pageNum = x.pageNum)
    (hfirst : ∀ (j : Nat) (g : BM_PageFrame), l[j]? = some g → j < k → g.pageNum ≠ x.pageNum) :
    LaterUnpinned (l.set k x) := by
  obtain ⟨y, hy, hyp⟩ := hk
  have hklt : k < l.length := (List.getElem?_eq_some.1 hy).1
  intro i j f g hij hf hg hp
  by_cases hjk : j = k
  · subst hjk
    rw [List.getElem?_set_self hklt] at hg
    simp only [Option.some.injEq] at hg
    subst hg
    rw [List.getElem?_set_ne (by omega)] at hf
    exact absurd hp (hfirst i f hf hij)
  · rw [List.getElem?_set_ne (fun hc => hjk hc.symm)] at hg
    by_cases hik : i = k
    · subst hik
      rw [List.getElem?_set_self hklt] at hf
      simp only [Option.some.injEq] at hf
      subst hf
      exact h i j y g hij hy hg (by rw [hyp, hp])
    · rw [List.getElem?_set_ne (fun hc => hik hc.symm)] at hf
      exact h i j f g hij hf hg hp

/-- Binding a frame to a page number that no frame has. -/
theorem LaterUnpinned.set_new {l : List BM_PageFrame} (h : LaterUnpinned l) (k : Nat)
    (x : BM_PageFrame) (hnew : ∀ f ∈ l, f.pageNum ≠ x.pageNum) : LaterUnpinned (l.set k x) := by
  by_cases hklt : k < l.length
  · intro i j f g hij hf hg hp
    by_cases hjk : j = k
    · subst hjk
      rw [List.getElem?_set_self hklt] at hg
      simp only [Option.some.injEq] at hg
      subst hg
      rw [List.getElem?_set_ne (by omega)] at hf
      exact absurd hp (hnew f (List.getElem?_mem hf))
    · rw [List.getElem?_set_ne (fun hc => hjk hc.symm)] at hg
      by_cases hik : i = k
      · subst hik
        rw [List.getElem?_set_self hklt] at hf
        simp only [Option.some.injEq] at hf
        subst hf
        exact absurd hp.symm (hnew g (List.getElem?_mem hg))
      · rw [List.getElem?_set_ne (fun hc => hik hc.symm)] at hf
        exact h i j f g hij hf hg hp
  · rw [List.set_eq_of_length_le (Nat.le_of_not_lt hklt)]
    exact h

theorem findFrame_first {m : BM_MgmtData} {p : Int} {k : Nat} (h : findFrame m p = some k) :
    ∀ (j : Nat) (g : BM_PageFrame), m.frames[j]? = some g → j < k → g.pageNum ≠ p :=
  fun j g hg hlt => findFrameFrom_least m.frames 0 k h j g hg (by omega)

/-- One call keeps `LaterUnpinned`. -/
theorem step_later (s : PoolState) (op : Op) (h : LaterUnpinned (framesOf s.bm)) :
    LaterUnpinned (framesOf (step s op).2.bm) := by
  cases hm : s.bm.mgmtData with
  | none =>
    have hfr : framesOf s.bm = [] := by simp [framesOf, hm]
    cases op <;>
      simp [step, pinPage, unpinPage, markDirty, forcePage, forceFlushPool, hm, framesOf] <;>
      (intro i j f g _ hf; simp at hf)
  | some m =>
    have hfr : framesOf s.bm = m.frames := by simp [framesOf, hm]
    rw [hfr] at h
    have hsame : ∀ (k : Nat) (x : BM_PageFrame),
        x.pageNum = (frameAt m.frames k).pageNum → x.fixCount = (frameAt m.frames k).fixCount →
        LaterUnpinned (m.frames.set k x) := fun k x h1 h2 =>
      h.of_map (map_set_frameAt (fun f => (f.pageNum, f.fixCount)) m.frames k x (by
        simp only [h1, h2]))
    cases op with
    | pin q =>
      simp only [step]
      rcases pinPage_cases s.w s.bm m ⟨0, 0⟩ q hm with ⟨k, hk, he⟩ | ⟨hnf, k, hk, he⟩ |
        ⟨hnf, _, j, w1, m1, hev, he⟩ | ⟨hnf, _, w1, m1, hev, he⟩
      · obtain ⟨g, hg, hgp⟩ := findFrame_some hk
        have hfa := frameAt_eq_of_getElem? hg
        simp only [he, framesOf]
        exact h.set_first k _ ⟨g, hg, by simp [hfa]⟩ (by
          intro j g' hg' hlt
          simp only [hfa, hgp]
          exact findFrame_first hk j g' hg' hlt)
      · simp only [he, pinPageLoad_frames]
        exact h.set_new k _ (fun f hf => findFrame_none hnf f hf)
      · have hok := evict_some hev
        simp only [he, pinPageLoad_frames]
        have h1 : LaterUnpinned m1.frames :=
          h.of_map (hok.ref.map_eq (fun f => (f.pageNum, f.fixCount)) (fun _ => rfl))
        refine h1.set_new j _ ?_
        intro f hf
        have hpm := hok.ref.map_eq (fun f => f.pageNum) (fun _ => rfl)
        have : f.pageNum ∈ m.frames.map (fun f => f.pageNum) := by
          rw [← hpm]; exact List.mem_map.2 ⟨f, hf, rfl⟩
        intro hc
        exact not_mem_pageNums_of_findFrame hnf (by simpa [hc] using this)
      · have hfail := evict_none hev
        simp only [he, framesOf]
        exact h.of_map (hfail.ref.map_eq (fun f => (f.pageNum, f.fixCount)) (fun _ => rfl))
    | unpin page =>
      simp only [step, unpinPage, hm]
      split
      · simpa [framesOf, hm] using h
      · rename_i k hk
        split
        · simpa [framesOf, hm] using h
        · obtain ⟨g, hg, hgp⟩ := findFrame_some hk
          have hfa := frameAt_eq_of_getElem? hg
          simp only [framesOf]
          exact h.set_first k _ ⟨g, hg, by simp [hfa]⟩ (by
            intro j g' hg' hlt
            simp only [hfa, hgp]
            exact findFrame_first hk j g' hg' hlt)
    | markDirty page =>
      simp only [step, markDirty, hm]
      split
      · simpa [framesOf, hm] using h
      · simp only [framesOf]
        exact hsame _ _ rfl rfl
    | forcePage page =>
      simp only [step, forcePage, hm]
      split
      · simpa [framesOf, hm] using h
      · simp only [framesOf]
        exact hsame _ _ rfl rfl
    | forceFlush =>
      simp only [step, forceFlushPool, hm, framesOf]
      exact h.of_map (forceFlushLoop_map (fun f => (f.pageNum, f.fixCount)) (fun _ => rfl) _ _ _ _)

theorem exec_later : ∀ (ops : List Op) (s : PoolState), LaterUnpinned (framesOf s.bm) →
    LaterUnpinned (framesOf (exec s ops).bm)
  | [], _, h => h
  | op :: rest, s, h => exec_later rest (step s op).2 (step_later s op h)

/-- C14: in every pool state reached from a successful `initBufferPool` (by any
calls), `unpinPage` returns `RC_OK` exactly when some frame holds the page number of
the handle with a fix count above 0; it then lowers the fix count of that frame by
one and changes nothing else in the pool or the world (the dirty flag included);
when it fails, pool and world are unchanged. -/
theorem unpinPage_contract (w : World) (bm : BM_BufferPool) (name : String) (n : Int)
    (strategy : ReplacementStrategy) (heap : Nat → Page) (ops : List Op) (page : BM_PageHandle)
    (hinit : (initBufferPool w bm name n strategy heap).rc = RC.RC_OK) :
    ((unpinPage (poolRun w bm name n strategy heap ops).w
          (poolRun w bm name n strategy heap ops).bm page).rc = RC.RC_OK ↔
      ∃ (i : Nat) (f : BM_PageFrame),
        (framesOf (poolRun w bm name n strategy heap ops).bm)[i]? = some f ∧
        f.pageNum = page.pageNum ∧ 0 < f.fixCount) ∧
    (∀ (i : Nat) (f : BM_PageFrame),
      (framesOf (poolRun w bm name n strategy heap ops).bm)[i]? = some f →
      f.pageNum = page.pageNum → 0 < f.fixCount →
      unpinPage (poolRun w bm name n strategy heap ops).w
          (poolRun w bm name n strategy heap ops).bm page =
        ⟨RC.RC_OK, (poolRun w bm name n strategy heap ops).w,
          { (poolRun w bm name n strategy heap ops).bm with
            mgmtData := some
              { dataOf (poolRun w bm name n strategy heap ops).bm with
                frames := (framesOf (poolRun w bm name n strategy heap ops).bm).set i
                  { f with fixCount := f.fixCount - 1 } } }⟩) ∧
    ((unpinPage (poolRun w bm name n strategy heap ops).w
          (poolRun w bm name n strategy heap ops).bm page).rc ≠ RC.RC_OK →
      (unpinPage (poolRun w bm name n strategy heap ops).w
          (poolRun w bm name n strategy heap ops).bm page).w =
        (poolRun w bm name n strategy heap ops).w ∧
      (unpinPage (poolRun w bm name n strategy heap ops).w
          (poolRun w bm name n strategy heap ops).bm page).bm =
        (poolRun w bm name n strategy heap ops).bm) := by
  have hlater : LaterUnpinned (framesOf (poolRun w bm name n strategy heap ops).bm) := by
    unfold poolRun
    apply exec_later
    intro i j f g _ _ hg _
    simp only [initState] at hg
    rw [initBufferPool_frames hinit] at hg
    simp only [List.getElem?_map] at hg
    cases hr : (List.range n.toNat)[j]? with
    | none => simp [hr] at hg
    | some x =>
      simp only [hr, Option.map_some', Option.some.injEq] at hg
      subst hg
      rfl
  generalize poolRun w bm name n strategy heap ops = s at *
  cases hm : s.bm.mgmtData with
  | none =>
    have hfr : framesOf s.bm = [] := by simp [framesOf, hm]
    simp [unpinPage, hm, hfr]
  | some m =>
    have hfr : framesOf s.bm = m.frames := by simp [framesOf, hm]
    have hd : dataOf s.bm = m := by simp [dataOf, hm]
    rw [hfr] at hlater
    rw [hfr, hd]
    have key : ∀ (i : Nat) (f : BM_PageFrame), m.frames[i]? = some f →
        f.pageNum = page.pageNum → 0 < f.fixCount → findFrame m page.pageNum = some i := by
      intro i f hf hp hfix
      cases hk : findFrame m page.pageNum with
      | none => exact absurd hp (findFrame_none hk f (List.getElem?_mem hf))
      | some k =>
        obtain ⟨g, hg, hgp⟩ := findFrame_some hk
        have hle : ¬ i < k := fun hlt => findFrame_first hk i f hf hlt hp
        by_cases hki : k < i
        · have := hlater k i g f hki hg hf (by rw [hgp, hp])
          omega
        · congr 1
          omega
    refine ⟨⟨?_, ?_⟩, ?_, ?_⟩
    · intro hrc
      simp only [unpinPage, hm] at hrc
      split at hrc
      · simp at hrc
      · rename_i k hk
        split at hrc
        · simp at hrc
        · rename_i hpos
          obtain ⟨g, hg, hgp⟩ := findFrame_some hk
          rw [frameAt_eq_of_getElem? hg] at hpos
          exact ⟨k, g, hg, hgp, by omega⟩
    · rintro ⟨i, f, hf, hp, hfix⟩
      have hk := key i f hf hp hfix
      have hfa := frameAt_eq_of_getElem? hf
      simp only [unpinPage, hm, hk, hfa]
      rw [if_neg (by omega)]
    · intro i f hf hp hfix
      have hk := key i f hf hp hfix
      have hfa := frameAt_eq_of_getElem? hf
      simp only [unpinPage, hm, hk, hfa]
      rw [if_neg (by omega)]
    · intro hrc
      simp only [unpinPage, hm] at hrc ⊢
      split
      · exact ⟨rfl, rfl⟩
      · rename_i k hk
        split
        · exact ⟨rfl, rfl⟩
        · rename_i hpos
          simp only [hk, hpos, if_false] at hrc
          exact absurd rfl hrc

/-- C14 at a CLOCK pool of two frames in which page 1 is pinned twice and page 2 is
cached with fix count 0: `unpinPage` of page 1 succeeds, `unpinPage` of page 2 fails. -/
theorem unpinPage_contract_witness :
    (unpinPage
        (poolRun demoWorld blankPool "f" 2 ReplacementStrategy.RS_CLOCK (fun _ => zeroPage)
          [Op.pin 1, Op.pin 2, Op.pin 1, Op.markDirty ⟨1, 0⟩, Op.unpin ⟨2, 0⟩]).w
        (poolRun demoWorld blankPool "f" 2 ReplacementStrategy.RS_CLOCK (fun _ => zeroPage)
          [Op.pin 1, Op.pin 2, Op.pin 1, Op.markDirty ⟨1, 0⟩, Op.unpin ⟨2, 0⟩]).bm ⟨1, 0⟩).rc
      = RC.RC_OK ∧
    (unpinPage
        (poolRun demoWorld blankPool "f" 2 ReplacementStrategy.RS_CLOCK (fun _ => zeroPage)
          [Op.pin 1, Op.pin 2, Op.pin 1, Op.markDirty ⟨1, 0⟩, Op.unpin ⟨2, 0⟩]).w
        (poolRun demoWorld blankPool "f" 2 ReplacementStrategy.RS_CLOCK (fun _ => zeroPage)
          [Op.pin 1, Op.pin 2, Op.pin 1, Op.markDirty ⟨1, 0⟩, Op.unpin ⟨2, 0⟩]).bm ⟨2, 0⟩).rc
      = RC.RC_FILE_HANDLE_NOT_INIT ∧
    ((unpinPage
        (poolRun demoWorld blankPool "f" 2 ReplacementStrategy.RS_CLOCK (fun _ => zeroPage)
          [Op.pin 1, Op.pin 2, Op.pin 1, Op.markDirty ⟨1, 0⟩, Op.unpin ⟨2, 0⟩]).w
        (poolRun demoWorld blankPool "f" 2 ReplacementStrategy.RS_CLOCK (fun _ => zeroPage)
          [Op.pin 1, Op.pin 2, Op.pin 1, Op.markDirty ⟨1, 0⟩, Op.unpin ⟨2, 0⟩]).bm ⟨1, 0⟩).rc
      = RC.RC_OK ↔
    ∃ (i : Nat) (f : BM_PageFrame),
      (framesOf (poolRun demoWorld blankPool "f" 2 ReplacementStrategy.RS_CLOCK
        (fun _ => zeroPage)
        [Op.pin 1, Op.pin 2, Op.pin 1, Op.markDirty ⟨1, 0⟩, Op.unpin ⟨2, 0⟩]).bm)[i]? = some f ∧
      f.pageNum = (⟨1, 0⟩ : BM_PageHandle).pageNum ∧ 0 < f.fixCount) :=
  ⟨by decide, by decide,
    (unpinPage_contract demoWorld blankPool "f" 2 ReplacementStrategy.RS_CLOCK (fun _ => zeroPage)
      [Op.pin 1, Op.pin 2, Op.pin 1, Op.markDirty ⟨1, 0⟩, Op.unpin ⟨2, 0⟩] ⟨1, 0⟩ (by decide)).1⟩

/-! ## Attributes and the slot layout -/

theorem encodeByte_lt (v : Int) (k : Nat) : encodeByte v k < 256 := by
  unfold encodeByte
  exact Nat.mod_lt _ (by decide)

/-- A 32-bit integer stored by `writeInt` is read back by `readInt`, whatever is
stored afterwards outside its four bytes. -/
theorem readInt_of_bytes (pg : Page) (off : Nat) (v : Int)
    (hv : -2147483648 ≤ v ∧ v < 2147483648)
    (h0 : pg off = encodeByte v 0) (h1 : pg (off + 1) = encodeByte v 1)
    (h2 : pg (off + 2) = encodeByte v 2) (h3 : pg (off + 3) = encodeByte v 3) :
    readInt pg off = v := by
  unfold readInt
  rw [h0, h1, h2, h3]
  unfold encodeByte
  simp only [pow_zero, Nat.div_one, pow_one]
  have hm : (0 : Int) ≤ v % 4294967296 := Int.emod_nonneg _ (by decide)
  have hlt : v % 4294967296 < 4294967296 := Int.emod_lt_of_pos _ (by decide)
  generalize hu : (v % 4294967296).toNat = u
  have hcast : (u : Int) = v % 4294967296 := by
    rw [← hu]; exact Int.toNat_of_nonneg hm
  have hul : u < 4294967296 := by omega
  norm_num only at *
  split <;> omega

theorem writeInt_at (pg : Page) (off : Nat) (v : Int) :
    writeInt pg off v off = encodeByte v 0 ∧ writeInt pg off v (off + 1) = encodeByte v 1 ∧
    writeInt pg off v (off + 2) = encodeByte v 2 ∧ writeInt pg off v (off + 3) = encodeByte v 3 := by
  simp [writeInt]

theorem writeInt_other (pg : Page) (off : Nat) (v : Int) (i : Nat)
    (h : i < off ∨ off + 4 ≤ i) : writeInt pg off v i = pg i := by
  unfold writeInt
  rw [if_neg (by omega), if_neg (by omega), if_neg (by omega), if_neg (by omega)]

theorem readInt_writeInt (pg : Page) (off : Nat) (v : Int)
    (hv : -2147483648 ≤ v ∧ v < 2147483648) : readInt (writeInt pg off v) off = v := by
  obtain ⟨h0, h1, h2, h3⟩ := writeInt_at pg off v
  exact readInt_of_bytes _ off v hv h0 h1 h2 h3


theorem readBytes_getD (pg : Page) (off n k : Nat) :
    (readBytes pg off n).getD k 0 = if k < n then pg (off + k) else 0 := by
  unfold readBytes
  rw [List.getD_eq_getElem?_getD, List.getElem?_map]
  by_cases h : k < n
  · rw [List.getElem?_range h, if_pos h]
    rfl
  · rw [if_neg h, List.getElem?_eq_none (by simpa using h)]
    rfl

theorem readBytes_congr (pg pg' : Page) (off n : Nat)
    (h : ∀ k, k < n → pg (off + k) = pg' (off + k)) : readBytes pg off n = readBytes pg' off n := by
  unfold readBytes
  apply List.map_congr_left
  intro k hk
  exact h k (List.mem_range.1 hk)

theorem readBytes_writeBytes (pg : Page) (off : Nat) (src : List Nat) (n : Nat)
    (hn : n ≤ src.length) : readBytes (writeBytes pg off src n) off n = src.take n := by
  unfold readBytes writeBytes
  apply List.ext_getElem
  · simp [hn]
  · intro k h1 h2
    simp only [List.length_map, List.length_range] at h1
    simp only [List.getElem_map, List.getElem_range, List.getElem_take]
    rw [if_pos (by omega)]
    have : off + k - off = k := by omega
    rw [this, List.getD_eq_getElem?_getD, List.getElem?_eq_getElem (by omega)]
    rfl

theorem writeBytes_other (pg : Page) (off : Nat) (src : List Nat) (n i : Nat)
    (h : i < off ∨ off + n ≤ i) : writeBytes pg off src n i = pg i := by
  unfold writeBytes
  rw [if_neg (by omega)]

theorem attrWidth_nonneg (dt : DataType) (len : Int) (h : dt = DT_STRING → 0 ≤ len) :
    0 ≤ attrWidth dt len := by
  unfold attrWidth
  split
  · decide
  · split
    · decide
    · split
      · decide
      · split
        · rename_i hs
          exact h hs
        · decide

theorem attrOffset_succ (schema : Schema) (k : Nat) :
    attrOffset schema ((k : Int) + 1) =
      attrOffset schema (k : Int) +
        attrWidth (schema.dataTypes.getD k 0) (schema.typeLength.getD k 0) := by
  unfold attrOffset
  have h1 : ((k : Int) + 1).toNat = k + 1 := by omega
  have h2 : (k : Int).toNat = k := by omega
  rw [h1, h2, List.range_succ, List.foldl_append]
  rfl

theorem attrOffset_nonneg (schema : Schema) (hwf : SchemaWF schema) :
    ∀ k : Nat, 0 ≤ attrOffset schema (k : Int)
  | 0 => by simp [attrOffset]
  | k + 1 => by
    have := attrOffset_nonneg schema hwf k
    have hw := attrWidth_nonneg _ _ (hwf.strings k)
    rw [Nat.cast_succ, attrOffset_succ]
    omega

theorem attrOffset_mono (schema : Schema) (hwf : SchemaWF schema) (a : Nat) :
    ∀ d : Nat, attrOffset schema (a : Int) ≤ attrOffset schema ((a + d : Nat) : Int)
  | 0 => by simp
  | d + 1 => by
    have := attrOffset_mono schema hwf a d
    have hw := attrWidth_nonneg _ _ (hwf.strings (a + d))
    have e : ((a + (d + 1) : Nat) : Int) = ((a + d : Nat) : Int) + 1 := by push_cast; ring
    rw [e, attrOffset_succ]
    omega

/-- The bytes of attribute `i` lie inside a record of `getRecordSize` bytes. -/
theorem attr_inside_record (schema : Schema) (hwf : SchemaWF schema) (i : Nat)
    (hi : (i : Int) < schema.numAttr) :
    0 ≤ attrOffset schema (i : Int) ∧
    attrOffset schema (i : Int) +
      attrWidth (schema.dataTypes.getD i 0) (schema.typeLength.getD i 0) ≤ getRecordSize schema := by
  refine ⟨attrOffset_nonneg schema hwf i, ?_⟩
  rw [← attrOffset_succ]
  have hn : schema.numAttr = ((i + 1 + (schema.numAttr.toNat - (i + 1)) : Nat) : Int) := by
    have := hwf.numAttr
    omega
  have h1 := attrOffset_mono schema hwf (i + 1) (schema.numAttr.toNat - (i + 1))
  have h2 : getRecordSize schema = attrOffset schema schema.numAttr := rfl
  rw [h2]
  rw [← hn] at h1
  simpa using h1

theorem recordBytes_stored (record : Record) (d : List Nat) (stored : Page)
    (hd : record.data = some d) (j : Nat) (hj : j < d.length) :
    recordBytes { record with data := record.data.map (fun d => readBytes stored 0 d.length) } j
      = stored j := by
  simp only [recordBytes, hd, Option.map_some', Option.getD_some]
  rw [readBytes_getD, if_pos hj]
  simp

/-- C15: for a well-formed schema, a record whose buffer has `getRecordSize` bytes, an
attribute index in range and a value of the attribute's type that `setAttr` can
receive (a 32-bit `int`, four `float` bytes, a string buffer of at least `typeLength`
bytes), `setAttr` succeeds and `getAttr` on the record afterwards succeeds with a
value of the same type whose `int`, `float` bytes or `bool` is that of the value
given, and whose string is the first `typeLength` bytes of the string given followed
by a zero byte. -/
theorem setAttr_getAttr_round_trip (record : Record) (schema : Schema) (i : Int) (value : Value)
    (old : Option Value) (fresh : Value) (d : List Nat)
    (hwf : SchemaWF schema) (hi0 : 0 ≤ i) (hi1 : i < schema.numAttr)
    (hdata : record.data = some d) (hlen : (d.length : Int) = getRecordSize schema)
    (hdt : value.dt = schema.dataTypes.getD i.toNat 0)
    (hfit : value.fits (schema.typeLength.getD i.toNat 0)) :
    (setAttr record schema i value).1 = RC.RC_OK ∧
    ∃ got, getAttr (setAttr record schema i value).2 schema i old fresh = (RC.RC_OK, some got) ∧
      got.agrees value (schema.typeLength.getD i.toNat 0) := by
  obtain ⟨k, rfl⟩ := Int.eq_ofNat_of_zero_le hi0
  obtain ⟨hoff0, hin⟩ := attr_inside_record schema hwf k hi1
  have hrange : ¬ ((k : Int) < 0 ∨ (k : Int) ≥ schema.numAttr) := by omega
  have hk : (k : Int).toNat = k := by omega
  rw [hk] at hdt hfit ⊢
  generalize hoff : (attrOffset schema (k : Int)).toNat = off at *
  have hoffc : (off : Int) = attrOffset schema (k : Int) := by omega
  generalize hlenk : schema.typeLength.getD k 0 = len at *
  obtain ⟨hfi, hff, hfs⟩ := hfit
  have hne1 : (DT_FLOAT : Int) ≠ DT_INT := by decide
  have hne2 : (DT_BOOL : Int) ≠ DT_INT := by decide
  have hne3 : (DT_BOOL : Int) ≠ DT_FLOAT := by decide
  have hne4 : (DT_STRING : Int) ≠ DT_INT := by decide
  have hne5 : (DT_STRING : Int) ≠ DT_FLOAT := by decide
  have hne6 : (DT_STRING : Int) ≠ DT_BOOL := by decide
  simp only [setAttr, getAttr, hrange, if_false, hk, hoff, hlenk, ← hdt, ne_eq, not_true_eq_false]
  refine ⟨trivial, ?_⟩
  by_cases h1 : value.dt = DT_INT
  · have hw : off + 4 ≤ d.length := by
      rw [← hdt, h1] at hin
      simp only [attrWidth, if_true] at hin
      omega
    simp only [h1, if_true]
    refine ⟨_, rfl, ?_⟩
    refine ⟨h1.symm, fun _ => ?_, fun h => absurd (h1.symm.trans h) hne1.symm,
      fun h => absurd (h1.symm.trans h) hne2.symm, fun h => absurd (h1.symm.trans h) hne4.symm⟩
    obtain ⟨e0, e1, e2, e3⟩ := writeInt_at (recordBytes record) off value.intV
    show readInt _ off = value.intV
    apply readInt_of_bytes _ off _ (hfi h1)
    · rw [recordBytes_stored record d _ hdata off (by omega)]; exact e0
    · rw [recordBytes_stored record d _ hdata (off + 1) (by omega)]; exact e1
    · rw [recordBytes_stored record d _ hdata (off + 2) (by omega)]; exact e2
    · rw [recordBytes_stored record d _ hdata (off + 3) (by omega)]; exact e3
  · by_cases h2 : value.dt = DT_FLOAT
    · have hw : off + 4 ≤ d.length := by
        rw [← hdt, h2] at hin
        simp only [attrWidth, hne1, if_false, if_true] at hin
        omega
      simp only [h2, hne1, if_false, if_true]
      refine ⟨_, rfl, ?_⟩
      refine ⟨h2.symm, fun h => absurd (h2.symm.trans h) hne1, fun _ => ?_,
        fun h => absurd (h2.symm.trans h) hne3.symm, fun h => absurd (h2.symm.trans h) hne5.symm⟩
      show readBytes _ off 4 = value.floatV
      rw [readBytes_congr _ (writeBytes (recordBytes record) off value.floatV 4) off 4
        (fun j hj => recordBytes_stored record d _ hdata (off + j) (by omega))]
      rw [readBytes_writeBytes _ _ _ _ (by rw [hff h2])]
      rw [← hff h2, List.take_length]
    · by_cases h3 : value.dt = DT_BOOL
      · have hw : off + 1 ≤ d.length := by
          rw [← hdt, h3] at hin
          simp only [attrWidth, hne2, hne3, if_false, if_true] at hin
          omega
        simp only [h3, hne2, hne3, if_false, if_true]
        refine ⟨_, rfl, ?_⟩
        refine ⟨h3.symm, fun h => absurd (h3.symm.trans h) hne2,
          fun h => absurd (h3.symm.trans h) hne3, fun _ => ?_,
          fun h => absurd (h3.symm.trans h) hne6.symm⟩
        show decide (recordBytes _ off % 256 ≠ 0) = value.boolV
        have hb := recordBytes_stored record d
          (writeBytes (recordBytes record) off [if value.boolV then 1 else 0] 1) hdata off
          (by omega)
        have hv : writeBytes (recordBytes record) off [if value.boolV then 1 else 0] 1 off =
            if value.boolV then 1 else 0 := by
          simp [writeBytes]
        simp only [hb, hv]
        cases value.boolV <;> simp
      · by_cases h4 : value.dt = DT_STRING
        · have hlen0 : 0 ≤ len := by
            have := hwf.strings k (by rw [← hdt]; exact h4)
            rw [hlenk] at this
            exact this
          have hw : off + len.toNat ≤ d.length := by
            rw [← hdt, h4] at hin
            simp only [attrWidth, hne4, hne5, hne6, if_false, if_true] at hin
            omega
          simp only [h4, hne4, hne5, hne6, if_false, if_true]
          refine ⟨_, rfl, ?_⟩
          refine ⟨h4.symm, fun h => absurd (h4.symm.trans h) hne4,
            fun h => absurd (h4.symm.trans h) hne5, fun h => absurd (h4.symm.trans h) hne6,
            fun _ => ?_⟩
          show readBytes _ off len.toNat ++ [0] = _
          rw [readBytes_congr _ (writeBytes (recordBytes record) off value.stringV len.toNat) off
            len.toNat (fun j hj => recordBytes_stored record d _ hdata (off + j) (by omega))]
          rw [readBytes_writeBytes _ _ _ _ (by have := hfs h4; omega)]
        · simp only [h1, h2, h3, h4, if_false]
          exact ⟨_, rfl, rfl, fun h => absurd h h1, fun h => absurd h h2, fun h => absurd h h3,
            fun h => absurd h h4⟩

/-- C16: `setAttr` on an attribute index in range with a value whose `dt` differs from
the schema's type of that attribute returns the type-mismatch error
`RC_RM_COMPARE_VALUE_OF_DIFFERENT_DATATYPE`; `getAttr` and `setAttr` on an index
below 0 or not below `numAttr` return `RC_FILE_HANDLE_NOT_INIT`.  In each of these
cases the record is returned as it was (`getAttr` never stores into the record)
and `getAttr` leaves `*value` alone. -/
theorem attr_errors (record : Record) (schema : Schema) (i : Int) (value : Value)
    (old : Option Value) (fresh : Value) :
    (0 ≤ i → i < schema.numAttr → value.dt ≠ schema.dataTypes.getD i.toNat 0 →
      setAttr record schema i value = (RC.RC_RM_COMPARE_VALUE_OF_DIFFERENT_DATATYPE, record)) ∧
    (i < 0 ∨ schema.numAttr ≤ i →
      getAttr record schema i old fresh = (RC.RC_FILE_HANDLE_NOT_INIT, old) ∧
      setAttr record schema i value = (RC.RC_FILE_HANDLE_NOT_INIT, record)) := by
  constructor
  · intro h0 h1 hdt
    have hrange : ¬ (i < 0 ∨ i ≥ schema.numAttr) := by omega
    simp only [setAttr, hrange, if_false, ne_eq, hdt, not_false_eq_true, if_true]
  · intro h
    have hrange : i < 0 ∨ i ≥ schema.numAttr := by omega
    simp only [getAttr, setAttr, hrange, if_true, and_self]

theorem zipWith_width_sum :
    ∀ (dts : List DataType) (lens : List Int) (n : Nat) (acc : Int),
      dts.length = n → lens.length = n →
      (List.range n).foldl (fun size i => size + attrWidth (dts.getD i 0) (lens.getD i 0)) acc
        = acc + (List.zipWith attrWidth dts lens).sum
  | [], [], 0, acc, _, _ => by simp
  | [], _, n + 1, _, h, _ => by simp at h
  | _ :: _, [], n + 1, _, _, h => by simp at h
  | _ :: _, _, 0, _, h, _ => by simp at h
  | [], _ :: _, 0, _, _, h => by simp at h
  | dt :: dts, len :: lens, n + 1, acc, h1, h2 => by
    have ih := zipWith_width_sum dts lens n (acc + attrWidth dt len) (by simpa using h1)
      (by simpa using h2)
    rw [List.range_succ_eq_map, List.foldl_cons, List.foldl_map]
    simp only [List.getD_cons_zero, List.getD_cons_succ, List.zipWith_cons_cons, List.sum_cons]
    rw [ih]
    omega

/-- C17: for a well-formed schema (string lengths not negative), `getRecordSize` is the
sum of the attribute widths, a width being 4 for INT, 4 for FLOAT, 1 for BOOL and
`typeLength` for STRING; `calculateSlotsPerPage` is the floor of
`(PAGE_SIZE - 12) / (recordSize + 1)`; and for every slot `s` with
`0 ≤ s < slotsPerPage` the tombstone byte is at offset `12 + s * (recordSize + 1)`,
not below 12, the payload of `recordSize` bytes starts right after it and ends
inside the page, and the slot ends where the slot of any later index begins or
before. -/
theorem slot_layout_fits_page (schema : Schema) (hwf : SchemaWF schema) :
    getRecordSize schema = (List.zipWith attrWidth schema.dataTypes schema.typeLength).sum ∧
    (∀ len : Int, attrWidth DT_INT len = 4 ∧ attrWidth DT_FLOAT len = 4 ∧
      attrWidth DT_BOOL len = 1 ∧ attrWidth DT_STRING len = len) ∧
    0 ≤ getRecordSize schema ∧
    calculateSlotsPerPage (getRecordSize schema) =
      ((PAGE_SIZE : Int) - 12) / (getRecordSize schema + 1) ∧
    ∀ s : Int, 0 ≤ s → s < calculateSlotsPerPage (getRecordSize schema) →
      (tombstoneOffset s (getRecordSize schema) : Int) = 12 + s * (getRecordSize schema + 1) ∧
      12 ≤ tombstoneOffset s (getRecordSize schema) ∧
      getRecordDataPointer s (getRecordSize schema) = tombstoneOffset s (getRecordSize schema) + 1 ∧
      getRecordDataPointer s (getRecordSize schema) + (getRecordSize schema).toNat ≤ PAGE_SIZE ∧
      ∀ t : Int, s < t →
        getRecordDataPointer s (getRecordSize schema) + (getRecordSize schema).toNat
          ≤ tombstoneOffset t (getRecordSize schema) := by
  have hsum : getRecordSize schema =
      (List.zipWith attrWidth schema.dataTypes schema.typeLength).sum := by
    have hn := hwf.numAttr
    have := zipWith_width_sum schema.dataTypes schema.typeLength schema.numAttr.toNat 0
      (by have := hwf.types; omega) (by have := hwf.lengths; omega)
    simpa [getRecordSize, getRecordSizeHelper] using this
  have hnn : 0 ≤ getRecordSize schema := by
    have h1 := attrOffset_nonneg schema hwf schema.numAttr.toNat
    have h2 : ((schema.numAttr.toNat : Nat) : Int) = schema.numAttr := by
      have := hwf.numAttr
      omega
    rw [h2] at h1
    exact h1
  generalize getRecordSize schema = rs at *
  have hdiv : calculateSlotsPerPage rs = ((PAGE_SIZE : Int) - 12) / (rs + 1) := by
    unfold calculateSlotsPerPage PAGE_SIZE PAGE_HEADER_SIZE
    exact Int.tdiv_eq_ediv (by decide) (by omega)
  refine ⟨hsum, fun len => by simp [attrWidth, DT_INT, DT_FLOAT, DT_BOOL, DT_STRING], hnn,
    hdiv, ?_⟩
  intro s hs0 hs1
  rw [hdiv] at hs1
  have hpos : 0 < rs + 1 := by omega
  have hmul : (((PAGE_SIZE : Int) - 12) / (rs + 1)) * (rs + 1) ≤ (PAGE_SIZE : Int) - 12 :=
    Int.ediv_mul_le _ (by omega)
  have hstep : (s + 1) * (rs + 1) ≤ (((PAGE_SIZE : Int) - 12) / (rs + 1)) * (rs + 1) :=
    Int.mul_le_mul_of_nonneg_right (by omega) (by omega)
  have hs : 0 ≤ s * (rs + 1) := Int.mul_nonneg hs0 (by omega)
  have hexp : (s + 1) * (rs + 1) = s * (rs + 1) + rs + 1 := by ring
  have hP : (PAGE_SIZE : Int) = 4096 := rfl
  have hPn : PAGE_SIZE = 4096 := rfl
  have hto : (tombstoneOffset s rs : Int) = 12 + s * (rs + 1) := by
    unfold tombstoneOffset PAGE_HEADER_SIZE
    push_cast
    omega
  have hptr : (getRecordDataPointer s rs : Int) = 12 + s * (rs + 1) + 1 := by
    unfold getRecordDataPointer PAGE_HEADER_SIZE
    push_cast
    omega
  refine ⟨hto, by omega, by omega, by omega, ?_⟩
  intro t hst
  have hstep2 : (s + 1) * (rs + 1) ≤ t * (rs + 1) :=
    Int.mul_le_mul_of_nonneg_right (by omega) (by omega)
  have ht : 0 ≤ t * (rs + 1) := by omega
  have htt : (tombstoneOffset t rs : Int) = 12 + t * (rs + 1) := by
    unfold tombstoneOffset PAGE_HEADER_SIZE
    push_cast
    omega
  omega

/-! ## Schema serialisation -/

theorem HasBytes.append_iff (pg : Page) (off : Nat) (a b : List Nat) :
    HasBytes pg off (a ++ b) ↔ HasBytes pg off a ∧ HasBytes pg (off + a.length) b := by
  constructor
  · intro h
    constructor
    · intro k hk
      have := h k (by simp; omega)
      rw [this, List.getD_eq_getElem?_getD, List.getD_eq_getElem?_getD,
        List.getElem?_append_left hk]
    · intro k hk
      have := h (a.length + k) (by simp; omega)
      rw [Nat.add_assoc, this, List.getD_eq_getElem?_getD, List.getD_eq_getElem?_getD,
        List.getElem?_append_right (by omega)]
      simp
  · rintro ⟨ha, hb⟩ k hk
    by_cases hka : k < a.length
    · rw [ha k hka, List.getD_eq_getElem?_getD, List.getD_eq_getElem?_getD,
        List.getElem?_append_left hka]
    · have hk' : k - a.length < b.length := by simp at hk; omega
      have := hb (k - a.length) hk'
      have e : off + a.length + (k - a.length) = off + k := by omega
      rw [e] at this
      rw [this, List.getD_eq_getElem?_getD, List.getD_eq_getElem?_getD,
        List.getElem?_append_right (by omega)]

theorem HasBytes.congr {pg pg' : Page} {off : Nat} {bytes : List Nat} (h : HasBytes pg off bytes)
    (heq : ∀ k, k < bytes.length → pg' (off + k) = pg (off + k)) : HasBytes pg' off bytes :=
  fun k hk => (heq k hk).trans (h k hk)

theorem le32_length (v : Int) : (le32 v).length = 4 := rfl

theorem HasBytes.writeInt_self (pg : Page) (off : Nat) (v : Int) :
    HasBytes (writeInt pg off v) off (le32 v) := by
  obtain ⟨h0, h1, h2, h3⟩ := writeInt_at pg off v
  intro k hk
  simp only [le32_length] at hk
  have : k = 0 ∨ k = 1 ∨ k = 2 ∨ k = 3 := by omega
  rcases this with rfl | rfl | rfl | rfl
  · simpa [le32] using h0
  · simpa [le32] using h1
  · simpa [le32] using h2
  · simpa [le32] using h3

theorem HasBytes.writeBytes_self (pg : Page) (off : Nat) (src : List Nat) :
    HasBytes (writeBytes pg off src src.length) off src := by
  intro k hk
  unfold writeBytes
  rw [if_pos (by omega)]
  congr 1
  omega

theorem HasBytes.readInt_eq {pg : Page} {off : Nat} {v : Int} (h : HasBytes pg off (le32 v))
    (hv : isInt32 v) : readInt pg off = v := by
  have h0 := h 0 (by simp [le32])
  have h1 := h 1 (by simp [le32])
  have h2 := h 2 (by simp [le32])
  have h3 := h 3 (by simp [le32])
  simp only [le32, List.getD_cons_zero, List.getD_cons_succ, Nat.add_zero] at h0 h1 h2 h3
  exact readInt_of_bytes pg off v hv h0 h1 h2 h3

theorem HasBytes.readBytes_eq {pg : Page} {off : Nat} {bytes : List Nat}
    (h : HasBytes pg off bytes) : readBytes pg off bytes.length = bytes := by
  unfold readBytes
  apply List.ext_getElem
  · simp
  · intro k h1 h2
    simp only [List.getElem_map, List.getElem_range]
    rw [h k h2, List.getD_eq_getElem?_getD, List.getElem?_eq_getElem h2]
    rfl

theorem writeSchemaAttrs_shift (n n' kn kn' : Int) (ks ks' : List Int) (name : List Nat)
    (names : List (List Nat)) (dt : DataType) (dts : List DataType) (len : Int) (lens : List Int) :
    ∀ (left i : Nat) (data : Page) (offset : Int),
      writeSchemaAttrs ⟨n, name :: names, dt :: dts, len :: lens, ks, kn⟩ left (i + 1) data offset =
        writeSchemaAttrs ⟨n', names, dts, lens, ks', kn'⟩ left i data offset
  | 0, _, _, _ => rfl
  | left + 1, i, data, offset => by
    simp only [writeSchemaAttrs, List.getD_cons_succ]
    split
    · rfl
    · exact writeSchemaAttrs_shift n n' kn kn' ks ks' name names dt dts len lens left (i + 1) _ _

theorem writeSchemaAttrs_fields (s s' : Schema) (h1 : s.attrNames = s'.attrNames)
    (h2 : s.dataTypes = s'.dataTypes) (h3 : s.typeLength = s'.typeLength) :
    ∀ (left i : Nat) (data : Page) (offset : Int),
      writeSchemaAttrs s left i data offset = writeSchemaAttrs s' left i data offset
  | 0, _, _, _ => rfl
  | left + 1, i, data, offset => by
    simp only [writeSchemaAttrs, h1, h2, h3]
    split
    · rfl
    · exact writeSchemaAttrs_fields s s' h1 h2 h3 left (i + 1) _ _

theorem attrsSize_cons (name : List Nat) (names : List (List Nat)) :
    attrsSize (name :: names) = 12 + (name.length : Int) + attrsSize names := by
  simp [attrsSize]

theorem attrsSize_nonneg : ∀ names : List (List Nat), 0 ≤ attrsSize names
  | [] => by simp [attrsSize]
  | name :: names => by
    have := attrsSize_nonneg names
    rw [attrsSize_cons]
    omega

/-- The attribute loop of `writeSchemaToPage` on the three attribute arrays: it fails
exactly when the attributes do not end inside the page; when it succeeds the buffer
holds the serialised attributes from `off` on and is unchanged below `off`. -/
theorem writeSchemaAttrs_lists :
    ∀ (names : List (List Nat)) (dts : List DataType) (lens : List Int) (data : Page) (off : Nat),
      dts.length = names.length → lens.length = names.length →
      ((off : Int) + attrsSize names ≤ (PAGE_SIZE : Int) →
        (writeSchemaAttrs ⟨0, names, dts, lens, [], 0⟩ names.length 0 data off).1 = true ∧
        (writeSchemaAttrs ⟨0, names, dts, lens, [], 0⟩ names.length 0 data off).2.2
          = (off : Int) + attrsSize names ∧
        HasBytes (writeSchemaAttrs ⟨0, names, dts, lens, [], 0⟩ names.length 0 data off).2.1 off
          (attrsBytes dts lens names) ∧
        ∀ k, k < off →
          (writeSchemaAttrs ⟨0, names, dts, lens, [], 0⟩ names.length 0 data off).2.1 k = data k) ∧
      ((off : Int) ≤ (PAGE_SIZE : Int) → (off : Int) + attrsSize names > (PAGE_SIZE : Int) →
        (writeSchemaAttrs ⟨0, names, dts, lens, [], 0⟩ names.length 0 data off).1 = false)
  | [], dts, lens, data, off, h1, h2 => by
    have e1 : dts = [] := List.length_eq_zero.1 h1
    have e2 : lens = [] := List.length_eq_zero.1 h2
    subst e1 e2
    have hP : (PAGE_SIZE : Int) = 4096 := rfl
    refine ⟨fun _ => ⟨rfl, by simp [writeSchemaAttrs, attrsSize],
      fun k hk => by simp [attrsBytes] at hk, fun _ _ => rfl⟩, fun hle h => ?_⟩
    simp only [attrsSize, List.map_nil, List.sum_nil, Int.add_zero] at h
    omega
  | name :: names, [], _, _, _, h1, _ => by simp at h1
  | name :: names, _ :: _, [], _, _, _, h2 => by simp at h2
  | name :: names, dt :: dts, len :: lens, data, off, h1, h2 => by
    have hl1 : dts.length = names.length := by simpa using h1
    have hl2 : lens.length = names.length := by simpa using h2
    have hP : (PAGE_SIZE : Int) = 4096 := rfl
    have hsz := attrsSize_nonneg names
    rw [attrsSize_cons]
    simp only [List.length_cons, writeSchemaAttrs, List.getD_cons_zero]
    have e4 : ((off : Int) + 4).toNat = off + 4 := by omega
    have e8 : ((off : Int) + 8).toNat = off + 8 := by omega
    have e12 : ((off : Int) + 12).toNat = off + 12 := by omega
    have e0 : ((off : Int)).toNat = off := by omega
    have en : ((name.length : Int)).toNat = name.length := by omega
    rw [e0, e4, e8, e12, en]
    by_cases hc : (off : Int) + 8 + 4 + (name.length : Int) > (PAGE_SIZE : Int)
    · rw [if_pos hc]
      refine ⟨fun h => ?_, fun _ _ => rfl⟩
      omega
    · rw [if_neg hc]
      rw [writeSchemaAttrs_shift 0 0 0 0 [] [] name names dt dts len lens names.length 0]
      have ecast : (off : Int) + 12 + (name.length : Int) = ((off + 12 + name.length : Nat) : Int) := by
        push_cast; ring
      rw [ecast]
      obtain ⟨ihok, ihfail⟩ := writeSchemaAttrs_lists names dts lens
        (writeBytes (writeInt (writeInt (writeInt data off dt) (off + 4) len) (off + 8)
          (name.length : Int)) (off + 12) name name.length) (off + 12 + name.length) hl1 hl2
      refine ⟨fun h => ?_, fun _ h => ihfail (by push_cast; omega) (by push_cast; omega)⟩
      obtain ⟨r1, r2, r3, r4⟩ := ihok (by push_cast; omega)
      refine ⟨r1, by rw [r2]; push_cast; ring, ?_, ?_⟩
      · simp only [attrsBytes]
        rw [HasBytes.append_iff, HasBytes.append_iff, HasBytes.append_iff, HasBytes.append_iff]
        simp only [le32_length, List.length_append]
        have e : off + (4 + 4 + 4 + name.length) = off + 12 + name.length := by omega
        rw [e]
        refine ⟨⟨⟨⟨?_, ?_⟩, ?_⟩, ?_⟩, r3⟩
        · refine (HasBytes.writeInt_self data off dt).congr ?_
          intro k hk
          simp only [le32_length] at hk
          rw [r4 _ (by omega), writeBytes_other _ _ _ _ _ (by omega),
            writeInt_other _ _ _ _ (by omega), writeInt_other _ _ _ _ (by omega)]
        · refine (HasBytes.writeInt_self (writeInt data off dt) (off + 4) len).congr ?_
          intro k hk
          simp only [le32_length] at hk
          rw [r4 _ (by omega), writeBytes_other _ _ _ _ _ (by omega),
            writeInt_other _ _ _ _ (by omega)]
        · refine (HasBytes.writeInt_self (writeInt (writeInt data off dt) (off + 4) len) (off + 8)
            (name.length : Int)).congr ?_
          intro k hk
          simp only [le32_length] at hk
          rw [r4 _ (by omega), writeBytes_other _ _ _ _ _ (by omega)]
        · refine (HasBytes.writeBytes_self (writeInt (writeInt (writeInt data off dt) (off + 4) len)
            (off + 8) (name.length : Int)) (off + 12) name).congr ?_
          intro k hk
          rw [r4 _ (by omega)]
      · intro k hk
        rw [r4 k (by omega), writeBytes_other _ _ _ _ _ (by omega),
          writeInt_other _ _ _ _ (by omega), writeInt_other _ _ _ _ (by omega),
          writeInt_other _ _ _ _ (by omega)]


theorem writeSchemaKeys_shift (s s' : Schema) (key : Int) (keys : List Int)
    (hs : s.keyAttrs = key :: keys) (hs' : s'.keyAttrs = keys) :
    ∀ (left i : Nat) (data : Page) (offset : Int),
      writeSchemaKeys s left (i + 1) data offset = writeSchemaKeys s' left i data offset
  | 0, _, _, _ => rfl
  | left + 1, i, data, offset => by
    simp only [writeSchemaKeys, hs, hs', List.getD_cons_succ]
    split
    · rfl
    · exact writeSchemaKeys_shift s s' key keys hs hs' left (i + 1) _ _

theorem keysBytes_length : ∀ keys : List Int, (keysBytes keys).length = 4 * keys.length
  | [] => rfl
  | key :: keys => by
    simp only [keysBytes, List.length_append, le32_length, keysBytes_length keys, List.length_cons]
    omega

/-- The key loop of `writeSchemaToPage`: it fails exactly when the keys do not end
inside the page; when it succeeds the buffer holds the serialised keys from `off`
on and is unchanged below `off`. -/
theorem writeSchemaKeys_lists :
    ∀ (keys : List Int) (s : Schema) (data : Page) (off : Nat), s.keyAttrs = keys →
      ((off : Int) + 4 * (keys.length : Int) ≤ (PAGE_SIZE : Int) →
        (writeSchemaKeys s keys.length 0 data off).1 = true ∧
        (writeSchemaKeys s keys.length 0 data off).2.2 = (off : Int) + 4 * (keys.length : Int) ∧
        HasBytes (writeSchemaKeys s keys.length 0 data off).2.1 off (keysBytes keys) ∧
        ∀ k, k < off → (writeSchemaKeys s keys.length 0 data off).2.1 k = data k) ∧
      ((off : Int) ≤ (PAGE_SIZE : Int) → (off : Int) + 4 * (keys.length : Int) > (PAGE_SIZE : Int) →
        (writeSchemaKeys s keys.length 0 data off).1 = false)
  | [], s, data, off, _ => by
    refine ⟨fun _ => ⟨rfl, by simp [writeSchemaKeys], fun k hk => by simp [keysBytes] at hk,
      fun _ _ => rfl⟩, fun hle h => ?_⟩
    simp only [List.length_nil, Nat.cast_zero, Int.mul_zero, Int.add_zero] at h
    omega
  | key :: keys, s, data, off, hs => by
    have hP : (PAGE_SIZE : Int) = 4096 := rfl
    simp only [List.length_cons, writeSchemaKeys, hs, List.getD_cons_zero]
    have e0 : ((off : Int)).toNat = off := by omega
    rw [e0]
    by_cases hc : (off : Int) + 4 > (PAGE_SIZE : Int)
    · rw [if_pos hc]
      refine ⟨fun h => ?_, fun _ _ => rfl⟩
      push_cast at h
      omega
    · rw [if_neg hc]
      rw [writeSchemaKeys_shift s { s with keyAttrs := keys } key keys hs rfl keys.length 0]
      have ecast : (off : Int) + 4 = ((off + 4 : Nat) : Int) := by push_cast; ring
      rw [ecast]
      obtain ⟨ihok, ihfail⟩ := writeSchemaKeys_lists keys { s with keyAttrs := keys }
        (writeInt data off key) (off + 4) rfl
      refine ⟨fun h => ?_, fun _ h => ihfail (by push_cast; omega) (by push_cast at h ⊢; omega)⟩
      obtain ⟨r1, r2, r3, r4⟩ := ihok (by push_cast at h ⊢; omega)
      refine ⟨r1, by rw [r2]; push_cast; ring, ?_, ?_⟩
      · simp only [keysBytes]
        rw [HasBytes.append_iff]
        simp only [le32_length]
        refine ⟨?_, r3⟩
        refine (HasBytes.writeInt_self data off key).congr ?_
        intro k hk
        simp only [le32_length] at hk
        rw [r4 _ (by omega)]
      · intro k hk
        rw [r4 k (by omega), writeInt_other _ _ _ _ (by omega)]

/-- The attribute loop of `readSchemaFromPage` on a buffer that holds serialised
attributes from `off` on reads these attributes. -/
theorem readSchemaAttrs_lists :
    ∀ (names : List (List Nat)) (dts : List DataType) (lens : List Int) (pg : Page) (off : Nat),
      dts.length = names.length → lens.length = names.length →
      (∀ x ∈ dts, isInt32 x) → (∀ x ∈ lens, isInt32 x) →
      (∀ name ∈ names, (name.length : Int) < 2147483648) →
      HasBytes pg off (attrsBytes dts lens names) →
      readSchemaAttrs pg names.length off = (dts, lens, names, (off : Int) + attrsSize names)
  | [], dts, lens, pg, off, h1, h2, _, _, _, _ => by
    have e1 : dts = [] := List.length_eq_zero.1 h1
    have e2 : lens = [] := List.length_eq_zero.1 h2
    subst e1 e2
    simp [readSchemaAttrs, attrsSize]
  | name :: names, [], _, _, _, h1, _, _, _, _, _ => by simp at h1
  | name :: names, _ :: _, [], _, _, _, h2, _, _, _, _ => by simp at h2
  | name :: names, dt :: dts, len :: lens, pg, off, h1, h2, hd, hl, hn, hb => by
    have hl1 : dts.length = names.length := by simpa using h1
    have hl2 : lens.length = names.length := by simpa using h2
    simp only [attrsBytes] at hb
    rw [HasBytes.append_iff, HasBytes.append_iff, HasBytes.append_iff, HasBytes.append_iff] at hb
    simp only [le32_length, List.length_append] at hb
    obtain ⟨⟨⟨⟨b1, b2⟩, b3⟩, b4⟩, b5⟩ := hb
    have r1 := b1.readInt_eq (hd dt (List.mem_cons_self _ _))
    have r2 := b2.readInt_eq (hl len (List.mem_cons_self _ _))
    have hnl := hn name (List.mem_cons_self _ _)
    have r3 := b3.readInt_eq (v := (name.length : Int)) ⟨by omega, hnl⟩
    have r4 := b4.readBytes_eq
    have e : off + (4 + 4 + 4 + name.length) = off + 12 + name.length := by omega
    rw [e] at b5
    have ih := readSchemaAttrs_lists names dts lens pg (off + 12 + name.length) hl1 hl2
      (fun x hx => hd x (List.mem_cons_of_mem _ hx)) (fun x hx => hl x (List.mem_cons_of_mem _ hx))
      (fun x hx => hn x (List.mem_cons_of_mem _ hx)) b5
    have e0 : ((off : Int)).toNat = off := by omega
    have e4 : ((off : Int) + 4).toNat = off + 4 := by omega
    have e8 : ((off : Int) + 8).toNat = off + 8 := by omega
    have e12 : ((off : Int) + 12).toNat = off + 4 + 4 + 4 := by omega
    have en : ((name.length : Int)).toNat = name.length := by omega
    have ecast : (off : Int) + 12 + (name.length : Int) = ((off + 12 + name.length : Nat) : Int) := by
      push_cast; ring
    simp only [List.length_cons, readSchemaAttrs, e0, e4, e8, e12, r1, r2, r3, en, r4, ecast, ih]
    rw [attrsSize_cons]
    simp only [Prod.mk.injEq, true_and]
    push_cast
    ring

theorem map_coe_nat (l : List Nat) (f : Int → Int) :
    List.map f (do let a ← l; pure (a : Int)) = l.map (fun i : Nat => f (i : Int)) := by
  induction l with
  | nil => rfl
  | cons x xs ih =>
    simp only [List.map_cons]
    rw [← ih]
    rfl

/-- The key indices read by `readSchemaFromPage` from a buffer that holds
serialised keys from `off` on. -/
theorem readKeys_lists :
    ∀ (keys : List Int) (pg : Page) (off : Nat), (∀ x ∈ keys, isInt32 x) →
      HasBytes pg off (keysBytes keys) →
      (List.range keys.length).map (fun i : Nat => readInt pg ((off : Int) + 4 * (i : Int)).toNat)
        = keys
  | [], _, _, _, _ => rfl
  | key :: keys, pg, off, hk, hb => by
    simp only [keysBytes] at hb
    rw [HasBytes.append_iff] at hb
    simp only [le32_length] at hb
    obtain ⟨b1, b2⟩ := hb
    have r1 := b1.readInt_eq (hk key (List.mem_cons_self _ _))
    have ih := readKeys_lists keys pg (off + 4) (fun x hx => hk x (List.mem_cons_of_mem _ hx)) b2
    rw [List.length_cons, List.range_succ_eq_map, List.map_cons, List.map_map]
    have e0 : ((off : Int) + 4 * ((0 : Nat) : Int)).toNat = off := by omega
    rw [e0, r1]
    congr 1
    refine Eq.trans ?_ ih
    apply List.map_congr_left
    intro i _
    simp only [Function.comp]
    congr 1
    push_cast
    omega

theorem attrsSize_ge : ∀ names : List (List Nat),
    12 * (names.length : Int) ≤ attrsSize names ∧
      ∀ name ∈ names, 12 + (name.length : Int) ≤ attrsSize names
  | [] => by simp [attrsSize]
  | nm :: names => by
    obtain ⟨h1, h2⟩ := attrsSize_ge names
    rw [attrsSize_cons]
    refine ⟨by rw [List.length_cons]; push_cast; omega, ?_⟩
    intro name hmem
    rcases List.mem_cons.1 hmem with rfl | hmem
    · have := attrsSize_nonneg names
      omega
    · have := h2 name hmem
      omega

theorem attrsBytes_length :
    ∀ (names : List (List Nat)) (dts : List DataType) (lens : List Int),
      dts.length = names.length → lens.length = names.length →
      ((attrsBytes dts lens names).length : Int) = attrsSize names
  | [], dts, lens, _, _ => by cases dts <;> cases lens <;> simp [attrsBytes, attrsSize]
  | nm :: names, [], _, h1, _ => by simp at h1
  | nm :: names, _ :: _, [], _, h2 => by simp at h2
  | nm :: names, dt :: dts, len :: lens, h1, h2 => by
    have := attrsBytes_length names dts lens (by simpa using h1) (by simpa using h2)
    simp only [attrsBytes, List.length_append, le32_length, attrsSize_cons]
    push_cast
    omega

/-- The stores of `writeSchemaToPage` into the buffer of page 0, for a well-formed
schema: when the serialised form fits in the page both loops succeed and the buffer
holds `schemaBytes` from offset 0 on; when it does not fit, one of the loops fails. -/
theorem schema_stores (schema : Schema) (hwf : SchemaWF schema) (buf : Page) :
    (serialisedSize schema ≤ (PAGE_SIZE : Int) →
      (writeSchemaAttrs schema schema.numAttr.toNat 0
        (writeInt (writeInt buf 0 schema.numAttr) 4 schema.keySize) 8).1 = true ∧
      (writeSchemaKeys schema schema.keySize.toNat 0
        (writeSchemaAttrs schema schema.numAttr.toNat 0
          (writeInt (writeInt buf 0 schema.numAttr) 4 schema.keySize) 8).2.1
        (writeSchemaAttrs schema schema.numAttr.toNat 0
          (writeInt (writeInt buf 0 schema.numAttr) 4 schema.keySize) 8).2.2).1 = true ∧
      HasBytes (writeSchemaKeys schema schema.keySize.toNat 0
        (writeSchemaAttrs schema schema.numAttr.toNat 0
          (writeInt (writeInt buf 0 schema.numAttr) 4 schema.keySize) 8).2.1
        (writeSchemaAttrs schema schema.numAttr.toNat 0
          (writeInt (writeInt buf 0 schema.numAttr) 4 schema.keySize) 8).2.2).2.1 0
        (schemaBytes schema)) ∧
    (serialisedSize schema > (PAGE_SIZE : Int) →
      (writeSchemaAttrs schema schema.numAttr.toNat 0
        (writeInt (writeInt buf 0 schema.numAttr) 4 schema.keySize) 8).1 = false ∨
      (writeSchemaKeys schema schema.keySize.toNat 0
        (writeSchemaAttrs schema schema.numAttr.toNat 0
          (writeInt (writeInt buf 0 schema.numAttr) 4 schema.keySize) 8).2.1
        (writeSchemaAttrs schema schema.numAttr.toNat 0
          (writeInt (writeInt buf 0 schema.numAttr) 4 schema.keySize) 8).2.2).1 = false) := by
  have hP : (PAGE_SIZE : Int) = 4096 := rfl
  have hn : schema.numAttr.toNat = schema.attrNames.length := by
    have := hwf.names; have := hwf.numAttr; omega
  have hk : schema.keySize.toNat = schema.keyAttrs.length := by
    have := hwf.keySize; omega
  have hd : schema.dataTypes.length = schema.attrNames.length := by
    have := hwf.names; have := hwf.types; omega
  have hl : schema.typeLength.length = schema.attrNames.length := by
    have := hwf.names; have := hwf.lengths; omega
  generalize hdata0 : writeInt (writeInt buf 0 schema.numAttr) 4 schema.keySize = data0
  have hfields := writeSchemaAttrs_fields schema
    ⟨0, schema.attrNames, schema.dataTypes, schema.typeLength, [], 0⟩ rfl rfl rfl
    schema.attrNames.length 0 data0 8
  obtain ⟨aok, afail⟩ := writeSchemaAttrs_lists schema.attrNames schema.dataTypes
    schema.typeLength data0 8 hd hl
  have e8 : ((8 : Nat) : Int) = 8 := rfl
  rw [e8, ← hfields, ← hn] at aok afail
  have hsz := attrsSize_nonneg schema.attrNames
  have hks : (4 : Int) * schema.keySize = 4 * (schema.keyAttrs.length : Int) := by
    rw [hwf.keySize]
  unfold serialisedSize
  constructor
  · intro hfit
    obtain ⟨a1, a2, a3, a4⟩ := aok (by omega)
    have hoff : (writeSchemaAttrs schema schema.numAttr.toNat 0 data0 8).2.2 =
        (((8 + attrsSize schema.attrNames).toNat : Nat) : Int) := by
      rw [a2]; omega
    obtain ⟨kok, _⟩ := writeSchemaKeys_lists schema.keyAttrs schema
      (writeSchemaAttrs schema schema.numAttr.toNat 0 data0 8).2.1
      (8 + attrsSize schema.attrNames).toNat rfl
    rw [← hoff, ← hk] at kok
    obtain ⟨k1, _, k3, k4⟩ := kok (by rw [a2]; omega)
    refine ⟨a1, k1, ?_⟩
    unfold schemaBytes
    rw [HasBytes.append_iff, HasBytes.append_iff, HasBytes.append_iff]
    simp only [le32_length, List.length_append, Nat.zero_add]
    have hal := attrsBytes_length schema.attrNames schema.dataTypes schema.typeLength hd hl
    have e : 4 + 4 + (attrsBytes schema.dataTypes schema.typeLength schema.attrNames).length
        = (8 + attrsSize schema.attrNames).toNat := by omega
    rw [e]
    refine ⟨⟨⟨?_, ?_⟩, ?_⟩, k3⟩
    · refine (HasBytes.writeInt_self buf 0 schema.numAttr).congr ?_
      intro j hj
      simp only [le32_length] at hj
      rw [k4 _ (by omega), a4 _ (by omega), ← hdata0, writeInt_other _ _ _ _ (by omega)]
    · refine (HasBytes.writeInt_self (writeInt buf 0 schema.numAttr) 4 schema.keySize).congr ?_
      intro j hj
      simp only [le32_length] at hj
      rw [k4 _ (by omega), a4 _ (by omega), ← hdata0]
    · refine a3.congr ?_
      intro j hj
      rw [k4 _ (by omega)]
  · intro hbig
    by_cases hattr : (8 : Int) + attrsSize schema.attrNames ≤ (PAGE_SIZE : Int)
    · right
      obtain ⟨a1, a2, a3, a4⟩ := aok hattr
      have hoff : (writeSchemaAttrs schema schema.numAttr.toNat 0 data0 8).2.2 =
          (((8 + attrsSize schema.attrNames).toNat : Nat) : Int) := by
        rw [a2]; omega
      obtain ⟨_, kfail⟩ := writeSchemaKeys_lists schema.keyAttrs schema
        (writeSchemaAttrs schema schema.numAttr.toNat 0 data0 8).2.1
        (8 + attrsSize schema.attrNames).toNat rfl
      rw [← hoff, ← hk] at kfail
      exact kfail (by rw [a2]; exact hattr) (by rw [a2]; omega)
    · left
      exact afail (by omega) (by omega)

/-- `readSchemaFromPage`'s loads from a buffer that holds `schemaBytes` of a
well-formed schema whose serialised form fits in the page: they give back the
fields of the schema. -/
theorem schema_loads (schema : Schema) (hwf : SchemaWF schema) (hints : SchemaInts schema)
    (hfit : serialisedSize schema ≤ (PAGE_SIZE : Int)) (pg : Page)
    (hb : HasBytes pg 0 (schemaBytes schema)) :
    readInt pg 0 = schema.numAttr ∧ readInt pg 4 = schema.keySize ∧
    readSchemaAttrs pg schema.numAttr.toNat 8 =
      (schema.dataTypes, schema.typeLength, schema.attrNames, 8 + attrsSize schema.attrNames) ∧
    (List.range schema.keySize.toNat).map
      (fun i : Nat => readInt pg (8 + attrsSize schema.attrNames + 4 * (i : Int)).toNat)
      = schema.keyAttrs := by
  have hP : (PAGE_SIZE : Int) = 4096 := rfl
  have hn : schema.numAttr.toNat = schema.attrNames.length := by
    have := hwf.names; have := hwf.numAttr; omega
  have hk : schema.keySize.toNat = schema.keyAttrs.length := by
    have := hwf.keySize; omega
  have hd : schema.dataTypes.length = schema.attrNames.length := by
    have := hwf.names; have := hwf.types; omega
  have hl : schema.typeLength.length = schema.attrNames.length := by
    have := hwf.names; have := hwf.lengths; omega
  have hsz := attrsSize_nonneg schema.attrNames
  obtain ⟨hge, hnames⟩ := attrsSize_ge schema.attrNames
  unfold serialisedSize at hfit
  have hks0 : 0 ≤ schema.keySize := by have := hwf.keySize; omega
  unfold schemaBytes at hb
  rw [HasBytes.append_iff, HasBytes.append_iff, HasBytes.append_iff] at hb
  simp only [le32_length, List.length_append, Nat.zero_add] at hb
  obtain ⟨⟨⟨b1, b2⟩, b3⟩, b4⟩ := hb
  have r1 := b1.readInt_eq (v := schema.numAttr) ⟨by have := hwf.numAttr; omega, by
    have := hwf.names; omega⟩
  have r2 := b2.readInt_eq (v := schema.keySize) ⟨by omega, by omega⟩
  have r3 := readSchemaAttrs_lists schema.attrNames schema.dataTypes schema.typeLength pg 8 hd hl
    hints.types hints.lengths (fun name hmem => by have := hnames name hmem; omega) b3
  rw [← hn] at r3
  refine ⟨r1, r2, r3, ?_⟩
  have alen := attrsBytes_length schema.attrNames schema.dataTypes schema.typeLength hd hl
  have e : 4 + 4 + (attrsBytes schema.dataTypes schema.typeLength schema.attrNames).length
      = (8 + attrsSize schema.attrNames).toNat := by omega
  rw [e] at b4
  have r4 := readKeys_lists schema.keyAttrs pg (8 + attrsSize schema.attrNames).toNat
    hints.keys b4
  rw [hk]
  have ec : (((8 + attrsSize schema.attrNames).toNat : Nat) : Int) = 8 + attrsSize schema.attrNames := by
    omega
  rw [ec] at r4
  exact r4

/-- A successful `pinPage` on a well-formed pool hands out the frame in which
`findFrame` finds the page afterwards. -/
theorem pinPage_ok_frame (w : World) (bm : BM_BufferPool) (m : BM_MgmtData) (page : BM_PageHandle)
    (p : Int) (hwf : PoolWF bm m) (hok : (pinPage w bm page p).rc = RC.RC_OK) :
    ∃ (m1 : BM_MgmtData) (idx : Nat), (pinPage w bm page p).bm.mgmtData = some m1 ∧
      (pinPage w bm page p).page = ⟨p, idx⟩ ∧ findFrame m1 p = some idx := by
  rcases pinPage_cases w bm m page p hwf.data with ⟨k, hk, he⟩ | ⟨hnf, k, hk, he⟩ |
    ⟨hnf, _, j, w1, m1, hev, he⟩ | ⟨_, _, w1, m1, hev, he⟩
  · obtain ⟨_, hp, m1, hm1, hf, _⟩ := pinPage_hit_buffer w bm m page p k hwf.data hk
    exact ⟨m1, k, hm1, hp, hf⟩
  · have hklt := findFrame_lt hk
    have hfr := pinPageLoad_frames w bm m k p
    obtain ⟨m', hm', hfr'⟩ := pinPageLoad_wf w bm m k p hwf.wf (by rw [← hwf.wf.len]; exact hklt)
    rw [he]
    refine ⟨m', k, hm'.data, rfl, ?_⟩
    unfold findFrame
    rw [hfr', hfr]
    exact findFrame_set_new m p k _ hnf hklt rfl
  · obtain ⟨hwf1, hj⟩ := evict_valid hwf.wf hev
    have hjlt : j < m1.frames.length := by rw [hwf1.len]; exact hj j rfl
    have hok1 := evict_some hev
    have hfr := pinPageLoad_frames w1 bm m1 j p
    obtain ⟨m', hm', hfr'⟩ := pinPageLoad_wf w1 bm m1 j p hwf1 (hj j rfl)
    have hnf1 : findFrame m1 p = none := by
      unfold findFrame at hnf ⊢
      rw [findFrameFrom_congr m1.frames m.frames 0
        (hok1.ref.map_eq (fun f => f.pageNum) (fun _ => rfl))]
      exact hnf
    rw [he]
    refine ⟨m', j, hm'.data, rfl, ?_⟩
    unfold findFrame
    rw [hfr', hfr]
    exact findFrame_set_new m1 p j _ hnf1 hjlt rfl
  · rw [he] at hok
    simp at hok

theorem pokeBuffer_buffer (bm : BM_BufferPool) (m : BM_MgmtData) (p : Int) (idx : Nat)
    (g : Page → Page) (hm : bm.mgmtData = some m) (hk : findFrame m p = some idx) :
    ∃ m1, (pokeBuffer bm idx g).mgmtData = some m1 ∧ findFrame m1 p = some idx ∧
      (frameAt m1.frames idx).data = g (frameAt m.frames idx).data ∧
      m1.frames.map (fun f => f.dirty) = m.frames.map (fun f => f.dirty) := by
  have hklt := findFrame_lt hk
  refine ⟨{ m with frames := m.frames.set idx (
    { frameAt m.frames idx with data := g (frameAt m.frames idx).data }) },
    by simp only [pokeBuffer, hm], ?_, ?_, ?_⟩
  · exact (findFrame_set_same m p idx
      ({ frameAt m.frames idx with data := g (frameAt m.frames idx).data }) rfl).trans hk
  · simp only [frameAt_set_self _ hklt]
  · exact map_set_frameAt (fun f => f.dirty) m.frames idx _ rfl

theorem markDirty_buffer (w : World) (bm : BM_BufferPool) (m : BM_MgmtData) (pg : BM_PageHandle)
    (idx : Nat) (hm : bm.mgmtData = some m) (hk : findFrame m pg.pageNum = some idx) :
    (markDirty w bm pg).w = w ∧
    ∃ m1, (markDirty w bm pg).bm.mgmtData = some m1 ∧ findFrame m1 pg.pageNum = some idx ∧
      (frameAt m1.frames idx).data = (frameAt m.frames idx).data ∧
      (frameAt m1.frames idx).dirty = true := by
  have hklt := findFrame_lt hk
  simp only [markDirty, hm, hk, true_and]
  refine ⟨_, rfl, ?_, ?_, ?_⟩
  · exact (findFrame_set_same m pg.pageNum idx
      ({ frameAt m.frames idx with dirty := true }) rfl).trans hk
  · simp only [frameAt_set_self _ hklt]
  · simp only [frameAt_set_self _ hklt]

theorem unpinPage_world (w : World) (bm : BM_BufferPool) (pg : BM_PageHandle) :
    (unpinPage w bm pg).w = w := by
  unfold unpinPage
  split
  · rfl
  · split
    · rfl
    · split <;> rfl

theorem unpinPage_dirty (w : World) (bm : BM_BufferPool) (pg : BM_PageHandle) :
    getDirtyFlags (unpinPage w bm pg).bm = getDirtyFlags bm := by
  unfold unpinPage
  split
  · rfl
  · rename_i m hm
    split
    · rfl
    · split
      · rfl
      · simp only [getDirtyFlags, hm, Option.map_some', Option.some.injEq]
        exact map_set_frameAt (fun f => f.dirty) m.frames _ _ rfl

/-- C18: on a well-formed pool in which page 0 can be pinned, for a well-formed
schema (its data types, type lengths and key indices being C `int`s) whose
serialised form of `8 + Σ (12 + nameLen) + 4 * keySize` bytes fits in `PAGE_SIZE`:
`writeSchemaToPage` succeeds, `readSchemaFromPage` afterwards succeeds and yields the
same schema (numAttr, names, data types, type lengths, keySize, key indices), and
the buffer of page 0 holds, from offset 0 on, `numAttr`, `keySize`, then per
attribute data type, type length, name length and name, then the key indices. -/
theorem schema_round_trip (w : World) (bm : BM_BufferPool) (m : BM_MgmtData) (schema : Schema)
    (hpool : PoolWF bm m) (hwf : SchemaWF schema) (hints : SchemaInts schema)
    (hfit : serialisedSize schema ≤ (PAGE_SIZE : Int))
    (hpin : (pinPage w bm ⟨0, 0⟩ SCHEMA_PAGE).rc = RC.RC_OK) :
    (writeSchemaToPage w bm schema).rc = RC.RC_OK ∧
    (readSchemaFromPage (writeSchemaToPage w bm schema).w (writeSchemaToPage w bm schema).bm).1
      = RC.RC_OK ∧
    (readSchemaFromPage (writeSchemaToPage w bm schema).w
      (writeSchemaToPage w bm schema).bm).2.2.2 = schema ∧
    ∃ idx, findFrame (dataOf (writeSchemaToPage w bm schema).bm) SCHEMA_PAGE = some idx ∧
      HasBytes (bufferOf (writeSchemaToPage w bm schema).bm idx) 0 (schemaBytes schema) := by
  obtain ⟨m1, idx, hm1, hpage, hfind⟩ := pinPage_ok_frame w bm m ⟨0, 0⟩ SCHEMA_PAGE hpool hpin
  obtain ⟨hstore, _⟩ := schema_stores schema hwf
    (bufferOf (pinPage w bm ⟨0, 0⟩ SCHEMA_PAGE).bm idx)
  obtain ⟨a1, k1, hbytes⟩ := hstore hfit
  generalize hkp : (writeSchemaKeys schema schema.keySize.toNat 0
        (writeSchemaAttrs schema schema.numAttr.toNat 0
          (writeInt (writeInt (bufferOf (pinPage w bm ⟨0, 0⟩ SCHEMA_PAGE).bm idx) 0 schema.numAttr)
            4 schema.keySize) 8).2.1
        (writeSchemaAttrs schema schema.numAttr.toNat 0
          (writeInt (writeInt (bufferOf (pinPage w bm ⟨0, 0⟩ SCHEMA_PAGE).bm idx) 0 schema.numAttr)
            4 schema.keySize) 8).2.2) = kres at k1 hbytes
  have hwrite : writeSchemaToPage w bm schema =
      ⟨RC.RC_OK,
        (unpinPage (markDirty (pinPage w bm ⟨0, 0⟩ SCHEMA_PAGE).w
            (pokeBuffer (pinPage w bm ⟨0, 0⟩ SCHEMA_PAGE).bm idx (fun _ => kres.2.1))
            ⟨SCHEMA_PAGE, idx⟩).w
          (markDirty (pinPage w bm ⟨0, 0⟩ SCHEMA_PAGE).w
            (pokeBuffer (pinPage w bm ⟨0, 0⟩ SCHEMA_PAGE).bm idx (fun _ => kres.2.1))
            ⟨SCHEMA_PAGE, idx⟩).bm ⟨SCHEMA_PAGE, idx⟩).w,
        (unpinPage (markDirty (pinPage w bm ⟨0, 0⟩ SCHEMA_PAGE).w
            (pokeBuffer (pinPage w bm ⟨0, 0⟩ SCHEMA_PAGE).bm idx (fun _ => kres.2.1))
            ⟨SCHEMA_PAGE, idx⟩).w
          (markDirty (pinPage w bm ⟨0, 0⟩ SCHEMA_PAGE).w
            (pokeBuffer (pinPage w bm ⟨0, 0⟩ SCHEMA_PAGE).bm idx (fun _ => kres.2.1))
            ⟨SCHEMA_PAGE, idx⟩).bm ⟨SCHEMA_PAGE, idx⟩).bm⟩ := by
    simp only [writeSchemaToPage, hpin, hpage, ne_eq, not_true_eq_false, if_false, a1, hkp, k1,
      Bool.true_eq_false]
  obtain ⟨m2, hm2, hfind2, hdata2, _⟩ := pokeBuffer_buffer (pinPage w bm ⟨0, 0⟩ SCHEMA_PAGE).bm m1
    SCHEMA_PAGE idx (fun _ => kres.2.1) hm1 hfind
  obtain ⟨_, m3, hm3, hfind3, hdata3, _⟩ := markDirty_buffer (pinPage w bm ⟨0, 0⟩ SCHEMA_PAGE).w
    (pokeBuffer (pinPage w bm ⟨0, 0⟩ SCHEMA_PAGE).bm idx (fun _ => kres.2.1)) m2
    ⟨SCHEMA_PAGE, idx⟩ idx hm2 hfind2
  obtain ⟨m4, hm4, hfind4, hdata4⟩ := unpinPage_buffer
    (markDirty (pinPage w bm ⟨0, 0⟩ SCHEMA_PAGE).w
      (pokeBuffer (pinPage w bm ⟨0, 0⟩ SCHEMA_PAGE).bm idx (fun _ => kres.2.1))
      ⟨SCHEMA_PAGE, idx⟩).w
    (markDirty (pinPage w bm ⟨0, 0⟩ SCHEMA_PAGE).w
      (pokeBuffer (pinPage w bm ⟨0, 0⟩ SCHEMA_PAGE).bm idx (fun _ => kres.2.1))
      ⟨SCHEMA_PAGE, idx⟩).bm m3 ⟨SCHEMA_PAGE, idx⟩ idx hm3 hfind3
  rw [hwrite]
  simp only
  generalize (unpinPage (markDirty (pinPage w bm ⟨0, 0⟩ SCHEMA_PAGE).w
            (pokeBuffer (pinPage w bm ⟨0, 0⟩ SCHEMA_PAGE).bm idx (fun _ => kres.2.1))
            ⟨SCHEMA_PAGE, idx⟩).w
          (markDirty (pinPage w bm ⟨0, 0⟩ SCHEMA_PAGE).w
            (pokeBuffer (pinPage w bm ⟨0, 0⟩ SCHEMA_PAGE).bm idx (fun _ => kres.2.1))
            ⟨SCHEMA_PAGE, idx⟩).bm ⟨SCHEMA_PAGE, idx⟩) = u at hm4 ⊢
  have hbuf : (frameAt m4.frames idx).data = kres.2.1 := by
    rw [hdata4, hdata3, hdata2]
  obtain ⟨hrc5, hpage5, m5, hm5, _, hdata5⟩ := pinPage_hit_buffer u.w u.bm m4 ⟨0, 0⟩ SCHEMA_PAGE idx
    hm4 hfind4
  have hbuf5 : bufferOf (pinPage u.w u.bm ⟨0, 0⟩ SCHEMA_PAGE).bm idx = kres.2.1 := by
    simp only [bufferOf, framesOf, hm5, hdata5, hbuf]
  obtain ⟨r1, r2, r3, r4⟩ := schema_loads schema hwf hints hfit kres.2.1 hbytes
  refine ⟨trivial, ?_, ?_, idx, ?_, ?_⟩
  · simp only [readSchemaFromPage, hrc5, ne_eq, not_true_eq_false, if_false]
  · simp only [readSchemaFromPage, hrc5, ne_eq, not_true_eq_false, if_false, hpage5, hbuf5, r1,
      r2, r3, map_coe_nat, r4]
  · simp only [dataOf, hm4, Option.getD_some]
    exact hfind4
  · simp only [bufferOf, framesOf, hm4, hbuf]
    exact hbytes

theorem pokeBuffer_dirty (bm : BM_BufferPool) (k : Nat) (g : Page → Page) :
    getDirtyFlags (pokeBuffer bm k g) = getDirtyFlags bm := by
  unfold pokeBuffer
  split
  · rfl
  · rename_i m hm
    simp only [getDirtyFlags, hm, Option.map_some', Option.some.injEq]
    exact map_set_frameAt (fun f => f.dirty) m.frames _ _ rfl

theorem forceFlushLoop_clean :
    ∀ (l : List BM_PageFrame) (w : World) (fh : SM_FileHandle) (nw : Int),
      (∀ f ∈ l, f.dirty = false) → forceFlushLoop l w fh nw = (l, w, fh, nw)
  | [], _, _, _, _ => rfl
  | f :: rest, w, fh, nw, h => by
    have hf : f.dirty = false := h f (List.mem_cons_self _ _)
    have ih := forceFlushLoop_clean rest w fh nw (fun g hg => h g (List.mem_cons_of_mem _ hg))
    simp only [forceFlushLoop, hf, Bool.false_eq_true, false_and, if_false, ih]

/-- A shutdown of a pool without dirty frames writes nothing. -/
theorem shutdownBufferPool_clean (w : World) (bm : BM_BufferPool)
    (h : ∀ flags, getDirtyFlags bm = some flags → ∀ b ∈ flags, b = false) :
    (shutdownBufferPool w bm).w = w := by
  unfold shutdownBufferPool
  split
  · rfl
  · rename_i m hm
    have hclean : ∀ f ∈ m.frames, f.dirty = false := by
      intro f hf
      exact h _ (by simp [getDirtyFlags, hm]) f.dirty (List.mem_map.2 ⟨f, hf, rfl⟩)
    simp only [forceFlushPool, hm, forceFlushLoop_clean m.frames w m.fileHandle m.numWriteIO hclean]

/-- On a schema that does not fit, `writeSchemaToPage` fails, does not call
`markDirty` and writes nothing to the file. -/
theorem writeSchemaToPage_too_large (w : World) (bm : BM_BufferPool) (schema : Schema)
    (hwf : SchemaWF schema) (hbig : serialisedSize schema > (PAGE_SIZE : Int)) :
    (writeSchemaToPage w bm schema).rc =
      (if (pinPage w bm ⟨0, 0⟩ SCHEMA_PAGE).rc = RC.RC_OK then RC.RC_WRITE_FAILED
        else (pinPage w bm ⟨0, 0⟩ SCHEMA_PAGE).rc) ∧
    (writeSchemaToPage w bm schema).w = (pinPage w bm ⟨0, 0⟩ SCHEMA_PAGE).w ∧
    getDirtyFlags (writeSchemaToPage w bm schema).bm =
      getDirtyFlags (pinPage w bm ⟨0, 0⟩ SCHEMA_PAGE).bm := by
  obtain ⟨_, hfail⟩ := schema_stores schema hwf
    (bufferOf (pinPage w bm ⟨0, 0⟩ SCHEMA_PAGE).bm (pinPage w bm ⟨0, 0⟩ SCHEMA_PAGE).page.data)
  have hf := hfail hbig
  by_cases hpin : (pinPage w bm ⟨0, 0⟩ SCHEMA_PAGE).rc = RC.RC_OK
  · rw [if_pos hpin]
    by_cases ha : (writeSchemaAttrs schema schema.numAttr.toNat 0
        (writeInt (writeInt (bufferOf (pinPage w bm ⟨0, 0⟩ SCHEMA_PAGE).bm
          (pinPage w bm ⟨0, 0⟩ SCHEMA_PAGE).page.data) 0 schema.numAttr) 4 schema.keySize) 8).1
        = false
    · simp only [writeSchemaToPage, hpin, ne_eq, not_true_eq_false, if_false, ha, if_true,
        unpinPage_world, unpinPage_dirty, pokeBuffer_dirty, and_self]
    · have hk := hf.resolve_left ha
      have ha' := Bool.eq_true_of_not_eq_false ha
      simp only [writeSchemaToPage, hpin, ne_eq, not_true_eq_false, if_false, ha', hk, if_true,
        Bool.true_eq_false, unpinPage_world, unpinPage_dirty, pokeBuffer_dirty, and_self]
  · rw [if_neg hpin]
    simp only [writeSchemaToPage, ne_eq, hpin, not_false_eq_true, if_true, and_self]

/-- The pool of `createTable` right after its first pin: page 0 is read into a
frame, the tick counter has advanced by one and no frame is dirty. -/
theorem fresh_pool_pin (fs : FileSys) (c : Int) (fileName : String) (heap : Nat → Page)
    (hfile : fs fileName = some [zeroPage]) :
    (initBufferPool ⟨fs, c⟩ blankPool fileName 3 ReplacementStrategy.RS_FIFO heap).rc = RC.RC_OK ∧
    (initBufferPool ⟨fs, c⟩ blankPool fileName 3 ReplacementStrategy.RS_FIFO heap).w = ⟨fs, c⟩ ∧
    (pinPage ⟨fs, c⟩
      (initBufferPool ⟨fs, c⟩ blankPool fileName 3 ReplacementStrategy.RS_FIFO heap).bm ⟨0, 0⟩
      SCHEMA_PAGE).rc = RC.RC_OK ∧
    (pinPage ⟨fs, c⟩
      (initBufferPool ⟨fs, c⟩ blankPool fileName 3 ReplacementStrategy.RS_FIFO heap).bm ⟨0, 0⟩
      SCHEMA_PAGE).w = ⟨fs, c + 1⟩ ∧
    getDirtyFlags (pinPage ⟨fs, c⟩
      (initBufferPool ⟨fs, c⟩ blankPool fileName 3 ReplacementStrategy.RS_FIFO heap).bm ⟨0, 0⟩
      SCHEMA_PAGE).bm = some [false, false, false] := by
  have h3 : (3 : Int).toNat = 3 := rfl
  have hr : List.range 3 = [0, 1, 2] := rfl
  have hne : ¬ (NO_PAGE = SCHEMA_PAGE) := by decide
  simp [initBufferPool, openPageFile, hfile, h3, hr, pinPage, findFrame, findFreeFrame,
    findFrameFrom, hne, pinPageLoad, getDirtyFlags, frameAt]

/-- C19: for a well-formed schema whose serialised form of
`8 + Σ (12 + nameLen) + 4 * keySize` bytes exceeds `PAGE_SIZE`, `writeSchemaToPage`
returns an error (`RC_WRITE_FAILED` when page 0 could be pinned, else the error of
`pinPage`), writes nothing to the file, and leaves the dirty flags as they are
after the pin: `markDirty` is not called.  `createTable` then returns
`RC_WRITE_FAILED`, and the table file is left as `createPageFile` made it: one
zero-filled page. -/
theorem schema_too_large (w : World) (bm : BM_BufferPool) (schema : Schema)
    (hwf : SchemaWF schema) (hbig : serialisedSize schema > (PAGE_SIZE : Int)) :
    (writeSchemaToPage w bm schema).rc ≠ RC.RC_OK ∧
    (writeSchemaToPage w bm schema).w = (pinPage w bm ⟨0, 0⟩ SCHEMA_PAGE).w ∧
    getDirtyFlags (writeSchemaToPage w bm schema).bm =
      getDirtyFlags (pinPage w bm ⟨0, 0⟩ SCHEMA_PAGE).bm ∧
    ∀ (heap : Nat → Page) (name : String),
      createTable w heap name schema =
        (RC.RC_WRITE_FAILED,
          ⟨w.fs.put (tableFileName name) [zeroPage], w.accessCounter + 1⟩) := by
  obtain ⟨hrc, hw, hd⟩ := writeSchemaToPage_too_large w bm schema hwf hbig
  refine ⟨?_, hw, hd, ?_⟩
  · rw [hrc]
    split
    · decide
    · assumption
  · intro heap name
    have hfile : (w.fs.put (tableFileName name) [zeroPage]) (tableFileName name)
        = some [zeroPage] := by simp [FileSys.put]
    obtain ⟨i1, i2, p1, p2, p3⟩ := fresh_pool_pin (w.fs.put (tableFileName name) [zeroPage])
      w.accessCounter (tableFileName name) heap hfile
    generalize hi : initBufferPool ⟨w.fs.put (tableFileName name) [zeroPage], w.accessCounter⟩
      blankPool (tableFileName name) 3 ReplacementStrategy.RS_FIFO heap = i at *
    obtain ⟨src, sw, sd⟩ := writeSchemaToPage_too_large i.w i.bm schema hwf hbig
    rw [i2] at src sw sd
    rw [p1, if_pos rfl] at src
    rw [p2] at sw
    rw [p3] at sd
    have hshut := shutdownBufferPool_clean
      (writeSchemaToPage ⟨w.fs.put (tableFileName name) [zeroPage], w.accessCounter⟩ i.bm schema).w
      (writeSchemaToPage ⟨w.fs.put (tableFileName name) [zeroPage], w.accessCounter⟩ i.bm schema).bm
      (by
        intro flags hf b hb
        rw [sd] at hf
        simp only [Option.some.injEq] at hf
        subst hf
        simpa using hb)
    rw [sw] at hshut
    simp only [createTable, createPageFile, ne_eq, not_true_eq_false, if_false, hi, i1, i2, src,
      reduceCtorEq, not_false_eq_true, if_true, sw, hshut]

/-! ## The free-slot count -/

set_option maxRecDepth 100000 in
/-- C20 at its failing inputs.  (a) In the well-formed table file of `tagWorld`
(records of 10 bytes, 371 slots), page 1 is empty: header [371, 371, -1], 371
tombstones 0.  `deleteRecord` of the RID (1, -1) returns `RC_OK`: the tombstone of
"slot -1" is the second byte of `slotsPerPage`, which is 1; afterwards the header is
[115, 372, 1], so `freeSlots` exceeds `slotsPerPage` and is not the number of zero
tombstones (115).  (b) After `createTable`, `openTable` and two inserts into a table
of two slots per page, page 1 is full: header [2, 0, -1], tombstones 1 and 1.  A third
`insertRecord` returns `RC_OK` with the RID (1, 0) of the first record: afterwards the
header is [2, 1, 1] although no tombstone is 0. -/
theorem free_slot_count_broken :
    deleteRun 5 = some
      { rc := RC.RC_OK, rid := ⟨1, -1⟩,
        before := some ⟨[371, 371, -1], 371, true⟩,
        after := some ⟨[115, 372, 1], 115, true⟩ } ∧
    insertRun 5 = some
      { rc := RC.RC_OK, rid := ⟨1, 0⟩,
        before := some ⟨[2, 0, -1], 0, true⟩,
        after := some ⟨[2, 1, 1], 0, true⟩ } := by
  constructor <;> decide

/-! ## Instances -/

theorem witnessSchema_wf : SchemaWF witnessSchema := by
  refine ⟨by decide, by decide, by decide, by decide, by decide, ?_⟩
  intro i _
  rcases i with _ | _ | _ | i <;> simp [witnessSchema]

theorem witnessSchema_ints : SchemaInts witnessSchema := by
  refine ⟨?_, ?_, ?_⟩
  · intro x hx
    simp only [witnessSchema, List.mem_cons, List.mem_singleton, List.not_mem_nil, or_false] at hx
    rcases hx with rfl | rfl | rfl <;> (unfold isInt32; decide)
  · intro x hx
    simp only [witnessSchema, List.mem_cons, List.mem_singleton, List.not_mem_nil, or_false] at hx
    rcases hx with rfl | rfl | rfl <;> (unfold isInt32; decide)
  · intro x hx
    simp only [witnessSchema, List.mem_cons, List.mem_singleton, List.not_mem_nil, or_false] at hx
    subst hx
    unfold isInt32
    decide

theorem longNameSchema_wf : SchemaWF longNameSchema := by
  refine ⟨by decide, by decide, by decide, by decide, by decide, ?_⟩
  intro i _
  show (0 : Int) ≤ ([0] : List Int).getD i 0
  rcases i with _ | i <;> simp

theorem longNameSchema_size : serialisedSize longNameSchema > (PAGE_SIZE : Int) := by
  simp only [serialisedSize, attrsSize, longNameSchema, List.map_cons, List.map_nil,
    List.sum_cons, List.sum_nil, List.length_replicate, PAGE_SIZE]
  decide

/-- C15 at the record (1, "AAAA", 100.0) of `witnessSchema` and the string "ZYXW" for
attribute 1. -/
theorem setAttr_getAttr_round_trip_witness :
    (setAttr recordA witnessSchema 1 nameValue).1 = RC.RC_OK ∧
    ∃ got, getAttr (setAttr recordA witnessSchema 1 nameValue).2 witnessSchema 1 none blankValue
        = (RC.RC_OK, some got) ∧
      got.agrees nameValue (witnessSchema.typeLength.getD (1 : Int).toNat 0) :=
  setAttr_getAttr_round_trip recordA witnessSchema 1 nameValue none blankValue
    [1, 0, 0, 0, 65, 65, 65, 65, 0, 0, 200, 66] witnessSchema_wf (by decide) (by decide) rfl
    (by decide) (by decide)
    ⟨fun h => absurd h (by decide), fun h => absurd h (by decide), fun _ => by decide⟩

/-- C16 at the record (1, "AAAA", 100.0) of `witnessSchema`: an INT value for the
STRING attribute 1. -/
theorem attr_errors_witness :
    setAttr recordA witnessSchema 1 blankValue =
      (RC.RC_RM_COMPARE_VALUE_OF_DIFFERENT_DATATYPE, recordA) :=
  (attr_errors recordA witnessSchema 1 blankValue none blankValue).1 (by decide) (by decide)
    (by decide)

/-- C17 at `witnessSchema`: records of 12 bytes. -/
theorem slot_layout_fits_page_witness :
    getRecordSize witnessSchema =
      (List.zipWith attrWidth witnessSchema.dataTypes witnessSchema.typeLength).sum :=
  (slot_layout_fits_page witnessSchema witnessSchema_wf).1

/-- C18 at `witnessSchema` and a fresh FIFO pool of three frames on the one-page
file "g". -/
theorem schema_round_trip_witness :
    (readSchemaFromPage
      (writeSchemaToPage onePageWorld
        (initBufferPool onePageWorld blankPool "g" 3 ReplacementStrategy.RS_FIFO
          (fun _ => zeroPage)).bm witnessSchema).w
      (writeSchemaToPage onePageWorld
        (initBufferPool onePageWorld blankPool "g" 3 ReplacementStrategy.RS_FIFO
          (fun _ => zeroPage)).bm witnessSchema).bm).2.2.2 = witnessSchema :=
  (@initBufferPool_wf onePageWorld blankPool "g" 3 ReplacementStrategy.RS_FIFO
    (fun _ => zeroPage) (by decide)).elim
    (fun m hm => (schema_round_trip onePageWorld _ m witnessSchema hm.1 witnessSchema_wf
      witnessSchema_ints (by decide) (by decide)).2.2.1)

/-- C19 at a schema whose only attribute has a name of 5000 bytes. -/
theorem schema_too_large_witness :
    (writeSchemaToPage onePageWorld
      (initBufferPool onePageWorld blankPool "g" 3 ReplacementStrategy.RS_FIFO
        (fun _ => zeroPage)).bm longNameSchema).rc ≠ RC.RC_OK :=
  (schema_too_large onePageWorld _ longNameSchema longNameSchema_wf longNameSchema_size).1

/-! ## Cached pages under the pool calls -/

theorem readInt_congr (pg pg' : Page) (off : Nat)
    (h : ∀ k, k < 4 → pg (off + k) = pg' (off + k)) : readInt pg off = readInt pg' off := by
  unfold readInt
  have h0 := h 0 (by omega)
  have h1 := h 1 (by omega)
  have h2 := h 2 (by omega)
  have h3 := h 3 (by omega)
  simp only [Nat.add_zero] at h0
  rw [h0, h1, h2, h3]

theorem findFrame_set_keep (m : BM_MgmtData) (p : Int) (k j : Nat) (x : BM_PageFrame)
    (hx : x.pageNum = (frameAt m.frames j).pageNum) (hk : findFrame m p = some k) :
    findFrame { m with frames := m.frames.set j x } p = some k :=
  (findFrame_set_same m p j x hx).trans hk

theorem CachedAt.buffer {bm : BM_BufferPool} {page : Int} {k : Nat} {pg : Page} {c : Int}
    (h : CachedAt bm page k pg c) : bufferOf bm k = pg := by
  obtain ⟨m, hm, _, hd, _⟩ := h
  simp [bufferOf, framesOf, hm, hd]

theorem CachedAt.page_eq {rel : RM_TableData} {tm : TableManager} {page : Int} {k : Nat}
    {pg : Page} {c : Int} (hopen : rel.mgmtData = some tm) (h : CachedAt tm.bm page k pg c) :
    cachedPage rel page = some pg := by
  obtain ⟨m, hm, hk, hd, _⟩ := h
  simp [cachedPage, hopen, hm, hk, hd]

/-- A pin of a cached page is a hit: it raises the fix count and the tick counter. -/
theorem CachedAt.pin {bm : BM_BufferPool} {page : Int} {k : Nat} {pg : Page} {c : Int}
    (h : CachedAt bm page k pg c) (w : World) (ph : BM_PageHandle) :
    (pinPage w bm ph page).rc = RC.RC_OK ∧ (pinPage w bm ph page).page = ⟨page, k⟩ ∧
    (pinPage w bm ph page).w = { w with accessCounter := w.accessCounter + 1 } ∧
    CachedAt (pinPage w bm ph page).bm page k pg (c + 1) := by
  obtain ⟨m, hm, hk, hd, hc⟩ := h
  have hlt := findFrame_lt hk
  simp only [pinPage, hm, hk, true_and]
  refine ⟨_, rfl, ?_, ?_, ?_⟩
  · exact findFrame_set_keep m page k k _ rfl hk
  · rw [frameAt_set_self _ hlt]; exact hd
  · rw [frameAt_set_self _ hlt]; simp [hc]

/-- An `unpinPage` with a handle of a cached page lowers its fix count when that is
above 0, and does nothing else. -/
theorem CachedAt.unpin {bm : BM_BufferPool} {page : Int} {k : Nat} {pg : Page} {c : Int}
    (h : CachedAt bm page k pg c) (w : World) (ph : BM_PageHandle) (hp : ph.pageNum = page) :
    (unpinPage w bm ph).w = w ∧
    CachedAt (unpinPage w bm ph).bm page k pg (if c ≤ 0 then c else c - 1) := by
  obtain ⟨m, hm, hk, hd, hc⟩ := h
  have hlt := findFrame_lt hk
  subst hp
  simp only [unpinPage, hm, hk, hc]
  by_cases h0 : c ≤ 0
  · simp only [h0, if_true, true_and]
    exact ⟨m, hm, hk, hd, hc⟩
  · simp only [h0, if_false, true_and]
    refine ⟨_, rfl, ?_, ?_, ?_⟩
    · exact findFrame_set_keep m ph.pageNum k k _ rfl hk
    · rw [frameAt_set_self _ hlt]; exact hd
    · rw [frameAt_set_self _ hlt]

/-- A `markDirty` with a handle of a cached page leaves buffer and fix count alone. -/
theorem CachedAt.mark {bm : BM_BufferPool} {page : Int} {k : Nat} {pg : Page} {c : Int}
    (h : CachedAt bm page k pg c) (w : World) (ph : BM_PageHandle) (hp : ph.pageNum = page) :
    (markDirty w bm ph).w = w ∧ CachedAt (markDirty w bm ph).bm page k pg c := by
  obtain ⟨m, hm, hk, hd, hc⟩ := h
  have hlt := findFrame_lt hk
  subst hp
  simp only [markDirty, hm, hk, true_and]
  refine ⟨_, rfl, ?_, ?_, ?_⟩
  · exact findFrame_set_keep m ph.pageNum k k _ rfl hk
  · rw [frameAt_set_self _ hlt]; exact hd
  · rw [frameAt_set_self _ hlt]; exact hc

/-- A store through the handle of a cached page changes its buffer. -/
theorem CachedAt.poke {bm : BM_BufferPool} {page : Int} {k : Nat} {pg : Page} {c : Int}
    (h : CachedAt bm page k pg c) (g : Page → Page) :
    CachedAt (pokeBuffer bm k g) page k (g pg) c := by
  obtain ⟨m, hm, hk, hd, hc⟩ := h
  have hlt := findFrame_lt hk
  simp only [pokeBuffer, hm]
  refine ⟨_, rfl, ?_, ?_, ?_⟩
  · exact findFrame_set_keep m page k k _ rfl hk
  · rw [frameAt_set_self _ hlt, hd]
  · rw [frameAt_set_self _ hlt]; exact hc

/-- Rebinding or updating another frame does not move a cached page. -/
theorem findFrame_set_other (m : BM_MgmtData) (p : Int) (k j : Nat) (x : BM_PageFrame)
    (hk : findFrame m p = some k) (hjk : j ≠ k) (hx : x.pageNum ≠ p) :
    findFrameFrom p (m.frames.set j x) 0 = some k ∧
    frameAt (m.frames.set j x) k = frameAt m.frames k := by
  obtain ⟨f, hf, hfp⟩ := findFrame_some hk
  refine ⟨?_, frameAt_set_ne x hjk⟩
  have := findFrameFrom_first (m.frames.set j x) 0 k f
    (by rw [List.getElem?_set_ne hjk]; exact hf) hfp (by
      intro i g hi hg
      by_cases hij : j = i
      · subst hij
        by_cases hlt : j < m.frames.length
        · rw [List.getElem?_set_self hlt] at hg
          simp only [Option.some.injEq] at hg
          rw [← hg]; exact hx
        · rw [List.set_eq_of_length_le (Nat.le_of_not_lt hlt),
            List.getElem?_eq_none (Nat.le_of_not_lt hlt)] at hg
          cases hg
      · rw [List.getElem?_set_ne hij] at hg
        exact findFrame_first hk i g hg hi)
  simpa using this

/-- A `markDirty` or `unpinPage` with a handle of another page number leaves a
cached page alone. -/
theorem CachedAt.mark_other {bm : BM_BufferPool} {page : Int} {k : Nat} {pg : Page}
    {c : Int} (h : CachedAt bm page k pg c) (w : World) (ph : BM_PageHandle)
    (hp : ph.pageNum ≠ page) :
    (markDirty w bm ph).w = w ∧ CachedAt (markDirty w bm ph).bm page k pg c := by
  obtain ⟨m, hm, hk, hd, hc⟩ := h
  simp only [markDirty, hm]
  split
  · exact ⟨rfl, m, hm, hk, hd, hc⟩
  · rename_i j hj
    obtain ⟨g, hg, hgp⟩ := findFrame_some hj
    obtain ⟨f, hf, hfp⟩ := findFrame_some hk
    have hjk : j ≠ k := by
      intro e
      subst e
      rw [hg] at hf
      simp only [Option.some.injEq] at hf
      subst hf
      exact hp (hgp.symm.trans hfp)
    refine ⟨rfl, _, rfl, ?_, ?_, ?_⟩
    · exact findFrame_set_keep m page k j _ rfl hk
    · rw [frameAt_set_ne _ hjk]; exact hd
    · rw [frameAt_set_ne _ hjk]; exact hc

theorem CachedAt.unpin_other {bm : BM_BufferPool} {page : Int} {k : Nat} {pg : Page}
    {c : Int} (h : CachedAt bm page k pg c) (w : World) (ph : BM_PageHandle)
    (hp : ph.pageNum ≠ page) :
    (unpinPage w bm ph).w = w ∧ CachedAt (unpinPage w bm ph).bm page k pg c := by
  obtain ⟨m, hm, hk, hd, hc⟩ := h
  simp only [unpinPage, hm]
  split
  · exact ⟨rfl, m, hm, hk, hd, hc⟩
  · rename_i j hj
    obtain ⟨g, hg, hgp⟩ := findFrame_some hj
    obtain ⟨f, hf, hfp⟩ := findFrame_some hk
    have hjk : j ≠ k := by
      intro e
      subst e
      rw [hg] at hf
      simp only [Option.some.injEq] at hf
      subst hf
      exact hp (hgp.symm.trans hfp)
    split
    · exact ⟨rfl, m, hm, hk, hd, hc⟩
    · refine ⟨rfl, _, rfl, ?_, ?_, ?_⟩
      · exact findFrame_set_keep m page k j _ rfl hk
      · rw [frameAt_set_ne _ hjk]; exact hd
      · rw [frameAt_set_ne _ hjk]; exact hc

/-- A `pinPage` of another page leaves a pinned cached page alone, whatever the call
returns; when it returns `RC_OK` its handle carries the page number asked for. -/
theorem CachedAt.pin_other {bm : BM_BufferPool} {page : Int} {k : Nat} {pg : Page} {c : Int}
    (h : CachedAt bm page k pg c) (hc0 : c ≠ 0) (hpage : page ≠ NO_PAGE) (w : World)
    (ph : BM_PageHandle) (q : Int) (hq : q ≠ page) :
    CachedAt (pinPage w bm ph q).bm page k pg c ∧
    ((pinPage w bm ph q).rc = RC.RC_OK → (pinPage w bm ph q).page.pageNum = q) := by
  obtain ⟨m, hm, hk, hd, hc⟩ := h
  obtain ⟨f, hf, hfp⟩ := findFrame_some hk
  have hfa := frameAt_eq_of_getElem? hf
  rcases pinPage_cases w bm m ph q hm with ⟨i, hi, he⟩ | ⟨hnf, i, hi, he⟩ |
    ⟨hnf, _, j, w1, m1, hev, he⟩ | ⟨_, _, w1, m1, hev, he⟩
  · obtain ⟨g, hg, hgp⟩ := findFrame_some hi
    have hik : i ≠ k := by
      intro e
      subst e
      rw [hg] at hf
      simp only [Option.some.injEq] at hf
      subst hf
      exact hq (hgp.symm.trans hfp)
    rw [he]
    refine ⟨⟨_, rfl, ?_, ?_, ?_⟩, fun _ => rfl⟩
    · exact findFrame_set_keep m page k i _ rfl hk
    · rw [frameAt_set_ne _ hik]; exact hd
    · rw [frameAt_set_ne _ hik]; exact hc
  · obtain ⟨g, hg, hgp⟩ := findFrame_some hi
    have hik : i ≠ k := by
      intro e
      subst e
      rw [hg] at hf
      simp only [Option.some.injEq] at hf
      subst hf
      exact hpage (hfp.symm.trans hgp)
    have hfr := pinPageLoad_frames w bm m i q
    obtain ⟨h1, h2⟩ := findFrame_set_other m page k i
      { pageNum := q,
        data := (readBlock w.fs q m.fileHandle (frameAt m.frames i).data).2.2,
        dirty := false, fixCount := 1, lastUsed := w.accessCounter + 1, accessCount := 1,
        refBit := true } hk hik hq
    rw [he]
    refine ⟨?_, fun _ => rfl⟩
    cases hm' : (pinPageLoad w bm m i q).bm.mgmtData with
    | none => simp [pinPageLoad] at hm'
    | some m' =>
      have hfr' : m'.frames = framesOf (pinPageLoad w bm m i q).bm := by simp [framesOf, hm']
      refine ⟨m', hm', ?_, ?_, ?_⟩
      · unfold findFrame; rw [hfr', hfr]; exact h1
      · rw [hfr', hfr, h2]; exact hd
      · rw [hfr', hfr, h2]; exact hc
  · have hok := evict_some hev
    have hjk : j ≠ k := by
      intro e
      subst e
      have := hok.fix
      rw [hc] at this
      exact hc0 this
    have hk1 : findFrame m1 page = some k := by
      unfold findFrame at hk ⊢
      rw [findFrameFrom_congr m1.frames m.frames 0
        (hok.ref.map_eq (fun f => f.pageNum) (fun _ => rfl))]
      exact hk
    have hf1 : m1.frames[k]? = some f := hok.ref.pinned hf (by rw [← hfa, hc]; exact hc0)
    have hfa1 := frameAt_eq_of_getElem? hf1
    have hfr := pinPageLoad_frames w1 bm m1 j q
    obtain ⟨h1, h2⟩ := findFrame_set_other m1 page k j
      { pageNum := q,
        data := (readBlock w1.fs q m1.fileHandle (frameAt m1.frames j).data).2.2,
        dirty := false, fixCount := 1, lastUsed := w1.accessCounter + 1, accessCount := 1,
        refBit := true } hk1 hjk hq
    rw [he]
    refine ⟨?_, fun _ => rfl⟩
    cases hm' : (pinPageLoad w1 bm m1 j q).bm.mgmtData with
    | none => simp [pinPageLoad] at hm'
    | some m' =>
      have hfr' : m'.frames = framesOf (pinPageLoad w1 bm m1 j q).bm := by simp [framesOf, hm']
      refine ⟨m', hm', ?_, ?_, ?_⟩
      · unfold findFrame; rw [hfr', hfr]; exact h1
      · rw [hfr', hfr, h2, hfa1, ← hfa]; exact hd
      · rw [hfr', hfr, h2, hfa1, ← hfa]; exact hc
  · have hfail := evict_none hev
    have hk1 : findFrame m1 page = some k := by
      unfold findFrame at hk ⊢
      rw [findFrameFrom_congr m1.frames m.frames 0
        (hfail.ref.map_eq (fun f => f.pageNum) (fun _ => rfl))]
      exact hk
    have hf1 : m1.frames[k]? = some f := hfail.ref.pinned hf (by rw [← hfa, hc]; exact hc0)
    have hfa1 := frameAt_eq_of_getElem? hf1
    rw [he]
    refine ⟨⟨m1, rfl, hk1, ?_, ?_⟩, fun hrc => by cases hrc⟩
    · rw [hfa1, ← hfa]; exact hd
    · rw [hfa1, ← hfa]; exact hc

/-- After a successful `pinPage` on a pool without negative fix counts the page is
cached, in the frame of the handle, with a fix count above 0. -/
theorem pinPage_ok_cached (w : World) (bm : BM_BufferPool) (m : BM_MgmtData) (ph : BM_PageHandle)
    (p : Int) (hwf : PoolWF bm m) (hfix : ∀ f ∈ m.frames, 0 ≤ f.fixCount)
    (hok : (pinPage w bm ph p).rc = RC.RC_OK) :
    ∃ (k : Nat) (c : Int), 0 < c ∧ (pinPage w bm ph p).page = ⟨p, k⟩ ∧
      CachedAt (pinPage w bm ph p).bm p k (bufferOf (pinPage w bm ph p).bm k) c := by
  obtain ⟨m1, idx, hm1, hpage, hfind⟩ := pinPage_ok_frame w bm m ph p hwf hok
  refine ⟨idx, (frameAt m1.frames idx).fixCount, ?_, hpage,
    ⟨m1, hm1, hfind, by simp [bufferOf, framesOf, hm1], rfl⟩⟩
  have hfr1 : framesOf (pinPage w bm ph p).bm = m1.frames := by simp [framesOf, hm1]
  rcases pinPage_cases w bm m ph p hwf.data with ⟨k, hk, he⟩ | ⟨hnf, k, hk, he⟩ |
    ⟨hnf, _, j, w1, m2, hev, he⟩ | ⟨_, _, w1, m2, hev, he⟩
  · have hidx : idx = k := by
      rw [he] at hpage
      simp only [BM_PageHandle.mk.injEq, true_and] at hpage
      exact hpage.symm
    subst hidx
    rw [he] at hfr1
    simp only [framesOf] at hfr1
    rw [← hfr1, frameAt_set_self _ (findFrame_lt hk)]
    have := hfix _ (frameAt_mem (findFrame_lt hk))
    simp only
    omega
  · have hidx : idx = k := by
      rw [he] at hpage
      simp only [pinPageLoad_page, BM_PageHandle.mk.injEq, true_and] at hpage
      exact hpage.symm
    subst hidx
    rw [he, pinPageLoad_frames] at hfr1
    rw [← hfr1, frameAt_set_self _ (findFrame_lt hk)]
    exact Int.one_pos
  · obtain ⟨hwf1, hj⟩ := evict_valid hwf.wf hev
    have hjlt : j < m2.frames.length := by rw [hwf1.len]; exact hj j rfl
    have hidx : idx = j := by
      rw [he] at hpage
      simp only [pinPageLoad_page, BM_PageHandle.mk.injEq, true_and] at hpage
      exact hpage.symm
    subst hidx
    rw [he, pinPageLoad_frames] at hfr1
    rw [← hfr1, frameAt_set_self _ hjlt]
    exact Int.one_pos
  · rw [he] at hok
    cases hok

/-! ## Record calls on a cached page -/

theorem markSlotAsFree_cached {bm : BM_BufferPool} {k : Nat} {pg : Page} {c : Int} (rid : RID)
    (h : CachedAt bm rid.page k pg c) (hc : 0 ≤ c) (w : World) (recordSize : Int) :
    CachedAt (markSlotAsFree w bm rid recordSize).bm rid.page k
      (freedPage pg rid.slot recordSize) c := by
  obtain ⟨hrc, hpage, _, h1⟩ := h.pin w ⟨0, 0⟩
  simp only [markSlotAsFree, hrc, ne_eq, not_true_eq_false, if_false, hpage]
  have h2 := h1.poke (fun pg =>
      writeInt (fun i => if i = tombstoneOffset rid.slot recordSize then 0 else pg i) 4
        (readInt (fun i => if i = tombstoneOffset rid.slot recordSize then 0 else pg i) 4 + 1))
  have h3 := (h2.mark (pinPage w bm ⟨0, 0⟩ rid.page).w ⟨rid.page, k⟩ rfl).2
  have h4 := (h3.unpin
    (markDirty (pinPage w bm ⟨0, 0⟩ rid.page).w
      (pokeBuffer (pinPage w bm ⟨0, 0⟩ rid.page).bm k (fun pg =>
        writeInt (fun i => if i = tombstoneOffset rid.slot recordSize then 0 else pg i) 4
          (readInt (fun i => if i = tombstoneOffset rid.slot recordSize then 0 else pg i) 4 + 1)))
      ⟨rid.page, k⟩).w ⟨rid.page, k⟩ rfl).2
  rw [if_neg (by omega)] at h4
  have e : c + 1 - 1 = c := by omega
  rw [e] at h4
  exact h4

theorem markSlotAsUsed_cached {bm : BM_BufferPool} {k : Nat} {pg : Page} {c : Int} (rid : RID)
    (h : CachedAt bm rid.page k pg c) (hc : 0 ≤ c) (w : World) (recordSize : Int) :
    CachedAt (markSlotAsUsed w bm rid recordSize).bm rid.page k
      (usedPage pg rid.slot recordSize) c := by
  obtain ⟨hrc, hpage, _, h1⟩ := h.pin w ⟨0, 0⟩
  simp only [markSlotAsUsed, hrc, ne_eq, not_true_eq_false, if_false, hpage]
  have h2 := h1.poke (fun pg =>
      writeInt (fun i => if i = tombstoneOffset rid.slot recordSize then 1 else pg i) 4
        (readInt (fun i => if i = tombstoneOffset rid.slot recordSize then 1 else pg i) 4 - 1))
  have h3 := (h2.mark (pinPage w bm ⟨0, 0⟩ rid.page).w ⟨rid.page, k⟩ rfl).2
  have h4 := (h3.unpin
    (markDirty (pinPage w bm ⟨0, 0⟩ rid.page).w
      (pokeBuffer (pinPage w bm ⟨0, 0⟩ rid.page).bm k (fun pg =>
        writeInt (fun i => if i = tombstoneOffset rid.slot recordSize then 1 else pg i) 4
          (readInt (fun i => if i = tombstoneOffset rid.slot recordSize then 1 else pg i) 4 - 1)))
      ⟨rid.page, k⟩).w ⟨rid.page, k⟩ rfl).2
  rw [if_neg (by omega)] at h4
  have e : c + 1 - 1 = c := by omega
  rw [e] at h4
  exact h4

/-- After the pin of its page, `deleteRecord` of a slot that is not in use fails with
`RC_FILE_NOT_FOUND` and leaves the page and the tuple count as they are. -/
theorem deleteRecord_unused (w : World) (rel : RM_TableData) (tm : TableManager) (id : RID)
    (k : Nat) (pg : Page) (c : Int) (hopen : rel.mgmtData = some tm)
    (hrc : (pinPage w tm.bm ⟨0, 0⟩ id.page).rc = RC.RC_OK)
    (hpage : (pinPage w tm.bm ⟨0, 0⟩ id.page).page = ⟨id.page, k⟩)
    (h : CachedAt (pinPage w tm.bm ⟨0, 0⟩ id.page).bm id.page k pg c)
    (hfree : isSlotUsed pg id.slot tm.recordSize = false) :
    ∃ w1 rel1, deleteRecord w rel id = some (RC.RC_FILE_NOT_FOUND, w1, rel1) ∧
      getNumTuples rel1 = getNumTuples rel ∧ cachedPage rel1 id.page = some pg := by
  have hb := h.buffer
  simp only [deleteRecord, hopen, hrc, ne_eq, not_true_eq_false, if_false, hpage, hb, hfree,
    Bool.false_eq_true, not_false_eq_true, if_true]
  refine ⟨_, _, rfl, ?_, ?_⟩
  · simp [getNumTuples, hopen]
  · exact (h.unpin _ ⟨id.page, k⟩ rfl).2.page_eq rfl

theorem getRecord_unused (w : World) (rel : RM_TableData) (tm : TableManager) (id : RID)
    (record : Record) (k : Nat) (pg : Page) (c : Int) (hopen : rel.mgmtData = some tm)
    (hrc : (pinPage w tm.bm ⟨0, 0⟩ id.page).rc = RC.RC_OK)
    (hpage : (pinPage w tm.bm ⟨0, 0⟩ id.page).page = ⟨id.page, k⟩)
    (h : CachedAt (pinPage w tm.bm ⟨0, 0⟩ id.page).bm id.page k pg c)
    (hfree : isSlotUsed pg id.slot tm.recordSize = false) :
    ∃ w1 rel1, getRecord w rel id record = some (RC.RC_FILE_NOT_FOUND, w1, rel1, record) ∧
      getNumTuples rel1 = getNumTuples rel ∧ cachedPage rel1 id.page = some pg := by
  have hb := h.buffer
  simp only [getRecord, hopen, hrc, ne_eq, not_true_eq_false, if_false, hpage, hb, hfree,
    Bool.false_eq_true, not_false_eq_true, if_true]
  refine ⟨_, _, rfl, ?_, ?_⟩
  · simp [getNumTuples, hopen]
  · exact (h.unpin _ ⟨id.page, k⟩ rfl).2.page_eq rfl

theorem updateRecord_unused (w : World) (rel : RM_TableData) (tm : TableManager)
    (record : Record) (k : Nat) (pg : Page) (c : Int) (hopen : rel.mgmtData = some tm)
    (hrc : (pinPage w tm.bm ⟨0, 0⟩ record.id.page).rc = RC.RC_OK)
    (hpage : (pinPage w tm.bm ⟨0, 0⟩ record.id.page).page = ⟨record.id.page, k⟩)
    (h : CachedAt (pinPage w tm.bm ⟨0, 0⟩ record.id.page).bm record.id.page k pg c)
    (hfree : isSlotUsed pg record.id.slot tm.recordSize = false) :
    ∃ w1 rel1, updateRecord w rel record = some (RC.RC_FILE_NOT_FOUND, w1, rel1) ∧
      getNumTuples rel1 = getNumTuples rel ∧ cachedPage rel1 record.id.page = some pg := by
  have hb := h.buffer
  simp only [updateRecord, hopen, hrc, ne_eq, not_true_eq_false, if_false, hpage, hb, hfree,
    Bool.false_eq_true, not_false_eq_true, if_true]
  refine ⟨_, _, rfl, ?_, ?_⟩
  · simp [getNumTuples, hopen]
  · exact (h.unpin _ ⟨record.id.page, k⟩ rfl).2.page_eq rfl

/-- The end of `deleteRecord` and `insertRecord`: `markDirty` and `unpinPage` with the
handle of the pinned page. -/
theorem CachedAt.release {bm : BM_BufferPool} {page : Int} {k : Nat} {pg : Page} {c : Int}
    (h : CachedAt bm page k pg c) (hc : 0 < c) (w : World) :
    CachedAt (unpinPage (markDirty w bm ⟨page, k⟩).w (markDirty w bm ⟨page, k⟩).bm ⟨page, k⟩).bm
      page k pg (c - 1) := by
  have h1 := (h.mark w ⟨page, k⟩ rfl).2
  have h2 := (h1.unpin (markDirty w bm ⟨page, k⟩).w ⟨page, k⟩ rfl).2
  rw [if_neg (by omega)] at h2
  exact h2

/-- After the pin of its page, `deleteRecord` of a slot in use returns `RC_OK`, lowers
the tuple count by one and leaves the page with the stores of `markSlotAsFree`,
followed by a store into the `nextFreePage` field or not. -/
theorem deleteRecord_used (w : World) (rel : RM_TableData) (tm : TableManager) (id : RID)
    (k : Nat) (pg : Page) (c : Int) (hopen : rel.mgmtData = some tm)
    (hrc : (pinPage w tm.bm ⟨0, 0⟩ id.page).rc = RC.RC_OK)
    (hpage : (pinPage w tm.bm ⟨0, 0⟩ id.page).page = ⟨id.page, k⟩)
    (h : CachedAt (pinPage w tm.bm ⟨0, 0⟩ id.page).bm id.page k pg c) (hc : 0 < c)
    (hp1 : id.page ≠ NO_PAGE) (hp2 : id.page ≠ SCHEMA_PAGE)
    (hused : isSlotUsed pg id.slot tm.recordSize = true) :
    ∃ w1 rel1 tm1 pg1, deleteRecord w rel id = some (RC.RC_OK, w1, rel1) ∧
      rel1.mgmtData = some tm1 ∧ tm1.numTuples = tm.numTuples - 1 ∧
      tm1.recordSize = tm.recordSize ∧ rel1.schema = rel.schema ∧
      CachedAt tm1.bm id.page k pg1 (c - 1) ∧
      (pg1 = freedPage pg id.slot tm.recordSize ∨
        pg1 = setNextFreePage (freedPage pg id.slot tm.recordSize) tm.firstFreePage) := by
  have hb := h.buffer
  simp only [deleteRecord, hopen]
  generalize pinPage w tm.bm ⟨0, 0⟩ id.page = r at hrc hpage h hb ⊢
  have hms := markSlotAsFree_cached id h (le_of_lt hc) r.w tm.recordSize
  have hbms := hms.buffer
  simp only [hrc, ne_eq, not_true_eq_false, if_false, hpage, hb, hused, if_true, hbms]
  generalize markSlotAsFree r.w r.bm id tm.recordSize = ms at hms hbms ⊢
  by_cases hnext : getNextFreePage (freedPage pg id.slot tm.recordSize) = -1
  · obtain ⟨hi, hipage⟩ := hms.pin_other (ne_of_gt hc) hp1 ms.w ⟨0, 0⟩ SCHEMA_PAGE (Ne.symm hp2)
    simp only [hnext, if_true]
    generalize pinPage ms.w ms.bm ⟨0, 0⟩ SCHEMA_PAGE = i at hi hipage ⊢
    by_cases hirc : i.rc = RC.RC_OK
    · have hq : i.page.pageNum ≠ id.page := by rw [hipage hirc]; exact Ne.symm hp2
      have h1 := hi.poke (fun pg => setNextFreePage pg tm.firstFreePage)
      have h2 := (h1.mark_other i.w i.page hq).2
      have h3 := fun wa => (h2.unpin_other wa i.page hq).2
      have h4 := fun wa wb => (h3 wa).release hc wb
      simp only [hirc, if_true]
      exact ⟨_, _, _, _, rfl, rfl, rfl, rfl, rfl, h4 _ _, Or.inr rfl⟩
    · have h4 := hi.release hc
      simp only [hirc, if_false]
      exact ⟨_, _, _, _, rfl, rfl, rfl, rfl, rfl, h4 _, Or.inl rfl⟩
  · have h4 := hms.release hc
    simp only [hnext, if_false]
    exact ⟨_, _, _, _, rfl, rfl, rfl, rfl, rfl, h4 _, Or.inl rfl⟩

theorem tombstoneOffset_nat (i : Nat) (recordSize : Int) (h : 0 ≤ recordSize) :
    tombstoneOffset (i : Int) recordSize = 12 + i * (recordSize.toNat + 1) := by
  have e : (i : Int) * (recordSize + 1) = ((i * (recordSize.toNat + 1) : Nat) : Int) := by
    push_cast
    rw [Int.toNat_of_nonneg h]
  unfold tombstoneOffset PAGE_HEADER_SIZE
  rw [e]
  omega

theorem getRecordDataPointer_nat (i : Nat) (recordSize : Int) (h : 0 ≤ recordSize) :
    getRecordDataPointer (i : Int) recordSize = 12 + i * (recordSize.toNat + 1) + 1 := by
  have e : (i : Int) * (recordSize + 1) = ((i * (recordSize.toNat + 1) : Nat) : Int) := by
    push_cast
    rw [Int.toNat_of_nonneg h]
  unfold getRecordDataPointer PAGE_HEADER_SIZE
  rw [e]
  omega

theorem slot_before (i j W : Nat) (h : i < j) : i * W + W ≤ j * W := by
  have := Nat.mul_le_mul_right W (Nat.succ_le_of_lt h)
  rw [Nat.succ_mul] at this
  exact this

theorem readInt_range (pg : Page) (off : Nat) :
    -2147483648 ≤ readInt pg off ∧ readInt pg off < 2147483648 := by
  unfold readInt
  simp only
  split <;> omega

/-- The stores of `insertRecord` into slot `j` leave every byte outside the slot and
outside the `freeSlots` field as it was. -/
theorem insert_other (pg : Page) (recordSize : Int) (h : 0 ≤ recordSize) (j : Nat)
    (d : List Nat) (x : Nat) (hx : x < 4 ∨ 8 ≤ x)
    (hout : x < 12 + j * (recordSize.toNat + 1) ∨
      12 + j * (recordSize.toNat + 1) + (recordSize.toNat + 1) ≤ x) :
    usedPage (writeBytes pg (getRecordDataPointer (j : Int) recordSize) d recordSize.toNat)
      (j : Int) recordSize x = pg x := by
  unfold usedPage
  rw [writeInt_other _ _ _ _ (by omega), tombstoneOffset_nat j recordSize h,
    getRecordDataPointer_nat j recordSize h, if_neg (by omega),
    writeBytes_other _ _ _ _ _ (by omega)]

/-- The page after `insertRecord` has placed a record in its first unused slot. -/
theorem PageHolds.insert {pg : Page} {recordSize : Int} {slots : Nat} {datas : List (List Nat)}
    {link : Int} (h : PageHolds pg recordSize slots datas link) (hroom : datas.length < slots)
    (d : List Nat) (hd : d.length = recordSize.toNat) :
    PageHolds
      (usedPage (writeBytes pg (getRecordDataPointer (datas.length : Int) recordSize) d
        recordSize.toNat) (datas.length : Int) recordSize)
      recordSize slots (datas ++ [d]) link := by
  have hrs := h.size
  have hother := insert_other pg recordSize hrs datas.length d
  have hT := tombstoneOffset_nat datas.length recordSize hrs
  have hD := getRecordDataPointer_nat datas.length recordSize hrs
  have hS := readInt_range pg 0
  rw [h.slotsField] at hS
  refine ⟨hrs, by simp; omega, ?_, ?_, ?_, ?_, ?_⟩
  · rw [← h.slotsField]
    exact readInt_congr _ _ 0 (fun x hx => hother _ (by omega) (by omega))
  · have hsame : readInt (fun i => if i = tombstoneOffset (datas.length : Int) recordSize then 1
        else writeBytes pg (getRecordDataPointer (datas.length : Int) recordSize) d
          recordSize.toNat i) 4 = readInt pg 4 := by
      apply readInt_congr
      intro x hx
      show (if 4 + x = tombstoneOffset (datas.length : Int) recordSize then 1
        else writeBytes pg (getRecordDataPointer (datas.length : Int) recordSize) d
          recordSize.toNat (4 + x)) = pg (4 + x)
      rw [hT, hD, if_neg (by omega), writeBytes_other _ _ _ _ _ (by omega)]
    unfold usedPage
    rw [hsame, readInt_writeInt _ 4 _ (by rw [h.freeField]; omega), h.freeField]
    simp only [List.length_append, List.length_singleton]
    push_cast
    omega
  · rw [← h.linkField]
    exact readInt_congr _ _ 8 (fun x hx => hother _ (by omega) (by omega))
  · intro i hi
    simp only [List.length_append, List.length_singleton] at hi
    by_cases hlt : i < datas.length
    · have hle := slot_before i datas.length (recordSize.toNat + 1) hlt
      obtain ⟨h1, h2⟩ := h.used i hlt
      have hTi := tombstoneOffset_nat i recordSize hrs
      have hDi := getRecordDataPointer_nat i recordSize hrs
      refine ⟨?_, ?_⟩
      · rw [hTi, hother _ (by omega) (by omega), ← hTi]
        exact h1
      · rw [List.getD_append _ _ _ _ hlt, ← h2]
        apply readBytes_congr
        intro x hx
        rw [hDi]
        exact hother _ (by omega) (by omega)
    · have hi' : i = datas.length := by omega
      subst hi'
      refine ⟨?_, ?_⟩
      · unfold usedPage
        rw [writeInt_other _ _ _ _ (by omega)]
        simp
      · have e : (datas ++ [d]).getD datas.length [] = d := by
          rw [List.getD_append_right _ _ _ _ (le_refl _)]
          simp
        rw [e]
        have hw : readBytes (writeBytes pg
            (getRecordDataPointer (datas.length : Int) recordSize) d recordSize.toNat)
            (getRecordDataPointer (datas.length : Int) recordSize) recordSize.toNat = d := by
          rw [readBytes_writeBytes _ _ _ _ (by omega), ← hd, List.take_length]
        refine Eq.trans ?_ hw
        apply readBytes_congr
        intro x hx
        unfold usedPage
        rw [writeInt_other _ _ _ _ (by omega), hT, hD, if_neg (by omega)]
  · intro i hi hlt
    simp only [List.length_append, List.length_singleton] at hi
    have hle := slot_before datas.length i (recordSize.toNat + 1) (by omega)
    have hTi := tombstoneOffset_nat i recordSize hrs
    rw [hTi, hother _ (by omega) (by omega), ← hTi]
    exact h.unused i (by omega) hlt

/-- On a page whose slots `0 .. n - 1` are in use, the slot loop of `findFreeSlot`
finds slot `n`. -/
theorem PageHolds.firstUnused {pg : Page} {recordSize : Int} {slots : Nat}
    {datas : List (List Nat)} {link : Int} (h : PageHolds pg recordSize slots datas link)
    (hroom : datas.length < slots) :
    ∀ (left slot : Nat), slot ≤ datas.length → datas.length < slot + left →
      firstUnusedSlot pg recordSize (slots : Int) left (slot : Int) = some (datas.length : Int)
  | 0, slot, h1, h2 => by omega
  | left + 1, slot, h1, h2 => by
    have hlt : ((slot : Int) < (slots : Int)) := by omega
    simp only [firstUnusedSlot, hlt, if_true]
    by_cases hs : slot < datas.length
    · have hu : isSlotUsed pg (slot : Int) recordSize = true := by
        simp [isSlotUsed, (h.used slot hs).1]
      simp only [hu, if_true]
      have := PageHolds.firstUnused h hroom left (slot + 1) (by omega) (by omega)
      rw [← this]
      congr 1
    · have hs' : slot = datas.length := by omega
      subst hs'
      have hu : isSlotUsed pg (datas.length : Int) recordSize = false := by
        simp [isSlotUsed, h.unused datas.length (le_refl _) hroom]
      simp [hu]

/-- `insertRecord` into a table whose page 1 is cached and has room: the record goes
to the first unused slot of page 1. -/
theorem insertRecord_first_page (fuel : Nat) (w : World) (rel : RM_TableData) (tm : TableManager)
    (k : Nat) (pg : Page) (c : Int) (slots : Nat) (datas : List (List Nat)) (link : Int)
    (record : Record) (h : OnFirstPage rel tm k pg c)
    (hp : PageHolds pg tm.recordSize slots datas link) (hroom : datas.length < slots) :
    ∃ w1 rel1 tm1,
      insertRecord (fuel + 1) w rel record =
        some (RC.RC_OK, w1, rel1, { record with id := ⟨FIRST_DATA_PAGE, (datas.length : Int)⟩ }) ∧
      OnFirstPage rel1 tm1 k
        (usedPage (writeBytes pg (getRecordDataPointer (datas.length : Int) tm.recordSize)
          (record.data.getD []) tm.recordSize.toNat) (datas.length : Int) tm.recordSize) c ∧
      tm1.recordSize = tm.recordSize ∧ tm1.numTuples = tm.numTuples + 1 ∧
      rel1.schema = rel.schema := by
  have hc := h.fix
  have hneg : ¬ (FIRST_DATA_PAGE < 0) := by decide
  have hfree : readInt pg 4 > 0 := by rw [hp.freeField]; omega
  have hfirst : firstUnusedSlot pg tm.recordSize (readInt pg 0) (readInt pg 0).toNat 0 =
      some (datas.length : Int) := by
    rw [hp.slotsField]
    have := hp.firstUnused hroom slots 0 (by omega) (by omega)
    simpa using this
  have hpin := h.cached.pin w ⟨0, 0⟩
  simp only [insertRecord, h.isOpen, findFreeSlot, findFreeSlotLoop, h.head, hneg, if_false]
  generalize pinPage w tm.bm ⟨0, 0⟩ FIRST_DATA_PAGE = r at hpin ⊢
  obtain ⟨hrc, hpage, _, h1⟩ := hpin
  have hb := h1.buffer
  have h2 := (h1.unpin r.w ⟨FIRST_DATA_PAGE, k⟩ rfl).2
  rw [if_neg (by omega)] at h2
  simp only [hrc, ne_eq, not_true_eq_false, if_false, hpage, hb, hfree, if_true, hfirst]
  generalize unpinPage r.w r.bm ⟨FIRST_DATA_PAGE, k⟩ = u at h2 ⊢
  have e : c + 1 - 1 = c := by omega
  rw [e] at h2
  have hpin2 := h2.pin u.w ⟨0, 0⟩
  generalize pinPage u.w u.bm ⟨0, 0⟩ FIRST_DATA_PAGE = r2 at hpin2 ⊢
  obtain ⟨hrc2, hpage2, _, h3⟩ := hpin2
  simp only [hrc2, ne_eq, not_true_eq_false, if_false, hpage2]
  have h4 := h3.poke (fun pg => writeBytes pg
    (getRecordDataPointer (datas.length : Int) tm.recordSize) (record.data.getD [])
    tm.recordSize.toNat)
  have h5 := markSlotAsUsed_cached ⟨FIRST_DATA_PAGE, (datas.length : Int)⟩ h4 (by omega) r2.w
    tm.recordSize
  have h6 := fun w' => h5.release (by omega) w'
  rw [e] at h6
  exact ⟨_, _, _, rfl, ⟨rfl, rfl, h6 _, hc⟩, rfl, rfl, rfl⟩

/-! ## The scan -/

theorem yieldedFrom_end {Expr : Type} (evalExpr : Evaluator Expr) (schema : Schema) (cond : Option Expr)
    (page : Int) (datas : List (List Nat)) (slot : Nat)
    (h : datas.length ≤ slot) : yieldedFrom evalExpr schema cond page datas slot = [] := by
  unfold yieldedFrom
  have : datas.length - slot = 0 := by omega
  rw [this]
  rfl

theorem yieldedFrom_step {Expr : Type} (evalExpr : Evaluator Expr) (schema : Schema) (cond : Option Expr)
    (page : Int) (datas : List (List Nat)) (slot : Nat)
    (h : slot < datas.length) :
    yieldedFrom evalExpr schema cond page datas slot =
      if passes evalExpr schema cond (placedRecord page datas slot) = true then
        placedRecord page datas slot :: yieldedFrom evalExpr schema cond page datas (slot + 1)
      else yieldedFrom evalExpr schema cond page datas (slot + 1) := by
  unfold yieldedFrom
  have e : datas.length - slot = (datas.length - (slot + 1)) + 1 := by omega
  rw [e, List.range'_succ, List.map_cons, List.filter_cons]

/-- The slot loop of `next` over slots that are not in use runs to its end. -/
theorem nextSlots_unused {Expr : Type} (evalExpr : Evaluator Expr) (schema : Schema) (cond : Option Expr)
    {pg : Page} {recordSize : Int} {slots : Nat} {datas : List (List Nat)}
    {link : Int} (hp : PageHolds pg recordSize slots datas link) (page : Int) :
    ∀ (left slot : Nat) (record : Record), datas.length ≤ slot → slot + left = slots →
      nextSlots evalExpr schema cond pg page recordSize (slots : Int) left (slot : Int) record =
        ⟨none, (slots : Int), record⟩
  | 0, slot, record, _, h2 => by
    have : slot = slots := by omega
    subst this
    rfl
  | left + 1, slot, record, h1, h2 => by
    have hlt : ((slot : Int) < (slots : Int)) := by omega
    have hu : isSlotUsed pg (slot : Int) recordSize = false := by
      simp [isSlotUsed, hp.unused slot h1 (by omega)]
    simp only [nextSlots, hlt, if_true, hu, Bool.false_eq_true, if_false]
    have := nextSlots_unused evalExpr schema cond hp page left (slot + 1) record (by omega)
      (by omega)
    rw [← this]
    congr 1

/-- The slot loop of `next` on a page whose slots `0 .. n - 1` are in use, when the
evaluator does not fail: it runs to its end when no record from slot `slot` on
passes, and else stops behind the first one that passes, with that record. -/
theorem nextSlots_spec {Expr : Type} (evalExpr : Evaluator Expr) (schema : Schema) (cond : Option Expr)
    {pg : Page} {recordSize : Int} {slots : Nat} {datas : List (List Nat)}
    {link : Int} (hp : PageHolds pg recordSize slots datas link) (page : Int)
    (hev : ∀ c, cond = some c → ∀ record, (evalExpr record schema c).1 = RC.RC_OK) :
    ∀ (n slot : Nat) (record : Record), slot + n = datas.length →
      (yieldedFrom evalExpr schema cond page datas slot = [] ∧
        ∃ record1, nextSlots evalExpr schema cond pg page recordSize (slots : Int)
          (slots - slot) (slot : Int) record = ⟨none, (slots : Int), record1⟩) ∨
      (∃ i, slot ≤ i ∧ i < datas.length ∧
        yieldedFrom evalExpr schema cond page datas slot =
          placedRecord page datas i :: yieldedFrom evalExpr schema cond page datas (i + 1) ∧
        nextSlots evalExpr schema cond pg page recordSize (slots : Int)
          (slots - slot) (slot : Int) record =
            ⟨some RC.RC_OK, ((i + 1 : Nat) : Int), placedRecord page datas i⟩)
  | 0, slot, record, h => by
    left
    exact ⟨yieldedFrom_end evalExpr schema cond page datas slot (by omega),
      record, nextSlots_unused evalExpr schema cond hp page (slots - slot) slot record (by omega)
        (by have := hp.count; omega)⟩
  | n + 1, slot, record, h => by
    have hcount := hp.count
    have hslot : slot < datas.length := by omega
    have hlt : ((slot : Int) < (slots : Int)) := by omega
    have hleft : slots - slot = (slots - (slot + 1)) + 1 := by omega
    obtain ⟨ht, hd⟩ := hp.used slot hslot
    have hu : isSlotUsed pg (slot : Int) recordSize = true := by simp [isSlotUsed, ht]
    have hrec : (⟨⟨page, (slot : Int)⟩, some (readBytes pg
        (getRecordDataPointer (slot : Int) recordSize) recordSize.toNat)⟩ : Record) =
        placedRecord page datas slot := by
      rw [hd]
      rfl
    have hstep := yieldedFrom_step evalExpr schema cond page datas slot hslot
    rw [hleft]
    simp only [nextSlots, hlt, if_true, hu, hrec]
    have ih := nextSlots_spec evalExpr schema cond hp page hev n (slot + 1)
      (placedRecord page datas slot) (by omega)
    cases hc : cond with
    | none =>
      rw [hc] at hstep
      right
      refine ⟨slot, le_refl _, hslot, ?_, ?_⟩
      · rw [hstep]
        simp [passes]
      · simp
    | some c =>
      have hok := hev c hc (placedRecord page datas slot)
      rw [hc] at hstep ih
      simp only [hok, ne_eq, not_true_eq_false, if_false]
      by_cases hpass : passes evalExpr schema (some c) (placedRecord page datas slot) = true
      · right
        refine ⟨slot, le_refl _, hslot, ?_, ?_⟩
        · rw [hstep, if_pos hpass]
        · have : resultMatches (evalExpr (placedRecord page datas slot) schema c).2 = true := hpass
          simp only [this, if_true]
          simp
      · have hno : resultMatches (evalExpr (placedRecord page datas slot) schema c).2 = false := by
          have : passes evalExpr schema (some c) (placedRecord page datas slot) = false := by
            simpa using hpass
          exact this
        simp only [hno, Bool.false_eq_true, if_false]
        rw [if_neg hpass] at hstep
        rcases ih with ⟨h1, record1, h2⟩ | ⟨i, hi1, hi2, h1, h2⟩
        · left
          refine ⟨by rw [hstep]; exact h1, record1, ?_⟩
          rw [← h2]
          congr 1
        · right
          refine ⟨i, by omega, hi2, by rw [hstep]; exact h1, ?_⟩
          rw [← h2]
          congr 1

/-- One iteration of the page loop of `next` on a cached page. -/
theorem nextLoop_cached {Expr : Type} (evalExpr : Evaluator Expr) (schema : Schema)
    (recordSize : Int) (fuel : Nat) (w : World) (bm : BM_BufferPool)
    (sm : ScanManager Expr) (record : Record) (k : Nat) (pg : Page) (c : Int)
    (h : CachedAt bm sm.currentPage k pg c) (hc : 0 ≤ c) (hpage : 0 ≤ sm.currentPage) :
    ∃ w1 bm1, CachedAt bm1 sm.currentPage k pg c ∧
      nextLoop evalExpr schema recordSize (fuel + 1) w bm sm record =
        match (nextSlots evalExpr schema sm.condition pg sm.currentPage recordSize (readInt pg 0)
            (readInt pg 0 - sm.currentSlot).toNat sm.currentSlot record).rc with
        | some rc =>
          some (rc, w1, bm1,
            { sm with currentSlot := (nextSlots evalExpr schema sm.condition pg sm.currentPage
                recordSize (readInt pg 0) (readInt pg 0 - sm.currentSlot).toNat sm.currentSlot
                record).slot },
            (nextSlots evalExpr schema sm.condition pg sm.currentPage recordSize (readInt pg 0)
              (readInt pg 0 - sm.currentSlot).toNat sm.currentSlot record).record)
        | none =>
          nextLoop evalExpr schema recordSize fuel w1 bm1
            { sm with currentPage := readInt pg 8, currentSlot := 0 }
            (nextSlots evalExpr schema sm.condition pg sm.currentPage recordSize (readInt pg 0)
              (readInt pg 0 - sm.currentSlot).toNat sm.currentSlot record).record := by
  have hneg : ¬ (sm.currentPage < 0) := by omega
  have hpin := h.pin w ⟨0, 0⟩
  simp only [nextLoop, hneg, if_false]
  generalize pinPage w bm ⟨0, 0⟩ sm.currentPage = r at hpin ⊢
  obtain ⟨hrc, hpg, _, h1⟩ := hpin
  have hb := h1.buffer
  have h2 := (h1.unpin r.w ⟨sm.currentPage, k⟩ rfl).2
  rw [if_neg (by omega)] at h2
  have e : c + 1 - 1 = c := by omega
  rw [e] at h2
  simp only [hrc, ne_eq, not_true_eq_false, if_false, hpg, hb]
  exact ⟨_, _, h2, rfl⟩

/-- One call of `next` on a table whose records all are on page 1, when the chain
ends at page 1 and the evaluator does not fail: the call yields the first record
from the cursor on that passes and moves the cursor behind it; when there is none
it fails with `RC_RM_NO_MORE_TUPLES`. -/
theorem next_on_first_page {Expr : Type} (evalExpr : Evaluator Expr) (fuel : Nat) (w : World) (scan : RM_ScanHandle Expr)
    (tm : TableManager) (k : Nat) (pg : Page) (c : Int) (slots : Nat) (datas : List (List Nat))
    (link : Int) (slot : Nat) (cond : Option Expr) (total : Int) (record : Record)
    (h : OnFirstPage scan.rel tm k pg c) (hp : PageHolds pg tm.recordSize slots datas link)
    (hsm : scan.mgmtData = some ⟨FIRST_DATA_PAGE, (slot : Int), cond, total⟩)
    (hslot : slot ≤ datas.length)
    (hev : ∀ c0, cond = some c0 → ∀ r, (evalExpr r scan.rel.schema c0).1 = RC.RC_OK)
    (hlink : link < 0) :
    (yieldedFrom evalExpr scan.rel.schema cond FIRST_DATA_PAGE datas slot = [] ∧
      ∃ w1 scan1 record1, next evalExpr (fuel + 2) w scan record =
        some (RC.RC_RM_NO_MORE_TUPLES, w1, scan1, record1)) ∨
    (∃ i, slot ≤ i ∧ i < datas.length ∧
      yieldedFrom evalExpr scan.rel.schema cond FIRST_DATA_PAGE datas slot =
        placedRecord FIRST_DATA_PAGE datas i ::
          yieldedFrom evalExpr scan.rel.schema cond FIRST_DATA_PAGE datas (i + 1) ∧
      ∃ w1 scan1 tm1, next evalExpr (fuel + 2) w scan record =
          some (RC.RC_OK, w1, scan1, placedRecord FIRST_DATA_PAGE datas i) ∧
        scan1.mgmtData = some ⟨FIRST_DATA_PAGE, ((i + 1 : Nat) : Int), cond, total⟩ ∧
        OnFirstPage scan1.rel tm1 k pg c ∧ tm1.recordSize = tm.recordSize ∧
        scan1.rel.schema = scan.rel.schema) := by
  obtain ⟨w1, bm1, hc1, hloop⟩ := nextLoop_cached evalExpr scan.rel.schema tm.recordSize
    (fuel + 1) w tm.bm ⟨FIRST_DATA_PAGE, (slot : Int), cond, total⟩ record k pg c h.cached h.fix
    (by show (0 : Int) ≤ FIRST_DATA_PAGE; decide)
  have hleft : ((slots : Int) - (slot : Int)).toNat = slots - slot := by omega
  simp only [hp.slotsField, hp.linkField, hleft] at hloop
  simp only [next, hsm, h.isOpen, hloop]
  rcases nextSlots_spec evalExpr scan.rel.schema cond hp FIRST_DATA_PAGE hev
      (datas.length - slot) slot record (by omega) with
    ⟨h1, record1, h2⟩ | ⟨i, hi1, hi2, h1, h2⟩
  · left
    refine ⟨h1, ?_⟩
    simp only [h2, nextLoop, hlink, if_true]
    exact ⟨_, _, _, rfl⟩
  · right
    refine ⟨i, hi1, hi2, h1, ?_⟩
    simp only [h2]
    exact ⟨_, _, _, rfl, rfl, ⟨rfl, h.head, hc1, h.fix⟩, rfl, rfl⟩

/-- The calls of `next` on a table whose records all are on page 1, from a cursor on
page 1 on: they yield the records that pass, in slot order, and the call after the
last of them fails with `RC_RM_NO_MORE_TUPLES`. -/
theorem scanCalls_on_first_page {Expr : Type} (evalExpr : Evaluator Expr) (fuel : Nat) (k : Nat) (pg : Page) (c : Int) (slots : Nat)
    (datas : List (List Nat)) (link : Int) (cond : Option Expr) (total : Int) (schema : Schema)
    (recordSize : Int) (hp : PageHolds pg recordSize slots datas link) (hlink : link < 0)
    (hev : ∀ c0, cond = some c0 → ∀ r, (evalExpr r schema c0).1 = RC.RC_OK) :
    ∀ (l : List Record) (slot : Nat) (w : World) (scan : RM_ScanHandle Expr) (tm : TableManager)
      (record : Record), OnFirstPage scan.rel tm k pg c → tm.recordSize = recordSize →
      scan.rel.schema = schema →
      scan.mgmtData = some ⟨FIRST_DATA_PAGE, (slot : Int), cond, total⟩ → slot ≤ datas.length →
      yieldedFrom evalExpr schema cond FIRST_DATA_PAGE datas slot = l →
      ∃ last, scanCalls evalExpr (fuel + 2) (l.length + 1) w scan record =
        some (l.map (fun r => (RC.RC_OK, r)) ++ [(RC.RC_RM_NO_MORE_TUPLES, last)])
  | [], slot, w, scan, tm, record, h, hrs, hsch, hsm, hslot, hl => by
    subst hrs hsch
    rcases next_on_first_page evalExpr fuel w scan tm k pg c slots datas link slot cond total
        record h hp hsm hslot hev hlink with
      ⟨_, w1, scan1, record1, hn⟩ | ⟨i, _, _, h1, _⟩
    · refine ⟨record1, ?_⟩
      simp [scanCalls, hn]
    · rw [hl] at h1
      cases h1
  | r :: rest, slot, w, scan, tm, record, h, hrs, hsch, hsm, hslot, hl => by
    subst hrs hsch
    rcases next_on_first_page evalExpr fuel w scan tm k pg c slots datas link slot cond total
        record h hp hsm hslot hev hlink with
      ⟨h1, _⟩ | ⟨i, _, hi2, h1, w1, scan1, tm1, hn, hsm1, hon1, hrs1, hsch1⟩
    · rw [hl] at h1
      cases h1
    · rw [hl] at h1
      simp only [List.cons.injEq] at h1
      obtain ⟨hr, hrest⟩ := h1
      obtain ⟨last, hcalls⟩ := scanCalls_on_first_page evalExpr fuel k pg c slots datas link cond total
        scan.rel.schema tm.recordSize hp hlink hev rest (i + 1) w1 scan1 tm1
        (placedRecord FIRST_DATA_PAGE datas i) hon1 hrs1 hsch1 hsm1 (by omega) hrest.symm
      refine ⟨last, ?_⟩
      simp only [List.length_cons, List.map_cons, List.cons_append]
      rw [scanCalls]
      simp only [hn, hcalls, hr]

/-- The calls of `insertRecord` for records that all fit on page 1: each returns
`RC_OK` and reports the next slot of page 1, and the page holds the payloads. -/
theorem insertAll_first_page (fuel : Nat) (k : Nat) (c : Int) (slots : Nat) (link : Int)
    (recordSize : Int) (schema : Schema) :
    ∀ (records : List Record) (w : World) (rel : RM_TableData) (tm : TableManager) (pg : Page)
      (datas : List (List Nat)), OnFirstPage rel tm k pg c → tm.recordSize = recordSize →
      rel.schema = schema →
      PageHolds pg recordSize slots datas link → datas.length + records.length ≤ slots →
      (∀ r ∈ records, ∃ d, r.data = some d ∧ d.length = recordSize.toNat) →
      ∃ w1 rel1 tm1 pg1,
        insertAll (fuel + 1) w rel records =
          some ((List.range' datas.length records.length).map
            (fun i : Nat => (RC.RC_OK, (⟨FIRST_DATA_PAGE, (i : Int)⟩ : RID))), w1, rel1) ∧
        OnFirstPage rel1 tm1 k pg1 c ∧ tm1.recordSize = recordSize ∧ rel1.schema = schema ∧
        tm1.numTuples = tm.numTuples + (records.length : Int) ∧
        PageHolds pg1 recordSize slots (datas ++ records.map (fun r => r.data.getD [])) link
  | [], w, rel, tm, pg, datas, h, hrs, hsch, hp, _, _ =>
    ⟨w, rel, tm, pg, by simp [insertAll], h, hrs, hsch, by simp, by simpa using hp⟩
  | record :: rest, w, rel, tm, pg, datas, h, hrs, hsch, hp, hroom, hdata => by
    subst hrs hsch
    simp only [List.length_cons] at hroom
    obtain ⟨d, hd1, hd2⟩ := hdata record (List.mem_cons_self _ _)
    obtain ⟨w1, rel1, tm1, hins, hon1, hrs1, hnum1, hsch1⟩ :=
      insertRecord_first_page fuel w rel tm k pg c slots datas link record h hp (by omega)
    have hp1 := hp.insert (by omega) (record.data.getD []) (by rw [hd1]; exact hd2)
    obtain ⟨w2, rel2, tm2, pg2, hall, hon2, hrs2, hsch2, hnum2, hp2⟩ :=
      insertAll_first_page fuel k c slots link tm.recordSize rel.schema rest w1 rel1 tm1 _
        (datas ++ [record.data.getD []]) hon1 hrs1 hsch1 hp1
        (by simp only [List.length_append, List.length_singleton]; omega)
        (fun r hr => hdata r (List.mem_cons_of_mem _ hr))
    refine ⟨w2, rel2, tm2, pg2, ?_, hon2, hrs2, hsch2, ?_, ?_⟩
    · simp only [List.length_append, List.length_singleton] at hall
      rw [insertAll]
      simp only [hins, hall, List.length_cons, List.range'_succ, List.map_cons]
    · rw [hnum2, hnum1]
      simp only [List.length_cons]
      push_cast
      omega
    · simpa using hp2

theorem eq_some_getD {α : Type} (o : Option α) (d : α) (h : o.isSome = true) :
    o = some (o.getD d) := by
  cases o with
  | none => cases h
  | some a => rfl

theorem managerOf_open (rel : RM_TableData) (h : rel.mgmtData.isSome = true) :
    rel.mgmtData = some (managerOf rel) :=
  eq_some_getD _ _ h

/-- Page 1 is cached in frame 1 of the pool of a table when `findFrame` says so. -/
theorem cachedAt_frameOne (rel : RM_TableData) (c : Int)
    (hm : (managerOf rel).bm.mgmtData.isSome = true)
    (hk : findFrame (dataOf (managerOf rel).bm) FIRST_DATA_PAGE = some 1)
    (hc : (frameAt (dataOf (managerOf rel).bm).frames 1).fixCount = c) :
    CachedAt (managerOf rel).bm FIRST_DATA_PAGE 1 (frameOne rel) c :=
  ⟨dataOf (managerOf rel).bm, mgmtData_eq_dataOf _ hm, hk, rfl, hc⟩

/-- Well-formedness of a pool from checks that can be evaluated. -/
theorem poolWF_of_checks (bm : BM_BufferPool) (h1 : bm.mgmtData.isSome = true)
    (h2 : (dataOf bm).frames.length = bm.numPages) (h3 : 0 < bm.numPages)
    (h4 : ∀ x ∈ (dataOf bm).fifoQueue.getD [], x < bm.numPages)
    (h5 : (dataOf bm).clockHand < bm.numPages) : PoolWF bm (dataOf bm) :=
  ⟨mgmtData_eq_dataOf bm h1, ⟨h2, h3, fun q hq x hx => h4 x (by rw [hq]; exact hx), h5⟩⟩

theorem fix_nonneg_of_checks (frames : List BM_PageFrame)
    (h : ∀ c ∈ frames.map (fun f => f.fixCount), 0 ≤ c) : ∀ f ∈ frames, 0 ≤ f.fixCount :=
  fun f hf => h _ (List.mem_map.2 ⟨f, hf, rfl⟩)

theorem idGreater_ok (record : Record) (schema : Schema) (c : Int) (h : 0 < schema.numAttr) :
    (idGreater record schema c).1 = RC.RC_OK := by
  have hr : ¬ ((0 : Int) < 0 ∨ (0 : Int) ≥ schema.numAttr) := by omega
  simp only [idGreater, getAttr, hr, if_false]
  split_ifs <;> rfl

theorem idPlus_not_bool (record : Record) (schema : Schema) (c : Int) (v : Value)
    (h : (idPlus record schema c).2 = some v) : v.dt ≠ DT_BOOL := by
  unfold idPlus at h
  split at h
  · simp only [Option.some.injEq] at h
    rw [← h]
    show (DT_INT : Int) ≠ DT_BOOL
    decide
  · cases h

/-- On a page without used slots whose `nextFreePage` is the page itself, the page
loop of `next` does not end. -/
theorem nextLoop_self_link {Expr : Type} (evalExpr : Evaluator Expr) (schema : Schema)
    (recordSize : Int) (k : Nat) (pg : Page) (c : Int) (slots : Nat) (page : Int)
    (hp : PageHolds pg recordSize slots [] page) (hpage : 0 ≤ page) (hc : 0 ≤ c) :
    ∀ (fuel : Nat) (w : World) (bm : BM_BufferPool) (sm : ScanManager Expr) (record : Record)
      (slot : Nat), CachedAt bm page k pg c → sm.currentPage = page →
      sm.currentSlot = (slot : Int) → slot ≤ slots →
      nextLoop evalExpr schema recordSize fuel w bm sm record = none
  | 0, _, _, _, _, _, _, _, _, _ => rfl
  | fuel + 1, w, bm, sm, record, slot, h, hsm, hslot, hle => by
    subst hsm
    obtain ⟨w1, bm1, h1, hloop⟩ := nextLoop_cached evalExpr schema recordSize fuel w bm sm
      record k pg c h hc hpage
    have hleft : ((slots : Int) - (slot : Int)).toNat = slots - slot := by omega
    have hun := nextSlots_unused evalExpr schema sm.condition hp sm.currentPage (slots - slot)
      slot record (Nat.zero_le _) (by omega)
    rw [hloop, hp.slotsField, hslot, hleft, hun]
    simp only [hp.linkField]
    exact nextLoop_self_link evalExpr schema recordSize k pg c slots sm.currentPage hp hpage hc
      fuel w1 bm1 _ record 0 h1 rfl rfl (Nat.zero_le _)

set_option maxRecDepth 100000 in
theorem selfLinkedTable_cached :
    CachedAt (managerOf selfLinkedTable).bm FIRST_DATA_PAGE 1 (frameOne selfLinkedTable) 0 :=
  cachedAt_frameOne _ 0 (by decide) (by decide) (by decide)

set_option maxRecDepth 100000 in
theorem selfLinkedTable_pageHolds :
    PageHolds (frameOne selfLinkedTable) (managerOf selfLinkedTable).recordSize 371 []
      FIRST_DATA_PAGE :=
  ⟨by decide, by decide, by decide, by decide, by decide,
    fun i hi => absurd hi (Nat.not_lt_zero i),
    fun i _ hi => (by decide : ∀ i : Nat, i < 371 →
      frameOne selfLinkedTable
        (tombstoneOffset (i : Int) (managerOf selfLinkedTable).recordSize) = 0) i hi⟩

set_option maxRecDepth 100000 in
/-- After the self-link scenario the first `next` of a scan does not return, whatever
the number of iterations allowed to its page loop, the evaluator and the condition. -/
theorem scan_after_self_link_diverges {Expr : Type} (evalExpr : Evaluator Expr)
    (cond : Option Expr) (fuel : Nat) (w : World) (record : Record) :
    next evalExpr fuel w (startScan selfLinkedTable cond).2 record = none := by
  have hopen : selfLinkedTable.mgmtData = some (managerOf selfLinkedTable) :=
    managerOf_open _ (by decide)
  have := nextLoop_self_link evalExpr selfLinkedTable.schema
    (managerOf selfLinkedTable).recordSize 1 (frameOne selfLinkedTable) 0 371 FIRST_DATA_PAGE
    selfLinkedTable_pageHolds (by decide) (le_refl _) fuel w (managerOf selfLinkedTable).bm
    ⟨FIRST_DATA_PAGE, 0, cond, 0⟩ record 0 selfLinkedTable_cached rfl rfl (Nat.zero_le _)
  simp only [next, startScan, hopen, this]

/-! ## Eviction finds a frame -/

theorem exec_wf : ∀ (ops : List Op) (s : PoolState) (m : BM_MgmtData), PoolWF s.bm m →
    ∃ m', PoolWF (exec s ops).bm m' ∧ (exec s ops).bm.numPages = s.bm.numPages ∧
      (exec s ops).bm.strategy = s.bm.strategy
  | [], _, m, h => ⟨m, h, rfl, rfl⟩
  | op :: rest, s, m, h => by
    obtain ⟨m', hm', hn, hs⟩ := step_wf s op m h
    obtain ⟨m2, hm2, hn2, hs2⟩ := exec_wf rest (step s op).2 m' hm'
    exact ⟨m2, hm2, by rw [← hn]; exact hn2, by rw [← hs]; exact hs2⟩

/-- The loop of `evictFIFO` finds a victim exactly when one of the queue entries it
takes names a frame with fix count 0. -/
theorem evictFIFOLoop_finds (n : Nat) :
    ∀ (k : Nat) (w : World) (m : BM_MgmtData),
      (evictFIFOLoop n k w m).1 ≠ none ↔
        ∃ j ∈ fifoCandidates n (m.fifoQueue.getD []) k m.fifoFront,
          (frameAt m.frames j).fixCount = 0
  | 0, w, m => by simp [evictFIFOLoop, fifoCandidates]
  | k + 1, w, m => by
    have ih := evictFIFOLoop_finds n k w { m with fifoFront := (m.fifoFront + 1) % n }
    simp only [evictFIFOLoop, fifoCandidates, List.mem_cons, exists_eq_or_imp]
    by_cases h0 : (frameAt m.frames ((m.fifoQueue.getD []).getD m.fifoFront 0)).fixCount = 0
    · simp only [h0, if_true, true_or, iff_true]
      split <;> simp
    · simp only [h0, if_false, false_or]
      exact ih

/-- Once the scan of `evictLRU` has a candidate it ends with one. -/
theorem evictLRUScan_isSome :
    ∀ (l : List BM_PageFrame) (i : Nat) (o : Option Nat) (t : Int), o ≠ none →
      (evictLRUScan l i o t).1 ≠ none
  | [], _, _, _, h => h
  | f :: rest, i, o, t, h => by
    simp only [evictLRUScan]
    split
    · split
      · exact evictLRUScan_isSome rest (i + 1) (some i) _ (by simp)
      · exact evictLRUScan_isSome rest (i + 1) o t h
    · exact evictLRUScan_isSome rest (i + 1) o t h

/-- The scan of `evictLRU` finds a victim when a frame that holds a page has fix
count 0 and a tick below `INT_MAX`. -/
theorem evictLRUScan_finds :
    ∀ (l : List BM_PageFrame) (i : Nat) (o : Option Nat) (t : Int),
      (o = none → INT_MAX ≤ t) →
      (∃ f ∈ l, f.fixCount = 0 ∧ f.pageNum ≠ NO_PAGE ∧ f.lastUsed < INT_MAX) →
      (evictLRUScan l i o t).1 ≠ none
  | [], _, _, _, _, h => by simp at h
  | f :: rest, i, o, t, hinv, h => by
    obtain ⟨g, hg, hg0, hgp, hgt⟩ := h
    simp only [evictLRUScan]
    split
    · split
      · exact evictLRUScan_isSome rest (i + 1) (some i) _ (by simp)
      · rename_i hlt
        rcases List.mem_cons.1 hg with rfl | hg
        · refine evictLRUScan_isSome rest (i + 1) o t (fun ho => ?_)
          have := hinv ho
          omega
        · exact evictLRUScan_finds rest (i + 1) o t hinv ⟨g, hg, hg0, hgp, hgt⟩
    · rename_i hne
      rcases List.mem_cons.1 hg with rfl | hg
      · exact absurd ⟨hg0, hgp⟩ hne
      · exact evictLRUScan_finds rest (i + 1) o t hinv ⟨g, hg, hg0, hgp, hgt⟩

theorem evictLRU_finds (w : World) (m : BM_MgmtData)
    (h : ∃ f ∈ m.frames, f.fixCount = 0 ∧ f.pageNum ≠ NO_PAGE ∧ f.lastUsed < INT_MAX) :
    (evictLRU w m).1 ≠ none := by
  have hs := evictLRUScan_finds m.frames 0 none INT_MAX (fun _ => le_refl _) h
  unfold evictLRU
  split
  · rename_i hnone
    exact absurd hnone hs
  · split <;> simp

/-- The clock hand reaches a frame that has fix count 0 and a cleared reference bit. -/
theorem evictCLOCKLoop_second_lap (n : Nat) (hn : 0 < n) :
    ∀ (d k : Nat) (w : World) (m : BM_MgmtData), d < k → m.frames.length = n →
      m.clockHand < n →
      (frameAt m.frames ((m.clockHand + d) % n)).fixCount = 0 →
      (frameAt m.frames ((m.clockHand + d) % n)).refBit = false →
      (evictCLOCKLoop n k w m).1 ≠ none
  | d, 0, _, _, hk, _, _, _, _ => by omega
  | d, k + 1, w, m, hk, hlen, hhand, hfix, href => by
    have hstep : ∀ d', d = d' + 1 →
        ((m.clockHand + 1) % n + d') % n = (m.clockHand + d) % n := by
      intro d' hd
      rw [Nat.mod_add_mod]
      congr 1
      omega
    simp only [evictCLOCKLoop]
    split
    · rename_i h0
      split
      · split <;> simp
      · rename_i hr
        cases d with
        | zero =>
          simp only [Nat.add_zero, Nat.mod_eq_of_lt hhand] at href
          simp [href] at hr
        | succ d' =>
          apply evictCLOCKLoop_second_lap n hn d' k w _ (by omega)
          · simp [hlen]
          · exact Nat.mod_lt _ hn
          · simp only [hstep d' rfl]
            by_cases ht : m.clockHand = (m.clockHand + (d' + 1)) % n
            · rw [← ht, frameAt_set_self _ (by omega)]
              exact h0
            · rw [frameAt_set_ne _ ht]
              exact hfix
          · simp only [hstep d' rfl]
            by_cases ht : m.clockHand = (m.clockHand + (d' + 1)) % n
            · rw [← ht, frameAt_set_self _ (by omega)]
            · rw [frameAt_set_ne _ ht]
              exact href
    · rename_i h0
      cases d with
      | zero =>
        simp only [Nat.add_zero, Nat.mod_eq_of_lt hhand] at hfix
        exact absurd hfix h0
      | succ d' =>
        refine evictCLOCKLoop_second_lap n hn d' k w
          { m with clockHand := (m.clockHand + 1) % n } (by omega) hlen (Nat.mod_lt _ hn) ?_ ?_
        · simp only [hstep d' rfl]
          exact hfix
        · simp only [hstep d' rfl]
          exact href

/-- Within one lap and one step more the clock hand finds a victim when some frame
has fix count 0. -/
theorem evictCLOCKLoop_first_lap (n : Nat) (hn : 0 < n) :
    ∀ (d k : Nat) (w : World) (m : BM_MgmtData), d + n < k → m.frames.length = n →
      m.clockHand < n →
      (frameAt m.frames ((m.clockHand + d) % n)).fixCount = 0 →
      (evictCLOCKLoop n k w m).1 ≠ none
  | d, 0, _, _, hk, _, _, _ => by omega
  | d, k + 1, w, m, hk, hlen, hhand, hfix => by
    have hstep : ∀ d', d = d' + 1 →
        ((m.clockHand + 1) % n + d') % n = (m.clockHand + d) % n := by
      intro d' hd
      rw [Nat.mod_add_mod]
      congr 1
      omega
    simp only [evictCLOCKLoop]
    split
    · rename_i h0
      split
      · split <;> simp
      · cases d with
        | zero =>
          have hback : ((m.clockHand + 1) % n + (n - 1)) % n = m.clockHand := by
            rw [Nat.mod_add_mod]
            have : m.clockHand + 1 + (n - 1) = m.clockHand + n := by omega
            rw [this, Nat.add_mod_right, Nat.mod_eq_of_lt hhand]
          apply evictCLOCKLoop_second_lap n hn (n - 1) k w _ (by omega)
          · simp [hlen]
          · exact Nat.mod_lt _ hn
          · simp only [hback]
            rw [frameAt_set_self _ (by omega)]
            exact h0
          · simp only [hback]
            rw [frameAt_set_self _ (by omega)]
        | succ d' =>
          apply evictCLOCKLoop_first_lap n hn d' k w _ (by omega)
          · simp [hlen]
          · exact Nat.mod_lt _ hn
          · simp only [hstep d' rfl]
            by_cases ht : m.clockHand = (m.clockHand + (d' + 1)) % n
            · rw [← ht, frameAt_set_self _ (by omega)]
              exact h0
            · rw [frameAt_set_ne _ ht]
              exact hfix
    · rename_i h0
      cases d with
      | zero =>
        simp only [Nat.add_zero, Nat.mod_eq_of_lt hhand] at hfix
        exact absurd hfix h0
      | succ d' =>
        refine evictCLOCKLoop_first_lap n hn d' k w
          { m with clockHand := (m.clockHand + 1) % n } (by omega) hlen (Nat.mod_lt _ hn) ?_
        simp only [hstep d' rfl]
        exact hfix

theorem evictCLOCK_finds (w : World) (bm : BM_BufferPool) (m : BM_MgmtData)
    (hwf : DataWF bm.numPages m) (h : ∃ f ∈ m.frames, f.fixCount = 0) :
    (evictCLOCK w bm m).1 ≠ none := by
  obtain ⟨f, hf, hf0⟩ := h
  obtain ⟨i, hi, rfl⟩ := List.getElem_of_mem hf
  have hlen := hwf.len
  have hhand := hwf.hand
  have hfa : frameAt m.frames i = m.frames[i] :=
    frameAt_eq_of_getElem? (List.getElem?_eq_getElem hi)
  unfold evictCLOCK
  by_cases hle : m.clockHand ≤ i
  · apply evictCLOCKLoop_first_lap bm.numPages hwf.pos (i - m.clockHand) _ w m (by omega) hlen
      hhand
    have : m.clockHand + (i - m.clockHand) = i := by omega
    rw [this, Nat.mod_eq_of_lt (by omega), hfa]
    exact hf0
  · apply evictCLOCKLoop_first_lap bm.numPages hwf.pos (i + bm.numPages - m.clockHand) _ w m
      (by omega) hlen hhand
    have : m.clockHand + (i + bm.numPages - m.clockHand) = i + bm.numPages := by omega
    rw [this, Nat.add_mod_right, Nat.mod_eq_of_lt (by omega), hfa]
    exact hf0

/-- A pin-miss on a full pool succeeds exactly when the eviction finds a victim, and
fails with `RC_WRITE_FAILED` otherwise. -/
theorem pinPage_miss_full (w : World) (bm : BM_BufferPool) (m : BM_MgmtData)
    (page : BM_PageHandle) (p : Int) (hm : bm.mgmtData = some m)
    (hmiss : findFrame m p = none) (hfull : findFreeFrame m = none) :
    ((pinPage w bm page p).rc = RC.RC_OK ↔ (evict w bm m).1 ≠ none) ∧
    ((pinPage w bm page p).rc = RC.RC_OK ∨ (pinPage w bm page p).rc = RC.RC_WRITE_FAILED) := by
  rcases pinPage_cases w bm m page p hm with ⟨k, hk, _⟩ | ⟨_, k, hk, _⟩ |
    ⟨_, _, j, w1, m1, hev, he⟩ | ⟨_, _, w1, m1, hev, he⟩
  · rw [hmiss] at hk; cases hk
  · rw [hfull] at hk; cases hk
  · simp [he, hev, pinPageLoad_rc]
  · simp [he, hev]

/-- C28 as claimed fails: in a FIFO pool of two frames, after pin 1, pin 2, unpin 2,
pin 3 and unpin 1 the frames hold pages 1 and 3 with fix counts 0 and 1, page 4 is
not cached, and `pinPage` of page 4 fails with `RC_WRITE_FAILED`: both queue
entries name frame 1. -/
theorem fifo_overlooks_unpinned_frame :
    getFrameContents (poolRun demoWorld blankPool "f" 2 ReplacementStrategy.RS_FIFO
      (fun _ => zeroPage) staleQueueOps).bm = some [1, 3] ∧
    getFixCounts (poolRun demoWorld blankPool "f" 2 ReplacementStrategy.RS_FIFO
      (fun _ => zeroPage) staleQueueOps).bm = some [0, 1] ∧
    (dataOf (poolRun demoWorld blankPool "f" 2 ReplacementStrategy.RS_FIFO
      (fun _ => zeroPage) staleQueueOps).bm).fifoQueue = some [1, 1] ∧
    (step (poolRun demoWorld blankPool "f" 2 ReplacementStrategy.RS_FIFO
      (fun _ => zeroPage) staleQueueOps) (Op.pin 4)).1 = RC.RC_WRITE_FAILED := by
  decide

/-- C28, amended: in every pool state reached from a successful `initBufferPool` by
calls of the pool interface, when no frame is free and page `p` is not cached,
`pinPage` of `p` returns `RC_OK` or the error `RC_WRITE_FAILED`, and it returns `RC_OK`
- under CLOCK exactly when some frame has fix count 0;
- under LRU (and LFU and LRU_K, which use the same eviction), when every tick is
  below `INT_MAX`, exactly when some frame has fix count 0;
- under FIFO exactly when one of the `numPages` queue entries from the front on
  names a frame with fix count 0. -/
theorem eviction_finds_victim (w : World) (bm : BM_BufferPool) (name : String) (n : Int)
    (strategy : ReplacementStrategy) (heap : Nat → Page) (ops : List Op) (page : BM_PageHandle)
    (p : Int) (m : BM_MgmtData)
    (hinit : (initBufferPool w bm name n strategy heap).rc = RC.RC_OK)
    (hm : (poolRun w bm name n strategy heap ops).bm.mgmtData = some m)
    (hmiss : findFrame m p = none) (hfull : findFreeFrame m = none) :
    ((pinPage (poolRun w bm name n strategy heap ops).w
        (poolRun w bm name n strategy heap ops).bm page p).rc = RC.RC_OK ∨
      (pinPage (poolRun w bm name n strategy heap ops).w
        (poolRun w bm name n strategy heap ops).bm page p).rc = RC.RC_WRITE_FAILED) ∧
    (strategy = ReplacementStrategy.RS_CLOCK →
      ((pinPage (poolRun w bm name n strategy heap ops).w
          (poolRun w bm name n strategy heap ops).bm page p).rc = RC.RC_OK ↔
        ∃ f ∈ m.frames, f.fixCount = 0)) ∧
    (strategy ≠ ReplacementStrategy.RS_CLOCK → strategy ≠ ReplacementStrategy.RS_FIFO →
      (∀ f ∈ m.frames, f.lastUsed < INT_MAX) →
      ((pinPage (poolRun w bm name n strategy heap ops).w
          (poolRun w bm name n strategy heap ops).bm page p).rc = RC.RC_OK ↔
        ∃ f ∈ m.frames, f.fixCount = 0)) ∧
    (strategy = ReplacementStrategy.RS_FIFO →
      ((pinPage (poolRun w bm name n strategy heap ops).w
          (poolRun w bm name n strategy heap ops).bm page p).rc = RC.RC_OK ↔
        ∃ j ∈ fifoCandidates (poolRun w bm name n strategy heap ops).bm.numPages
            (m.fifoQueue.getD []) (poolRun w bm name n strategy heap ops).bm.numPages m.fifoFront,
          (frameAt m.frames j).fixCount = 0)) := by
  obtain ⟨m0, hwf0, _, hstrat0, _⟩ := initBufferPool_wf hinit
  obtain ⟨m', hwf, _, hstrat⟩ := exec_wf ops (initState w bm name n strategy heap) m0 hwf0
  have hs : (poolRun w bm name n strategy heap ops).bm.strategy = strategy := by
    unfold poolRun
    rw [hstrat]
    exact hstrat0
  have hmm : m' = m := by
    have := hwf.data
    unfold poolRun at hm
    rw [hm] at this
    exact (Option.some.inj this).symm
  subst hmm
  change PoolWF (poolRun w bm name n strategy heap ops).bm m' at hwf
  generalize poolRun w bm name n strategy heap ops = s at *
  obtain ⟨hiff, hrc⟩ := pinPage_miss_full s.w s.bm m' page p hm hmiss hfull
  have hvictim : (evict s.w s.bm m').1 ≠ none → ∃ f ∈ m'.frames, f.fixCount = 0 := by
    intro hne
    rcases hev : evict s.w s.bm m' with ⟨o, w1, m1⟩
    cases o with
    | none => rw [hev] at hne; exact absurd rfl hne
    | some j =>
      have hj := (evict_valid hwf.wf hev).2 j rfl
      rw [← hwf.wf.len] at hj
      exact ⟨_, frameAt_mem hj, (evict_some hev).fix⟩
  refine ⟨hrc, ?_, ?_, ?_⟩
  · intro hc
    rw [hiff]
    refine ⟨hvictim, fun h => ?_⟩
    have : evict s.w s.bm m' = evictCLOCK s.w s.bm m' := by
      unfold evict
      rw [hs, hc]
    rw [this]
    exact evictCLOCK_finds s.w s.bm m' hwf.wf h
  · intro hc hf hticks
    rw [hiff]
    refine ⟨hvictim, fun h => ?_⟩
    have : evict s.w s.bm m' = evictLRU s.w m' := by
      unfold evict
      rw [hs]
      cases strategy <;> first | rfl | exact absurd rfl hc | exact absurd rfl hf
    rw [this]
    obtain ⟨f, hfm, hf0⟩ := h
    exact evictLRU_finds s.w m' ⟨f, hfm, hf0, findFrame_none hfull f hfm, hticks f hfm⟩
  · intro hc
    rw [hiff]
    have : evict s.w s.bm m' = evictFIFO s.w s.bm m' := by
      unfold evict
      rw [hs, hc]
    rw [this]
    unfold evictFIFO
    exact evictFIFOLoop_finds s.bm.numPages s.bm.numPages s.w m'

/-! ## Dirty frames -/

theorem DirtyHoldsPage.set_dirty_frame {l : List BM_PageFrame} (h : DirtyHoldsPage l) (k : Nat)
    (x : BM_PageFrame) (hx : x.dirty = true → x.pageNum ≠ NO_PAGE) :
    DirtyHoldsPage (l.set k x) := by
  intro f hf
  rcases List.mem_or_eq_of_mem_set hf with hf | rfl
  · exact h f hf
  · exact hx

theorem DirtyHoldsPage.frame_at {l : List BM_PageFrame} (h : DirtyHoldsPage l) (k : Nat)
    (hd : (frameAt l k).dirty = true) : (frameAt l k).pageNum ≠ NO_PAGE := by
  by_cases hk : k < l.length
  · exact h _ (frameAt_mem hk) hd
  · have : frameAt l k = default := by
      unfold frameAt
      exact List.getD_eq_default _ _ (Nat.le_of_not_lt hk)
    rw [this] at hd
    cases hd

theorem DirtyHoldsPage.of_cleared {a b : List BM_PageFrame} (h : DirtyHoldsPage a)
    (hr : RefCleared a b) : DirtyHoldsPage b := by
  unfold RefCleared at hr
  induction hr with
  | nil => exact h
  | @cons x y l1 l2 hxy _ ih =>
    intro f hf
    have hx : x.dirty = true → x.pageNum ≠ NO_PAGE := h x (List.mem_cons_self _ _)
    rcases List.mem_cons.1 hf with rfl | hf
    · rcases hxy with rfl | ⟨_, rfl⟩
      · exact hx
      · exact hx
    · exact ih (fun g hg => h g (List.mem_cons_of_mem _ hg)) f hf

theorem DirtyHoldsPage.flush :
    ∀ (l : List BM_PageFrame) (w : World) (fh : SM_FileHandle) (nw : Int),
      DirtyHoldsPage l → DirtyHoldsPage (forceFlushLoop l w fh nw).1
  | [], _, _, _, h => h
  | f :: rest, w, fh, nw, h => by
    have hrest : DirtyHoldsPage rest := fun g hg => h g (List.mem_cons_of_mem _ hg)
    simp only [forceFlushLoop]
    split
    · intro g hg
      rcases List.mem_cons.1 hg with rfl | hg
      · intro hd
        cases hd
      · exact DirtyHoldsPage.flush rest _ _ _ hrest g hg
    · intro g hg
      rcases List.mem_cons.1 hg with rfl | hg
      · exact h g (List.mem_cons_self _ _)
      · exact DirtyHoldsPage.flush rest _ _ _ hrest g hg

/-- One call keeps `DirtyHoldsPage`, a `markDirty` call when its handle does not
carry NO_PAGE. -/
theorem step_dirty (s : PoolState) (op : Op) (h : DirtyHoldsPage (framesOf s.bm))
    (hop : ∀ page, op = Op.markDirty page → page.pageNum ≠ NO_PAGE) :
    DirtyHoldsPage (framesOf (step s op).2.bm) := by
  cases hm : s.bm.mgmtData with
  | none =>
    cases op <;>
      simp only [step, pinPage, unpinPage, markDirty, forcePage, forceFlushPool, hm] <;>
      exact h
  | some m =>
    have hfr : framesOf s.bm = m.frames := by simp [framesOf, hm]
    rw [hfr] at h
    cases op with
    | pin q =>
      simp only [step]
      rcases pinPage_cases s.w s.bm m ⟨0, 0⟩ q hm with ⟨k, hk, he⟩ | ⟨hnf, k, hk, he⟩ |
        ⟨hnf, _, j, w1, m1, hev, he⟩ | ⟨_, _, w1, m1, hev, he⟩
      · simp only [he, framesOf]
        exact h.set_dirty_frame k _ (h.frame_at k)
      · simp only [he, pinPageLoad_frames]
        exact h.set_dirty_frame k _ (fun hc => by cases hc)
      · simp only [he, pinPageLoad_frames]
        exact (h.of_cleared (evict_some hev).ref).set_dirty_frame j _ (fun hc => by cases hc)
      · simp only [he, framesOf]
        exact h.of_cleared (evict_none hev).ref
    | unpin page =>
      simp only [step, unpinPage, hm]
      split
      · simp only [framesOf, hm]; exact h
      · split
        · simp only [framesOf, hm]; exact h
        · rename_i k hk hpos
          simp only [framesOf]
          exact h.set_dirty_frame k _ (h.frame_at k)
    | markDirty page =>
      simp only [step, markDirty, hm]
      split
      · simp only [framesOf, hm]; exact h
      · rename_i k hk
        simp only [framesOf]
        obtain ⟨g, hg, hgp⟩ := findFrame_some hk
        have hfa := frameAt_eq_of_getElem? hg
        refine h.set_dirty_frame k _ (fun _ => ?_)
        simp only [hfa, hgp]
        exact hop page rfl
    | forcePage page =>
      simp only [step, forcePage, hm]
      split
      · simp only [framesOf, hm]; exact h
      · rename_i k hk
        simp only [framesOf]
        exact h.set_dirty_frame k _ (fun hc => by cases hc)
    | forceFlush =>
      simp only [step, forceFlushPool, hm, framesOf]
      exact DirtyHoldsPage.flush m.frames _ _ _ h

theorem exec_dirty : ∀ (ops : List Op) (s : PoolState), DirtyHoldsPage (framesOf s.bm) →
    (∀ page, Op.markDirty page ∈ ops → page.pageNum ≠ NO_PAGE) →
    DirtyHoldsPage (framesOf (exec s ops).bm)
  | [], _, h, _ => h
  | op :: rest, s, h, hops =>
    exec_dirty rest (step s op).2
      (step_dirty s op h (fun page e => hops page (by rw [e]; exact List.mem_cons_self _ _)))
      (fun page hp => hops page (List.mem_cons_of_mem _ hp))

/-- C29 as claimed fails: on a fresh pool, `markDirty` with a handle whose page number
is NO_PAGE succeeds and sets the dirty flag of frame 0, which holds no page. -/
theorem markDirty_marks_empty_frame :
    (step (initState demoWorld blankPool "f" 3 ReplacementStrategy.RS_FIFO (fun _ => zeroPage))
      (Op.markDirty ⟨NO_PAGE, 0⟩)).1 = RC.RC_OK ∧
    getDirtyFlags (poolRun demoWorld blankPool "f" 3 ReplacementStrategy.RS_FIFO
      (fun _ => zeroPage) [Op.markDirty ⟨NO_PAGE, 0⟩]).bm = some [true, false, false] ∧
    getFrameContents (poolRun demoWorld blankPool "f" 3 ReplacementStrategy.RS_FIFO
      (fun _ => zeroPage) [Op.markDirty ⟨NO_PAGE, 0⟩]).bm = some [-1, -1, -1] := by
  decide

/-- C29, amended: in every pool state reached from a successful `initBufferPool` by
calls of `pinPage`, `unpinPage`, `forcePage` and `forceFlushPool` with any arguments
and of `markDirty` with handles whose page number is not NO_PAGE, every frame whose
dirty flag is set holds a page number other than NO_PAGE; and in such a state
`markDirty` with a handle whose page number no frame holds fails with
`RC_FILE_HANDLE_NOT_INIT` and changes nothing. -/
theorem dirty_frames_are_bound (w : World) (bm : BM_BufferPool) (name : String) (n : Int)
    (strategy : ReplacementStrategy) (heap : Nat → Page) (ops : List Op)
    (hinit : (initBufferPool w bm name n strategy heap).rc = RC.RC_OK)
    (hops : ∀ page, Op.markDirty page ∈ ops → page.pageNum ≠ NO_PAGE) :
    (∀ f ∈ framesOf (poolRun w bm name n strategy heap ops).bm,
      f.dirty = true → f.pageNum ≠ NO_PAGE) ∧
    ∀ page : BM_PageHandle,
      (∀ f ∈ framesOf (poolRun w bm name n strategy heap ops).bm, f.pageNum ≠ page.pageNum) →
      (markDirty (poolRun w bm name n strategy heap ops).w
          (poolRun w bm name n strategy heap ops).bm page).rc = RC.RC_FILE_HANDLE_NOT_INIT ∧
      (markDirty (poolRun w bm name n strategy heap ops).w
          (poolRun w bm name n strategy heap ops).bm page).bm =
        (poolRun w bm name n strategy heap ops).bm ∧
      (markDirty (poolRun w bm name n strategy heap ops).w
          (poolRun w bm name n strategy heap ops).bm page).w =
        (poolRun w bm name n strategy heap ops).w := by
  have h0 : DirtyHoldsPage (framesOf (initState w bm name n strategy heap).bm) := by
    intro f hf hd
    simp only [initState, initBufferPool_frames hinit, List.mem_map] at hf
    obtain ⟨i, _, rfl⟩ := hf
    cases hd
  refine ⟨exec_dirty ops _ h0 hops, ?_⟩
  intro page hnone
  generalize poolRun w bm name n strategy heap ops = s at hnone ⊢
  cases hm : s.bm.mgmtData with
  | none => simp [markDirty, hm]
  | some m =>
    cases hk : findFrame m page.pageNum with
    | none => simp [markDirty, hm, hk]
    | some k =>
      obtain ⟨g, hg, hgp⟩ := findFrame_some hk
      have hmem : g ∈ framesOf s.bm := by
        simp only [framesOf, hm]
        rw [← frameAt_eq_of_getElem? hg]
        exact frameAt_mem (findFrame_lt hk)
      exact absurd hgp (hnone g hmem)

/-- C29, amended, at a FIFO pool of three frames after a run with every kind of call. -/
theorem dirty_frames_are_bound_witness :
    (∀ f ∈ framesOf (poolRun demoWorld blankPool "f" 3 ReplacementStrategy.RS_FIFO
        (fun _ => zeroPage) everyKindOps).bm,
      f.dirty = true → f.pageNum ≠ NO_PAGE) ∧
    ∀ page : BM_PageHandle,
      (∀ f ∈ framesOf (poolRun demoWorld blankPool "f" 3 ReplacementStrategy.RS_FIFO
        (fun _ => zeroPage) everyKindOps).bm, f.pageNum ≠ page.pageNum) →
      (markDirty (poolRun demoWorld blankPool "f" 3 ReplacementStrategy.RS_FIFO
        (fun _ => zeroPage) everyKindOps).w
          (poolRun demoWorld blankPool "f" 3 ReplacementStrategy.RS_FIFO
        (fun _ => zeroPage) everyKindOps).bm page).rc = RC.RC_FILE_HANDLE_NOT_INIT ∧
      (markDirty (poolRun demoWorld blankPool "f" 3 ReplacementStrategy.RS_FIFO
        (fun _ => zeroPage) everyKindOps).w
          (poolRun demoWorld blankPool "f" 3 ReplacementStrategy.RS_FIFO
        (fun _ => zeroPage) everyKindOps).bm page).bm =
        (poolRun demoWorld blankPool "f" 3 ReplacementStrategy.RS_FIFO
        (fun _ => zeroPage) everyKindOps).bm ∧
      (markDirty (poolRun demoWorld blankPool "f" 3 ReplacementStrategy.RS_FIFO
        (fun _ => zeroPage) everyKindOps).w
          (poolRun demoWorld blankPool "f" 3 ReplacementStrategy.RS_FIFO
        (fun _ => zeroPage) everyKindOps).bm page).w =
        (poolRun demoWorld blankPool "f" 3 ReplacementStrategy.RS_FIFO
        (fun _ => zeroPage) everyKindOps).w :=
  dirty_frames_are_bound demoWorld blankPool "f" 3 ReplacementStrategy.RS_FIFO (fun _ => zeroPage)
    everyKindOps (by decide) (by
      intro page hp
      simp only [everyKindOps, List.mem_cons, Op.markDirty.injEq, List.mem_singleton, reduceCtorEq, false_or,
        or_false, List.not_mem_nil] at hp
      rcases hp with rfl | rfl <;> decide)

/-! ## The bytes that setAttr stores -/

/-- The bytes of a record outside the attribute that `setAttr` stores are the same
afterwards. -/
theorem setAttr_other_bytes (record : Record) (schema : Schema) (i : Nat) (value : Value)
    (hwf : SchemaWF schema) (k : Nat)
    (hk : (k : Int) < attrOffset schema (i : Int) ∨
      attrOffset schema (i : Int) +
        attrWidth (schema.dataTypes.getD i 0) (schema.typeLength.getD i 0) ≤ (k : Int)) :
    recordBytes (setAttr record schema (i : Int) value).2 k = recordBytes record k := by
  have hoff0 := attrOffset_nonneg schema hwf i
  have hi : (i : Int).toNat = i := by omega
  unfold setAttr
  split
  · rfl
  · split
    · rfl
    · cases hd : record.data with
      | none => simp [recordBytes, hd]
      | some d =>
        by_cases hkd : k < d.length
        · simp only [hi]
          rw [← hd, recordBytes_stored record d _ hd k hkd]
          generalize hoff : (attrOffset schema (i : Int)).toNat = off at *
          have hoffc : (off : Int) = attrOffset schema (i : Int) := by omega
          have hne1 : (DT_FLOAT : Int) ≠ DT_INT := by decide
          have hne2 : (DT_BOOL : Int) ≠ DT_INT := by decide
          have hne3 : (DT_BOOL : Int) ≠ DT_FLOAT := by decide
          have hne4 : (DT_STRING : Int) ≠ DT_INT := by decide
          have hne5 : (DT_STRING : Int) ≠ DT_FLOAT := by decide
          have hne6 : (DT_STRING : Int) ≠ DT_BOOL := by decide
          by_cases h1 : schema.dataTypes.getD i 0 = DT_INT
          · simp only [h1, if_true, attrWidth] at hk ⊢
            exact writeInt_other _ _ _ _ (by omega)
          · by_cases h2 : schema.dataTypes.getD i 0 = DT_FLOAT
            · simp only [h2, hne1, if_true, if_false, attrWidth] at hk ⊢
              exact writeBytes_other _ _ _ _ _ (by omega)
            · by_cases h3 : schema.dataTypes.getD i 0 = DT_BOOL
              · simp only [h3, hne2, hne3, if_true, if_false, attrWidth] at hk ⊢
                exact writeBytes_other _ _ _ _ _ (by omega)
              · by_cases h4 : schema.dataTypes.getD i 0 = DT_STRING
                · have hl := hwf.strings i h4
                  simp only [h4, hne4, hne5, hne6, if_true, if_false, attrWidth] at hk ⊢
                  exact writeBytes_other _ _ _ _ _ (by omega)
                · simp only [h1, h2, h3, h4, if_false]
        · have hlen : ∀ s : Page, (readBytes s 0 d.length).length = d.length := by
            intro s; simp [readBytes]
          simp only [recordBytes, hd, Option.map_some', Option.getD_some]
          rw [List.getD_eq_default _ _ (by rw [hlen]; omega), List.getD_eq_default _ _ (by omega)]

/-- C30: for a schema with non-negative string lengths, a record whose buffer has
`getRecordSize` bytes and two distinct attribute indices `i` and `j` in range, a
successful `setAttr` of attribute `i` leaves every byte of the record outside
`[offset(i), offset(i) + width(i))` as it was; this range lies within the record;
the buffer keeps its length; and `getAttr` of attribute `j` gives the same result
before and after. -/
theorem setAttr_touches_only_its_attribute (record : Record) (schema : Schema) (i j : Int)
    (value : Value) (old : Option Value) (fresh : Value) (d : List Nat)
    (hwf : SchemaWF schema) (hdata : record.data = some d)
    (hlen : (d.length : Int) = getRecordSize schema)
    (hi0 : 0 ≤ i) (hi1 : i < schema.numAttr) (hj0 : 0 ≤ j) (hj1 : j < schema.numAttr)
    (hij : i ≠ j) (_hok : (setAttr record schema i value).1 = RC.RC_OK) :
    (∀ k : Nat, ((k : Int) < attrOffset schema i ∨
        attrOffset schema i +
          attrWidth (schema.dataTypes.getD i.toNat 0) (schema.typeLength.getD i.toNat 0) ≤ (k : Int)) →
      recordBytes (setAttr record schema i value).2 k = recordBytes record k) ∧
    (0 ≤ attrOffset schema i ∧
      attrOffset schema i +
        attrWidth (schema.dataTypes.getD i.toNat 0) (schema.typeLength.getD i.toNat 0) ≤
          (d.length : Int)) ∧
    (setAttr record schema i value).2.data.map List.length = some d.length ∧
    getAttr (setAttr record schema i value).2 schema j old fresh =
      getAttr record schema j old fresh := by
  obtain ⟨a, rfl⟩ := Int.eq_ofNat_of_zero_le hi0
  obtain ⟨b, rfl⟩ := Int.eq_ofNat_of_zero_le hj0
  have ha : (a : Int).toNat = a := by omega
  have hb : (b : Int).toNat = b := by omega
  have hab : a ≠ b := fun h => hij (by rw [h])
  rw [ha]
  have hbytes := setAttr_other_bytes record schema a value hwf
  refine ⟨fun k hk => hbytes k hk, ?_, ?_, ?_⟩
  · rw [hlen]
    exact attr_inside_record schema hwf a hi1
  · unfold setAttr
    split
    · simp [hdata]
    · split
      · simp [hdata]
      · simp [hdata, readBytes]
  · -- the bytes of attribute `b` are outside the range of attribute `a`
    have hb0 := attrOffset_nonneg schema hwf b
    have hwb := attrWidth_nonneg _ _ (hwf.strings b)
    have hwa := attrWidth_nonneg _ _ (hwf.strings a)
    have hout : ∀ k : Nat, attrOffset schema (b : Int) ≤ (k : Int) →
        (k : Int) < attrOffset schema (b : Int) +
          attrWidth (schema.dataTypes.getD b 0) (schema.typeLength.getD b 0) →
        recordBytes (setAttr record schema (a : Int) value).2 k = recordBytes record k := by
      intro k hk0 hk1
      apply hbytes
      rcases Nat.lt_or_gt_of_ne hab with hlt | hgt
      · right
        have hm := attrOffset_mono schema hwf (a + 1) (b - (a + 1))
        have e : ((a + 1 + (b - (a + 1)) : Nat) : Int) = (b : Int) := by omega
        rw [e] at hm
        have hs := attrOffset_succ schema a
        push_cast at hm
        omega
      · left
        have hm := attrOffset_mono schema hwf (b + 1) (a - (b + 1))
        have e : ((b + 1 + (a - (b + 1)) : Nat) : Int) = (a : Int) := by omega
        rw [e] at hm
        have hs := attrOffset_succ schema b
        push_cast at hm
        omega
    have hrange : ¬ ((b : Int) < 0 ∨ (b : Int) ≥ schema.numAttr) := by omega
    generalize hoff : (attrOffset schema (b : Int)).toNat = off at *
    have hoffc : (off : Int) = attrOffset schema (b : Int) := by omega
    have hne1 : (DT_FLOAT : Int) ≠ DT_INT := by decide
    have hne2 : (DT_BOOL : Int) ≠ DT_INT := by decide
    have hne3 : (DT_BOOL : Int) ≠ DT_FLOAT := by decide
    have hne4 : (DT_STRING : Int) ≠ DT_INT := by decide
    have hne5 : (DT_STRING : Int) ≠ DT_FLOAT := by decide
    have hne6 : (DT_STRING : Int) ≠ DT_BOOL := by decide
    simp only [getAttr, hrange, if_false, hb, hoff]
    by_cases h1 : schema.dataTypes.getD b 0 = DT_INT
    · simp only [h1, if_true, attrWidth] at hout ⊢
      rw [readInt_congr _ (recordBytes record) off (fun k hk => hout (off + k) (by omega) (by omega))]
    · by_cases h2 : schema.dataTypes.getD b 0 = DT_FLOAT
      · simp only [h2, hne1, if_true, if_false, attrWidth] at hout ⊢
        rw [readBytes_congr _ (recordBytes record) off 4
          (fun k hk => hout (off + k) (by omega) (by omega))]
      · by_cases h3 : schema.dataTypes.getD b 0 = DT_BOOL
        · simp only [h3, hne2, hne3, if_true, if_false, attrWidth] at hout ⊢
          rw [hout off (by omega) (by omega)]
        · by_cases h4 : schema.dataTypes.getD b 0 = DT_STRING
          · have hl := hwf.strings b h4
            simp only [h4, hne4, hne5, hne6, if_true, if_false, attrWidth] at hout ⊢
            rw [readBytes_congr _ (recordBytes record) off _
              (fun k hk => hout (off + k) (by omega) (by omega))]
          · simp only [h1, h2, h3, h4, if_false]

/-! ## Deletion -/

theorem tombstoneOffset_ge (slot recordSize : Int) (h0 : 0 ≤ slot) (h1 : 0 ≤ recordSize) :
    12 ≤ tombstoneOffset slot recordSize := by
  have := mul_nonneg h0 (show (0 : Int) ≤ recordSize + 1 by omega)
  unfold tombstoneOffset PAGE_HEADER_SIZE
  omega

/-- What the stores of `markSlotAsFree` do to a page buffer. -/
theorem freedPage_spec (pg : Page) (slot recordSize : Int) (h0 : 0 ≤ slot) (h1 : 0 ≤ recordSize)
    (hfree : readInt pg 4 < INT_MAX) :
    freedPage pg slot recordSize (tombstoneOffset slot recordSize) = 0 ∧
    readInt (freedPage pg slot recordSize) 4 = readInt pg 4 + 1 ∧
    (∀ i, i < 4 ∨ 8 ≤ i → i ≠ tombstoneOffset slot recordSize →
      freedPage pg slot recordSize i = pg i) := by
  have hge := tombstoneOffset_ge slot recordSize h0 h1
  have hsame : readInt (fun i => if i = tombstoneOffset slot recordSize then 0 else pg i) 4 =
      readInt pg 4 := by
    apply readInt_congr
    intro j hj
    show (if 4 + j = tombstoneOffset slot recordSize then 0 else pg (4 + j)) = pg (4 + j)
    rw [if_neg (by omega)]
  have hlow : -2147483648 ≤ readInt pg 4 := by
    unfold readInt
    simp only
    split <;> omega
  unfold freedPage
  rw [hsame]
  refine ⟨?_, ?_, ?_⟩
  · rw [writeInt_other _ _ _ _ (by omega)]
    simp
  · exact readInt_writeInt _ 4 _ ⟨by omega, by unfold INT_MAX at hfree; omega⟩
  · intro i hi hne
    rw [writeInt_other _ _ _ _ (by omega)]
    simp [hne]

theorem setNextFreePage_other (pg : Page) (v : Int) (i : Nat) (h : i < 8 ∨ 12 ≤ i) :
    setNextFreePage pg v i = pg i :=
  writeInt_other pg 8 v i (by omega)

/-- C22: `deleteRecord` on a data page (page index 1 or more) of an open table whose
pool is well-formed and has no negative fix count, for a slot index that is not
negative and a pin of the page that succeeds; `pg` is the buffer of the page as the
pin delivers it.  When the tombstone of the slot is 0, `deleteRecord` fails with
`RC_FILE_NOT_FOUND` (record not found) and leaves the page and the tuple count
unchanged.  When the tombstone is 1 (and `freeSlots` is below `INT_MAX`),
`deleteRecord` returns `RC_OK`, sets the tombstone to 0, raises `freeSlots` by one,
lowers the tuple count by one, leaves `slotsPerPage` and every byte of the slot area
other than this tombstone unchanged, and afterwards `getRecord`, `updateRecord` and
a second `deleteRecord` on that RID fail with `RC_FILE_NOT_FOUND`. -/
theorem deleteRecord_contract (w : World) (rel : RM_TableData) (tm : TableManager)
    (m : BM_MgmtData) (id : RID) (record : Record) (pg : Page)
    (hopen : rel.mgmtData = some tm) (hwf : PoolWF tm.bm m)
    (hfix : ∀ f ∈ m.frames, 0 ≤ f.fixCount)
    (hpage : 1 ≤ id.page) (hslot : 0 ≤ id.slot) (hsize : 0 ≤ tm.recordSize)
    (hpin : (pinPage w tm.bm ⟨0, 0⟩ id.page).rc = RC.RC_OK)
    (hpg : pg = bufferOf (pinPage w tm.bm ⟨0, 0⟩ id.page).bm
      (pinPage w tm.bm ⟨0, 0⟩ id.page).page.data) :
    (pg (tombstoneOffset id.slot tm.recordSize) = 0 →
      ∃ w1 rel1, deleteRecord w rel id = some (RC.RC_FILE_NOT_FOUND, w1, rel1) ∧
        getNumTuples rel1 = getNumTuples rel ∧ cachedPage rel1 id.page = some pg) ∧
    (pg (tombstoneOffset id.slot tm.recordSize) = 1 → readInt pg 4 < INT_MAX →
      ∃ w1 rel1 pg1, deleteRecord w rel id = some (RC.RC_OK, w1, rel1) ∧
        getNumTuples rel1 = getNumTuples rel - 1 ∧ cachedPage rel1 id.page = some pg1 ∧
        pg1 (tombstoneOffset id.slot tm.recordSize) = 0 ∧
        readInt pg1 4 = readInt pg 4 + 1 ∧ readInt pg1 0 = readInt pg 0 ∧
        (∀ i, 12 ≤ i → i ≠ tombstoneOffset id.slot tm.recordSize → pg1 i = pg i) ∧
        (∃ w2 rel2, getRecord w1 rel1 id record =
          some (RC.RC_FILE_NOT_FOUND, w2, rel2, record)) ∧
        (∃ w2 rel2, updateRecord w1 rel1 { record with id := id } =
          some (RC.RC_FILE_NOT_FOUND, w2, rel2)) ∧
        (∃ w2 rel2, deleteRecord w1 rel1 id = some (RC.RC_FILE_NOT_FOUND, w2, rel2))) := by
  obtain ⟨k, c, hc, hpk, hcached⟩ := pinPage_ok_cached w tm.bm m ⟨0, 0⟩ id.page hwf hfix hpin
  have hpg' : pg = bufferOf (pinPage w tm.bm ⟨0, 0⟩ id.page).bm k := by
    rw [hpg, hpk]
  rw [← hpg'] at hcached
  have hge := tombstoneOffset_ge id.slot tm.recordSize hslot hsize
  constructor
  · intro htomb
    exact deleteRecord_unused w rel tm id k pg c hopen hpin hpk hcached
      (by simp [isSlotUsed, htomb])
  · intro htomb hfree
    obtain ⟨w1, rel1, tm1, pg1, hdel, hopen1, hnum, hrs, _, hcached1, hpg1⟩ :=
      deleteRecord_used w rel tm id k pg c hopen hpin hpk hcached hc
        (by unfold NO_PAGE; omega) (by unfold SCHEMA_PAGE; omega) (by simp [isSlotUsed, htomb])
    obtain ⟨hf1, hf2, hf3⟩ := freedPage_spec pg id.slot tm.recordSize hslot hsize hfree
    have hp1 : pg1 (tombstoneOffset id.slot tm.recordSize) = 0 := by
      rcases hpg1 with rfl | rfl
      · exact hf1
      · rw [setNextFreePage_other _ _ _ (by omega)]; exact hf1
    have hunused : isSlotUsed pg1 id.slot tm1.recordSize = false := by
      rw [hrs]
      simp [isSlotUsed, hp1]
    obtain ⟨hrc2, hpage2, _, hcached2⟩ := hcached1.pin w1 ⟨0, 0⟩
    refine ⟨w1, rel1, pg1, hdel, ?_, hcached1.page_eq hopen1, hp1, ?_, ?_, ?_, ?_, ?_, ?_⟩
    · simp [getNumTuples, hopen, hopen1, hnum]
    · rcases hpg1 with rfl | rfl
      · exact hf2
      · rw [← hf2]
        exact readInt_congr _ _ 4 (fun j hj => setNextFreePage_other _ _ _ (by omega))
    · rcases hpg1 with rfl | rfl
      · exact readInt_congr _ _ 0 (fun j hj => hf3 _ (by omega) (by omega))
      · refine (readInt_congr _ _ 0 (fun j hj => ?_)).trans
          (readInt_congr _ _ 0 (fun j hj => hf3 _ (by omega) (by omega)))
        exact setNextFreePage_other _ _ _ (by omega)
    · intro i hi hne
      rcases hpg1 with rfl | rfl
      · exact hf3 i (by omega) hne
      · rw [setNextFreePage_other _ _ _ (by omega)]
        exact hf3 i (by omega) hne
    · obtain ⟨w2, rel2, hg, _⟩ := getRecord_unused w1 rel1 tm1 id record k pg1 _ hopen1 hrc2
        hpage2 hcached2 hunused
      exact ⟨w2, rel2, hg⟩
    · obtain ⟨w2, rel2, hg, _⟩ := updateRecord_unused w1 rel1 tm1 { record with id := id } k pg1
        _ hopen1 hrc2 hpage2 hcached2 hunused
      exact ⟨w2, rel2, hg⟩
    · obtain ⟨w2, rel2, hg, _⟩ := deleteRecord_unused w1 rel1 tm1 id k pg1 _ hopen1 hrc2
        hpage2 hcached2 hunused
      exact ⟨w2, rel2, hg⟩

/-! ## Filtered scans -/

set_option maxRecDepth 100000 in
/-- C24 as claimed fails: with the evaluator `idPlus`, whose results are INT values
and never the BOOL true, a scan of the table with ids 1 to 5 yields all five
records, in insertion order, before it fails with `RC_RM_NO_MORE_TUPLES`. -/
theorem scan_yields_records_without_bool_true :
    scanRun idPlus (some 2) 5 6 = some
      [(RC.RC_OK, ⟨⟨1, 0⟩, some [1, 0, 0, 0, 65, 65, 65, 65, 0, 0, 200, 66]⟩),
       (RC.RC_OK, ⟨⟨1, 1⟩, some [2, 0, 0, 0, 65, 65, 65, 65, 0, 0, 200, 66]⟩),
       (RC.RC_OK, ⟨⟨1, 2⟩, some [3, 0, 0, 0, 65, 65, 65, 65, 0, 0, 200, 66]⟩),
       (RC.RC_OK, ⟨⟨1, 3⟩, some [4, 0, 0, 0, 65, 65, 65, 65, 0, 0, 200, 66]⟩),
       (RC.RC_OK, ⟨⟨1, 4⟩, some [5, 0, 0, 0, 65, 65, 65, 65, 0, 0, 200, 66]⟩),
       (RC.RC_RM_NO_MORE_TUPLES, ⟨⟨1, 4⟩, some [5, 0, 0, 0, 65, 65, 65, 65, 0, 0, 200, 66]⟩)] := by
  decide

/-- C24, amended: take an open table whose free-list head is page 1 and whose page 1
is cached and is an empty data page of `slots` slots with `nextFreePage` = -1 (an
open table on a well-formed file before the first insert), and records `r1..rk` of
`recordSize` bytes with `k` at most `slots`.  Then the `k` calls of `insertRecord`
return `RC_OK` and report the RIDs (1, 0), ..., (1, k - 1), the tuple count rises by
`k`, and for every condition on which the evaluator does not fail, the calls of
`next` after `startScan` yield exactly the inserted records (each with the RID
reported) that pass, that is for which there is no condition or the evaluator's
result is not the BOOL false, each once, in insertion order, and the call after the
last of them fails with `RC_RM_NO_MORE_TUPLES`. -/
theorem filtered_scan {Expr : Type} (evalExpr : Evaluator Expr) (fuel : Nat) (w : World)
    (rel : RM_TableData) (tm : TableManager) (k : Nat) (pg : Page) (c : Int) (slots : Nat)
    (records : List Record) (cond : Option Expr) (record0 : Record)
    (htable : OnFirstPage rel tm k pg c)
    (hpage : PageHolds pg tm.recordSize slots [] (-1))
    (hfit : records.length ≤ slots)
    (hdata : ∀ r ∈ records, ∃ d, r.data = some d ∧ d.length = tm.recordSize.toNat)
    (hev : ∀ c0, cond = some c0 → ∀ r, (evalExpr r rel.schema c0).1 = RC.RC_OK) :
    ∃ w1 rel1,
      insertAll (fuel + 1) w rel records =
        some ((List.range' 0 records.length).map
          (fun i : Nat => (RC.RC_OK, (⟨FIRST_DATA_PAGE, (i : Int)⟩ : RID))), w1, rel1) ∧
      getNumTuples rel1 = getNumTuples rel + (records.length : Int) ∧
      (∀ (i : Nat) (r : Record), records[i]? = some r →
        placedRecord FIRST_DATA_PAGE (records.map (fun r => r.data.getD [])) i =
          { r with id := ⟨FIRST_DATA_PAGE, (i : Int)⟩ }) ∧
      ∃ last,
        scanCalls evalExpr (fuel + 2)
          ((yieldedFrom evalExpr rel.schema cond FIRST_DATA_PAGE
            (records.map (fun r => r.data.getD [])) 0).length + 1)
          w1 (startScan rel1 cond).2 record0 =
        some ((yieldedFrom evalExpr rel.schema cond FIRST_DATA_PAGE
            (records.map (fun r => r.data.getD [])) 0).map (fun r => (RC.RC_OK, r)) ++
          [(RC.RC_RM_NO_MORE_TUPLES, last)]) := by
  obtain ⟨w1, rel1, tm1, pg1, hall, hon1, hrs1, hsch1, hnum1, hp1⟩ :=
    insertAll_first_page fuel k c slots (-1) tm.recordSize rel.schema records w rel tm pg []
      htable rfl rfl hpage (by simpa using hfit) hdata
  simp only [List.nil_append, List.length_nil] at hp1 hall
  refine ⟨w1, rel1, hall, ?_, ?_, ?_⟩
  · simp [getNumTuples, htable.isOpen, hon1.isOpen, hnum1]
  · intro i r hr
    obtain ⟨d, hd, _⟩ := hdata r (List.getElem?_mem hr)
    simp [placedRecord, List.getD_eq_getElem?_getD, List.getElem?_map, hr, hd]
  · exact scanCalls_on_first_page evalExpr fuel k pg1 c slots
      (records.map (fun r => r.data.getD [])) (-1) cond 0 rel.schema tm.recordSize hp1
      (by decide) hev _ 0 w1 (startScan rel1 cond).2 tm1 record0 hon1 hrs1 hsch1 rfl
      (Nat.zero_le _) rfl

set_option maxRecDepth 100000 in
/-- C25 as claimed fails: with the evaluator `idPlus`, whose result for the record in
slot 0 is an INT value, the first `next` of a scan returns `RC_OK` with that record. -/
theorem non_bool_result_yields_record :
    scanRun idPlus (some 2) 5 1 =
      some [(RC.RC_OK, ⟨⟨1, 0⟩, some [1, 0, 0, 0, 65, 65, 65, 65, 0, 0, 200, 66]⟩)] := by
  decide

/-- C25, amended: when the evaluator returns `RC_OK` for the record of a used slot and
leaves no value or a value whose type is not `DT_BOOL`, that record is a match: the
slot loop of `next` ends at this slot with `RC_OK`, the record and the cursor moved
behind the slot; and a call of `next` whose cursor is on such a slot of a page that
it pins with success returns `RC_OK` with this record. -/
theorem non_bool_result_is_a_match {Expr : Type} (evalExpr : Evaluator Expr) (fuel : Nat) (w : World) (scan : RM_ScanHandle Expr)
    (sm : ScanManager Expr) (tm : TableManager) (record : Record) (c0 : Expr) (pg : Page)
    (hsm : scan.mgmtData = some sm) (hopen : scan.rel.mgmtData = some tm)
    (hcond : sm.condition = some c0) (hpage : 0 ≤ sm.currentPage)
    (hpin : (pinPage w tm.bm ⟨0, 0⟩ sm.currentPage).rc = RC.RC_OK)
    (hpg : pg = bufferOf (pinPage w tm.bm ⟨0, 0⟩ sm.currentPage).bm
      (pinPage w tm.bm ⟨0, 0⟩ sm.currentPage).page.data)
    (hslot : sm.currentSlot < readInt pg 0)
    (hused : isSlotUsed pg sm.currentSlot tm.recordSize = true)
    (hrc : (evalExpr ⟨⟨sm.currentPage, sm.currentSlot⟩,
        some (readBytes pg (getRecordDataPointer sm.currentSlot tm.recordSize)
          tm.recordSize.toNat)⟩ scan.rel.schema c0).1 = RC.RC_OK)
    (hres : ∀ v, (evalExpr ⟨⟨sm.currentPage, sm.currentSlot⟩,
        some (readBytes pg (getRecordDataPointer sm.currentSlot tm.recordSize)
          tm.recordSize.toNat)⟩ scan.rel.schema c0).2 = some v → v.dt ≠ DT_BOOL) :
    (∀ (left : Nat) (record1 : Record),
      nextSlots evalExpr scan.rel.schema (some c0) pg sm.currentPage tm.recordSize (readInt pg 0)
          (left + 1) sm.currentSlot record1 =
        ⟨some RC.RC_OK, sm.currentSlot + 1,
          ⟨⟨sm.currentPage, sm.currentSlot⟩,
            some (readBytes pg (getRecordDataPointer sm.currentSlot tm.recordSize)
              tm.recordSize.toNat)⟩⟩) ∧
    ∃ w1 scan1,
      next evalExpr (fuel + 1) w scan record =
        some (RC.RC_OK, w1, scan1,
          ⟨⟨sm.currentPage, sm.currentSlot⟩,
            some (readBytes pg (getRecordDataPointer sm.currentSlot tm.recordSize)
              tm.recordSize.toNat)⟩) ∧
      scan1.mgmtData = some { sm with currentSlot := sm.currentSlot + 1 } := by
  have hmatch : resultMatches (evalExpr ⟨⟨sm.currentPage, sm.currentSlot⟩,
        some (readBytes pg (getRecordDataPointer sm.currentSlot tm.recordSize)
          tm.recordSize.toNat)⟩ scan.rel.schema c0).2 = true := by
    cases hv : (evalExpr ⟨⟨sm.currentPage, sm.currentSlot⟩,
        some (readBytes pg (getRecordDataPointer sm.currentSlot tm.recordSize)
          tm.recordSize.toNat)⟩ scan.rel.schema c0).2 with
    | none => rfl
    | some v => simp [resultMatches, hres v hv]
  have hslots : ∀ (left : Nat) (record1 : Record),
      nextSlots evalExpr scan.rel.schema (some c0) pg sm.currentPage tm.recordSize (readInt pg 0)
          (left + 1) sm.currentSlot record1 =
        ⟨some RC.RC_OK, sm.currentSlot + 1,
          ⟨⟨sm.currentPage, sm.currentSlot⟩,
            some (readBytes pg (getRecordDataPointer sm.currentSlot tm.recordSize)
              tm.recordSize.toNat)⟩⟩ := by
    intro left record1
    simp only [nextSlots, hslot, if_true, hused, hrc, ne_eq, not_true_eq_false, if_false, hmatch]
  refine ⟨hslots, ?_⟩
  have hneg : ¬ (sm.currentPage < 0) := by omega
  obtain ⟨n, hn⟩ : ∃ n, (readInt pg 0 - sm.currentSlot).toNat = n + 1 :=
    ⟨(readInt pg 0 - sm.currentSlot).toNat - 1, by omega⟩
  simp only [next, hsm, hopen, nextLoop, hneg, if_false, hpin, ne_eq, not_true_eq_false, ← hpg,
    hcond, hn, hslots]
  exact ⟨_, _, rfl, rfl⟩

/-! ## The page chain and the tuple count -/

set_option maxRecDepth 100000 in
/-- C27 at its failing input: in a table of two slots per page on a well-formed file
(every frame buffer initially zero), five calls of `insertRecord` return `RC_OK` with
the RIDs (1, 0), (1, 1), (2, 0), (2, 1), (3, 0).  The first append (page 2) is
spliced: page 1 links to page 2.  The second append (page 3) is not: afterwards
the headers of pages 1, 2 and 3 are [2, 0, 2], [2, 0, -1] and [2, 1, -1],
`firstFreePage` is 3, and the pages reached from page 1 are 1 and 2, without page 3. -/
theorem appended_page_is_orphaned :
    appendRun 10 = some
      { results := [(RC.RC_OK, ⟨1, 0⟩), (RC.RC_OK, ⟨1, 1⟩), (RC.RC_OK, ⟨2, 0⟩), (RC.RC_OK, ⟨2, 1⟩),
          (RC.RC_OK, ⟨3, 0⟩)],
        firstFreePage := 3,
        headers := [some [2, 0, 2], some [2, 0, -1], some [2, 1, -1]],
        chain := [1, 2] } := by
  decide

set_option maxRecDepth 100000 in
/-- C21 at its failing input: after five successful calls of `insertRecord` into a
table of two slots per page on a well-formed file, `getNumTuples` is 5, the pages
reached from page 1 are 1 and 2, each with two slots of tombstone 1, and the sum
over them is 4: the fifth record is on page 3, which no page links to. -/
theorem tuple_count_exceeds_reachable_slots :
    countRun 10 = some
      { numTuples := 5, chain := [1, 2], usedPerPage := [2, 2], usedOnChain := 4 } := by
  decide

set_option maxRecDepth 100000 in
/-- C26 at its failing input: in the table of `tagSchema` on a well-formed file,
`insertRecord` of one record returns `RC_OK` with the RID (1, 0) and `deleteRecord` of
that RID returns `RC_OK`; afterwards the header of page 1 is [371, 371, 1]: its
`nextFreePage` is page 1 itself, and the pages reached from page 1 are 1, 1, 1, ....
On the table in this state (`selfLinkedTable`) the first `next` of a scan does not
return, whatever the number of iterations allowed to its page loop, the evaluator
and the condition. -/
theorem delete_links_page_to_itself :
    selfLinkRun 5 = some
      { insertRC := RC.RC_OK, rid := ⟨1, 0⟩, deleteRC := RC.RC_OK, numTuples := 0,
        header := some [371, 371, 1], chain := [1, 1, 1, 1, 1, 1, 1, 1, 1, 1],
        nextReturns := false } ∧
    ∀ (evalExpr : Evaluator Int) (cond : Option Int) (fuel : Nat) (w : World) (record : Record),
      next evalExpr fuel w (startScan selfLinkedTable cond).2 record = none :=
  ⟨by decide, fun evalExpr cond fuel w record =>
    scan_after_self_link_diverges evalExpr cond fuel w record⟩

set_option maxRecDepth 100000 in
/-- C23 at its failing input: in the table of `tagSchema` on a well-formed file (371
slots in a page, page 1 empty with header [371, 371, -1]), the RID (1, -1) has a
negative slot index.  `getRecord` returns `RC_OK` and hands out ten bytes of the page
header; `updateRecord` returns `RC_OK` and overwrites the header, which becomes
[459123, 1650524160, 1717920867]; `deleteRecord` returns `RC_OK`, changes the header
again and lowers the tuple count to -1. -/
theorem out_of_range_slot_accepted :
    rangeRun 10 = some
      { getRC := RC.RC_OK, got := some [0, 0, 115, 1, 0, 0, 255, 255, 255, 255],
        updateRC := RC.RC_OK, deleteRC := RC.RC_OK,
        headerBefore := some [371, 371, -1],
        headerAfterUpdate := some [459123, 1650524160, 1717920867],
        headerAfterDelete := some [458867, 1650524161, 1717920867],
        numTuples := -1 } := by
  decide

/-! ## Further instances -/

set_option maxRecDepth 100000 in
theorem openedTable_onFirstPage :
    OnFirstPage (openedTable witnessSchema) (managerOf (openedTable witnessSchema)) 1
      (frameOne (openedTable witnessSchema)) 0 :=
  ⟨managerOf_open _ (by decide), by decide,
    cachedAt_frameOne _ 0 (by decide) (by decide) (by decide), le_refl _⟩

set_option maxRecDepth 100000 in
theorem openedTable_pageHolds :
    PageHolds (frameOne (openedTable witnessSchema))
      (managerOf (openedTable witnessSchema)).recordSize 314 [] (-1) :=
  ⟨by decide, by decide, by decide, by decide, by decide,
    fun i hi => absurd hi (Nat.not_lt_zero i),
    fun i _ hi => (by decide : ∀ i : Nat, i < 314 →
      frameOne (openedTable witnessSchema)
        (tombstoneOffset (i : Int) (managerOf (openedTable witnessSchema)).recordSize) = 0) i hi⟩

set_option maxRecDepth 100000 in
/-- C22 at the table of `tagSchema` that holds one record, in slot 0 of page 1:
`deleteRecord` of the RID (1, 0). -/
theorem deleteRecord_contract_witness :
    ∃ w1 rel1 pg1, deleteRecord tagTableWorld tagTable ⟨1, 0⟩ = some (RC.RC_OK, w1, rel1) ∧
      getNumTuples rel1 = getNumTuples tagTable - 1 ∧ cachedPage rel1 1 = some pg1 ∧
      pg1 (tombstoneOffset 0 (managerOf tagTable).recordSize) = 0 ∧
      readInt pg1 4 = readInt (pinnedBuffer tagTableWorld tagTable 1) 4 + 1 ∧
      readInt pg1 0 = readInt (pinnedBuffer tagTableWorld tagTable 1) 0 ∧
      (∀ i, 12 ≤ i → i ≠ tombstoneOffset 0 (managerOf tagTable).recordSize →
        pg1 i = pinnedBuffer tagTableWorld tagTable 1 i) ∧
      (∃ w2 rel2, getRecord w1 rel1 ⟨1, 0⟩ ⟨⟨-1, -1⟩, none⟩ =
        some (RC.RC_FILE_NOT_FOUND, w2, rel2, ⟨⟨-1, -1⟩, none⟩)) ∧
      (∃ w2 rel2, updateRecord w1 rel1 ⟨⟨1, 0⟩, none⟩ =
        some (RC.RC_FILE_NOT_FOUND, w2, rel2)) ∧
      (∃ w2 rel2, deleteRecord w1 rel1 ⟨1, 0⟩ = some (RC.RC_FILE_NOT_FOUND, w2, rel2)) :=
  (deleteRecord_contract tagTableWorld tagTable (managerOf tagTable)
    (dataOf (managerOf tagTable).bm) ⟨1, 0⟩ ⟨⟨-1, -1⟩, none⟩
    (pinnedBuffer tagTableWorld tagTable 1)
    (managerOf_open _ (by decide))
    (poolWF_of_checks _ (by decide) (by decide) (by decide) (by decide) (by decide))
    (fix_nonneg_of_checks _ (by decide)) (by decide) (by decide) (by decide) (by decide)
    rfl).2 (by decide) (by decide)

set_option maxRecDepth 100000 in
/-- C24, amended, at the table of `witnessSchema` on a well-formed file, the records
with the ids 1 to 5 and the condition `id > 2`. -/
theorem filtered_scan_witness :
    ∃ w1 rel1,
      insertAll 1 (openedWorld witnessSchema) (openedTable witnessSchema) idRecords =
        some ((List.range' 0 idRecords.length).map
          (fun i : Nat => (RC.RC_OK, (⟨FIRST_DATA_PAGE, (i : Int)⟩ : RID))), w1, rel1) ∧
      getNumTuples rel1 = getNumTuples (openedTable witnessSchema) + (idRecords.length : Int) ∧
      (∀ (i : Nat) (r : Record), idRecords[i]? = some r →
        placedRecord FIRST_DATA_PAGE (idRecords.map (fun r => r.data.getD [])) i =
          { r with id := ⟨FIRST_DATA_PAGE, (i : Int)⟩ }) ∧
      ∃ last,
        scanCalls idGreater 2
          ((yieldedFrom idGreater (openedTable witnessSchema).schema (some 2) FIRST_DATA_PAGE
            (idRecords.map (fun r => r.data.getD [])) 0).length + 1)
          w1 (startScan rel1 (some 2)).2 ⟨⟨-1, -1⟩, none⟩ =
        some ((yieldedFrom idGreater (openedTable witnessSchema).schema (some 2) FIRST_DATA_PAGE
            (idRecords.map (fun r => r.data.getD [])) 0).map (fun r => (RC.RC_OK, r)) ++
          [(RC.RC_RM_NO_MORE_TUPLES, last)]) :=
  filtered_scan idGreater 0 (openedWorld witnessSchema) (openedTable witnessSchema)
    (managerOf (openedTable witnessSchema)) 1 (frameOne (openedTable witnessSchema)) 0 314
    idRecords (some 2) ⟨⟨-1, -1⟩, none⟩ openedTable_onFirstPage openedTable_pageHolds
    (by decide)
    (by
      intro r hr
      simp only [idRecords, List.mem_cons, List.mem_singleton, List.not_mem_nil, or_false] at hr
      rcases hr with rfl | rfl | rfl | rfl | rfl <;> exact ⟨_, rfl, by decide⟩)
    (fun c0 _ r => idGreater_ok r _ c0 (by decide))

set_option maxRecDepth 100000 in
/-- C25, amended, at the first `next` of a scan of the table with the ids 1 to 5, with
the evaluator `idPlus`. -/
theorem non_bool_result_is_a_match_witness :
    ∃ w1 scan1,
      next idPlus 1 idTableWorld (startScan idTable (some 2)).2 ⟨⟨-1, -1⟩, none⟩ =
        some (RC.RC_OK, w1, scan1,
          ⟨⟨1, 0⟩, some (readBytes (pinnedBuffer idTableWorld idTable 1)
            (getRecordDataPointer 0 (managerOf idTable).recordSize)
            (managerOf idTable).recordSize.toNat)⟩) ∧
      scan1.mgmtData = some ⟨1, 0 + 1, some 2, 0⟩ :=
  (non_bool_result_is_a_match idPlus 0 idTableWorld (startScan idTable (some 2)).2
    ⟨1, 0, some 2, 0⟩ (managerOf idTable) ⟨⟨-1, -1⟩, none⟩ 2
    (pinnedBuffer idTableWorld idTable 1) rfl
    (managerOf_open _ (by decide)) rfl (by decide) (by decide) rfl (by decide) (by decide)
    (by decide) (fun v hv => idPlus_not_bool _ _ _ v hv)).2

set_option maxRecDepth 100000 in
/-- C28, amended, at a CLOCK pool of three frames that holds the unpinned pages 1, 2
and 3: a pin of page 4. -/
theorem eviction_finds_victim_witness :
    (pinPage (poolRun demoWorld blankPool "f" 3 ReplacementStrategy.RS_CLOCK (fun _ => zeroPage)
        (pinUnpin [1, 2, 3])).w
      (poolRun demoWorld blankPool "f" 3 ReplacementStrategy.RS_CLOCK (fun _ => zeroPage)
        (pinUnpin [1, 2, 3])).bm ⟨0, 0⟩ 4).rc = RC.RC_OK ↔
    ∃ f ∈ (dataOf (poolRun demoWorld blankPool "f" 3 ReplacementStrategy.RS_CLOCK
        (fun _ => zeroPage) (pinUnpin [1, 2, 3])).bm).frames, f.fixCount = 0 :=
  (eviction_finds_victim demoWorld blankPool "f" 3 ReplacementStrategy.RS_CLOCK
    (fun _ => zeroPage) (pinUnpin [1, 2, 3]) ⟨0, 0⟩ 4
    (dataOf (poolRun demoWorld blankPool "f" 3 ReplacementStrategy.RS_CLOCK (fun _ => zeroPage)
      (pinUnpin [1, 2, 3])).bm)
    (by decide) (mgmtData_eq_dataOf _ (by decide)) (by decide) (by decide)).2.1 rfl

/-- C30 at the record (1, "AAAA", 100.0) of `witnessSchema`: `setAttr` of the INT
attribute 0 leaves `getAttr` of the STRING attribute 1 as it was. -/
theorem setAttr_touches_only_its_attribute_witness :
    getAttr (setAttr recordA witnessSchema 0 blankValue).2 witnessSchema 1 none blankValue =
      getAttr recordA witnessSchema 1 none blankValue :=
  (setAttr_touches_only_its_attribute recordA witnessSchema 0 1 blankValue none blankValue
    [1, 0, 0, 0, 65, 65, 65, 65, 0, 0, 200, 66] witnessSchema_wf rfl (by decide) (by decide)
    (by decide) (by decide) (by decide) (by decide) (by decide)).2.2.2

end Assign3
